import Mathlib

/-!
# ioTools: reader, writer and piper

A shallow embedding of the three Go programs `reader`, `writer` and `piper`
(`src/*/main.go`) and theorems about their argument handling, their transfer
loops and their summaries.

Conventions of the embedding.

* A Go `string` is the list of its characters (`Str`); the programs only test
  and strip ASCII suffixes and parse ASCII digits, which reads the same on
  characters as on the bytes of the UTF-8 text.
* Go `int`, `int64` and `time.Duration` values are mathematical integers that
  are wrapped to the signed 64-bit range after every arithmetic operation
  (`wrapInt64`); `int` is the 64-bit one of the usual platforms.
* What a program does to the outside is recorded, in order, as a list of
  `Event`s; what the outside answers (the clock, the results of `Read`,
  `Write`, `os.Create`, `os.OpenFile`) is given by a `World`, whose answers
  may depend on the events so far.
* `os.Exit(rc)`, a run-time panic and a signal end a run (`Exit`); the exit
  code of a run is the argument `rc` of `os.Exit`.
* `make` panics for a size that is negative or above `maxAlloc`; for any other
  size the `World` says whether the run time gets the memory.
* The loops are written as the program text reads, every call returning to its
  caller. The Go run time ends the process with SIGPIPE inside a `Write` to
  standard output that fails with `EPIPE`; `main` of writer and of piper ends
  the run there (`Run.withSignals`).
* `fmt.Fprintf` on the log is taken to print its text; the programs do not look
  at its result.
* A transfer loop takes a bound on the number of iterations it may run; a run
  that needs more is reported as not finished.
-/

namespace IoTools

/-- A Go string, as the list of its characters. -/
abbrev Str := List Char

/-- Two's-complement wrap-around of a mathematical integer to the signed
64-bit range, the result of Go's `int`, `int64` and `time.Duration`
arithmetic. -/
def wrapInt64 (x : Int) : Int := (x + 2 ^ 63) % 2 ^ 64 - 2 ^ 63

/-! ## The parts of the Go library the programs call -/

namespace strings

/-- Go `strings.HasSuffix`: `len(s) >= len(suffix) && s[len(s)-len(suffix):] == suffix`. -/
def HasSuffix (s suffix : Str) : Bool :=
  decide (s.length ≥ suffix.length) && (s.drop (s.length - suffix.length) == suffix)

/-- Go `strings.TrimSuffix`: `s` without the trailing `suffix` when it has it,
`s` itself otherwise. -/
def TrimSuffix (s suffix : Str) : Str :=
  if HasSuffix s suffix then s.take (s.length - suffix.length) else s

end strings

namespace strconv

/-- The two sentinel errors of Go `strconv`: `ErrSyntax` and `ErrRange`. -/
inductive ErrKind where
  | invalidSyntax
  | outOfRange
  deriving DecidableEq, Repr

/-- Go `strconv.NumError`. -/
structure NumError where
  Func : Str
  Num : Str
  Err : ErrKind
  deriving DecidableEq, Repr

/-- Text of the sentinel errors. -/
def ErrKind.Error : ErrKind → Str
  | .invalidSyntax => "invalid syntax".toList
  | .outOfRange => "value out of range".toList

/-- Go `(*NumError).Error`; `Quote` is `strconv.Quote`. -/
def NumError.Error (Quote : Str → Str) (e : NumError) : Str :=
  "strconv.".toList ++ e.Func ++ ": parsing ".toList ++ Quote e.Num ++ ": ".toList ++ e.Err.Error

/-- Value of one character as a digit in `ParseUint`: `0`-`9`, then letters of
either case from 10 on; `none` for any other character. -/
def digitVal (c : Char) : Option Nat :=
  if '0' ≤ c ∧ c ≤ '9' then some (c.toNat - '0'.toNat)
  else if 'a' ≤ c ∧ c ≤ 'z' then some (c.toNat - 'a'.toNat + 10)
  else if 'A' ≤ c ∧ c ≤ 'Z' then some (c.toNat - 'A'.toNat + 10)
  else none

/-- The digit loop of Go `strconv.ParseUint` with accumulator `n` (a `uint64`):
the value returned and the error kind, if any. -/
def parseUintLoop (base maxVal cutoff : Nat) : Nat → Str → Nat × Option ErrKind
  | n, [] => (n, none)
  | n, c :: cs =>
    match digitVal c with
    | none => (0, some .invalidSyntax)
    | some d =>
      if d ≥ base then (0, some .invalidSyntax)
      else if n ≥ cutoff then (maxVal, some .outOfRange)
      else
        let n10 := (n * base) % 2 ^ 64
        let n1 := (n10 + d) % 2 ^ 64
        if n1 < n10 ∨ n1 > maxVal then (maxVal, some .outOfRange)
        else parseUintLoop base maxVal cutoff n1 cs

/-- Go `strconv.ParseUint(s, base, bitSize)` for an explicit base `2 ≤ base ≤ 36`
(the programs only pass 10; the prefix and underscore handling of base 0 is not
embedded) and `0 ≤ bitSize ≤ 64`. -/
def ParseUint (s : Str) (base bitSize : Nat) : Nat × Option NumError :=
  if s = [] then (0, some ⟨"ParseUint".toList, s, .invalidSyntax⟩)
  else
    let bitSize := if bitSize = 0 then 64 else bitSize
    let cutoff := (2 ^ 64 - 1) / base + 1
    let maxVal := 2 ^ bitSize - 1
    match parseUintLoop base maxVal cutoff 0 s with
    | (n, none) => (n, none)
    | (n, some k) => (n, some ⟨"ParseUint".toList, s, k⟩)

/-- Go `strconv.ParseInt(s, base, bitSize)`: the value and the error. -/
def ParseInt (s : Str) (base bitSize : Nat) : Int × Option NumError :=
  if s = [] then (0, some ⟨"ParseInt".toList, s, .invalidSyntax⟩)
  else
    let s0 := s
    let neg := s.head? = some '-'
    let s := if s.head? = some '+' ∨ s.head? = some '-' then s.tail else s
    let (un, err) := ParseUint s base bitSize
    match err with
    | some ⟨_, _, .invalidSyntax⟩ => (0, some ⟨"ParseInt".toList, s0, .invalidSyntax⟩)
    | _ =>
      let bitSize := if bitSize = 0 then 64 else bitSize
      let cutoff := 2 ^ (bitSize - 1)
      if ¬ neg ∧ un ≥ cutoff then ((cutoff : Int) - 1, some ⟨"ParseInt".toList, s0, .outOfRange⟩)
      else if neg ∧ un > cutoff then (-(cutoff : Int), some ⟨"ParseInt".toList, s0, .outOfRange⟩)
      else (if neg then -(un : Int) else (un : Int), none)

/-- Go `strconv.Atoi(s)` on a 64-bit platform: `ParseInt(s, 10, 0)` with the
error attributed to `Atoi` (the fast path for short inputs computes the same
value and the same error). -/
def Atoi (s : Str) : Int × Option NumError :=
  match ParseInt s 10 0 with
  | (i, none) => (i, none)
  | (i, some e) => (i, some { e with Func := "Atoi".toList })

end strconv

namespace time

/-- Go `time.Millisecond`, in nanoseconds. -/
def Millisecond : Int := 1000000
/-- Go `time.Second`, in nanoseconds. -/
def Second : Int := 1000 * Millisecond
/-- Go `time.Minute`, in nanoseconds. -/
def Minute : Int := 60 * Second
/-- Go `time.Hour`, in nanoseconds. -/
def Hour : Int := 60 * Minute

end time

/-- Decimal text of an integer, as the verb `%d` of Go `fmt` prints it. -/
def formatInt (x : Int) : Str :=
  if x < 0 then '-' :: (Nat.repr x.natAbs).toList else (Nat.repr x.toNat).toList

/-! ## Events, the outside world, and the end of a run -/

/-- Where the programs print: `io.Discard`, `os.Stdout`/`os.Stdin`, or a named file. -/
inductive Stream where
  | Discard
  | Std
  | File (name : Str)
  deriving DecidableEq, Repr

/-- An error returned by `Read`: the sentinel `io.EOF` or any other error. -/
inductive ReadErr where
  | EOF
  | other (text : Str)
  deriving DecidableEq, Repr

/-- An error returned by `Write`: `syscall.EPIPE` (the other end of the pipe is
closed) or any other error. -/
inductive WriteErr where
  | EPIPE
  | other (text : Str)
  deriving DecidableEq, Repr

/-- What a program does to the outside. -/
inductive Event where
  /-- `fmt.Fprintf(out, ...)` printing `text`. -/
  | Fprintf (out : Stream) (text : Str)
  /-- `time.Sleep(d)`. -/
  | Sleep (d : Int)
  /-- `os.Create(name)` with its error, if any. -/
  | Create (name : Str) (err : Option Str)
  /-- `os.OpenFile(name, ...)` or `os.Open(name)` with its error, if any. -/
  | OpenFile (name : Str) (err : Option Str)
  /-- `input.Read(buf)` with `len(buf) = len`: the bytes delivered and the error. -/
  | Read (input : Stream) (len : Nat) (data : List Nat) (err : Option ReadErr)
  /-- `output.Write(p)`: the count and the error returned. -/
  | Write (output : Stream) (p : List Nat) (n : Int) (err : Option WriteErr)
  deriving DecidableEq, Repr

/-- The answers of the outside world; each may depend on the events so far.
`Read` delivers `data`, and the count it returns is `data.length`. `Alloc`
says whether the run time gets the memory for a buffer of the given size. -/
structure World where
  /-- Go `strconv.Quote`. -/
  Quote : Str → Str
  /-- Go `time.Duration.String`. -/
  DurationString : Int → Str
  /-- Error of `os.Create(name)`, `none` when the file was created. -/
  Create : List Event → Str → Option Str
  /-- Error of `os.OpenFile(name, ...)` / `os.Open(name)`, `none` when it opened. -/
  OpenFile : List Event → Str → Option Str
  /-- Value of `time.Since(start)`. -/
  Since : List Event → Int
  /-- Answer of `input.Read(buf)` for a buffer of the given length. -/
  Read : List Event → Nat → List Nat × Option ReadErr
  /-- Answer of `output.Write(p)`. -/
  Write : List Event → List Nat → Int × Option WriteErr
  /-- Whether the memory for `make([]byte, size)` is there, for a size from 0
  to `maxAlloc`. -/
  Alloc : List Event → Int → Bool

/-- How a run ends: `os.Exit(rc)`; a Go run-time panic or fatal error (the
process then prints it to standard error and exits with status 2); or a signal
that ends the process, which then has no exit code of its own. -/
inductive Exit where
  | Code (rc : Int)
  | Panic (msg : Str)
  | Signal (name : Str)
  deriving DecidableEq, Repr

/-- A finished run: what it did and how it ended. -/
structure Run where
  trace : List Event
  exit : Exit
  deriving DecidableEq, Repr

/-- Result of a piece of `main`: control goes on with the variables `v`, or the
process has ended. -/
inductive Res (σ : Type) where
  | ok (v : σ)
  | done (r : Run)

/-- The panic of an index expression `os.Args[arg]` with `arg` out of range. -/
def indexOutOfRange : Str := "runtime error: index out of range".toList

/-- The panic of `make([]byte, size)` with a size that is negative or above
`maxAlloc`. -/
def makesliceLen : Str := "runtime error: makeslice: len out of range".toList

/-- The largest size `make` accepts for a slice of bytes: `maxAlloc` of the Go
run time, 2^48 on the 64-bit platforms with 48 address bits. -/
def maxAlloc : Int := 2 ^ 48

/-- The fatal error of the run time when it does not get the memory of an
allocation. -/
def outOfMemory : Str := "fatal error: runtime: out of memory".toList

/-- The name of the signal of a write to a broken pipe. -/
def SIGPIPE : Str := "SIGPIPE".toList

/-- The Go run time ends the process with SIGPIPE at this event: a `Write` to
standard output (file descriptor 1) that fails with `EPIPE`. On any other
file the error is returned to the caller. -/
def Event.raisesSIGPIPE : Event → Bool
  | .Write .Std _ _ (some .EPIPE) => true
  | _ => false

/-- The events up to and including the first one that raises SIGPIPE, when
there is one. -/
def upToSIGPIPE : List Event → Option (List Event)
  | [] => none
  | e :: es => if e.raisesSIGPIPE then some [e] else (upToSIGPIPE es).map (e :: ·)

/-- The run of the process, from the run the program text describes (in which
every call returns): when a `Write` to standard output fails with `EPIPE`, the
process ends there by SIGPIPE, and what the text does after that call does not
happen. -/
def Run.withSignals (r : Run) : Run :=
  match upToSIGPIPE r.trace with
  | some tr => ⟨tr, .Signal SIGPIPE⟩
  | none => r

/-- The slice made by `make([]byte, size)` for `0 ≤ size`: `size` zero bytes. -/
def makeBytes (size : Int) : List Nat := List.replicate size.toNat 0

/-- The buffer after a `Read` delivered `data` into it: the data overwrite its
front, its length stays. -/
def fill (buf data : List Nat) : List Nat :=
  (data ++ buf.drop data.length).take buf.length

/-! ## writer (`src/writer/main.go`) -/

namespace writer

/-- The exit code of an argument error. -/
def syntaxError : Int := 3
/-- The exit code of a runtime error. -/
def runtimeError : Int := 1

/-- The text `usage` prints. -/
def usageText : Str :=
  ("Writes to a file or stdout in a pattern depending on several parameters.\n" ++
    "By default, writes one 256k block to stdout\n" ++
    "Each block is prefixed with the iteration number (starting at 0) and is filled with zeros\n" ++
    " -f \tFile: file path to write to.\n" ++
    " -s \tSize: How many bytes to write each iteration. Suffix with k or m for kilobytes or megabytes.\n" ++
    " -c \tCount: How many writes to try before quitting.\n" ++
    " -d \tDelay: How many seconds to delay between writes. Suffix with ms, m, or h.\n" ++
    " -od\tOpen Delay: How many seconds to delay before opening the file. Suffix with ms, m, or h. Ignored\n" ++
    "    \twithout -f.\n" ++
    " -t \tTimeout: How many seconds (not counting Start Delay) to run before closing the file, unless Count is\n" ++
    "\t \treached first. Suffix with ms, m, or h.\n" ++
    " -sd\tStart Delay: How many seconds to delay before the first write. Suffix with ms, m, or h.\n" ++
    " -l \tLog File: Filename to log to.\n" ++
    " -rc\tReturn Code: Return code on successful exit. Will be overridden by any errors. Default is 0." ++
    " -h \tHelp: Prints this text\n" ++
    "Returns 0 on success, 1 if a runtime error is encountered, 3 if bad arguments are passed.\n").toList

/-- `usage(out)`: print the usage text and `os.Exit(0)`; `tr` is what the run
did before. -/
def usage (tr : List Event) (out : Stream) : Run :=
  ⟨tr ++ [.Fprintf out usageText], .Code 0⟩

/-- `handleError(err, out, rc)`: print the error (with the usage hint when `rc`
is `syntaxError`) and `os.Exit(rc)`; `err` is the text of the error and `tr` is
what the run did before. -/
def handleError (tr : List Event) (err : Str) (out : Stream) (rc : Int) : Run :=
  if rc = syntaxError then
    ⟨tr ++ [.Fprintf out (err ++ "\nDo 'writer -h' for usage\n".toList)], .Code rc⟩
  else
    ⟨tr ++ [.Fprintf out (err ++ "\n".toList)], .Code rc⟩

/-- The variables of `main` that the argument loop sets, with their initial
values, and the events so far. -/
structure Vars where
  fileName : Str := []
  size : Int := 256 * 1024
  count : Int := 1
  delay : Int := 0
  openDelay : Int := 0
  startDelay : Int := 0
  timeout : Int := 0
  log : Stream := .Discard
  rc : Int := 0
  skip : Bool := true
  trace : List Event := []

/-- The body of `case "-f"`; `next` is `os.Args[arg+1]`, absent when
`arg+1` is out of range. -/
def flag_f (v : Vars) (next : Option Str) : Res Vars :=
  match next with
  | none => .done ⟨v.trace, .Panic indexOutOfRange⟩
  | some x => .ok { v with skip := true, fileName := x }

/-- The body of `case "-l"`; `next` is `os.Args[arg+1]`, absent when
`arg+1` is out of range. -/
def flag_l (w : World) (v : Vars) (next : Option Str) : Res Vars :=
  match next with
  | none => .done ⟨v.trace, .Panic indexOutOfRange⟩
  | some x =>
    match w.Create v.trace x with
    | some err =>
      .done (handleError (v.trace ++ [.Create x (some err)])
        ("could not open log file: ".toList ++ err) v.log syntaxError)
    | none => .ok { v with skip := true, log := .File x, trace := v.trace ++ [.Create x none] }

/-- The body of `case "-s"`; `next` is `os.Args[arg+1]`, absent when
`arg+1` is out of range. -/
def flag_s (w : World) (v : Vars) (next : Option Str) : Res Vars :=
  match next with
  | none => .done ⟨v.trace, .Panic indexOutOfRange⟩
  | some x =>
    let (mult, s) : Int × Str :=
      if strings.HasSuffix x "k".toList then (1024, strings.TrimSuffix x "k".toList)
      else if strings.HasSuffix x "m".toList then (1024 * 1024, strings.TrimSuffix x "m".toList)
      else (1, x)
    match strconv.ParseInt s 10 32 with
    | (_, some err) =>
      .done (handleError v.trace
        ("invalid argument for size '".toList ++ s ++ "': ".toList ++ err.Error w.Quote)
        v.log syntaxError)
    | (sz, none) => .ok { v with skip := true, size := wrapInt64 (sz * mult) }

/-- The body of `case "-c"`; `next` is `os.Args[arg+1]`, absent when
`arg+1` is out of range. -/
def flag_c (w : World) (v : Vars) (next : Option Str) : Res Vars :=
  match next with
  | none => .done ⟨v.trace, .Panic indexOutOfRange⟩
  | some x =>
    match strconv.ParseInt x 10 32 with
    | (_, some err) =>
      .done (handleError v.trace
        ("invalid argument for size '".toList ++ x ++ "': ".toList ++ err.Error w.Quote)
        v.log syntaxError)
    | (c, none) => .ok { v with skip := true, count := c }

/-- The body of `case "-d"`; `next` is `os.Args[arg+1]`, absent when
`arg+1` is out of range. -/
def flag_d (w : World) (v : Vars) (next : Option Str) : Res Vars :=
  match next with
  | none => .done ⟨v.trace, .Panic indexOutOfRange⟩
  | some x =>
    let (mult, s) : Int × Str :=
      if strings.HasSuffix x "ms".toList then (time.Millisecond, strings.TrimSuffix x "ms".toList)
      else if strings.HasSuffix x "m".toList then (time.Minute, strings.TrimSuffix x "m".toList)
      else if strings.HasSuffix x "h".toList then (time.Hour, strings.TrimSuffix x "h".toList)
      else (time.Second, x)
    match strconv.ParseInt s 10 32 with
    | (_, some err) =>
      .done (handleError v.trace
        ("invalid argument for delay '".toList ++ s ++ "': ".toList ++ err.Error w.Quote)
        v.log syntaxError)
    | (t, none) => .ok { v with skip := true, delay := wrapInt64 (t * mult) }

/-- The body of `case "-od"`; `next` is `os.Args[arg+1]`, absent when
`arg+1` is out of range. -/
def flag_od (w : World) (v : Vars) (next : Option Str) : Res Vars :=
  match next with
  | none => .done ⟨v.trace, .Panic indexOutOfRange⟩
  | some x =>
    let (mult, s) : Int × Str :=
      if strings.HasSuffix x "ms".toList then (time.Millisecond, strings.TrimSuffix x "ms".toList)
      else if strings.HasSuffix x "m".toList then (time.Minute, strings.TrimSuffix x "m".toList)
      else if strings.HasSuffix x "h".toList then (time.Hour, strings.TrimSuffix x "h".toList)
      else (time.Second, x)
    match strconv.ParseInt s 10 32 with
    | (_, some err) =>
      .done (handleError v.trace
        ("invalid argument for open delay '".toList ++ s ++ "': ".toList ++ err.Error w.Quote)
        v.log syntaxError)
    | (t, none) => .ok { v with skip := true, openDelay := wrapInt64 (t * mult) }

/-- The body of `case "-t"`; `next` is `os.Args[arg+1]`, absent when
`arg+1` is out of range. -/
def flag_t (w : World) (v : Vars) (next : Option Str) : Res Vars :=
  match next with
  | none => .done ⟨v.trace, .Panic indexOutOfRange⟩
  | some x =>
    let (mult, s) : Int × Str :=
      if strings.HasSuffix x "ms".toList then (time.Millisecond, strings.TrimSuffix x "ms".toList)
      else if strings.HasSuffix x "m".toList then (time.Minute, strings.TrimSuffix x "m".toList)
      else if strings.HasSuffix x "h".toList then (time.Hour, strings.TrimSuffix x "h".toList)
      else (time.Second, x)
    match strconv.ParseInt s 10 32 with
    | (_, some err) =>
      .done (handleError v.trace
        ("invalid argument for timeout '".toList ++ s ++ "': ".toList ++ err.Error w.Quote)
        v.log syntaxError)
    | (t, none) => .ok { v with skip := true, timeout := wrapInt64 (t * mult) }

/-- The body of `case "-sd"`; `next` is `os.Args[arg+1]`, absent when
`arg+1` is out of range. -/
def flag_sd (w : World) (v : Vars) (next : Option Str) : Res Vars :=
  match next with
  | none => .done ⟨v.trace, .Panic indexOutOfRange⟩
  | some x =>
    let (mult, s) : Int × Str :=
      if strings.HasSuffix x "ms".toList then (time.Millisecond, strings.TrimSuffix x "ms".toList)
      else if strings.HasSuffix x "m".toList then (time.Minute, strings.TrimSuffix x "m".toList)
      else if strings.HasSuffix x "h".toList then (time.Hour, strings.TrimSuffix x "h".toList)
      else (time.Second, x)
    match strconv.ParseInt s 10 32 with
    | (_, some err) =>
      .done (handleError v.trace
        ("invalid argument for start delay '".toList ++ s ++ "': ".toList ++ err.Error w.Quote)
        v.log syntaxError)
    | (t, none) => .ok { v with skip := true, startDelay := wrapInt64 (t * mult) }

/-- The body of `case "-rc"`; `next` is `os.Args[arg+1]`, absent when
`arg+1` is out of range. -/
def flag_rc (w : World) (v : Vars) (next : Option Str) : Res Vars :=
  match next with
  | none => .done ⟨v.trace, .Panic indexOutOfRange⟩
  | some x =>
    match strconv.Atoi x with
    | (_, some err) =>
      .done (handleError v.trace
        ("Invalid return code '".toList ++ x ++ "': ".toList ++ err.Error w.Quote)
        v.log syntaxError)
    | (returnCode, none) => .ok { v with skip := true, rc := returnCode }

/-- The `switch os.Args[arg]` of the argument loop, for `os.Args[arg] = a`;
`next` is `os.Args[arg+1]`, absent when `arg+1` is out of range. -/
def argCase (w : World) (v : Vars) (a : Str) (next : Option Str) : Res Vars :=
  if a = "-f".toList then flag_f v next
  else if a = "-l".toList then flag_l w v next
  else if a = "-s".toList then flag_s w v next
  else if a = "-c".toList then flag_c w v next
  else if a = "-d".toList then flag_d w v next
  else if a = "-od".toList then flag_od w v next
  else if a = "-t".toList then flag_t w v next
  else if a = "-sd".toList then flag_sd w v next
  else if a = "-rc".toList then flag_rc w v next
  else if a = "-h".toList then
    .done (usage v.trace v.log)
  else
    .done (handleError v.trace ("Invalid argument '".toList ++ a ++ "'\n".toList) v.log syntaxError)

/-- The loop `for arg := range os.Args` over the arguments still to visit: an
argument is passed over when `skip` is set, and goes through the `switch`
otherwise. -/
def argLoop (w : World) : Vars → List Str → Res Vars
  | v, [] => .ok v
  | v, a :: rest =>
    if v.skip then argLoop w { v with skip := false } rest
    else
      match argCase w v a rest.head? with
      | .ok v1 => argLoop w v1 rest
      | .done r => .done r

/-- The variables of the write loop. -/
structure LoopVars where
  itr : Int
  bytes : Int
  rc : Int
  runtime : Int
  trace : List Event

/-- The write loop `for itr := 0; itr != count; itr += 1`, run for at most
`fuel` evaluations of its condition: the variables reached, and whether the
loop has ended. This is the course of the program text, in which `Write`
returns its error; `main` ends the run at a `Write` to standard output that
fails with `EPIPE` (`Run.withSignals`). -/
def loop (w : World) (v : Vars) (output : Stream) (buf : List Nat) :
    Nat → LoopVars → LoopVars × Bool
  | 0, s => (s, false)
  | fuel + 1, s =>
    if s.itr = v.count then (s, true)
    else
      let runtime := w.Since s.trace
      if runtime ≥ v.timeout ∧ v.timeout ≠ 0 then ({ s with runtime := runtime }, true)
      else
        let (b, err) := w.Write s.trace buf
        let bytes := wrapInt64 (s.bytes + b)
        let tr := s.trace ++ [.Write output buf b err]
        match err with
        | some _ =>
          ({ itr := s.itr, bytes := bytes, rc := runtimeError, runtime := runtime,
             trace := tr ++ [.Fprintf v.log
               "Error encountered while writing: %!v(MISSING)\n".toList] }, true)
        | none =>
          loop w v output buf fuel
            { itr := wrapInt64 (s.itr + 1), bytes := bytes, rc := s.rc, runtime := runtime,
              trace := tr ++ [.Sleep v.delay] }

/-- The text `bytesWritten` of the summary for a byte total. -/
def bytesWritten (bytes : Int) : Str :=
  if bytes > 1024 * 1024 * 10 then
    formatInt (Int.tdiv (Int.tdiv bytes 1024) 1024) ++ " megabytes".toList
  else if bytes > 1024 * 10 then
    formatInt (Int.tdiv bytes 1024) ++ " kilobytes".toList
  else
    formatInt bytes ++ " bytes".toList

/-- The last part of `main`: the summary line and `os.Exit(rc)`. -/
def finish (w : World) (v : Vars) (s : LoopVars) : Run :=
  ⟨s.trace ++ [.Fprintf v.log ("Wrote ".toList ++ bytesWritten s.bytes ++ " in ".toList ++
      w.DurationString s.runtime ++ "\n".toList)], .Code s.rc⟩

/-- The part of `main` from the start delay on, writing to `output`. -/
def run (w : World) (fuel : Nat) (v : Vars) (output : Stream) (tr : List Event) : Option Run :=
  match loop w v output (makeBytes v.size) fuel
      { itr := 0, bytes := 0, rc := v.rc, runtime := 0, trace := tr ++ [.Sleep v.startDelay] } with
  | (s, true) => some (finish w v s)
  | (_, false) => none

/-- The part of `main` after the argument loop, from the allocation of the
buffer on; `none` when the write loop has not ended within `fuel` evaluations
of its condition. -/
def transfer (w : World) (fuel : Nat) (v : Vars) : Option Run :=
  if v.size < 0 ∨ v.size > maxAlloc then some ⟨v.trace, .Panic makesliceLen⟩
  else if w.Alloc v.trace v.size = false then some ⟨v.trace, .Panic outOfMemory⟩
  else if v.fileName = [] then run w fuel v .Std v.trace
  else
    match w.OpenFile (v.trace ++ [.Sleep v.openDelay]) v.fileName with
    | some err =>
      some (handleError (v.trace ++ [.Sleep v.openDelay, .OpenFile v.fileName (some err)])
        err v.log runtimeError)
    | none =>
      run w fuel v (.File v.fileName) (v.trace ++ [.Sleep v.openDelay, .OpenFile v.fileName none])

/-- The program: `args` is `os.Args`, program name included. The process ends
by SIGPIPE at a `Write` to standard output that fails with `EPIPE`. -/
def main (w : World) (fuel : Nat) (args : List Str) : Option Run :=
  match argLoop w {} args with
  | .done r => some r
  | .ok v => (transfer w fuel v).map Run.withSignals

end writer

/-! ## reader (`src/reader/main.go`) -/

namespace reader

/-- The exit code of an argument error. -/
def syntaxError : Int := 3
/-- The exit code of a runtime error. -/
def runtimeError : Int := 1

/-- The text `usage` prints. -/
def usageText : Str :=
  ("Reads from a file or stdin in a pattern depending on several parameters.\n" ++
    "By default, reads from stdin in 256k blocks until EOF\n" ++
    " -f \tFile: file path to read from.\n" ++
    " -s \tSize: How many bytes to request on each read. Suffix with k or m for kilobytes or megabytes.\n" ++
    " -c \tCount: How many reads to try before quitting, unless EOF is reached first.\n" ++
    " -d \tDelay: How many seconds to delay between reads. Suffix with ms, m, or h.\n" ++
    " -od\tOpen Delay: How many seconds to delay before opening the file. Suffix with ms, m, or h. Ignored \n" ++
    "    \twithout -f.\n" ++
    " -ed\tExit Delay: How many seconds to delay before exiting. Suffix with ms, m, or h.\n" ++
    " -t \tTimeout: How many seconds (not counting Start Delay) to run before quitting, unless Count is reached\n" ++
    "\t \tfirst. Suffix with ms, m, or h.\n" ++
    " -sd\tStart Delay: How many seconds to delay before the first read. Suffix with ms, m, or h.\n" ++
    " -l \tLog File: Log output to file instead of printing to stdout.\n" ++
    " -rc\tReturn Code: Return code on successful exit. Will be overridden by any errors. Default is 0." ++
    " -h \tHelp: Prints this text\n" ++
    "Returns 0 on success, 1 if a runtime error is encountered, 3 if bad arguments are passed.\n").toList

/-- `usage(out)`: print the usage text and `os.Exit(0)`; `tr` is what the run
did before. -/
def usage (tr : List Event) (out : Stream) : Run :=
  ⟨tr ++ [.Fprintf out usageText], .Code 0⟩

/-- `handleError(err, out, rc)`: print the error (with the usage hint when `rc`
is `syntaxError`) and `os.Exit(rc)`; `err` is the text of the error and `tr` is
what the run did before. -/
def handleError (tr : List Event) (err : Str) (out : Stream) (rc : Int) : Run :=
  if rc = syntaxError then
    ⟨tr ++ [.Fprintf out (err ++ "\nDo 'reader -h' for usage\n".toList)], .Code rc⟩
  else
    ⟨tr ++ [.Fprintf out (err ++ "\n".toList)], .Code rc⟩

/-- The variables of `main` that the argument loop sets, with their initial
values, and the events so far. -/
structure Vars where
  fileName : Str := []
  size : Int := 256 * 1024
  count : Int := -1
  delay : Int := 0
  openDelay : Int := 0
  exitDelay : Int := 0
  startDelay : Int := 0
  timeout : Int := 0
  log : Stream := .Std
  rc : Int := 0
  skip : Bool := true
  trace : List Event := []

/-- The body of `case "-f"`; `next` is `os.Args[arg+1]`, absent when
`arg+1` is out of range. -/
def flag_f (v : Vars) (next : Option Str) : Res Vars :=
  match next with
  | none => .done ⟨v.trace, .Panic indexOutOfRange⟩
  | some x => .ok { v with skip := true, fileName := x }

/-- The body of `case "-l"`; `next` is `os.Args[arg+1]`, absent when
`arg+1` is out of range. -/
def flag_l (w : World) (v : Vars) (next : Option Str) : Res Vars :=
  match next with
  | none => .done ⟨v.trace, .Panic indexOutOfRange⟩
  | some x =>
    match w.Create v.trace x with
    | some err =>
      .done (handleError (v.trace ++ [.Create x (some err)])
        ("could not open log file: ".toList ++ err) v.log syntaxError)
    | none => .ok { v with skip := true, log := .File x, trace := v.trace ++ [.Create x none] }

/-- The body of `case "-s"`; `next` is `os.Args[arg+1]`, absent when
`arg+1` is out of range. -/
def flag_s (w : World) (v : Vars) (next : Option Str) : Res Vars :=
  match next with
  | none => .done ⟨v.trace, .Panic indexOutOfRange⟩
  | some x =>
    let (mult, s) : Int × Str :=
      if strings.HasSuffix x "k".toList then (1024, strings.TrimSuffix x "k".toList)
      else if strings.HasSuffix x "m".toList then (1024 * 1024, strings.TrimSuffix x "m".toList)
      else (1, x)
    match strconv.ParseInt s 10 32 with
    | (_, some err) =>
      .done (handleError v.trace
        ("invalid argument for size '".toList ++ s ++ "': ".toList ++ err.Error w.Quote)
        v.log syntaxError)
    | (sz, none) => .ok { v with skip := true, size := wrapInt64 (sz * mult) }

/-- The body of `case "-c"`; `next` is `os.Args[arg+1]`, absent when
`arg+1` is out of range. -/
def flag_c (w : World) (v : Vars) (next : Option Str) : Res Vars :=
  match next with
  | none => .done ⟨v.trace, .Panic indexOutOfRange⟩
  | some x =>
    match strconv.ParseInt x 10 32 with
    | (_, some err) =>
      .done (handleError v.trace
        ("invalid argument for count '".toList ++ x ++ "': ".toList ++ err.Error w.Quote)
        v.log syntaxError)
    | (c, none) => .ok { v with skip := true, count := c }

/-- The body of `case "-d"`; `next` is `os.Args[arg+1]`, absent when
`arg+1` is out of range. -/
def flag_d (w : World) (v : Vars) (next : Option Str) : Res Vars :=
  match next with
  | none => .done ⟨v.trace, .Panic indexOutOfRange⟩
  | some x =>
    let (mult, s) : Int × Str :=
      if strings.HasSuffix x "ms".toList then (time.Millisecond, strings.TrimSuffix x "ms".toList)
      else if strings.HasSuffix x "m".toList then (time.Minute, strings.TrimSuffix x "m".toList)
      else if strings.HasSuffix x "h".toList then (time.Hour, strings.TrimSuffix x "h".toList)
      else (time.Second, x)
    match strconv.ParseInt s 10 32 with
    | (_, some err) =>
      .done (handleError v.trace
        ("invalid argument for delay '".toList ++ s ++ "': ".toList ++ err.Error w.Quote)
        v.log syntaxError)
    | (t, none) => .ok { v with skip := true, delay := wrapInt64 (t * mult) }

/-- The body of `case "-od"`; `next` is `os.Args[arg+1]`, absent when
`arg+1` is out of range. -/
def flag_od (w : World) (v : Vars) (next : Option Str) : Res Vars :=
  match next with
  | none => .done ⟨v.trace, .Panic indexOutOfRange⟩
  | some x =>
    let (mult, s) : Int × Str :=
      if strings.HasSuffix x "ms".toList then (time.Millisecond, strings.TrimSuffix x "ms".toList)
      else if strings.HasSuffix x "m".toList then (time.Minute, strings.TrimSuffix x "m".toList)
      else if strings.HasSuffix x "h".toList then (time.Hour, strings.TrimSuffix x "h".toList)
      else (time.Second, x)
    match strconv.ParseInt s 10 32 with
    | (_, some err) =>
      .done (handleError v.trace
        ("invalid argument for open delay '".toList ++ s ++ "': ".toList ++ err.Error w.Quote)
        v.log syntaxError)
    | (t, none) => .ok { v with skip := true, openDelay := wrapInt64 (t * mult) }

/-- The body of `case "-ed"`; `next` is `os.Args[arg+1]`, absent when
`arg+1` is out of range. -/
def flag_ed (w : World) (v : Vars) (next : Option Str) : Res Vars :=
  match next with
  | none => .done ⟨v.trace, .Panic indexOutOfRange⟩
  | some x =>
    let (mult, s) : Int × Str :=
      if strings.HasSuffix x "ms".toList then (time.Millisecond, strings.TrimSuffix x "ms".toList)
      else if strings.HasSuffix x "m".toList then (time.Minute, strings.TrimSuffix x "m".toList)
      else if strings.HasSuffix x "h".toList then (time.Hour, strings.TrimSuffix x "h".toList)
      else (time.Second, x)
    match strconv.ParseInt s 10 32 with
    | (_, some err) =>
      .done (handleError v.trace
        ("invalid argument for open delay '".toList ++ s ++ "': ".toList ++ err.Error w.Quote)
        v.log syntaxError)
    | (t, none) => .ok { v with skip := true, exitDelay := wrapInt64 (t * mult) }

/-- The body of `case "-t"`; `next` is `os.Args[arg+1]`, absent when
`arg+1` is out of range. -/
def flag_t (w : World) (v : Vars) (next : Option Str) : Res Vars :=
  match next with
  | none => .done ⟨v.trace, .Panic indexOutOfRange⟩
  | some x =>
    let (mult, s) : Int × Str :=
      if strings.HasSuffix x "ms".toList then (time.Millisecond, strings.TrimSuffix x "ms".toList)
      else if strings.HasSuffix x "m".toList then (time.Minute, strings.TrimSuffix x "m".toList)
      else if strings.HasSuffix x "h".toList then (time.Hour, strings.TrimSuffix x "h".toList)
      else (time.Second, x)
    match strconv.ParseInt s 10 32 with
    | (_, some err) =>
      .done (handleError v.trace
        ("invalid argument for timeout '".toList ++ s ++ "': ".toList ++ err.Error w.Quote)
        v.log syntaxError)
    | (t, none) => .ok { v with skip := true, timeout := wrapInt64 (t * mult) }

/-- The body of `case "-sd"`; `next` is `os.Args[arg+1]`, absent when
`arg+1` is out of range. -/
def flag_sd (w : World) (v : Vars) (next : Option Str) : Res Vars :=
  match next with
  | none => .done ⟨v.trace, .Panic indexOutOfRange⟩
  | some x =>
    let (mult, s) : Int × Str :=
      if strings.HasSuffix x "ms".toList then (time.Millisecond, strings.TrimSuffix x "ms".toList)
      else if strings.HasSuffix x "m".toList then (time.Minute, strings.TrimSuffix x "m".toList)
      else if strings.HasSuffix x "h".toList then (time.Hour, strings.TrimSuffix x "h".toList)
      else (time.Second, x)
    match strconv.ParseInt s 10 32 with
    | (_, some err) =>
      .done (handleError v.trace
        ("invalid argument for start delay '".toList ++ s ++ "': ".toList ++ err.Error w.Quote)
        v.log syntaxError)
    | (t, none) => .ok { v with skip := true, startDelay := wrapInt64 (t * mult) }

/-- The body of `case "-rc"`; `next` is `os.Args[arg+1]`, absent when
`arg+1` is out of range. -/
def flag_rc (w : World) (v : Vars) (next : Option Str) : Res Vars :=
  match next with
  | none => .done ⟨v.trace, .Panic indexOutOfRange⟩
  | some x =>
    match strconv.Atoi x with
    | (_, some err) =>
      .done (handleError v.trace
        ("Invalid return code '".toList ++ x ++ "': ".toList ++ err.Error w.Quote)
        v.log syntaxError)
    | (returnCode, none) => .ok { v with skip := true, rc := returnCode }

/-- The `switch os.Args[arg]` of the argument loop, for `os.Args[arg] = a`;
`next` is `os.Args[arg+1]`, absent when `arg+1` is out of range. -/
def argCase (w : World) (v : Vars) (a : Str) (next : Option Str) : Res Vars :=
  if a = "-f".toList then flag_f v next
  else if a = "-l".toList then flag_l w v next
  else if a = "-s".toList then flag_s w v next
  else if a = "-c".toList then flag_c w v next
  else if a = "-d".toList then flag_d w v next
  else if a = "-od".toList then flag_od w v next
  else if a = "-ed".toList then flag_ed w v next
  else if a = "-t".toList then flag_t w v next
  else if a = "-sd".toList then flag_sd w v next
  else if a = "-rc".toList then flag_rc w v next
  else if a = "-h".toList then
    .done (usage v.trace v.log)
  else
    .done (handleError v.trace ("Invalid argument '".toList ++ a ++ "'\n".toList) v.log syntaxError)

/-- The loop `for arg := range os.Args` over the arguments still to visit: an
argument is passed over when `skip` is set, and goes through the `switch`
otherwise. -/
def argLoop (w : World) : Vars → List Str → Res Vars
  | v, [] => .ok v
  | v, a :: rest =>
    if v.skip then argLoop w { v with skip := false } rest
    else
      match argCase w v a rest.head? with
      | .ok v1 => argLoop w v1 rest
      | .done r => .done r

/-- The variables of the read loop; `err` is the variable `err` of `main`. -/
structure LoopVars where
  itr : Int
  bytes : Int
  err : Option ReadErr
  rc : Int
  runtime : Int
  buf : List Nat
  trace : List Event

/-- The read loop `for itr := 0; itr != count && err != io.EOF; itr += 1`, run
for at most `fuel` evaluations of its condition: the variables reached, and
whether the loop has ended. -/
def loop (w : World) (v : Vars) (input : Stream) : Nat → LoopVars → LoopVars × Bool
  | 0, s => (s, false)
  | fuel + 1, s =>
    if ¬ (s.itr ≠ v.count ∧ s.err ≠ some .EOF) then (s, true)
    else
      let runtime := w.Since s.trace
      if runtime ≥ v.timeout ∧ v.timeout ≠ 0 then ({ s with runtime := runtime }, true)
      else
        let (data, err) := w.Read s.trace s.buf.length
        let b : Int := data.length
        let bytes := wrapInt64 (s.bytes + b)
        let tr := s.trace ++ [.Read input s.buf.length data err]
        if err ≠ none ∧ err ≠ some .EOF then
          ({ itr := s.itr, bytes := bytes, err := err, rc := runtimeError, runtime := runtime,
             buf := fill s.buf data,
             trace := tr ++ [.Fprintf v.log
               "Error encountered while reading: %!v(MISSING)\n".toList] }, true)
        else
          loop w v input fuel
            { itr := wrapInt64 (s.itr + 1), bytes := bytes, err := err, rc := s.rc,
              runtime := runtime, buf := fill s.buf data, trace := tr ++ [.Sleep v.delay] }

/-- The text `bytesRead` of the summary for a byte total. -/
def bytesRead (bytes : Int) : Str :=
  if bytes > 1024 * 1024 * 10 then
    formatInt (Int.tdiv (Int.tdiv bytes 1024) 1024) ++ " megabytes".toList
  else if bytes > 1024 * 10 then
    formatInt (Int.tdiv bytes 1024) ++ " kilobytes".toList
  else
    formatInt bytes ++ " bytes".toList

/-- The last part of `main`: the summary line, the exit delay and `os.Exit(rc)`. -/
def finish (w : World) (v : Vars) (s : LoopVars) : Run :=
  ⟨s.trace ++ [.Fprintf v.log ("Read ".toList ++ bytesRead s.bytes ++ " in ".toList ++
      w.DurationString s.runtime ++ "\n".toList), .Sleep v.exitDelay], .Code s.rc⟩

/-- The part of `main` from the start delay on, reading from `input`. -/
def run (w : World) (fuel : Nat) (v : Vars) (input : Stream) (tr : List Event) : Option Run :=
  match loop w v input fuel
      { itr := 0, bytes := 0, err := none, rc := v.rc, runtime := 0, buf := makeBytes v.size,
        trace := tr ++ [.Sleep v.startDelay] } with
  | (s, true) => some (finish w v s)
  | (_, false) => none

/-- The part of `main` after the argument loop, from the allocation of the
buffer on; `none` when the read loop has not ended within `fuel` evaluations
of its condition. -/
def transfer (w : World) (fuel : Nat) (v : Vars) : Option Run :=
  if v.size < 0 ∨ v.size > maxAlloc then some ⟨v.trace, .Panic makesliceLen⟩
  else if w.Alloc v.trace v.size = false then some ⟨v.trace, .Panic outOfMemory⟩
  else if v.fileName = [] then run w fuel v .Std v.trace
  else
    match w.OpenFile (v.trace ++ [.Sleep v.openDelay]) v.fileName with
    | some err =>
      some (handleError (v.trace ++ [.Sleep v.openDelay, .OpenFile v.fileName (some err)])
        err v.log runtimeError)
    | none =>
      run w fuel v (.File v.fileName) (v.trace ++ [.Sleep v.openDelay, .OpenFile v.fileName none])

/-- The program: `args` is `os.Args`, program name included. (reader calls no
`Write`.) -/
def main (w : World) (fuel : Nat) (args : List Str) : Option Run :=
  match argLoop w {} args with
  | .done r => some r
  | .ok v => transfer w fuel v

end reader

/-! ## piper (`src/piper/main.go`) -/

namespace piper

/-- The exit code of an argument error. -/
def syntaxError : Int := 3
/-- The exit code of a runtime error. -/
def runtimeError : Int := 1

/-- The text `usage` prints. -/
def usageText : Str :=
  ("Reads data from a file or stdin and writes it to a file or stdout in a pattern depending on several parameters.\n" ++
    "By default, reads from stdin and writes to stdout in 256k blocks until EOF\n" ++
    " -i \tInput file: file path to read from.\n" ++
    " -o \tOutput file: file path to write to.\n" ++
    " -s \tSize: How many bytes to attempt to read and write each iteration. Suffix with k or m for kilobytes or\n" ++
    "    \tmegabytes.\n" ++
    " -c \tCount: How many iterations to try before quitting, unless EOF is reached first.\n" ++
    " -d \tDelay: How many seconds to delay between iterations. Suffix with ms, m, or h.\n" ++
    " -od\tOpen Delay: How many seconds to delay before opening the files. Suffix with ms, m, or h. Ignored without\n" ++
    "    \t-o or -i.\n" ++
    " -t \tTimeout: How many seconds (not counting Start Delay) to run before quitting, unless Count is reached\n" ++
    "\t \tfirst. Suffix with ms, m, or h.\n" ++
    " -sd\tStart Delay: How many seconds to delay before beginning to read and write. Suffix with ms, m, or h.\n" ++
    " -l \tLog File: Filename to log to.\n" ++
    " -h \tHelp: Prints this text\n" ++
    "Returns 0 on success, 1 if a runtime error is encountered, 3 if bad arguments are passed.\n").toList

/-- `usage(out)`: print the usage text and `os.Exit(0)`; `tr` is what the run
did before. -/
def usage (tr : List Event) (out : Stream) : Run :=
  ⟨tr ++ [.Fprintf out usageText], .Code 0⟩

/-- `handleError(err, out, rc)`: print the error (with the usage hint when `rc`
is `syntaxError`) and `os.Exit(rc)`; `err` is the text of the error and `tr` is
what the run did before. -/
def handleError (tr : List Event) (err : Str) (out : Stream) (rc : Int) : Run :=
  if rc = syntaxError then
    ⟨tr ++ [.Fprintf out (err ++ "\nDo 'writer -h' for usage\n".toList)], .Code rc⟩
  else
    ⟨tr ++ [.Fprintf out (err ++ "\n".toList)], .Code rc⟩

/-- The variables of `main` that the argument loop sets, with their initial
values, and the events so far. -/
structure Vars where
  inFile : Str := []
  outFile : Str := []
  size : Int := 256 * 1024
  count : Int := 0
  delay : Int := 0
  openDelay : Int := 0
  startDelay : Int := 0
  timeout : Int := 0
  log : Stream := .Discard
  rc : Int := 0
  skip : Bool := true
  trace : List Event := []

/-- The body of `case "-i"`; `next` is `os.Args[arg+1]`, absent when
`arg+1` is out of range. -/
def flag_i (v : Vars) (next : Option Str) : Res Vars :=
  match next with
  | none => .done ⟨v.trace, .Panic indexOutOfRange⟩
  | some x => .ok { v with skip := true, inFile := x }

/-- The body of `case "-o"`; `next` is `os.Args[arg+1]`, absent when
`arg+1` is out of range. -/
def flag_o (v : Vars) (next : Option Str) : Res Vars :=
  match next with
  | none => .done ⟨v.trace, .Panic indexOutOfRange⟩
  | some x => .ok { v with skip := true, outFile := x }

/-- The body of `case "-l"`; `next` is `os.Args[arg+1]`, absent when
`arg+1` is out of range. -/
def flag_l (w : World) (v : Vars) (next : Option Str) : Res Vars :=
  match next with
  | none => .done ⟨v.trace, .Panic indexOutOfRange⟩
  | some x =>
    match w.Create v.trace x with
    | some err =>
      .done (handleError (v.trace ++ [.Create x (some err)])
        ("could not open log file: ".toList ++ err) v.log syntaxError)
    | none => .ok { v with skip := true, log := .File x, trace := v.trace ++ [.Create x none] }

/-- The body of `case "-s"`; `next` is `os.Args[arg+1]`, absent when
`arg+1` is out of range. -/
def flag_s (w : World) (v : Vars) (next : Option Str) : Res Vars :=
  match next with
  | none => .done ⟨v.trace, .Panic indexOutOfRange⟩
  | some x =>
    let (mult, s) : Int × Str :=
      if strings.HasSuffix x "k".toList then (1024, strings.TrimSuffix x "k".toList)
      else if strings.HasSuffix x "m".toList then (1024 * 1024, strings.TrimSuffix x "m".toList)
      else (1, x)
    match strconv.ParseInt s 10 32 with
    | (_, some err) =>
      .done (handleError v.trace
        ("invalid argument for size '".toList ++ s ++ "': ".toList ++ err.Error w.Quote)
        v.log syntaxError)
    | (sz, none) => .ok { v with skip := true, size := wrapInt64 (sz * mult) }

/-- The body of `case "-c"`; `next` is `os.Args[arg+1]`, absent when
`arg+1` is out of range. -/
def flag_c (w : World) (v : Vars) (next : Option Str) : Res Vars :=
  match next with
  | none => .done ⟨v.trace, .Panic indexOutOfRange⟩
  | some x =>
    match strconv.ParseInt x 10 32 with
    | (_, some err) =>
      .done (handleError v.trace
        ("invalid argument for size '".toList ++ x ++ "': ".toList ++ err.Error w.Quote)
        v.log syntaxError)
    | (c, none) => .ok { v with skip := true, count := c }

/-- The body of `case "-d"`; `next` is `os.Args[arg+1]`, absent when
`arg+1` is out of range. -/
def flag_d (w : World) (v : Vars) (next : Option Str) : Res Vars :=
  match next with
  | none => .done ⟨v.trace, .Panic indexOutOfRange⟩
  | some x =>
    let (mult, s) : Int × Str :=
      if strings.HasSuffix x "ms".toList then (time.Millisecond, strings.TrimSuffix x "ms".toList)
      else if strings.HasSuffix x "m".toList then (time.Minute, strings.TrimSuffix x "m".toList)
      else if strings.HasSuffix x "h".toList then (time.Hour, strings.TrimSuffix x "h".toList)
      else (time.Second, x)
    match strconv.ParseInt s 10 32 with
    | (_, some err) =>
      .done (handleError v.trace
        ("invalid argument for delay '".toList ++ s ++ "': ".toList ++ err.Error w.Quote)
        v.log syntaxError)
    | (t, none) => .ok { v with skip := true, delay := wrapInt64 (t * mult) }

/-- The body of `case "-od"`; `next` is `os.Args[arg+1]`, absent when
`arg+1` is out of range. -/
def flag_od (w : World) (v : Vars) (next : Option Str) : Res Vars :=
  match next with
  | none => .done ⟨v.trace, .Panic indexOutOfRange⟩
  | some x =>
    let (mult, s) : Int × Str :=
      if strings.HasSuffix x "ms".toList then (time.Millisecond, strings.TrimSuffix x "ms".toList)
      else if strings.HasSuffix x "m".toList then (time.Minute, strings.TrimSuffix x "m".toList)
      else if strings.HasSuffix x "h".toList then (time.Hour, strings.TrimSuffix x "h".toList)
      else (time.Second, x)
    match strconv.ParseInt s 10 32 with
    | (_, some err) =>
      .done (handleError v.trace
        ("invalid argument for open delay '".toList ++ s ++ "': ".toList ++ err.Error w.Quote)
        v.log syntaxError)
    | (t, none) => .ok { v with skip := true, openDelay := wrapInt64 (t * mult) }

/-- The body of `case "-t"`; `next` is `os.Args[arg+1]`, absent when
`arg+1` is out of range. -/
def flag_t (w : World) (v : Vars) (next : Option Str) : Res Vars :=
  match next with
  | none => .done ⟨v.trace, .Panic indexOutOfRange⟩
  | some x =>
    let (mult, s) : Int × Str :=
      if strings.HasSuffix x "ms".toList then (time.Millisecond, strings.TrimSuffix x "ms".toList)
      else if strings.HasSuffix x "m".toList then (time.Minute, strings.TrimSuffix x "m".toList)
      else if strings.HasSuffix x "h".toList then (time.Hour, strings.TrimSuffix x "h".toList)
      else (time.Second, x)
    match strconv.ParseInt s 10 32 with
    | (_, some err) =>
      .done (handleError v.trace
        ("invalid argument for timeout '".toList ++ s ++ "': ".toList ++ err.Error w.Quote)
        v.log syntaxError)
    | (t, none) => .ok { v with skip := true, timeout := wrapInt64 (t * mult) }

/-- The body of `case "-sd"`; `next` is `os.Args[arg+1]`, absent when
`arg+1` is out of range. -/
def flag_sd (w : World) (v : Vars) (next : Option Str) : Res Vars :=
  match next with
  | none => .done ⟨v.trace, .Panic indexOutOfRange⟩
  | some x =>
    let (mult, s) : Int × Str :=
      if strings.HasSuffix x "ms".toList then (time.Millisecond, strings.TrimSuffix x "ms".toList)
      else if strings.HasSuffix x "m".toList then (time.Minute, strings.TrimSuffix x "m".toList)
      else if strings.HasSuffix x "h".toList then (time.Hour, strings.TrimSuffix x "h".toList)
      else (time.Second, x)
    match strconv.ParseInt s 10 32 with
    | (_, some err) =>
      .done (handleError v.trace
        ("invalid argument for start delay '".toList ++ s ++ "': ".toList ++ err.Error w.Quote)
        v.log syntaxError)
    | (t, none) => .ok { v with skip := true, startDelay := wrapInt64 (t * mult) }

/-- The `switch os.Args[arg]` of the argument loop, for `os.Args[arg] = a`;
`next` is `os.Args[arg+1]`, absent when `arg+1` is out of range. -/
def argCase (w : World) (v : Vars) (a : Str) (next : Option Str) : Res Vars :=
  if a = "-i".toList then flag_i v next
  else if a = "-o".toList then flag_o v next
  else if a = "-l".toList then flag_l w v next
  else if a = "-s".toList then flag_s w v next
  else if a = "-c".toList then flag_c w v next
  else if a = "-d".toList then flag_d w v next
  else if a = "-od".toList then flag_od w v next
  else if a = "-t".toList then flag_t w v next
  else if a = "-sd".toList then flag_sd w v next
  else if a = "-h".toList then
    .done (usage v.trace v.log)
  else
    .done (handleError v.trace ("Invalid argument '".toList ++ a ++ "'\n".toList) v.log syntaxError)

/-- The loop `for arg := range os.Args` over the arguments still to visit: an
argument is passed over when `skip` is set, and goes through the `switch`
otherwise. -/
def argLoop (w : World) : Vars → List Str → Res Vars
  | v, [] => .ok v
  | v, a :: rest =>
    if v.skip then argLoop w { v with skip := false } rest
    else
      match argCase w v a rest.head? with
      | .ok v1 => argLoop w v1 rest
      | .done r => .done r

/-- The panic of `make([]byte, 0, size)` with a size that is negative or above
`maxAlloc`. -/
def makesliceCap : Str := "runtime error: makeslice: cap out of range".toList

/-- The variables of the transfer loop. -/
structure LoopVars where
  x : Int
  bytesIn : Int
  bytesOut : Int
  eof : Bool
  rc : Int
  runtime : Int
  buf : List Nat
  trace : List Event

/-- The transfer loop `for { ... }`, run for at most `fuel` iterations: the
variables reached, and whether the loop has ended. This is the course of the
program text, in which `Write` returns its error; `main` ends the run at a
`Write` to standard output that fails with `EPIPE` (`Run.withSignals`). -/
def loop (w : World) (v : Vars) (input output : Stream) : Nat → LoopVars → LoopVars × Bool
  | 0, s => (s, false)
  | fuel + 1, s =>
    let runtime := w.Since s.trace
    if runtime ≥ v.timeout ∧ v.timeout ≠ 0 then ({ s with runtime := runtime }, true)
    else
      let (data, err) := w.Read s.trace s.buf.length
      let b : Int := data.length
      let bytesIn := wrapInt64 (s.bytesIn + b)
      let buf := fill s.buf data
      let tr := s.trace ++ [.Read input s.buf.length data err]
      if err ≠ none ∧ err ≠ some .EOF then
        ({ s with bytesIn := bytesIn, rc := runtimeError, runtime := runtime, buf := buf,
                  trace := tr ++ [.Fprintf v.log
                    "Error encountered while reading: %!v(MISSING)\n".toList] }, true)
      else
        let eof := if err = some .EOF then true else s.eof
        let (b, err) := w.Write tr buf
        let bytesOut := wrapInt64 (s.bytesOut + b)
        let tr := tr ++ [.Write output buf b err]
        match err with
        | some _ =>
          ({ x := s.x, bytesIn := bytesIn, bytesOut := bytesOut, eof := eof, rc := runtimeError,
             runtime := runtime, buf := buf,
             trace := tr ++ [.Fprintf v.log
               "Error encountered while writing: %!v(MISSING)\n".toList] }, true)
        | none =>
          let s1 : LoopVars :=
            { x := s.x, bytesIn := bytesIn, bytesOut := bytesOut, eof := eof, rc := s.rc,
              runtime := runtime, buf := buf, trace := tr }
          if eof then (s1, true)
          else if v.count = 0 then loop w v input output fuel s1
          else
            let x := wrapInt64 (s.x + 1)
            if x = v.count then ({ s1 with x := x }, true)
            else loop w v input output fuel { s1 with x := x, trace := tr ++ [.Sleep v.delay] }

/-- The text `bytesRead` of the summary for the total read. -/
def bytesRead (bytesIn : Int) : Str :=
  if bytesIn > 1024 * 1024 * 10 then
    formatInt (Int.tdiv (Int.tdiv bytesIn 1024) 1024) ++ " megabytes".toList
  else if bytesIn > 1024 * 10 then
    formatInt (Int.tdiv bytesIn 1024) ++ " kilobytes".toList
  else
    formatInt bytesIn ++ " bytes".toList

/-- The text `bytesWritten` of the summary for the total written. -/
def bytesWritten (bytesOut : Int) : Str :=
  if bytesOut > 1024 * 1024 * 10 then
    formatInt (Int.tdiv (Int.tdiv bytesOut 1024) 1024) ++ " megabytes".toList
  else if bytesOut > 1024 * 10 then
    formatInt (Int.tdiv bytesOut 1024) ++ " kilobytes".toList
  else
    formatInt bytesOut ++ " bytes".toList

/-- The last part of `main`: the summary line and `os.Exit(rc)`. -/
def finish (w : World) (v : Vars) (s : LoopVars) : Run :=
  ⟨s.trace ++ [.Fprintf v.log ("Read ".toList ++ bytesRead s.bytesIn ++ " and wrote ".toList ++
      bytesWritten s.bytesOut ++ " in ".toList ++ w.DurationString s.runtime ++ "\n".toList)],
    .Code s.rc⟩

/-- The part of `main` from the start delay on, reading from `input` and
writing to `output`; the buffer `make([]byte, 0, size)` has length 0. -/
def run (w : World) (fuel : Nat) (v : Vars) (input output : Stream) (tr : List Event) :
    Option Run :=
  match loop w v input output fuel
      { x := 0, bytesIn := 0, bytesOut := 0, eof := false, rc := v.rc, runtime := 0, buf := [],
        trace := tr ++ [.Sleep v.startDelay] } with
  | (s, true) => some (finish w v s)
  | (_, false) => none

/-- The part of `main` after the argument loop, from the allocation of the
buffer on; `none` when the transfer loop has not ended within `fuel`
iterations. -/
def transfer (w : World) (fuel : Nat) (v : Vars) : Option Run :=
  if v.size < 0 ∨ v.size > maxAlloc then some ⟨v.trace, .Panic makesliceCap⟩
  else if w.Alloc v.trace v.size = false then some ⟨v.trace, .Panic outOfMemory⟩
  else if v.inFile ≠ [] ∨ v.outFile ≠ [] then
    let tr := v.trace ++ [.Sleep v.openDelay]
    let outErr := if v.outFile ≠ [] then w.OpenFile tr v.outFile else none
    let tr1 := if v.outFile ≠ [] then tr ++ [.OpenFile v.outFile outErr] else tr
    match outErr with
    | some err => some (handleError tr1 err v.log runtimeError)
    | none =>
      let output : Stream := if v.outFile ≠ [] then .File v.outFile else .Std
      let inErr := if v.inFile ≠ [] then w.OpenFile tr1 v.inFile else none
      let tr2 := if v.inFile ≠ [] then tr1 ++ [.OpenFile v.inFile inErr] else tr1
      match inErr with
      | some err => some (handleError tr2 err v.log runtimeError)
      | none =>
        let input : Stream := if v.inFile ≠ [] then .File v.inFile else .Std
        run w fuel v input output tr2
  else run w fuel v .Std .Std v.trace

/-- The program: `args` is `os.Args`, program name included. The process ends
by SIGPIPE at a `Write` to standard output that fails with `EPIPE`. -/
def main (w : World) (fuel : Nat) (args : List Str) : Option Run :=
  match argLoop w {} args with
  | .done r => some r
  | .ok v => (transfer w fuel v).map Run.withSignals

end piper

/-! ## Notions of the specification -/

/-- A decimal digit: a character from `0` to `9`. -/
def isDecDigit (c : Char) : Bool := decide ('0' ≤ c ∧ c ≤ '9')

/-- At least one character, all of them decimal digits. -/
def isDigits (ds : Str) : Bool := !ds.isEmpty && ds.all isDecDigit

/-- The number a string of decimal digits denotes, most significant digit first. -/
def digitsValue (ds : Str) : Nat :=
  ds.foldl (fun acc c => 10 * acc + (c.toNat - '0'.toNat)) 0

/-- The integer a decimal numeral denotes: an optional sign `+` or `-` followed
by at least one decimal digit; `none` for any other text. -/
def decimalInteger (s : Str) : Option Int :=
  match s with
  | [] => none
  | c :: ds =>
    if c = '-' then (if isDigits ds then some (-(digitsValue ds : Int)) else none)
    else if c = '+' then (if isDigits ds then some (digitsValue ds : Int) else none)
    else if isDigits (c :: ds) then some (digitsValue (c :: ds) : Int) else none

/-- The unit a duration suffix stands for, in nanoseconds: `ms` milliseconds,
`m` minutes, `h` hours, and seconds when there is no suffix. -/
def durationUnit (suffix : Str) : Option Int :=
  if suffix = ['m', 's'] then some time.Millisecond
  else if suffix = ['m'] then some time.Minute
  else if suffix = ['h'] then some time.Hour
  else if suffix = [] then some time.Second
  else none

/-- The integer lies in the signed 64-bit range of a Go `int` or `time.Duration`. -/
def fitsInt64 (x : Int) : Prop := -2 ^ 63 ≤ x ∧ x < 2 ^ 63

/-- The text of a byte total in the summary, by the three bands of the
specification: the exact count up to 10 KiB, whole kilobytes up to 10 MiB,
whole megabytes above. -/
def bandedTotal (b : Nat) : Str :=
  if b ≤ 10 * 1024 then (Nat.repr b).toList ++ " bytes".toList
  else if b ≤ 10 * 1024 * 1024 then (Nat.repr (b / 1024)).toList ++ " kilobytes".toList
  else (Nat.repr (b / 1024 / 1024)).toList ++ " megabytes".toList

/-- The numeral of a size value: the text without its suffix `k` or `m`. -/
def sizeNumeral (x : Str) : Str :=
  if strings.HasSuffix x ['k'] ∨ strings.HasSuffix x ['m'] then x.take (x.length - 1) else x

/-- The numeral of a duration value: the text without its suffix `ms`, `m` or `h`. -/
def durationNumeral (x : Str) : Str :=
  if strings.HasSuffix x ['m', 's'] then x.take (x.length - 2)
  else if strings.HasSuffix x ['m'] ∨ strings.HasSuffix x ['h'] then x.take (x.length - 1)
  else x

/-- The flags of writer that take a value: the `case`s of its `switch` other than `-h`. -/
def writer.valueFlags : List Str :=
  ["-f".toList, "-l".toList, "-s".toList, "-c".toList, "-d".toList, "-od".toList, "-t".toList,
    "-sd".toList, "-rc".toList]

/-- The flags of reader that take a value: the `case`s of its `switch` other than `-h`. -/
def reader.valueFlags : List Str :=
  ["-f".toList, "-l".toList, "-s".toList, "-c".toList, "-d".toList, "-od".toList, "-ed".toList,
    "-t".toList, "-sd".toList, "-rc".toList]

/-- The flags of piper that take a value: the `case`s of its `switch` other than `-h`. -/
def piper.valueFlags : List Str :=
  ["-i".toList, "-o".toList, "-l".toList, "-s".toList, "-c".toList, "-d".toList, "-od".toList,
    "-t".toList, "-sd".toList]

/-- The flags of writer whose value is a duration. -/
def writer.durationFlags : List Str := ["-d".toList, "-od".toList, "-t".toList, "-sd".toList]

/-- The flags of reader whose value is a duration. -/
def reader.durationFlags : List Str :=
  ["-d".toList, "-od".toList, "-ed".toList, "-t".toList, "-sd".toList]

/-- The flags of piper whose value is a duration. -/
def piper.durationFlags : List Str := ["-d".toList, "-od".toList, "-t".toList, "-sd".toList]

/-- A read or write failure other than end-of-input: a `Read` that returned an
error other than `io.EOF`, or a `Write` that returned an error. -/
def Event.isFailure : Event → Bool
  | .Read _ _ _ (some (.other _)) => true
  | .Write _ _ _ (some _) => true
  | _ => false

/-- The event is a call of `Write`. -/
def Event.isWrite : Event → Bool
  | .Write _ _ _ _ => true
  | _ => false

/-- The events of `k` iterations of the write loop in each of which the whole
block `buf` is written: a `Write` of `buf` that returns `len(buf)` and no
error, then the sleep of the delay. -/
def fullWrites (output : Stream) (buf : List Nat) (delay : Int) : Nat → List Event
  | 0 => []
  | k + 1 => .Write output buf buf.length none :: .Sleep delay :: fullWrites output buf delay k

/-! ## Worlds for the examples -/

/-- A world in which nothing goes wrong and the clock stands still: every file
is created or opened, `time.Since` is always 0 (printed `0s`), every `Write`
takes the whole block, and every `Read` meets the end of the input at once.
`Quote` puts its argument between double quotes, which is what `strconv.Quote`
does on the plain texts of the examples. -/
def stillWorld : World where
  Quote s := "\"".toList ++ s ++ "\"".toList
  DurationString _ := "0s".toList
  Create _ _ := none
  OpenFile _ _ := none
  Since _ := 0
  Read _ _ := ([], some .EOF)
  Write _ p := (p.length, none)
  Alloc _ _ := true

/-- A world in which every `Read` and every `Write` fails with an error that
is not `io.EOF`, and the clock stands still. -/
def brokenWorld : World where
  Quote s := "\"".toList ++ s ++ "\"".toList
  DurationString _ := "0s".toList
  Create _ _ := none
  OpenFile _ _ := none
  Since _ := 0
  Read _ _ := ([], some (.other "input/output error".toList))
  Write _ _ := (0, some (.other "input/output error".toList))
  Alloc _ _ := true

/-- A world in which standard output is a pipe whose reading end is closed:
every `Write` fails with `EPIPE`. In all else it is `stillWorld`. -/
def closedPipeWorld : World where
  Quote s := "\"".toList ++ s ++ "\"".toList
  DurationString _ := "0s".toList
  Create _ _ := none
  OpenFile _ _ := none
  Since _ := 0
  Read _ _ := ([], some .EOF)
  Write _ _ := (0, some .EPIPE)
  Alloc _ _ := true

/-! ## Notions for the transfer loops -/

/-- The event is a call of `Read`. -/
def Event.isRead : Event → Bool
  | .Read _ _ _ _ => true
  | _ => false

/-- The event is a call of `time.Sleep`. -/
def Event.isSleep : Event → Bool
  | .Sleep _ => true
  | _ => false

/-- The event is a `Read` that returned `io.EOF`. -/
def Event.isEOF : Event → Bool
  | .Read _ _ _ (some .EOF) => true
  | _ => false

/-- The number of bytes the `Read` calls of a trace have returned. -/
def bytesDelivered : List Event → Nat
  | [] => 0
  | .Read _ _ data _ :: es => data.length + bytesDelivered es
  | _ :: es => bytesDelivered es

/-- The input of the world is a source of exactly `L` bytes: while fewer than
`L` bytes have been returned, `Read` fills the buffer as far as the rest of
the source goes and returns no error; from then on it returns 0 bytes and
`io.EOF`. -/
def isSourceOf (w : World) (L : Nat) : Prop :=
  ∀ (h : List Event) (len : Nat),
    if bytesDelivered h < L then
      (w.Read h len).1.length = min len (L - bytesDelivered h) ∧ (w.Read h len).2 = none
    else w.Read h len = ([], some .EOF)

/-- The event is a `Read` or a `Write` that did not fail, which is a completed
iteration of the loops of reader and writer; a `Read` that returned `io.EOF`
counts. -/
def Event.isCompleted : Event → Bool
  | .Read _ _ _ none => true
  | .Read _ _ _ (some .EOF) => true
  | .Write _ _ _ none => true
  | _ => false

/-! ## Worlds with a source of bytes and with a running clock -/

/-- A world whose input is a source of exactly `L` zero bytes; nothing goes
wrong, the clock stands still and every `Write` takes the whole block. -/
def sourceWorld (L : Nat) : World where
  Quote s := "\"".toList ++ s ++ "\"".toList
  DurationString _ := "0s".toList
  Create _ _ := none
  OpenFile _ _ := none
  Since _ := 0
  Read h len :=
    if bytesDelivered h < L then (List.replicate (min len (L - bytesDelivered h)) 0, none)
    else ([], some .EOF)
  Write _ p := (p.length, none)
  Alloc _ _ := true

/-- A world whose clock advances by one millisecond with every `Read` and
every `Write` call and stands still otherwise, and whose input is an endless
source of zero bytes; nothing goes wrong and every `Write` takes the whole
block. `DurationString` is `time.Duration.String` on the whole milliseconds
below one second, which are the durations this clock shows in the examples. -/
def tickingWorld : World where
  Quote s := "\"".toList ++ s ++ "\"".toList
  DurationString d := if d = 0 then "0s".toList else formatInt (d / 1000000) ++ "ms".toList
  Create _ _ := none
  OpenFile _ _ := none
  Since h := 1000000 * ((h.filter (fun e => e.isRead || e.isWrite)).length : Int)
  Read _ len := (List.replicate len 0, none)
  Write _ p := (p.length, none)
  Alloc _ _ := true

/-- The multiplier of a size value: 1024 for the suffix `k`, 1024*1024 for the
suffix `m`, and 1 otherwise. -/
def sizeMultiplier (x : Str) : Int :=
  if strings.HasSuffix x ['k'] then 1024
  else if strings.HasSuffix x ['m'] then 1024 * 1024
  else 1

/-- The unit of a duration value: the millisecond for the suffix `ms`, the
minute for `m`, the hour for `h`, and the second otherwise. -/
def durationMultiplier (x : Str) : Int :=
  if strings.HasSuffix x ['m', 's'] then time.Millisecond
  else if strings.HasSuffix x ['m'] then time.Minute
  else if strings.HasSuffix x ['h'] then time.Hour
  else time.Second

/-- The multiplier a size suffix stands for: `k` 1024, `m` 1024*1024, and 1
when there is no suffix. -/
def sizeUnit (suffix : Str) : Option Int :=
  if suffix = ['k'] then some 1024
  else if suffix = ['m'] then some (1024 * 1024)
  else if suffix = [] then some 1
  else none

/-! ## Lemmas on the library functions -/

theorem wrapInt64_of_range (x : Int) (hlo : -2 ^ 63 ≤ x) (hhi : x < 2 ^ 63) :
    wrapInt64 x = x := by
  unfold wrapInt64
  norm_num at hlo hhi ⊢
  omega

theorem HasSuffix_iff (s suf : Str) : strings.HasSuffix s suf = true ↔ suf <:+ s := by
  unfold strings.HasSuffix
  constructor
  · intro h
    simp only [Bool.and_eq_true, decide_eq_true_eq, beq_iff_eq] at h
    have key := List.take_append_drop (s.length - suf.length) s
    rw [h.2] at key
    exact ⟨_, key⟩
  · rintro ⟨t, rfl⟩
    simp

theorem HasSuffix_append (t suf : Str) : strings.HasSuffix (t ++ suf) suf = true :=
  (HasSuffix_iff _ _).2 (List.suffix_append t suf)

theorem TrimSuffix_append (t suf : Str) : strings.TrimSuffix (t ++ suf) suf = t := by
  unfold strings.TrimSuffix
  rw [HasSuffix_append]
  simp

theorem HasSuffix_getLast (s suf : Str) (c d : Char) (hs : s.getLast? = some c)
    (hsuf : suf.getLast? = some d) (hcd : c ≠ d) : strings.HasSuffix s suf = false := by
  rw [Bool.eq_false_iff]
  intro h
  obtain ⟨t, rfl⟩ := (HasSuffix_iff _ _).1 h
  have hne : suf ≠ [] := by rintro rfl; simp at hsuf
  rw [List.getLast?_append_of_ne_nil _ hne, hsuf] at hs
  exact hcd (Option.some.inj hs).symm

/-! ### `ParseInt` on decimal numerals -/

theorem digitVal_of_digit (c : Char) (h : isDecDigit c = true) :
    strconv.digitVal c = some (c.toNat - '0'.toNat) ∧ c.toNat - '0'.toNat < 10 := by
  unfold isDecDigit at h
  simp only [decide_eq_true_eq] at h
  refine ⟨by simp [strconv.digitVal, h], ?_⟩
  have h2 := h.2
  rw [Char.le_def] at h2
  have h57 : c.toNat ≤ 57 := h2
  have h48 : '0'.toNat = 48 := rfl
  omega

theorem digitVal_of_not_digit (c : Char) (h : isDecDigit c = false) :
    strconv.digitVal c = none ∨ ∃ d, strconv.digitVal c = some d ∧ 10 ≤ d := by
  unfold isDecDigit at h
  simp only [decide_eq_false_iff_not] at h
  unfold strconv.digitVal
  rw [if_neg h]
  split_ifs
  · right; exact ⟨_, rfl, by omega⟩
  · right; exact ⟨_, rfl, by omega⟩
  · left; rfl

/-- The fold `digitsValue` is made of, from an accumulator. -/
theorem foldl_digits_ge (ds : Str) (n : Nat) :
    n ≤ ds.foldl (fun acc c => 10 * acc + (c.toNat - '0'.toNat)) n := by
  induction ds generalizing n with
  | nil => simp
  | cons c cs ih =>
    simp only [List.foldl_cons]
    exact le_trans (by omega) (ih _)

theorem parseUintLoop_digits (bits : Nat) (hb : bits ≤ 64) (ds : Str) (n : Nat)
    (hd : ds.all isDecDigit = true)
    (hv : ds.foldl (fun acc c => 10 * acc + (c.toNat - '0'.toNat)) n ≤ 2 ^ bits - 1) :
    strconv.parseUintLoop 10 (2 ^ bits - 1) ((2 ^ 64 - 1) / 10 + 1) n ds =
      (ds.foldl (fun acc c => 10 * acc + (c.toNat - '0'.toNat)) n, none) := by
  induction ds generalizing n with
  | nil => simp [strconv.parseUintLoop]
  | cons c cs ih =>
    simp only [List.all_cons, Bool.and_eq_true] at hd
    obtain ⟨hval, hlt⟩ := digitVal_of_digit c hd.1
    simp only [List.foldl_cons] at hv ⊢
    have hge := foldl_digits_ge cs (10 * n + (c.toNat - '0'.toNat))
    have hpow : 2 ^ bits ≤ 2 ^ 64 := Nat.pow_le_pow_right (by norm_num) hb
    have hbound : 10 * n + (c.toNat - '0'.toNat) ≤ 2 ^ bits - 1 := le_trans hge hv
    have h64 : 10 * n + (c.toNat - '0'.toNat) < 2 ^ 64 := by omega
    unfold strconv.parseUintLoop
    rw [hval]
    simp only
    have e1 : (n * 10) % 2 ^ 64 = n * 10 := Nat.mod_eq_of_lt (by omega)
    have e2 : (n * 10 + (c.toNat - '0'.toNat)) % 2 ^ 64 = 10 * n + (c.toNat - '0'.toNat) := by
      rw [Nat.mod_eq_of_lt (by omega)]; ring
    rw [if_neg (by omega), if_neg (by norm_num at h64 ⊢; omega), e1, e2,
      if_neg (by omega)]
    exact ih _ hd.2 hv
theorem ParseUint_digits (ds : Str) (hd : isDigits ds = true) (hv : digitsValue ds ≤ 2 ^ 32 - 1) :
    strconv.ParseUint ds 10 32 = (digitsValue ds, none) := by
  unfold isDigits at hd
  simp only [Bool.and_eq_true, Bool.not_eq_true', List.isEmpty_eq_false] at hd
  unfold strconv.ParseUint
  rw [if_neg hd.1]
  have h := parseUintLoop_digits 32 (by norm_num) ds 0 hd.2 hv
  simp only [show (32 : Nat) ≠ 0 by norm_num, if_false]
  rw [h]
  rfl

theorem parseUintLoop_range (base mv co : Nat) (ds : Str) (n un : Nat)
    (h : strconv.parseUintLoop base mv co n ds = (un, some .outOfRange)) : un = mv := by
  induction ds generalizing n with
  | nil => simp [strconv.parseUintLoop] at h
  | cons c cs ih =>
    unfold strconv.parseUintLoop at h
    split at h
    · simp at h
    · simp only at h
      split_ifs at h
      · simp at h
      · simp only [Prod.mk.injEq, and_true] at h; exact h.symm
      · simp only [Prod.mk.injEq, and_true] at h; exact h.symm
      · exact ih _ h

theorem parseUintLoop_not_digits (mv co : Nat) (ds : Str) (n : Nat)
    (hd : ds.all isDecDigit = false) :
    (strconv.parseUintLoop 10 mv co n ds).2 ≠ none := by
  induction ds generalizing n with
  | nil => simp at hd
  | cons c cs ih =>
    unfold strconv.parseUintLoop
    cases hc : isDecDigit c with
    | false =>
      rcases digitVal_of_not_digit c hc with h | ⟨d, h, hd10⟩
      · rw [h]; simp
      · rw [h]; simp only; rw [if_pos hd10]; simp
    | true =>
      have hcs : cs.all isDecDigit = false := by
        simpa [List.all_cons, hc] using hd
      rw [(digitVal_of_digit c hc).1]
      simp only
      split_ifs
      · simp
      · simp
      · simp
      · exact ih _ hcs

theorem ParseUint_not_digits (ds : Str) (hd : isDigits ds = false) :
    ∃ e, (strconv.ParseUint ds 10 32).2 = some e ∧
      (e.Err = .outOfRange → (strconv.ParseUint ds 10 32).1 = 2 ^ 32 - 1) := by
  unfold strconv.ParseUint
  by_cases hnil : ds = []
  · rw [if_pos hnil]; exact ⟨_, rfl, by simp⟩
  · rw [if_neg hnil]
    have hall : ds.all isDecDigit = false := by
      unfold isDigits at hd
      cases h : ds.all isDecDigit with
      | false => rfl
      | true => simp [h, hnil] at hd
    simp only [show (32 : Nat) ≠ 0 by norm_num, if_false]
    have h1 := parseUintLoop_not_digits (2 ^ 32 - 1) ((2 ^ 64 - 1) / 10 + 1) ds 0 hall
    rcases hres : strconv.parseUintLoop 10 (2 ^ 32 - 1) ((2 ^ 64 - 1) / 10 + 1) 0 ds with ⟨un, e⟩
    rw [hres] at h1
    cases e with
    | none => simp at h1
    | some k =>
      refine ⟨_, rfl, ?_⟩
      intro hk
      simp only at hk
      subst hk
      exact parseUintLoop_range _ _ _ _ _ _ hres

/-- `ParseInt(s, 10, 32)` accepts a decimal numeral of the signed 32-bit range
and returns the integer it denotes. -/
theorem ParseInt_decimal (s : Str) (n : Int) (h : decimalInteger s = some n)
    (hlo : -2 ^ 31 ≤ n) (hhi : n < 2 ^ 31) : strconv.ParseInt s 10 32 = (n, none) := by
  cases s with
  | nil => simp [decimalInteger] at h
  | cons c ds =>
    unfold decimalInteger at h
    simp only at h
    unfold strconv.ParseInt
    rw [if_neg (by simp)]
    by_cases hm : c = '-'
    · subst hm
      simp only [if_true] at h
      split_ifs at h with hdig
      simp only [Option.some.injEq] at h
      subst h
      have hv : digitsValue ds ≤ 2 ^ 32 - 1 := by norm_num at hlo ⊢; omega
      simp only [List.head?_cons, List.tail_cons, or_true, if_true, ParseUint_digits ds hdig hv]
      norm_num at hlo ⊢
      omega
    · rw [if_neg hm] at h
      by_cases hp : c = '+'
      · subst hp
        simp only [if_true] at h
        split_ifs at h with hdig
        simp only [Option.some.injEq] at h
        subst h
        have hv : digitsValue ds ≤ 2 ^ 32 - 1 := by norm_num at hhi ⊢; omega
        simp only [List.head?_cons, List.tail_cons, true_or, if_true, ParseUint_digits ds hdig hv]
        norm_num at hhi ⊢
        rw [if_neg (by omega), if_neg (by simp), if_neg hm]
      · rw [if_neg hp] at h
        split_ifs at h with hdig
        simp only [Option.some.injEq] at h
        subst h
        have hv : digitsValue (c :: ds) ≤ 2 ^ 32 - 1 := by norm_num at hhi ⊢; omega
        simp only [List.head?_cons, Option.some.injEq, hm, hp, or_self, if_false,
          ParseUint_digits (c :: ds) hdig hv]
        norm_num at hhi ⊢
        intro hge
        omega

/-- `ParseInt(s, 10, 32)` fails on a text that is not a decimal numeral. -/
theorem ParseInt_not_decimal (s : Str) (h : decimalInteger s = none) :
    (strconv.ParseInt s 10 32).2 ≠ none := by
  cases s with
  | nil => simp [strconv.ParseInt]
  | cons c ds =>
    unfold decimalInteger at h
    simp only at h
    have key : ∀ (body : Str) (neg : Prop) [Decidable neg], isDigits body = false →
        (match strconv.ParseUint body 10 32 with
          | (un, err) =>
            match err with
            | some ⟨_, _, .invalidSyntax⟩ =>
              ((0 : Int), some (⟨"ParseInt".toList, c :: ds, .invalidSyntax⟩ : strconv.NumError))
            | _ =>
              if ¬ neg ∧ un ≥ 2 ^ (32 - 1) then
                (((2 ^ (32 - 1) : Nat) : Int) - 1, some ⟨"ParseInt".toList, c :: ds, .outOfRange⟩)
              else if neg ∧ un > 2 ^ (32 - 1) then
                (-((2 ^ (32 - 1) : Nat) : Int), some ⟨"ParseInt".toList, c :: ds, .outOfRange⟩)
              else (if neg then -(un : Int) else (un : Int), none)).2 ≠ none := by
      intro body neg _ hb
      obtain ⟨e, he, hr⟩ := ParseUint_not_digits body hb
      rcases hres : strconv.ParseUint body 10 32 with ⟨un, err⟩
      rw [hres] at he hr
      simp only at he hr
      subst he
      rcases e with ⟨f, m, k⟩
      cases k with
      | invalidSyntax => simp
      | outOfRange =>
        simp only at hr
        rw [hr trivial]
        by_cases hn : neg <;> simp [hn]
    unfold strconv.ParseInt
    rw [if_neg (by simp)]
    by_cases hm : c = '-'
    · subst hm
      simp only [if_true] at h
      have hb : isDigits ds = false := by
        cases hd : isDigits ds with
        | false => rfl
        | true => simp [hd] at h
      simpa using key ds True hb
    · rw [if_neg hm] at h
      by_cases hp : c = '+'
      · subst hp
        simp only [if_true] at h
        have hb : isDigits ds = false := by
          cases hd : isDigits ds with
          | false => rfl
          | true => simp [hd] at h
        simpa using key ds False hb
      · rw [if_neg hp] at h
        have hb : isDigits (c :: ds) = false := by
          cases hd : isDigits (c :: ds) with
          | false => rfl
          | true => simp [hd] at h
        simpa [hm, hp] using key (c :: ds) False hb

/-! ### Suffixes of decimal numerals -/

theorem isDigits_getLast (ds : Str) (h : isDigits ds = true) :
    ∃ c, ds.getLast? = some c ∧ isDecDigit c = true := by
  unfold isDigits at h
  simp only [Bool.and_eq_true, Bool.not_eq_true', List.isEmpty_eq_false, List.all_eq_true] at h
  refine ⟨ds.getLast h.1, List.getLast?_eq_getLast _ h.1, h.2 _ (List.getLast_mem h.1)⟩

theorem decimalInteger_getLast (s : Str) (n : Int) (h : decimalInteger s = some n) :
    ∃ c, s.getLast? = some c ∧ isDecDigit c = true := by
  cases s with
  | nil => simp [decimalInteger] at h
  | cons c ds =>
    unfold decimalInteger at h
    simp only at h
    have sign : isDigits ds = true → ∃ d, (c :: ds).getLast? = some d ∧ isDecDigit d = true := by
      intro hd
      obtain ⟨d, h1, h2⟩ := isDigits_getLast ds hd
      have hne : ds ≠ [] := by rintro rfl; simp at h1
      refine ⟨d, ?_, h2⟩
      rw [← h1]
      cases ds with
      | nil => exact absurd rfl hne
      | cons e es => simp [List.getLast?_cons_cons]
    split_ifs at h with h1 h2 h3 h4 h5
    · exact sign h2
    · exact sign h4
    · exact isDigits_getLast _ h5

/-- A decimal numeral has none of the suffixes `k`, `m`, `ms`, `h`. -/
theorem decimalInteger_no_suffix (s : Str) (n : Int) (h : decimalInteger s = some n) :
    strings.HasSuffix s "k".toList = false ∧ strings.HasSuffix s "m".toList = false ∧
    strings.HasSuffix s "ms".toList = false ∧ strings.HasSuffix s "h".toList = false := by
  obtain ⟨c, hc, hd⟩ := decimalInteger_getLast s n h
  refine ⟨HasSuffix_getLast s _ c 'k' hc rfl ?_, HasSuffix_getLast s _ c 'm' hc rfl ?_,
    HasSuffix_getLast s _ c 's' hc rfl ?_, HasSuffix_getLast s _ c 'h' hc rfl ?_⟩ <;>
  · rintro rfl
    revert hd
    decide

theorem HasSuffix_append_ne (t : Str) (a : Char) (suf : Str) (d : Char)
    (hsuf : suf.getLast? = some d) (had : a ≠ d) :
    strings.HasSuffix (t ++ [a]) suf = false :=
  HasSuffix_getLast _ _ a d (by simp) hsuf had

/-! ## C1: size values -/

/-- C1: in writer, reader and piper alike, the case `-s` of the argument loop
sets `size` to `n` bytes for the text `<n>`, to `n*1024` for `<n>k` and to
`n*1024*1024` for `<n>m`, for every decimal numeral `<n>` the parser accepts
(an optionally signed decimal integer `n` of the signed 32-bit range). -/
theorem C1_size_values (w : World) (text : Str) (n : Int)
    (h : decimalInteger text = some n) (hlo : -2 ^ 31 ≤ n) (hhi : n < 2 ^ 31) :
    (∀ v : writer.Vars,
      writer.argCase w v "-s".toList (some text) = .ok { v with skip := true, size := n } ∧
      writer.argCase w v "-s".toList (some (text ++ "k".toList)) =
        .ok { v with skip := true, size := n * 1024 } ∧
      writer.argCase w v "-s".toList (some (text ++ "m".toList)) =
        .ok { v with skip := true, size := n * 1024 * 1024 }) ∧
    (∀ v : reader.Vars,
      reader.argCase w v "-s".toList (some text) = .ok { v with skip := true, size := n } ∧
      reader.argCase w v "-s".toList (some (text ++ "k".toList)) =
        .ok { v with skip := true, size := n * 1024 } ∧
      reader.argCase w v "-s".toList (some (text ++ "m".toList)) =
        .ok { v with skip := true, size := n * 1024 * 1024 }) ∧
    (∀ v : piper.Vars,
      piper.argCase w v "-s".toList (some text) = .ok { v with skip := true, size := n } ∧
      piper.argCase w v "-s".toList (some (text ++ "k".toList)) =
        .ok { v with skip := true, size := n * 1024 } ∧
      piper.argCase w v "-s".toList (some (text ++ "m".toList)) =
        .ok { v with skip := true, size := n * 1024 * 1024 }) := by
  have hp := ParseInt_decimal text n h hlo hhi
  have hk : strings.HasSuffix text ['k'] = false := (decimalInteger_no_suffix text n h).1
  have hm : strings.HasSuffix text ['m'] = false := (decimalInteger_no_suffix text n h).2.1
  have hkk : strings.HasSuffix (text ++ ['k']) ['k'] = true := HasSuffix_append _ _
  have hmk : strings.HasSuffix (text ++ ['m']) ['k'] = false :=
    HasSuffix_append_ne text 'm' _ 'k' rfl (by decide)
  have hmm : strings.HasSuffix (text ++ ['m']) ['m'] = true := HasSuffix_append _ _
  have tk : strings.TrimSuffix (text ++ ['k']) ['k'] = text := TrimSuffix_append _ _
  have tm : strings.TrimSuffix (text ++ ['m']) ['m'] = text := TrimSuffix_append _ _
  have w1 : wrapInt64 n = n :=
    wrapInt64_of_range _ (by norm_num at hlo ⊢; omega) (by norm_num at hhi ⊢; omega)
  have w2 : wrapInt64 (n * 1024) = n * 1024 :=
    wrapInt64_of_range _ (by norm_num at hlo ⊢; omega) (by norm_num at hhi ⊢; omega)
  have w3 : wrapInt64 (n * 1048576) = n * 1024 * 1024 := by
    rw [wrapInt64_of_range _ (by norm_num at hlo ⊢; omega) (by norm_num at hhi ⊢; omega)]
    ring
  refine ⟨fun v => ⟨?_, ?_, ?_⟩, fun v => ⟨?_, ?_, ?_⟩, fun v => ⟨?_, ?_, ?_⟩⟩
  · simp [writer.argCase, writer.flag_s, hk, hm, hp, w1]
  · simp [writer.argCase, writer.flag_s, hkk, tk, hp, w2]
  · simp [writer.argCase, writer.flag_s, hmk, hmm, tm, hp, w3]
  · simp [reader.argCase, reader.flag_s, hk, hm, hp, w1]
  · simp [reader.argCase, reader.flag_s, hkk, tk, hp, w2]
  · simp [reader.argCase, reader.flag_s, hmk, hmm, tm, hp, w3]
  · simp [piper.argCase, piper.flag_s, hk, hm, hp, w1]
  · simp [piper.argCase, piper.flag_s, hkk, tk, hp, w2]
  · simp [piper.argCase, piper.flag_s, hmk, hmm, tm, hp, w3]

/-- C1 at the numeral `64`: `-s 64`, `-s 64k` and `-s 64m`. -/
theorem C1_size_values_witness :
    (decimalInteger "64".toList = some 64 ∧ (-2 ^ 31 : Int) ≤ 64 ∧ (64 : Int) < 2 ^ 31) ∧
    writer.argCase stillWorld {} "-s".toList (some "64k".toList) =
      .ok { skip := true, size := 65536 } :=
  ⟨by decide, ((C1_size_values stillWorld "64".toList 64 (by decide) (by decide) (by decide)).1 {}).2.1⟩

/-! ## C2: duration values -/

/-- C2, as stated, fails: `-t 200000000m` is a valid duration (a decimal
integer of the 32-bit range followed by `m`), and the timeout it yields is
not 200000000 minutes but the negative duration the 64-bit product wraps to. -/
theorem C2_counterexample :
    decimalInteger "200000000".toList = some 200000000 ∧
    writer.argCase stillWorld {} "-t".toList (some "200000000m".toList) =
      .ok { skip := true, timeout := -6446744073709551616 } ∧
    (-6446744073709551616 : Int) ≠ 200000000 * time.Minute := by
  refine ⟨by decide, ?_, by decide⟩
  rfl

theorem wrapInt64_of_fits (x : Int) (h : fitsInt64 x) : wrapInt64 x = x :=
  wrapInt64_of_range x h.1 h.2

/-- The suffix tests of the duration cases on a numeral followed by a suffix
the specification names. -/
theorem duration_suffix_tests (text : Str) (n : Int) (h : decimalInteger text = some n)
    (suffix : Str) (unit : Int) (hu : durationUnit suffix = some unit) :
    (if strings.HasSuffix (text ++ suffix) ['m', 's'] = true then
        (time.Millisecond, strings.TrimSuffix (text ++ suffix) ['m', 's'])
      else if strings.HasSuffix (text ++ suffix) ['m'] = true then
        (time.Minute, strings.TrimSuffix (text ++ suffix) ['m'])
      else if strings.HasSuffix (text ++ suffix) ['h'] = true then
        (time.Hour, strings.TrimSuffix (text ++ suffix) ['h'])
      else (time.Second, text ++ suffix)) = (unit, text) := by
  obtain ⟨-, hm, hms, hh⟩ := decimalInteger_no_suffix text n h
  unfold durationUnit at hu
  split_ifs at hu with h1 h2 h3 h4
  · subst h1
    have e : unit = time.Millisecond := (Option.some.inj hu).symm
    subst e
    have h1 : strings.HasSuffix (text ++ ['m', 's']) ['m', 's'] = true := HasSuffix_append _ _
    have h2 : strings.TrimSuffix (text ++ ['m', 's']) ['m', 's'] = text := TrimSuffix_append _ _
    rw [if_pos h1, h2]
  · subst h2
    have e : unit = time.Minute := (Option.some.inj hu).symm
    subst e
    have h1 : strings.HasSuffix (text ++ ['m']) ['m', 's'] = false :=
      HasSuffix_append_ne text 'm' _ 's' rfl (by decide)
    have h2 : strings.HasSuffix (text ++ ['m']) ['m'] = true := HasSuffix_append _ _
    have h3 : strings.TrimSuffix (text ++ ['m']) ['m'] = text := TrimSuffix_append _ _
    rw [if_neg (by simp [h1]), if_pos h2, h3]
  · subst h3
    have e : unit = time.Hour := (Option.some.inj hu).symm
    subst e
    have h1 : strings.HasSuffix (text ++ ['h']) ['m', 's'] = false :=
      HasSuffix_append_ne text 'h' _ 's' rfl (by decide)
    have h2 : strings.HasSuffix (text ++ ['h']) ['m'] = false :=
      HasSuffix_append_ne text 'h' _ 'm' rfl (by decide)
    have h3 : strings.HasSuffix (text ++ ['h']) ['h'] = true := HasSuffix_append _ _
    have h4 : strings.TrimSuffix (text ++ ['h']) ['h'] = text := TrimSuffix_append _ _
    rw [if_neg (by simp [h1]), if_neg (by simp [h2]), if_pos h3, h4]
  · subst h4
    have e : unit = time.Second := (Option.some.inj hu).symm
    subst e
    rw [List.append_nil]
    have hms' : strings.HasSuffix text ['m', 's'] = false := hms
    have hm' : strings.HasSuffix text ['m'] = false := hm
    have hh' : strings.HasSuffix text ['h'] = false := hh
    rw [if_neg (by simp [hms']), if_neg (by simp [hm']), if_neg (by simp [hh'])]

/-- C2, amended: for every decimal numeral `<n>` the parser accepts (an
optionally signed decimal integer of the signed 32-bit range) and every
suffix, whenever the product of `n` and the unit of the suffix lies in the
signed 64-bit range of a duration, each duration case of writer (`-d`, `-od`,
`-t`, `-sd`), of reader (`-d`, `-od`, `-ed`, `-t`, `-sd`) and of piper (`-d`,
`-od`, `-t`, `-sd`) sets its variable to `n` milliseconds for `<n>ms`, `n`
minutes for `<n>m`, `n` hours for `<n>h` and `n` seconds for `<n>`; with
milliseconds and seconds the product always lies in that range. -/
theorem C2_duration_values (w : World) (text : Str) (n : Int)
    (h : decimalInteger text = some n) (hlo : -2 ^ 31 ≤ n) (hhi : n < 2 ^ 31) :
    (fitsInt64 (n * time.Millisecond) ∧ fitsInt64 (n * time.Second)) ∧
    ∀ (suffix : Str) (unit : Int), durationUnit suffix = some unit → fitsInt64 (n * unit) →
      (∀ v : writer.Vars,
        writer.argCase w v "-d".toList (some (text ++ suffix)) =
          .ok { v with skip := true, delay := n * unit } ∧
        writer.argCase w v "-od".toList (some (text ++ suffix)) =
          .ok { v with skip := true, openDelay := n * unit } ∧
        writer.argCase w v "-t".toList (some (text ++ suffix)) =
          .ok { v with skip := true, timeout := n * unit } ∧
        writer.argCase w v "-sd".toList (some (text ++ suffix)) =
          .ok { v with skip := true, startDelay := n * unit }) ∧
      (∀ v : reader.Vars,
        reader.argCase w v "-d".toList (some (text ++ suffix)) =
          .ok { v with skip := true, delay := n * unit } ∧
        reader.argCase w v "-od".toList (some (text ++ suffix)) =
          .ok { v with skip := true, openDelay := n * unit } ∧
        reader.argCase w v "-ed".toList (some (text ++ suffix)) =
          .ok { v with skip := true, exitDelay := n * unit } ∧
        reader.argCase w v "-t".toList (some (text ++ suffix)) =
          .ok { v with skip := true, timeout := n * unit } ∧
        reader.argCase w v "-sd".toList (some (text ++ suffix)) =
          .ok { v with skip := true, startDelay := n * unit }) ∧
      (∀ v : piper.Vars,
        piper.argCase w v "-d".toList (some (text ++ suffix)) =
          .ok { v with skip := true, delay := n * unit } ∧
        piper.argCase w v "-od".toList (some (text ++ suffix)) =
          .ok { v with skip := true, openDelay := n * unit } ∧
        piper.argCase w v "-t".toList (some (text ++ suffix)) =
          .ok { v with skip := true, timeout := n * unit } ∧
        piper.argCase w v "-sd".toList (some (text ++ suffix)) =
          .ok { v with skip := true, startDelay := n * unit }) := by
  refine ⟨⟨?_, ?_⟩, ?_⟩
  · unfold fitsInt64 time.Millisecond
    norm_num at hlo hhi ⊢
    omega
  · unfold fitsInt64 time.Second time.Millisecond
    norm_num at hlo hhi ⊢
    omega
  · intro suffix unit hu hfit
    have hp := ParseInt_decimal text n h hlo hhi
    have ht := duration_suffix_tests text n h suffix unit hu
    have hw := wrapInt64_of_fits _ hfit
    refine ⟨fun v => ⟨?_, ?_, ?_, ?_⟩, fun v => ⟨?_, ?_, ?_, ?_, ?_⟩, fun v => ⟨?_, ?_, ?_, ?_⟩⟩
    · simp [writer.argCase, writer.flag_d, ht, hp, hw]
    · simp [writer.argCase, writer.flag_od, ht, hp, hw]
    · simp [writer.argCase, writer.flag_t, ht, hp, hw]
    · simp [writer.argCase, writer.flag_sd, ht, hp, hw]
    · simp [reader.argCase, reader.flag_d, ht, hp, hw]
    · simp [reader.argCase, reader.flag_od, ht, hp, hw]
    · simp [reader.argCase, reader.flag_ed, ht, hp, hw]
    · simp [reader.argCase, reader.flag_t, ht, hp, hw]
    · simp [reader.argCase, reader.flag_sd, ht, hp, hw]
    · simp [piper.argCase, piper.flag_d, ht, hp, hw]
    · simp [piper.argCase, piper.flag_od, ht, hp, hw]
    · simp [piper.argCase, piper.flag_t, ht, hp, hw]
    · simp [piper.argCase, piper.flag_sd, ht, hp, hw]

/-- C2 (amended) at the numeral `90`: `-ed 90m` in reader is 90 minutes, and
`-t 90ms` in piper is 90 milliseconds, not minutes. -/
theorem C2_duration_values_witness :
    (decimalInteger "90".toList = some 90 ∧ (-2 ^ 31 : Int) ≤ 90 ∧ (90 : Int) < 2 ^ 31 ∧
      durationUnit "m".toList = some time.Minute ∧ fitsInt64 (90 * time.Minute) ∧
      durationUnit "ms".toList = some time.Millisecond ∧ fitsInt64 (90 * time.Millisecond)) ∧
    reader.argCase stillWorld {} "-ed".toList (some "90m".toList) =
      .ok { skip := true, exitDelay := 90 * time.Minute } ∧
    piper.argCase stillWorld {} "-t".toList (some "90ms".toList) =
      .ok { skip := true, timeout := 90 * time.Millisecond } :=
  ⟨⟨by decide, by decide, by decide, rfl, ⟨by decide, by decide⟩, rfl, ⟨by decide, by decide⟩⟩,
    (((C2_duration_values stillWorld "90".toList 90 (by decide) (by decide) (by decide)).2
      "m".toList time.Minute rfl ⟨by decide, by decide⟩).2.1 {}).2.2.1,
    (((C2_duration_values stillWorld "90".toList 90 (by decide) (by decide) (by decide)).2
      "ms".toList time.Millisecond rfl ⟨by decide, by decide⟩).2.2 {}).2.2.1⟩

/-! ## C3: the byte total of the summary -/

theorem formatInt_natCast (b : Nat) : formatInt (b : Int) = (Nat.repr b).toList := by
  unfold formatInt
  rw [if_neg (by omega)]
  simp

theorem tdiv_natCast (b k : Nat) : Int.tdiv (b : Int) (k : Int) = ((b / k : Nat) : Int) :=
  (Int.ofNat_tdiv b k).symm

theorem banded_of_code (f : Int → Str)
    (hf : ∀ x : Int, f x =
      if x > 1024 * 1024 * 10 then
        formatInt (Int.tdiv (Int.tdiv x 1024) 1024) ++ " megabytes".toList
      else if x > 1024 * 10 then formatInt (Int.tdiv x 1024) ++ " kilobytes".toList
      else formatInt x ++ " bytes".toList) (b : Nat) : f (b : Int) = bandedTotal b := by
  rw [hf]
  unfold bandedTotal
  have e1 : Int.tdiv (b : Int) 1024 = ((b / 1024 : Nat) : Int) := tdiv_natCast b 1024
  have e2 : Int.tdiv ((b / 1024 : Nat) : Int) 1024 = ((b / 1024 / 1024 : Nat) : Int) :=
    tdiv_natCast (b / 1024) 1024
  by_cases h1 : b ≤ 10 * 1024
  · rw [if_neg (by omega), if_neg (by omega), if_pos h1, formatInt_natCast]
  · by_cases h2 : b ≤ 10 * 1024 * 1024
    · rw [if_neg (by omega), if_pos (by omega), if_neg h1, if_pos h2, e1, formatInt_natCast]
    · rw [if_pos (by omega), if_neg h1, if_neg h2, e1, e2, formatInt_natCast]

/-- C3: every non-negative byte total `b` is formatted, in the summaries of
reader, piper (both totals) and writer, as `<b> bytes` when `b ≤ 10*1024`, as
`<b/1024> kilobytes` when `10*1024 < b ≤ 10*1024*1024` and as
`<b/1024/1024> megabytes` above, with truncating division; so 5000 gives
`5000 bytes`, 20000 gives `19 kilobytes`, 20*1024*1024 gives `20 megabytes`
and the boundary 10240 gives `10240 bytes`. -/
theorem C3_byte_total_format (b : Nat) :
    (reader.bytesRead (b : Int) = bandedTotal b ∧ piper.bytesRead (b : Int) = bandedTotal b ∧
      piper.bytesWritten (b : Int) = bandedTotal b ∧
      writer.bytesWritten (b : Int) = bandedTotal b) ∧
    (reader.bytesRead 5000 = "5000 bytes".toList ∧
      reader.bytesRead 20000 = "19 kilobytes".toList ∧
      reader.bytesRead (20 * 1024 * 1024) = "20 megabytes".toList ∧
      reader.bytesRead 10240 = "10240 bytes".toList) ∧
    (writer.bytesWritten 5000 = "5000 bytes".toList ∧
      writer.bytesWritten 20000 = "19 kilobytes".toList ∧
      writer.bytesWritten (20 * 1024 * 1024) = "20 megabytes".toList ∧
      writer.bytesWritten 10240 = "10240 bytes".toList) ∧
    (piper.bytesRead 5000 = "5000 bytes".toList ∧
      piper.bytesWritten 20000 = "19 kilobytes".toList ∧
      piper.bytesRead (20 * 1024 * 1024) = "20 megabytes".toList ∧
      piper.bytesWritten 10240 = "10240 bytes".toList) := by
  refine ⟨⟨banded_of_code _ (fun _ => rfl) b, banded_of_code _ (fun _ => rfl) b,
    banded_of_code _ (fun _ => rfl) b, banded_of_code _ (fun _ => rfl) b⟩, ?_, ?_, ?_⟩
  · exact ⟨by decide, by decide, by decide, by decide⟩
  · exact ⟨by decide, by decide, by decide, by decide⟩
  · exact ⟨by decide, by decide, by decide, by decide⟩

/-! ## The argument loops -/

/-! ### The argument loop of writer -/

theorem writer_flag_f_ok (v v1 : writer.Vars) (next : Option Str)
    (h : writer.flag_f v next = .ok v1) :
    v1.skip = true ∧ next ≠ none ∧
      ((v1.trace = v.trace ∧ v1.log = v.log) ∨
        ∃ name, v1.trace = v.trace ++ [.Create name none]) := by
  unfold writer.flag_f at h
  cases next with
  | none => simp at h
  | some x =>
    simp only at h
    simp only [Res.ok.injEq] at h; subst h; simp

theorem writer_flag_f_done (v : writer.Vars) (next : Option Str) (r : Run)
    (h : writer.flag_f v next = .done r) (h3 : r.exit = .Code 3) :
    (∃ msg, r.trace = v.trace ++ [.Fprintf v.log (msg ++ "\nDo 'writer -h' for usage\n".toList)]) ∨
    ∃ name err msg, r.trace = v.trace ++
      [.Create name (some err), .Fprintf v.log (msg ++ "\nDo 'writer -h' for usage\n".toList)] := by
  unfold writer.flag_f at h
  cases next with
  | none => simp only [Res.done.injEq] at h; subst h; simp at h3
  | some x =>
    simp only at h
    simp only [reduceCtorEq] at h

theorem writer_flag_l_ok (w : World) (v v1 : writer.Vars) (next : Option Str)
    (h : writer.flag_l w v next = .ok v1) :
    v1.skip = true ∧ next ≠ none ∧
      ((v1.trace = v.trace ∧ v1.log = v.log) ∨
        ∃ name, v1.trace = v.trace ++ [.Create name none]) := by
  unfold writer.flag_l at h
  cases next with
  | none => simp at h
  | some x =>
    simp only at h
    split at h
    · simp at h
    · simp only [Res.ok.injEq] at h; subst h; simp

theorem writer_flag_l_done (w : World) (v : writer.Vars) (next : Option Str) (r : Run)
    (h : writer.flag_l w v next = .done r) (h3 : r.exit = .Code 3) :
    (∃ msg, r.trace = v.trace ++ [.Fprintf v.log (msg ++ "\nDo 'writer -h' for usage\n".toList)]) ∨
    ∃ name err msg, r.trace = v.trace ++
      [.Create name (some err), .Fprintf v.log (msg ++ "\nDo 'writer -h' for usage\n".toList)] := by
  unfold writer.flag_l at h
  cases next with
  | none => simp only [Res.done.injEq] at h; subst h; simp at h3
  | some x =>
    simp only at h
    split at h
    · simp only [Res.done.injEq, writer.handleError, writer.syntaxError, if_true] at h
      subst h
      exact Or.inr ⟨x, _, _, by rw [List.append_assoc]; rfl⟩
    · simp only [reduceCtorEq] at h

theorem writer_flag_s_ok (w : World) (v v1 : writer.Vars) (next : Option Str)
    (h : writer.flag_s w v next = .ok v1) :
    v1.skip = true ∧ next ≠ none ∧
      ((v1.trace = v.trace ∧ v1.log = v.log) ∨
        ∃ name, v1.trace = v.trace ++ [.Create name none]) := by
  unfold writer.flag_s at h
  cases next with
  | none => simp at h
  | some x =>
    simp only at h
    split at h
    · simp at h
    · simp only [Res.ok.injEq] at h; subst h; simp

theorem writer_flag_s_done (w : World) (v : writer.Vars) (next : Option Str) (r : Run)
    (h : writer.flag_s w v next = .done r) (h3 : r.exit = .Code 3) :
    (∃ msg, r.trace = v.trace ++ [.Fprintf v.log (msg ++ "\nDo 'writer -h' for usage\n".toList)]) ∨
    ∃ name err msg, r.trace = v.trace ++
      [.Create name (some err), .Fprintf v.log (msg ++ "\nDo 'writer -h' for usage\n".toList)] := by
  unfold writer.flag_s at h
  cases next with
  | none => simp only [Res.done.injEq] at h; subst h; simp at h3
  | some x =>
    simp only at h
    split at h
    · simp only [Res.done.injEq, writer.handleError, writer.syntaxError, if_true] at h
      subst h
      exact Or.inl ⟨_, rfl⟩
    · simp only [reduceCtorEq] at h

theorem writer_flag_c_ok (w : World) (v v1 : writer.Vars) (next : Option Str)
    (h : writer.flag_c w v next = .ok v1) :
    v1.skip = true ∧ next ≠ none ∧
      ((v1.trace = v.trace ∧ v1.log = v.log) ∨
        ∃ name, v1.trace = v.trace ++ [.Create name none]) := by
  unfold writer.flag_c at h
  cases next with
  | none => simp at h
  | some x =>
    simp only at h
    split at h
    · simp at h
    · simp only [Res.ok.injEq] at h; subst h; simp

theorem writer_flag_c_done (w : World) (v : writer.Vars) (next : Option Str) (r : Run)
    (h : writer.flag_c w v next = .done r) (h3 : r.exit = .Code 3) :
    (∃ msg, r.trace = v.trace ++ [.Fprintf v.log (msg ++ "\nDo 'writer -h' for usage\n".toList)]) ∨
    ∃ name err msg, r.trace = v.trace ++
      [.Create name (some err), .Fprintf v.log (msg ++ "\nDo 'writer -h' for usage\n".toList)] := by
  unfold writer.flag_c at h
  cases next with
  | none => simp only [Res.done.injEq] at h; subst h; simp at h3
  | some x =>
    simp only at h
    split at h
    · simp only [Res.done.injEq, writer.handleError, writer.syntaxError, if_true] at h
      subst h
      exact Or.inl ⟨_, rfl⟩
    · simp only [reduceCtorEq] at h

theorem writer_flag_d_ok (w : World) (v v1 : writer.Vars) (next : Option Str)
    (h : writer.flag_d w v next = .ok v1) :
    v1.skip = true ∧ next ≠ none ∧
      ((v1.trace = v.trace ∧ v1.log = v.log) ∨
        ∃ name, v1.trace = v.trace ++ [.Create name none]) := by
  unfold writer.flag_d at h
  cases next with
  | none => simp at h
  | some x =>
    simp only at h
    split at h
    · simp at h
    · simp only [Res.ok.injEq] at h; subst h; simp

theorem writer_flag_d_done (w : World) (v : writer.Vars) (next : Option Str) (r : Run)
    (h : writer.flag_d w v next = .done r) (h3 : r.exit = .Code 3) :
    (∃ msg, r.trace = v.trace ++ [.Fprintf v.log (msg ++ "\nDo 'writer -h' for usage\n".toList)]) ∨
    ∃ name err msg, r.trace = v.trace ++
      [.Create name (some err), .Fprintf v.log (msg ++ "\nDo 'writer -h' for usage\n".toList)] := by
  unfold writer.flag_d at h
  cases next with
  | none => simp only [Res.done.injEq] at h; subst h; simp at h3
  | some x =>
    simp only at h
    split at h
    · simp only [Res.done.injEq, writer.handleError, writer.syntaxError, if_true] at h
      subst h
      exact Or.inl ⟨_, rfl⟩
    · simp only [reduceCtorEq] at h

theorem writer_flag_od_ok (w : World) (v v1 : writer.Vars) (next : Option Str)
    (h : writer.flag_od w v next = .ok v1) :
    v1.skip = true ∧ next ≠ none ∧
      ((v1.trace = v.trace ∧ v1.log = v.log) ∨
        ∃ name, v1.trace = v.trace ++ [.Create name none]) := by
  unfold writer.flag_od at h
  cases next with
  | none => simp at h
  | some x =>
    simp only at h
    split at h
    · simp at h
    · simp only [Res.ok.injEq] at h; subst h; simp

theorem writer_flag_od_done (w : World) (v : writer.Vars) (next : Option Str) (r : Run)
    (h : writer.flag_od w v next = .done r) (h3 : r.exit = .Code 3) :
    (∃ msg, r.trace = v.trace ++ [.Fprintf v.log (msg ++ "\nDo 'writer -h' for usage\n".toList)]) ∨
    ∃ name err msg, r.trace = v.trace ++
      [.Create name (some err), .Fprintf v.log (msg ++ "\nDo 'writer -h' for usage\n".toList)] := by
  unfold writer.flag_od at h
  cases next with
  | none => simp only [Res.done.injEq] at h; subst h; simp at h3
  | some x =>
    simp only at h
    split at h
    · simp only [Res.done.injEq, writer.handleError, writer.syntaxError, if_true] at h
      subst h
      exact Or.inl ⟨_, rfl⟩
    · simp only [reduceCtorEq] at h

theorem writer_flag_t_ok (w : World) (v v1 : writer.Vars) (next : Option Str)
    (h : writer.flag_t w v next = .ok v1) :
    v1.skip = true ∧ next ≠ none ∧
      ((v1.trace = v.trace ∧ v1.log = v.log) ∨
        ∃ name, v1.trace = v.trace ++ [.Create name none]) := by
  unfold writer.flag_t at h
  cases next with
  | none => simp at h
  | some x =>
    simp only at h
    split at h
    · simp at h
    · simp only [Res.ok.injEq] at h; subst h; simp

theorem writer_flag_t_done (w : World) (v : writer.Vars) (next : Option Str) (r : Run)
    (h : writer.flag_t w v next = .done r) (h3 : r.exit = .Code 3) :
    (∃ msg, r.trace = v.trace ++ [.Fprintf v.log (msg ++ "\nDo 'writer -h' for usage\n".toList)]) ∨
    ∃ name err msg, r.trace = v.trace ++
      [.Create name (some err), .Fprintf v.log (msg ++ "\nDo 'writer -h' for usage\n".toList)] := by
  unfold writer.flag_t at h
  cases next with
  | none => simp only [Res.done.injEq] at h; subst h; simp at h3
  | some x =>
    simp only at h
    split at h
    · simp only [Res.done.injEq, writer.handleError, writer.syntaxError, if_true] at h
      subst h
      exact Or.inl ⟨_, rfl⟩
    · simp only [reduceCtorEq] at h

theorem writer_flag_sd_ok (w : World) (v v1 : writer.Vars) (next : Option Str)
    (h : writer.flag_sd w v next = .ok v1) :
    v1.skip = true ∧ next ≠ none ∧
      ((v1.trace = v.trace ∧ v1.log = v.log) ∨
        ∃ name, v1.trace = v.trace ++ [.Create name none]) := by
  unfold writer.flag_sd at h
  cases next with
  | none => simp at h
  | some x =>
    simp only at h
    split at h
    · simp at h
    · simp only [Res.ok.injEq] at h; subst h; simp

theorem writer_flag_sd_done (w : World) (v : writer.Vars) (next : Option Str) (r : Run)
    (h : writer.flag_sd w v next = .done r) (h3 : r.exit = .Code 3) :
    (∃ msg, r.trace = v.trace ++ [.Fprintf v.log (msg ++ "\nDo 'writer -h' for usage\n".toList)]) ∨
    ∃ name err msg, r.trace = v.trace ++
      [.Create name (some err), .Fprintf v.log (msg ++ "\nDo 'writer -h' for usage\n".toList)] := by
  unfold writer.flag_sd at h
  cases next with
  | none => simp only [Res.done.injEq] at h; subst h; simp at h3
  | some x =>
    simp only at h
    split at h
    · simp only [Res.done.injEq, writer.handleError, writer.syntaxError, if_true] at h
      subst h
      exact Or.inl ⟨_, rfl⟩
    · simp only [reduceCtorEq] at h

theorem writer_flag_rc_ok (w : World) (v v1 : writer.Vars) (next : Option Str)
    (h : writer.flag_rc w v next = .ok v1) :
    v1.skip = true ∧ next ≠ none ∧
      ((v1.trace = v.trace ∧ v1.log = v.log) ∨
        ∃ name, v1.trace = v.trace ++ [.Create name none]) := by
  unfold writer.flag_rc at h
  cases next with
  | none => simp at h
  | some x =>
    simp only at h
    split at h
    · simp at h
    · simp only [Res.ok.injEq] at h; subst h; simp

theorem writer_flag_rc_done (w : World) (v : writer.Vars) (next : Option Str) (r : Run)
    (h : writer.flag_rc w v next = .done r) (h3 : r.exit = .Code 3) :
    (∃ msg, r.trace = v.trace ++ [.Fprintf v.log (msg ++ "\nDo 'writer -h' for usage\n".toList)]) ∨
    ∃ name err msg, r.trace = v.trace ++
      [.Create name (some err), .Fprintf v.log (msg ++ "\nDo 'writer -h' for usage\n".toList)] := by
  unfold writer.flag_rc at h
  cases next with
  | none => simp only [Res.done.injEq] at h; subst h; simp at h3
  | some x =>
    simp only at h
    split at h
    · simp only [Res.done.injEq, writer.handleError, writer.syntaxError, if_true] at h
      subst h
      exact Or.inl ⟨_, rfl⟩
    · simp only [reduceCtorEq] at h

/-- Case analysis on the `switch` of writer. -/
theorem writer_argCase_elim (w : World) (v : writer.Vars) (a : Str) (next : Option Str)
    (P : Res writer.Vars → Prop)
    (h_f : a = "-f".toList → P (writer.flag_f v next))
    (h_l : a = "-l".toList → P (writer.flag_l w v next))
    (h_s : a = "-s".toList → P (writer.flag_s w v next))
    (h_c : a = "-c".toList → P (writer.flag_c w v next))
    (h_d : a = "-d".toList → P (writer.flag_d w v next))
    (h_od : a = "-od".toList → P (writer.flag_od w v next))
    (h_t : a = "-t".toList → P (writer.flag_t w v next))
    (h_sd : a = "-sd".toList → P (writer.flag_sd w v next))
    (h_rc : a = "-rc".toList → P (writer.flag_rc w v next))
    (h_h : a = "-h".toList → P (.done (writer.usage v.trace v.log)))
    (h_default : a ∉ writer.valueFlags ++ ["-h".toList] → P (.done (writer.handleError v.trace
      ("Invalid argument '".toList ++ a ++ "'\n".toList) v.log writer.syntaxError))) :
    P (writer.argCase w v a next) := by
  unfold writer.argCase
  by_cases c : a = "-f".toList
  · rw [if_pos c]; exact h_f c
  rw [if_neg c]
  rename' c => c_f
  by_cases c : a = "-l".toList
  · rw [if_pos c]; exact h_l c
  rw [if_neg c]
  rename' c => c_l
  by_cases c : a = "-s".toList
  · rw [if_pos c]; exact h_s c
  rw [if_neg c]
  rename' c => c_s
  by_cases c : a = "-c".toList
  · rw [if_pos c]; exact h_c c
  rw [if_neg c]
  rename' c => c_c
  by_cases c : a = "-d".toList
  · rw [if_pos c]; exact h_d c
  rw [if_neg c]
  rename' c => c_d
  by_cases c : a = "-od".toList
  · rw [if_pos c]; exact h_od c
  rw [if_neg c]
  rename' c => c_od
  by_cases c : a = "-t".toList
  · rw [if_pos c]; exact h_t c
  rw [if_neg c]
  rename' c => c_t
  by_cases c : a = "-sd".toList
  · rw [if_pos c]; exact h_sd c
  rw [if_neg c]
  rename' c => c_sd
  by_cases c : a = "-rc".toList
  · rw [if_pos c]; exact h_rc c
  rw [if_neg c]
  rename' c => c_rc
  by_cases c : a = "-h".toList
  · rw [if_pos c]; exact h_h c
  rw [if_neg c]
  refine h_default ?_
  simp only [writer.valueFlags, List.cons_append, List.nil_append, List.mem_cons, List.mem_singleton,
    List.not_mem_nil, or_false, not_or]
  exact ⟨c_f, c_l, c_s, c_c, c_d, c_od, c_t, c_sd, c_rc, c⟩

theorem writer_argCase_ok (w : World) (v v1 : writer.Vars) (a : Str) (next : Option Str)
    (h : writer.argCase w v a next = .ok v1) :
    v1.skip = true ∧ next ≠ none ∧
      ((v1.trace = v.trace ∧ v1.log = v.log) ∨
        ∃ name, v1.trace = v.trace ++ [.Create name none]) := by
  refine writer_argCase_elim w v a next (fun r => r = .ok v1 → _) ?_ ?_ ?_ ?_ ?_ ?_ ?_ ?_ ?_ ?_ ?_ h
  · exact fun _ => writer_flag_f_ok v v1 next
  · exact fun _ => writer_flag_l_ok w v v1 next
  · exact fun _ => writer_flag_s_ok w v v1 next
  · exact fun _ => writer_flag_c_ok w v v1 next
  · exact fun _ => writer_flag_d_ok w v v1 next
  · exact fun _ => writer_flag_od_ok w v v1 next
  · exact fun _ => writer_flag_t_ok w v v1 next
  · exact fun _ => writer_flag_sd_ok w v v1 next
  · exact fun _ => writer_flag_rc_ok w v v1 next
  · intro _ h; simp at h
  · intro _ h; simp at h

theorem writer_argCase_done (w : World) (v : writer.Vars) (a : Str) (next : Option Str) (r : Run)
    (h : writer.argCase w v a next = .done r) (h3 : r.exit = .Code 3) :
    (∃ msg, r.trace = v.trace ++ [.Fprintf v.log (msg ++ "\nDo 'writer -h' for usage\n".toList)]) ∨
    ∃ name err msg, r.trace = v.trace ++
      [.Create name (some err), .Fprintf v.log (msg ++ "\nDo 'writer -h' for usage\n".toList)] := by
  refine writer_argCase_elim w v a next (fun x => x = .done r → _) ?_ ?_ ?_ ?_ ?_ ?_ ?_ ?_ ?_ ?_ ?_ h
  · exact fun _ h => writer_flag_f_done v next r h h3
  · exact fun _ h => writer_flag_l_done w v next r h h3
  · exact fun _ h => writer_flag_s_done w v next r h h3
  · exact fun _ h => writer_flag_c_done w v next r h h3
  · exact fun _ h => writer_flag_d_done w v next r h h3
  · exact fun _ h => writer_flag_od_done w v next r h h3
  · exact fun _ h => writer_flag_t_done w v next r h h3
  · exact fun _ h => writer_flag_sd_done w v next r h h3
  · exact fun _ h => writer_flag_rc_done w v next r h h3
  · intro _ h; simp only [Res.done.injEq, writer.usage] at h; subst h; simp at h3
  · intro _ h
    simp only [Res.done.injEq, writer.handleError, writer.syntaxError, if_true] at h
    subst h
    exact Or.inl ⟨_, rfl⟩

/-- Arguments after a part of the list that the loop of writer passes, ending in
flag position, are handled as if the loop had started there. -/
theorem writer_argLoop_append (w : World) (pre rest : List Str) (v v1 : writer.Vars)
    (h : writer.argLoop w v pre = .ok v1) (hs : v1.skip = false) :
    writer.argLoop w v (pre ++ rest) = writer.argLoop w v1 rest := by
  induction pre generalizing v with
  | nil =>
    simp only [writer.argLoop, Res.ok.injEq] at h
    subst h
    rfl
  | cons a p ih =>
    simp only [List.cons_append, writer.argLoop] at h ⊢
    by_cases hskip : v.skip = true
    · rw [if_pos hskip] at h ⊢
      exact ih _ h
    · rw [if_neg hskip] at h ⊢
      cases hc : writer.argCase w v a p.head? with
      | done r => rw [hc] at h; simp at h
      | ok v2 =>
        rw [hc] at h
        simp only at h
        obtain ⟨hs2, hnext, -⟩ := writer_argCase_ok w v v2 a _ hc
        cases p with
        | nil => exact absurd rfl hnext
        | cons b q =>
          simp only [List.head?_cons] at hc
          show (match writer.argCase w v a (some b) with
            | .ok v1 => writer.argLoop w v1 (b :: q ++ rest)
            | .done r => .done r) = _
          rw [hc]
          exact ih _ h

/-- What the argument loop of writer has done when it hands over: it has created
the log files of the `-l` flags, and nothing else; with none created, the log
is still the initial one. -/
theorem writer_argLoop_inv (w : World) (args : List Str) (v v1 : writer.Vars)
    (h : writer.argLoop w v args = .ok v1)
    (ht : ∀ e ∈ v.trace, ∃ name, e = Event.Create name none)
    (hl : v.trace = [] → v.log = .Discard) :
    (∀ e ∈ v1.trace, ∃ name, e = Event.Create name none) ∧ (v1.trace = [] → v1.log = .Discard) := by
  induction args generalizing v with
  | nil =>
    simp only [writer.argLoop, Res.ok.injEq] at h
    subst h
    exact ⟨ht, hl⟩
  | cons a p ih =>
    simp only [writer.argLoop] at h
    by_cases hskip : v.skip = true
    · rw [if_pos hskip] at h
      exact ih _ h ht hl
    · rw [if_neg hskip] at h
      cases hc : writer.argCase w v a p.head? with
      | done r => rw [hc] at h; simp at h
      | ok v2 =>
        rw [hc] at h
        simp only at h
        obtain ⟨-, -, hstep⟩ := writer_argCase_ok w v v2 a _ hc
        rcases hstep with ⟨e1, e2⟩ | ⟨name, e1⟩
        · exact ih _ h (by rw [e1]; exact ht) (by rw [e1, e2]; exact hl)
        · refine ih _ h ?_ ?_
          · intro e he
            rw [e1, List.mem_append] at he
            rcases he with he | he
            · exact ht e he
            · exact ⟨name, by simpa using he⟩
          · intro hnil
            rw [e1] at hnil
            simp at hnil

/-- A syntax failure of the argument loop of writer with no `os.Create` call
before it: the run is one message, with the usage hint, printed to the initial
log. -/
theorem writer_argLoop_done (w : World) (args : List Str) (v : writer.Vars) (r : Run)
    (h : writer.argLoop w v args = .done r)
    (ht : ∀ e ∈ v.trace, ∃ name, e = Event.Create name none)
    (hl : v.trace = [] → v.log = .Discard)
    (h3 : r.exit = .Code 3) (hc : ∀ name err, Event.Create name err ∉ r.trace) :
    ∃ msg, r.trace = [.Fprintf .Discard (msg ++ "\nDo 'writer -h' for usage\n".toList)] := by
  induction args generalizing v with
  | nil => simp [writer.argLoop] at h
  | cons a p ih =>
    simp only [writer.argLoop] at h
    by_cases hskip : v.skip = true
    · rw [if_pos hskip] at h
      exact ih _ h ht hl
    · rw [if_neg hskip] at h
      cases hcase : writer.argCase w v a p.head? with
      | ok v2 =>
        rw [hcase] at h
        simp only at h
        obtain ⟨-, -, hstep⟩ := writer_argCase_ok w v v2 a _ hcase
        rcases hstep with ⟨e1, e2⟩ | ⟨name, e1⟩
        · exact ih _ h (by rw [e1]; exact ht) (by rw [e1, e2]; exact hl)
        · refine ih _ h ?_ ?_
          · intro e he
            rw [e1, List.mem_append] at he
            rcases he with he | he
            · exact ht e he
            · exact ⟨name, by simpa using he⟩
          · intro hnil
            rw [e1] at hnil
            simp at hnil
      | done r2 =>
        rw [hcase] at h
        simp only [Res.done.injEq] at h
        subst h
        have hnil : v.trace = [] := by
          cases hv : v.trace with
          | nil => rfl
          | cons e es =>
            exfalso
            obtain ⟨name, he⟩ := ht e (by rw [hv]; simp)
            rcases writer_argCase_done w v a _ r2 hcase h3 with ⟨msg, hr⟩ | ⟨n2, err, msg, hr⟩
            · exact hc name none (by rw [hr, hv, he]; simp)
            · exact hc name none (by rw [hr, hv, he]; simp)
        rcases writer_argCase_done w v a _ r2 hcase h3 with ⟨msg, hr⟩ | ⟨n2, err, msg, hr⟩
        · exact ⟨msg, by rw [hr, hnil, hl hnil]; rfl⟩
        · exact absurd (by rw [hr]; simp) (hc n2 (some err))

/-! ### The argument loop of reader -/

theorem reader_flag_f_ok (v v1 : reader.Vars) (next : Option Str)
    (h : reader.flag_f v next = .ok v1) :
    v1.skip = true ∧ next ≠ none ∧
      ((v1.trace = v.trace ∧ v1.log = v.log) ∨
        ∃ name, v1.trace = v.trace ++ [.Create name none]) := by
  unfold reader.flag_f at h
  cases next with
  | none => simp at h
  | some x =>
    simp only at h
    simp only [Res.ok.injEq] at h; subst h; simp

theorem reader_flag_f_done (v : reader.Vars) (next : Option Str) (r : Run)
    (h : reader.flag_f v next = .done r) (h3 : r.exit = .Code 3) :
    (∃ msg, r.trace = v.trace ++ [.Fprintf v.log (msg ++ "\nDo 'reader -h' for usage\n".toList)]) ∨
    ∃ name err msg, r.trace = v.trace ++
      [.Create name (some err), .Fprintf v.log (msg ++ "\nDo 'reader -h' for usage\n".toList)] := by
  unfold reader.flag_f at h
  cases next with
  | none => simp only [Res.done.injEq] at h; subst h; simp at h3
  | some x =>
    simp only at h
    simp only [reduceCtorEq] at h

theorem reader_flag_l_ok (w : World) (v v1 : reader.Vars) (next : Option Str)
    (h : reader.flag_l w v next = .ok v1) :
    v1.skip = true ∧ next ≠ none ∧
      ((v1.trace = v.trace ∧ v1.log = v.log) ∨
        ∃ name, v1.trace = v.trace ++ [.Create name none]) := by
  unfold reader.flag_l at h
  cases next with
  | none => simp at h
  | some x =>
    simp only at h
    split at h
    · simp at h
    · simp only [Res.ok.injEq] at h; subst h; simp

theorem reader_flag_l_done (w : World) (v : reader.Vars) (next : Option Str) (r : Run)
    (h : reader.flag_l w v next = .done r) (h3 : r.exit = .Code 3) :
    (∃ msg, r.trace = v.trace ++ [.Fprintf v.log (msg ++ "\nDo 'reader -h' for usage\n".toList)]) ∨
    ∃ name err msg, r.trace = v.trace ++
      [.Create name (some err), .Fprintf v.log (msg ++ "\nDo 'reader -h' for usage\n".toList)] := by
  unfold reader.flag_l at h
  cases next with
  | none => simp only [Res.done.injEq] at h; subst h; simp at h3
  | some x =>
    simp only at h
    split at h
    · simp only [Res.done.injEq, reader.handleError, reader.syntaxError, if_true] at h
      subst h
      exact Or.inr ⟨x, _, _, by rw [List.append_assoc]; rfl⟩
    · simp only [reduceCtorEq] at h

theorem reader_flag_s_ok (w : World) (v v1 : reader.Vars) (next : Option Str)
    (h : reader.flag_s w v next = .ok v1) :
    v1.skip = true ∧ next ≠ none ∧
      ((v1.trace = v.trace ∧ v1.log = v.log) ∨
        ∃ name, v1.trace = v.trace ++ [.Create name none]) := by
  unfold reader.flag_s at h
  cases next with
  | none => simp at h
  | some x =>
    simp only at h
    split at h
    · simp at h
    · simp only [Res.ok.injEq] at h; subst h; simp

theorem reader_flag_s_done (w : World) (v : reader.Vars) (next : Option Str) (r : Run)
    (h : reader.flag_s w v next = .done r) (h3 : r.exit = .Code 3) :
    (∃ msg, r.trace = v.trace ++ [.Fprintf v.log (msg ++ "\nDo 'reader -h' for usage\n".toList)]) ∨
    ∃ name err msg, r.trace = v.trace ++
      [.Create name (some err), .Fprintf v.log (msg ++ "\nDo 'reader -h' for usage\n".toList)] := by
  unfold reader.flag_s at h
  cases next with
  | none => simp only [Res.done.injEq] at h; subst h; simp at h3
  | some x =>
    simp only at h
    split at h
    · simp only [Res.done.injEq, reader.handleError, reader.syntaxError, if_true] at h
      subst h
      exact Or.inl ⟨_, rfl⟩
    · simp only [reduceCtorEq] at h

theorem reader_flag_c_ok (w : World) (v v1 : reader.Vars) (next : Option Str)
    (h : reader.flag_c w v next = .ok v1) :
    v1.skip = true ∧ next ≠ none ∧
      ((v1.trace = v.trace ∧ v1.log = v.log) ∨
        ∃ name, v1.trace = v.trace ++ [.Create name none]) := by
  unfold reader.flag_c at h
  cases next with
  | none => simp at h
  | some x =>
    simp only at h
    split at h
    · simp at h
    · simp only [Res.ok.injEq] at h; subst h; simp

theorem reader_flag_c_done (w : World) (v : reader.Vars) (next : Option Str) (r : Run)
    (h : reader.flag_c w v next = .done r) (h3 : r.exit = .Code 3) :
    (∃ msg, r.trace = v.trace ++ [.Fprintf v.log (msg ++ "\nDo 'reader -h' for usage\n".toList)]) ∨
    ∃ name err msg, r.trace = v.trace ++
      [.Create name (some err), .Fprintf v.log (msg ++ "\nDo 'reader -h' for usage\n".toList)] := by
  unfold reader.flag_c at h
  cases next with
  | none => simp only [Res.done.injEq] at h; subst h; simp at h3
  | some x =>
    simp only at h
    split at h
    · simp only [Res.done.injEq, reader.handleError, reader.syntaxError, if_true] at h
      subst h
      exact Or.inl ⟨_, rfl⟩
    · simp only [reduceCtorEq] at h

theorem reader_flag_d_ok (w : World) (v v1 : reader.Vars) (next : Option Str)
    (h : reader.flag_d w v next = .ok v1) :
    v1.skip = true ∧ next ≠ none ∧
      ((v1.trace = v.trace ∧ v1.log = v.log) ∨
        ∃ name, v1.trace = v.trace ++ [.Create name none]) := by
  unfold reader.flag_d at h
  cases next with
  | none => simp at h
  | some x =>
    simp only at h
    split at h
    · simp at h
    · simp only [Res.ok.injEq] at h; subst h; simp

theorem reader_flag_d_done (w : World) (v : reader.Vars) (next : Option Str) (r : Run)
    (h : reader.flag_d w v next = .done r) (h3 : r.exit = .Code 3) :
    (∃ msg, r.trace = v.trace ++ [.Fprintf v.log (msg ++ "\nDo 'reader -h' for usage\n".toList)]) ∨
    ∃ name err msg, r.trace = v.trace ++
      [.Create name (some err), .Fprintf v.log (msg ++ "\nDo 'reader -h' for usage\n".toList)] := by
  unfold reader.flag_d at h
  cases next with
  | none => simp only [Res.done.injEq] at h; subst h; simp at h3
  | some x =>
    simp only at h
    split at h
    · simp only [Res.done.injEq, reader.handleError, reader.syntaxError, if_true] at h
      subst h
      exact Or.inl ⟨_, rfl⟩
    · simp only [reduceCtorEq] at h

theorem reader_flag_od_ok (w : World) (v v1 : reader.Vars) (next : Option Str)
    (h : reader.flag_od w v next = .ok v1) :
    v1.skip = true ∧ next ≠ none ∧
      ((v1.trace = v.trace ∧ v1.log = v.log) ∨
        ∃ name, v1.trace = v.trace ++ [.Create name none]) := by
  unfold reader.flag_od at h
  cases next with
  | none => simp at h
  | some x =>
    simp only at h
    split at h
    · simp at h
    · simp only [Res.ok.injEq] at h; subst h; simp

theorem reader_flag_od_done (w : World) (v : reader.Vars) (next : Option Str) (r : Run)
    (h : reader.flag_od w v next = .done r) (h3 : r.exit = .Code 3) :
    (∃ msg, r.trace = v.trace ++ [.Fprintf v.log (msg ++ "\nDo 'reader -h' for usage\n".toList)]) ∨
    ∃ name err msg, r.trace = v.trace ++
      [.Create name (some err), .Fprintf v.log (msg ++ "\nDo 'reader -h' for usage\n".toList)] := by
  unfold reader.flag_od at h
  cases next with
  | none => simp only [Res.done.injEq] at h; subst h; simp at h3
  | some x =>
    simp only at h
    split at h
    · simp only [Res.done.injEq, reader.handleError, reader.syntaxError, if_true] at h
      subst h
      exact Or.inl ⟨_, rfl⟩
    · simp only [reduceCtorEq] at h

theorem reader_flag_ed_ok (w : World) (v v1 : reader.Vars) (next : Option Str)
    (h : reader.flag_ed w v next = .ok v1) :
    v1.skip = true ∧ next ≠ none ∧
      ((v1.trace = v.trace ∧ v1.log = v.log) ∨
        ∃ name, v1.trace = v.trace ++ [.Create name none]) := by
  unfold reader.flag_ed at h
  cases next with
  | none => simp at h
  | some x =>
    simp only at h
    split at h
    · simp at h
    · simp only [Res.ok.injEq] at h; subst h; simp

theorem reader_flag_ed_done (w : World) (v : reader.Vars) (next : Option Str) (r : Run)
    (h : reader.flag_ed w v next = .done r) (h3 : r.exit = .Code 3) :
    (∃ msg, r.trace = v.trace ++ [.Fprintf v.log (msg ++ "\nDo 'reader -h' for usage\n".toList)]) ∨
    ∃ name err msg, r.trace = v.trace ++
      [.Create name (some err), .Fprintf v.log (msg ++ "\nDo 'reader -h' for usage\n".toList)] := by
  unfold reader.flag_ed at h
  cases next with
  | none => simp only [Res.done.injEq] at h; subst h; simp at h3
  | some x =>
    simp only at h
    split at h
    · simp only [Res.done.injEq, reader.handleError, reader.syntaxError, if_true] at h
      subst h
      exact Or.inl ⟨_, rfl⟩
    · simp only [reduceCtorEq] at h

theorem reader_flag_t_ok (w : World) (v v1 : reader.Vars) (next : Option Str)
    (h : reader.flag_t w v next = .ok v1) :
    v1.skip = true ∧ next ≠ none ∧
      ((v1.trace = v.trace ∧ v1.log = v.log) ∨
        ∃ name, v1.trace = v.trace ++ [.Create name none]) := by
  unfold reader.flag_t at h
  cases next with
  | none => simp at h
  | some x =>
    simp only at h
    split at h
    · simp at h
    · simp only [Res.ok.injEq] at h; subst h; simp

theorem reader_flag_t_done (w : World) (v : reader.Vars) (next : Option Str) (r : Run)
    (h : reader.flag_t w v next = .done r) (h3 : r.exit = .Code 3) :
    (∃ msg, r.trace = v.trace ++ [.Fprintf v.log (msg ++ "\nDo 'reader -h' for usage\n".toList)]) ∨
    ∃ name err msg, r.trace = v.trace ++
      [.Create name (some err), .Fprintf v.log (msg ++ "\nDo 'reader -h' for usage\n".toList)] := by
  unfold reader.flag_t at h
  cases next with
  | none => simp only [Res.done.injEq] at h; subst h; simp at h3
  | some x =>
    simp only at h
    split at h
    · simp only [Res.done.injEq, reader.handleError, reader.syntaxError, if_true] at h
      subst h
      exact Or.inl ⟨_, rfl⟩
    · simp only [reduceCtorEq] at h

theorem reader_flag_sd_ok (w : World) (v v1 : reader.Vars) (next : Option Str)
    (h : reader.flag_sd w v next = .ok v1) :
    v1.skip = true ∧ next ≠ none ∧
      ((v1.trace = v.trace ∧ v1.log = v.log) ∨
        ∃ name, v1.trace = v.trace ++ [.Create name none]) := by
  unfold reader.flag_sd at h
  cases next with
  | none => simp at h
  | some x =>
    simp only at h
    split at h
    · simp at h
    · simp only [Res.ok.injEq] at h; subst h; simp

theorem reader_flag_sd_done (w : World) (v : reader.Vars) (next : Option Str) (r : Run)
    (h : reader.flag_sd w v next = .done r) (h3 : r.exit = .Code 3) :
    (∃ msg, r.trace = v.trace ++ [.Fprintf v.log (msg ++ "\nDo 'reader -h' for usage\n".toList)]) ∨
    ∃ name err msg, r.trace = v.trace ++
      [.Create name (some err), .Fprintf v.log (msg ++ "\nDo 'reader -h' for usage\n".toList)] := by
  unfold reader.flag_sd at h
  cases next with
  | none => simp only [Res.done.injEq] at h; subst h; simp at h3
  | some x =>
    simp only at h
    split at h
    · simp only [Res.done.injEq, reader.handleError, reader.syntaxError, if_true] at h
      subst h
      exact Or.inl ⟨_, rfl⟩
    · simp only [reduceCtorEq] at h

theorem reader_flag_rc_ok (w : World) (v v1 : reader.Vars) (next : Option Str)
    (h : reader.flag_rc w v next = .ok v1) :
    v1.skip = true ∧ next ≠ none ∧
      ((v1.trace = v.trace ∧ v1.log = v.log) ∨
        ∃ name, v1.trace = v.trace ++ [.Create name none]) := by
  unfold reader.flag_rc at h
  cases next with
  | none => simp at h
  | some x =>
    simp only at h
    split at h
    · simp at h
    · simp only [Res.ok.injEq] at h; subst h; simp

theorem reader_flag_rc_done (w : World) (v : reader.Vars) (next : Option Str) (r : Run)
    (h : reader.flag_rc w v next = .done r) (h3 : r.exit = .Code 3) :
    (∃ msg, r.trace = v.trace ++ [.Fprintf v.log (msg ++ "\nDo 'reader -h' for usage\n".toList)]) ∨
    ∃ name err msg, r.trace = v.trace ++
      [.Create name (some err), .Fprintf v.log (msg ++ "\nDo 'reader -h' for usage\n".toList)] := by
  unfold reader.flag_rc at h
  cases next with
  | none => simp only [Res.done.injEq] at h; subst h; simp at h3
  | some x =>
    simp only at h
    split at h
    · simp only [Res.done.injEq, reader.handleError, reader.syntaxError, if_true] at h
      subst h
      exact Or.inl ⟨_, rfl⟩
    · simp only [reduceCtorEq] at h

/-- Case analysis on the `switch` of reader. -/
theorem reader_argCase_elim (w : World) (v : reader.Vars) (a : Str) (next : Option Str)
    (P : Res reader.Vars → Prop)
    (h_f : a = "-f".toList → P (reader.flag_f v next))
    (h_l : a = "-l".toList → P (reader.flag_l w v next))
    (h_s : a = "-s".toList → P (reader.flag_s w v next))
    (h_c : a = "-c".toList → P (reader.flag_c w v next))
    (h_d : a = "-d".toList → P (reader.flag_d w v next))
    (h_od : a = "-od".toList → P (reader.flag_od w v next))
    (h_ed : a = "-ed".toList → P (reader.flag_ed w v next))
    (h_t : a = "-t".toList → P (reader.flag_t w v next))
    (h_sd : a = "-sd".toList → P (reader.flag_sd w v next))
    (h_rc : a = "-rc".toList → P (reader.flag_rc w v next))
    (h_h : a = "-h".toList → P (.done (reader.usage v.trace v.log)))
    (h_default : a ∉ reader.valueFlags ++ ["-h".toList] → P (.done (reader.handleError v.trace
      ("Invalid argument '".toList ++ a ++ "'\n".toList) v.log reader.syntaxError))) :
    P (reader.argCase w v a next) := by
  unfold reader.argCase
  by_cases c : a = "-f".toList
  · rw [if_pos c]; exact h_f c
  rw [if_neg c]
  rename' c => c_f
  by_cases c : a = "-l".toList
  · rw [if_pos c]; exact h_l c
  rw [if_neg c]
  rename' c => c_l
  by_cases c : a = "-s".toList
  · rw [if_pos c]; exact h_s c
  rw [if_neg c]
  rename' c => c_s
  by_cases c : a = "-c".toList
  · rw [if_pos c]; exact h_c c
  rw [if_neg c]
  rename' c => c_c
  by_cases c : a = "-d".toList
  · rw [if_pos c]; exact h_d c
  rw [if_neg c]
  rename' c => c_d
  by_cases c : a = "-od".toList
  · rw [if_pos c]; exact h_od c
  rw [if_neg c]
  rename' c => c_od
  by_cases c : a = "-ed".toList
  · rw [if_pos c]; exact h_ed c
  rw [if_neg c]
  rename' c => c_ed
  by_cases c : a = "-t".toList
  · rw [if_pos c]; exact h_t c
  rw [if_neg c]
  rename' c => c_t
  by_cases c : a = "-sd".toList
  · rw [if_pos c]; exact h_sd c
  rw [if_neg c]
  rename' c => c_sd
  by_cases c : a = "-rc".toList
  · rw [if_pos c]; exact h_rc c
  rw [if_neg c]
  rename' c => c_rc
  by_cases c : a = "-h".toList
  · rw [if_pos c]; exact h_h c
  rw [if_neg c]
  refine h_default ?_
  simp only [reader.valueFlags, List.cons_append, List.nil_append, List.mem_cons, List.mem_singleton,
    List.not_mem_nil, or_false, not_or]
  exact ⟨c_f, c_l, c_s, c_c, c_d, c_od, c_ed, c_t, c_sd, c_rc, c⟩

theorem reader_argCase_ok (w : World) (v v1 : reader.Vars) (a : Str) (next : Option Str)
    (h : reader.argCase w v a next = .ok v1) :
    v1.skip = true ∧ next ≠ none ∧
      ((v1.trace = v.trace ∧ v1.log = v.log) ∨
        ∃ name, v1.trace = v.trace ++ [.Create name none]) := by
  refine reader_argCase_elim w v a next (fun r => r = .ok v1 → _) ?_ ?_ ?_ ?_ ?_ ?_ ?_ ?_ ?_ ?_ ?_ ?_ h
  · exact fun _ => reader_flag_f_ok v v1 next
  · exact fun _ => reader_flag_l_ok w v v1 next
  · exact fun _ => reader_flag_s_ok w v v1 next
  · exact fun _ => reader_flag_c_ok w v v1 next
  · exact fun _ => reader_flag_d_ok w v v1 next
  · exact fun _ => reader_flag_od_ok w v v1 next
  · exact fun _ => reader_flag_ed_ok w v v1 next
  · exact fun _ => reader_flag_t_ok w v v1 next
  · exact fun _ => reader_flag_sd_ok w v v1 next
  · exact fun _ => reader_flag_rc_ok w v v1 next
  · intro _ h; simp at h
  · intro _ h; simp at h

theorem reader_argCase_done (w : World) (v : reader.Vars) (a : Str) (next : Option Str) (r : Run)
    (h : reader.argCase w v a next = .done r) (h3 : r.exit = .Code 3) :
    (∃ msg, r.trace = v.trace ++ [.Fprintf v.log (msg ++ "\nDo 'reader -h' for usage\n".toList)]) ∨
    ∃ name err msg, r.trace = v.trace ++
      [.Create name (some err), .Fprintf v.log (msg ++ "\nDo 'reader -h' for usage\n".toList)] := by
  refine reader_argCase_elim w v a next (fun x => x = .done r → _) ?_ ?_ ?_ ?_ ?_ ?_ ?_ ?_ ?_ ?_ ?_ ?_ h
  · exact fun _ h => reader_flag_f_done v next r h h3
  · exact fun _ h => reader_flag_l_done w v next r h h3
  · exact fun _ h => reader_flag_s_done w v next r h h3
  · exact fun _ h => reader_flag_c_done w v next r h h3
  · exact fun _ h => reader_flag_d_done w v next r h h3
  · exact fun _ h => reader_flag_od_done w v next r h h3
  · exact fun _ h => reader_flag_ed_done w v next r h h3
  · exact fun _ h => reader_flag_t_done w v next r h h3
  · exact fun _ h => reader_flag_sd_done w v next r h h3
  · exact fun _ h => reader_flag_rc_done w v next r h h3
  · intro _ h; simp only [Res.done.injEq, reader.usage] at h; subst h; simp at h3
  · intro _ h
    simp only [Res.done.injEq, reader.handleError, reader.syntaxError, if_true] at h
    subst h
    exact Or.inl ⟨_, rfl⟩

/-- Arguments after a part of the list that the loop of reader passes, ending in
flag position, are handled as if the loop had started there. -/
theorem reader_argLoop_append (w : World) (pre rest : List Str) (v v1 : reader.Vars)
    (h : reader.argLoop w v pre = .ok v1) (hs : v1.skip = false) :
    reader.argLoop w v (pre ++ rest) = reader.argLoop w v1 rest := by
  induction pre generalizing v with
  | nil =>
    simp only [reader.argLoop, Res.ok.injEq] at h
    subst h
    rfl
  | cons a p ih =>
    simp only [List.cons_append, reader.argLoop] at h ⊢
    by_cases hskip : v.skip = true
    · rw [if_pos hskip] at h ⊢
      exact ih _ h
    · rw [if_neg hskip] at h ⊢
      cases hc : reader.argCase w v a p.head? with
      | done r => rw [hc] at h; simp at h
      | ok v2 =>
        rw [hc] at h
        simp only at h
        obtain ⟨hs2, hnext, -⟩ := reader_argCase_ok w v v2 a _ hc
        cases p with
        | nil => exact absurd rfl hnext
        | cons b q =>
          simp only [List.head?_cons] at hc
          show (match reader.argCase w v a (some b) with
            | .ok v1 => reader.argLoop w v1 (b :: q ++ rest)
            | .done r => .done r) = _
          rw [hc]
          exact ih _ h

/-- What the argument loop of reader has done when it hands over: it has created
the log files of the `-l` flags, and nothing else; with none created, the log
is still the initial one. -/
theorem reader_argLoop_inv (w : World) (args : List Str) (v v1 : reader.Vars)
    (h : reader.argLoop w v args = .ok v1)
    (ht : ∀ e ∈ v.trace, ∃ name, e = Event.Create name none)
    (hl : v.trace = [] → v.log = .Std) :
    (∀ e ∈ v1.trace, ∃ name, e = Event.Create name none) ∧ (v1.trace = [] → v1.log = .Std) := by
  induction args generalizing v with
  | nil =>
    simp only [reader.argLoop, Res.ok.injEq] at h
    subst h
    exact ⟨ht, hl⟩
  | cons a p ih =>
    simp only [reader.argLoop] at h
    by_cases hskip : v.skip = true
    · rw [if_pos hskip] at h
      exact ih _ h ht hl
    · rw [if_neg hskip] at h
      cases hc : reader.argCase w v a p.head? with
      | done r => rw [hc] at h; simp at h
      | ok v2 =>
        rw [hc] at h
        simp only at h
        obtain ⟨-, -, hstep⟩ := reader_argCase_ok w v v2 a _ hc
        rcases hstep with ⟨e1, e2⟩ | ⟨name, e1⟩
        · exact ih _ h (by rw [e1]; exact ht) (by rw [e1, e2]; exact hl)
        · refine ih _ h ?_ ?_
          · intro e he
            rw [e1, List.mem_append] at he
            rcases he with he | he
            · exact ht e he
            · exact ⟨name, by simpa using he⟩
          · intro hnil
            rw [e1] at hnil
            simp at hnil

/-- A syntax failure of the argument loop of reader with no `os.Create` call
before it: the run is one message, with the usage hint, printed to the initial
log. -/
theorem reader_argLoop_done (w : World) (args : List Str) (v : reader.Vars) (r : Run)
    (h : reader.argLoop w v args = .done r)
    (ht : ∀ e ∈ v.trace, ∃ name, e = Event.Create name none)
    (hl : v.trace = [] → v.log = .Std)
    (h3 : r.exit = .Code 3) (hc : ∀ name err, Event.Create name err ∉ r.trace) :
    ∃ msg, r.trace = [.Fprintf .Std (msg ++ "\nDo 'reader -h' for usage\n".toList)] := by
  induction args generalizing v with
  | nil => simp [reader.argLoop] at h
  | cons a p ih =>
    simp only [reader.argLoop] at h
    by_cases hskip : v.skip = true
    · rw [if_pos hskip] at h
      exact ih _ h ht hl
    · rw [if_neg hskip] at h
      cases hcase : reader.argCase w v a p.head? with
      | ok v2 =>
        rw [hcase] at h
        simp only at h
        obtain ⟨-, -, hstep⟩ := reader_argCase_ok w v v2 a _ hcase
        rcases hstep with ⟨e1, e2⟩ | ⟨name, e1⟩
        · exact ih _ h (by rw [e1]; exact ht) (by rw [e1, e2]; exact hl)
        · refine ih _ h ?_ ?_
          · intro e he
            rw [e1, List.mem_append] at he
            rcases he with he | he
            · exact ht e he
            · exact ⟨name, by simpa using he⟩
          · intro hnil
            rw [e1] at hnil
            simp at hnil
      | done r2 =>
        rw [hcase] at h
        simp only [Res.done.injEq] at h
        subst h
        have hnil : v.trace = [] := by
          cases hv : v.trace with
          | nil => rfl
          | cons e es =>
            exfalso
            obtain ⟨name, he⟩ := ht e (by rw [hv]; simp)
            rcases reader_argCase_done w v a _ r2 hcase h3 with ⟨msg, hr⟩ | ⟨n2, err, msg, hr⟩
            · exact hc name none (by rw [hr, hv, he]; simp)
            · exact hc name none (by rw [hr, hv, he]; simp)
        rcases reader_argCase_done w v a _ r2 hcase h3 with ⟨msg, hr⟩ | ⟨n2, err, msg, hr⟩
        · exact ⟨msg, by rw [hr, hnil, hl hnil]; rfl⟩
        · exact absurd (by rw [hr]; simp) (hc n2 (some err))

/-! ### The argument loop of piper -/

theorem piper_flag_i_ok (v v1 : piper.Vars) (next : Option Str)
    (h : piper.flag_i v next = .ok v1) :
    v1.skip = true ∧ next ≠ none ∧
      ((v1.trace = v.trace ∧ v1.log = v.log) ∨
        ∃ name, v1.trace = v.trace ++ [.Create name none]) := by
  unfold piper.flag_i at h
  cases next with
  | none => simp at h
  | some x =>
    simp only at h
    simp only [Res.ok.injEq] at h; subst h; simp

theorem piper_flag_i_done (v : piper.Vars) (next : Option Str) (r : Run)
    (h : piper.flag_i v next = .done r) (h3 : r.exit = .Code 3) :
    (∃ msg, r.trace = v.trace ++ [.Fprintf v.log (msg ++ "\nDo 'writer -h' for usage\n".toList)]) ∨
    ∃ name err msg, r.trace = v.trace ++
      [.Create name (some err), .Fprintf v.log (msg ++ "\nDo 'writer -h' for usage\n".toList)] := by
  unfold piper.flag_i at h
  cases next with
  | none => simp only [Res.done.injEq] at h; subst h; simp at h3
  | some x =>
    simp only at h
    simp only [reduceCtorEq] at h

theorem piper_flag_o_ok (v v1 : piper.Vars) (next : Option Str)
    (h : piper.flag_o v next = .ok v1) :
    v1.skip = true ∧ next ≠ none ∧
      ((v1.trace = v.trace ∧ v1.log = v.log) ∨
        ∃ name, v1.trace = v.trace ++ [.Create name none]) := by
  unfold piper.flag_o at h
  cases next with
  | none => simp at h
  | some x =>
    simp only at h
    simp only [Res.ok.injEq] at h; subst h; simp

theorem piper_flag_o_done (v : piper.Vars) (next : Option Str) (r : Run)
    (h : piper.flag_o v next = .done r) (h3 : r.exit = .Code 3) :
    (∃ msg, r.trace = v.trace ++ [.Fprintf v.log (msg ++ "\nDo 'writer -h' for usage\n".toList)]) ∨
    ∃ name err msg, r.trace = v.trace ++
      [.Create name (some err), .Fprintf v.log (msg ++ "\nDo 'writer -h' for usage\n".toList)] := by
  unfold piper.flag_o at h
  cases next with
  | none => simp only [Res.done.injEq] at h; subst h; simp at h3
  | some x =>
    simp only at h
    simp only [reduceCtorEq] at h

theorem piper_flag_l_ok (w : World) (v v1 : piper.Vars) (next : Option Str)
    (h : piper.flag_l w v next = .ok v1) :
    v1.skip = true ∧ next ≠ none ∧
      ((v1.trace = v.trace ∧ v1.log = v.log) ∨
        ∃ name, v1.trace = v.trace ++ [.Create name none]) := by
  unfold piper.flag_l at h
  cases next with
  | none => simp at h
  | some x =>
    simp only at h
    split at h
    · simp at h
    · simp only [Res.ok.injEq] at h; subst h; simp

theorem piper_flag_l_done (w : World) (v : piper.Vars) (next : Option Str) (r : Run)
    (h : piper.flag_l w v next = .done r) (h3 : r.exit = .Code 3) :
    (∃ msg, r.trace = v.trace ++ [.Fprintf v.log (msg ++ "\nDo 'writer -h' for usage\n".toList)]) ∨
    ∃ name err msg, r.trace = v.trace ++
      [.Create name (some err), .Fprintf v.log (msg ++ "\nDo 'writer -h' for usage\n".toList)] := by
  unfold piper.flag_l at h
  cases next with
  | none => simp only [Res.done.injEq] at h; subst h; simp at h3
  | some x =>
    simp only at h
    split at h
    · simp only [Res.done.injEq, piper.handleError, piper.syntaxError, if_true] at h
      subst h
      exact Or.inr ⟨x, _, _, by rw [List.append_assoc]; rfl⟩
    · simp only [reduceCtorEq] at h

theorem piper_flag_s_ok (w : World) (v v1 : piper.Vars) (next : Option Str)
    (h : piper.flag_s w v next = .ok v1) :
    v1.skip = true ∧ next ≠ none ∧
      ((v1.trace = v.trace ∧ v1.log = v.log) ∨
        ∃ name, v1.trace = v.trace ++ [.Create name none]) := by
  unfold piper.flag_s at h
  cases next with
  | none => simp at h
  | some x =>
    simp only at h
    split at h
    · simp at h
    · simp only [Res.ok.injEq] at h; subst h; simp

theorem piper_flag_s_done (w : World) (v : piper.Vars) (next : Option Str) (r : Run)
    (h : piper.flag_s w v next = .done r) (h3 : r.exit = .Code 3) :
    (∃ msg, r.trace = v.trace ++ [.Fprintf v.log (msg ++ "\nDo 'writer -h' for usage\n".toList)]) ∨
    ∃ name err msg, r.trace = v.trace ++
      [.Create name (some err), .Fprintf v.log (msg ++ "\nDo 'writer -h' for usage\n".toList)] := by
  unfold piper.flag_s at h
  cases next with
  | none => simp only [Res.done.injEq] at h; subst h; simp at h3
  | some x =>
    simp only at h
    split at h
    · simp only [Res.done.injEq, piper.handleError, piper.syntaxError, if_true] at h
      subst h
      exact Or.inl ⟨_, rfl⟩
    · simp only [reduceCtorEq] at h

theorem piper_flag_c_ok (w : World) (v v1 : piper.Vars) (next : Option Str)
    (h : piper.flag_c w v next = .ok v1) :
    v1.skip = true ∧ next ≠ none ∧
      ((v1.trace = v.trace ∧ v1.log = v.log) ∨
        ∃ name, v1.trace = v.trace ++ [.Create name none]) := by
  unfold piper.flag_c at h
  cases next with
  | none => simp at h
  | some x =>
    simp only at h
    split at h
    · simp at h
    · simp only [Res.ok.injEq] at h; subst h; simp

theorem piper_flag_c_done (w : World) (v : piper.Vars) (next : Option Str) (r : Run)
    (h : piper.flag_c w v next = .done r) (h3 : r.exit = .Code 3) :
    (∃ msg, r.trace = v.trace ++ [.Fprintf v.log (msg ++ "\nDo 'writer -h' for usage\n".toList)]) ∨
    ∃ name err msg, r.trace = v.trace ++
      [.Create name (some err), .Fprintf v.log (msg ++ "\nDo 'writer -h' for usage\n".toList)] := by
  unfold piper.flag_c at h
  cases next with
  | none => simp only [Res.done.injEq] at h; subst h; simp at h3
  | some x =>
    simp only at h
    split at h
    · simp only [Res.done.injEq, piper.handleError, piper.syntaxError, if_true] at h
      subst h
      exact Or.inl ⟨_, rfl⟩
    · simp only [reduceCtorEq] at h

theorem piper_flag_d_ok (w : World) (v v1 : piper.Vars) (next : Option Str)
    (h : piper.flag_d w v next = .ok v1) :
    v1.skip = true ∧ next ≠ none ∧
      ((v1.trace = v.trace ∧ v1.log = v.log) ∨
        ∃ name, v1.trace = v.trace ++ [.Create name none]) := by
  unfold piper.flag_d at h
  cases next with
  | none => simp at h
  | some x =>
    simp only at h
    split at h
    · simp at h
    · simp only [Res.ok.injEq] at h; subst h; simp

theorem piper_flag_d_done (w : World) (v : piper.Vars) (next : Option Str) (r : Run)
    (h : piper.flag_d w v next = .done r) (h3 : r.exit = .Code 3) :
    (∃ msg, r.trace = v.trace ++ [.Fprintf v.log (msg ++ "\nDo 'writer -h' for usage\n".toList)]) ∨
    ∃ name err msg, r.trace = v.trace ++
      [.Create name (some err), .Fprintf v.log (msg ++ "\nDo 'writer -h' for usage\n".toList)] := by
  unfold piper.flag_d at h
  cases next with
  | none => simp only [Res.done.injEq] at h; subst h; simp at h3
  | some x =>
    simp only at h
    split at h
    · simp only [Res.done.injEq, piper.handleError, piper.syntaxError, if_true] at h
      subst h
      exact Or.inl ⟨_, rfl⟩
    · simp only [reduceCtorEq] at h

theorem piper_flag_od_ok (w : World) (v v1 : piper.Vars) (next : Option Str)
    (h : piper.flag_od w v next = .ok v1) :
    v1.skip = true ∧ next ≠ none ∧
      ((v1.trace = v.trace ∧ v1.log = v.log) ∨
        ∃ name, v1.trace = v.trace ++ [.Create name none]) := by
  unfold piper.flag_od at h
  cases next with
  | none => simp at h
  | some x =>
    simp only at h
    split at h
    · simp at h
    · simp only [Res.ok.injEq] at h; subst h; simp

theorem piper_flag_od_done (w : World) (v : piper.Vars) (next : Option Str) (r : Run)
    (h : piper.flag_od w v next = .done r) (h3 : r.exit = .Code 3) :
    (∃ msg, r.trace = v.trace ++ [.Fprintf v.log (msg ++ "\nDo 'writer -h' for usage\n".toList)]) ∨
    ∃ name err msg, r.trace = v.trace ++
      [.Create name (some err), .Fprintf v.log (msg ++ "\nDo 'writer -h' for usage\n".toList)] := by
  unfold piper.flag_od at h
  cases next with
  | none => simp only [Res.done.injEq] at h; subst h; simp at h3
  | some x =>
    simp only at h
    split at h
    · simp only [Res.done.injEq, piper.handleError, piper.syntaxError, if_true] at h
      subst h
      exact Or.inl ⟨_, rfl⟩
    · simp only [reduceCtorEq] at h

theorem piper_flag_t_ok (w : World) (v v1 : piper.Vars) (next : Option Str)
    (h : piper.flag_t w v next = .ok v1) :
    v1.skip = true ∧ next ≠ none ∧
      ((v1.trace = v.trace ∧ v1.log = v.log) ∨
        ∃ name, v1.trace = v.trace ++ [.Create name none]) := by
  unfold piper.flag_t at h
  cases next with
  | none => simp at h
  | some x =>
    simp only at h
    split at h
    · simp at h
    · simp only [Res.ok.injEq] at h; subst h; simp

theorem piper_flag_t_done (w : World) (v : piper.Vars) (next : Option Str) (r : Run)
    (h : piper.flag_t w v next = .done r) (h3 : r.exit = .Code 3) :
    (∃ msg, r.trace = v.trace ++ [.Fprintf v.log (msg ++ "\nDo 'writer -h' for usage\n".toList)]) ∨
    ∃ name err msg, r.trace = v.trace ++
      [.Create name (some err), .Fprintf v.log (msg ++ "\nDo 'writer -h' for usage\n".toList)] := by
  unfold piper.flag_t at h
  cases next with
  | none => simp only [Res.done.injEq] at h; subst h; simp at h3
  | some x =>
    simp only at h
    split at h
    · simp only [Res.done.injEq, piper.handleError, piper.syntaxError, if_true] at h
      subst h
      exact Or.inl ⟨_, rfl⟩
    · simp only [reduceCtorEq] at h

theorem piper_flag_sd_ok (w : World) (v v1 : piper.Vars) (next : Option Str)
    (h : piper.flag_sd w v next = .ok v1) :
    v1.skip = true ∧ next ≠ none ∧
      ((v1.trace = v.trace ∧ v1.log = v.log) ∨
        ∃ name, v1.trace = v.trace ++ [.Create name none]) := by
  unfold piper.flag_sd at h
  cases next with
  | none => simp at h
  | some x =>
    simp only at h
    split at h
    · simp at h
    · simp only [Res.ok.injEq] at h; subst h; simp

theorem piper_flag_sd_done (w : World) (v : piper.Vars) (next : Option Str) (r : Run)
    (h : piper.flag_sd w v next = .done r) (h3 : r.exit = .Code 3) :
    (∃ msg, r.trace = v.trace ++ [.Fprintf v.log (msg ++ "\nDo 'writer -h' for usage\n".toList)]) ∨
    ∃ name err msg, r.trace = v.trace ++
      [.Create name (some err), .Fprintf v.log (msg ++ "\nDo 'writer -h' for usage\n".toList)] := by
  unfold piper.flag_sd at h
  cases next with
  | none => simp only [Res.done.injEq] at h; subst h; simp at h3
  | some x =>
    simp only at h
    split at h
    · simp only [Res.done.injEq, piper.handleError, piper.syntaxError, if_true] at h
      subst h
      exact Or.inl ⟨_, rfl⟩
    · simp only [reduceCtorEq] at h

/-- Case analysis on the `switch` of piper. -/
theorem piper_argCase_elim (w : World) (v : piper.Vars) (a : Str) (next : Option Str)
    (P : Res piper.Vars → Prop)
    (h_i : a = "-i".toList → P (piper.flag_i v next))
    (h_o : a = "-o".toList → P (piper.flag_o v next))
    (h_l : a = "-l".toList → P (piper.flag_l w v next))
    (h_s : a = "-s".toList → P (piper.flag_s w v next))
    (h_c : a = "-c".toList → P (piper.flag_c w v next))
    (h_d : a = "-d".toList → P (piper.flag_d w v next))
    (h_od : a = "-od".toList → P (piper.flag_od w v next))
    (h_t : a = "-t".toList → P (piper.flag_t w v next))
    (h_sd : a = "-sd".toList → P (piper.flag_sd w v next))
    (h_h : a = "-h".toList → P (.done (piper.usage v.trace v.log)))
    (h_default : a ∉ piper.valueFlags ++ ["-h".toList] → P (.done (piper.handleError v.trace
      ("Invalid argument '".toList ++ a ++ "'\n".toList) v.log piper.syntaxError))) :
    P (piper.argCase w v a next) := by
  unfold piper.argCase
  by_cases c : a = "-i".toList
  · rw [if_pos c]; exact h_i c
  rw [if_neg c]
  rename' c => c_i
  by_cases c : a = "-o".toList
  · rw [if_pos c]; exact h_o c
  rw [if_neg c]
  rename' c => c_o
  by_cases c : a = "-l".toList
  · rw [if_pos c]; exact h_l c
  rw [if_neg c]
  rename' c => c_l
  by_cases c : a = "-s".toList
  · rw [if_pos c]; exact h_s c
  rw [if_neg c]
  rename' c => c_s
  by_cases c : a = "-c".toList
  · rw [if_pos c]; exact h_c c
  rw [if_neg c]
  rename' c => c_c
  by_cases c : a = "-d".toList
  · rw [if_pos c]; exact h_d c
  rw [if_neg c]
  rename' c => c_d
  by_cases c : a = "-od".toList
  · rw [if_pos c]; exact h_od c
  rw [if_neg c]
  rename' c => c_od
  by_cases c : a = "-t".toList
  · rw [if_pos c]; exact h_t c
  rw [if_neg c]
  rename' c => c_t
  by_cases c : a = "-sd".toList
  · rw [if_pos c]; exact h_sd c
  rw [if_neg c]
  rename' c => c_sd
  by_cases c : a = "-h".toList
  · rw [if_pos c]; exact h_h c
  rw [if_neg c]
  refine h_default ?_
  simp only [piper.valueFlags, List.cons_append, List.nil_append, List.mem_cons, List.mem_singleton,
    List.not_mem_nil, or_false, not_or]
  exact ⟨c_i, c_o, c_l, c_s, c_c, c_d, c_od, c_t, c_sd, c⟩

theorem piper_argCase_ok (w : World) (v v1 : piper.Vars) (a : Str) (next : Option Str)
    (h : piper.argCase w v a next = .ok v1) :
    v1.skip = true ∧ next ≠ none ∧
      ((v1.trace = v.trace ∧ v1.log = v.log) ∨
        ∃ name, v1.trace = v.trace ++ [.Create name none]) := by
  refine piper_argCase_elim w v a next (fun r => r = .ok v1 → _) ?_ ?_ ?_ ?_ ?_ ?_ ?_ ?_ ?_ ?_ ?_ h
  · exact fun _ => piper_flag_i_ok v v1 next
  · exact fun _ => piper_flag_o_ok v v1 next
  · exact fun _ => piper_flag_l_ok w v v1 next
  · exact fun _ => piper_flag_s_ok w v v1 next
  · exact fun _ => piper_flag_c_ok w v v1 next
  · exact fun _ => piper_flag_d_ok w v v1 next
  · exact fun _ => piper_flag_od_ok w v v1 next
  · exact fun _ => piper_flag_t_ok w v v1 next
  · exact fun _ => piper_flag_sd_ok w v v1 next
  · intro _ h; simp at h
  · intro _ h; simp at h

theorem piper_argCase_done (w : World) (v : piper.Vars) (a : Str) (next : Option Str) (r : Run)
    (h : piper.argCase w v a next = .done r) (h3 : r.exit = .Code 3) :
    (∃ msg, r.trace = v.trace ++ [.Fprintf v.log (msg ++ "\nDo 'writer -h' for usage\n".toList)]) ∨
    ∃ name err msg, r.trace = v.trace ++
      [.Create name (some err), .Fprintf v.log (msg ++ "\nDo 'writer -h' for usage\n".toList)] := by
  refine piper_argCase_elim w v a next (fun x => x = .done r → _) ?_ ?_ ?_ ?_ ?_ ?_ ?_ ?_ ?_ ?_ ?_ h
  · exact fun _ h => piper_flag_i_done v next r h h3
  · exact fun _ h => piper_flag_o_done v next r h h3
  · exact fun _ h => piper_flag_l_done w v next r h h3
  · exact fun _ h => piper_flag_s_done w v next r h h3
  · exact fun _ h => piper_flag_c_done w v next r h h3
  · exact fun _ h => piper_flag_d_done w v next r h h3
  · exact fun _ h => piper_flag_od_done w v next r h h3
  · exact fun _ h => piper_flag_t_done w v next r h h3
  · exact fun _ h => piper_flag_sd_done w v next r h h3
  · intro _ h; simp only [Res.done.injEq, piper.usage] at h; subst h; simp at h3
  · intro _ h
    simp only [Res.done.injEq, piper.handleError, piper.syntaxError, if_true] at h
    subst h
    exact Or.inl ⟨_, rfl⟩

/-- Arguments after a part of the list that the loop of piper passes, ending in
flag position, are handled as if the loop had started there. -/
theorem piper_argLoop_append (w : World) (pre rest : List Str) (v v1 : piper.Vars)
    (h : piper.argLoop w v pre = .ok v1) (hs : v1.skip = false) :
    piper.argLoop w v (pre ++ rest) = piper.argLoop w v1 rest := by
  induction pre generalizing v with
  | nil =>
    simp only [piper.argLoop, Res.ok.injEq] at h
    subst h
    rfl
  | cons a p ih =>
    simp only [List.cons_append, piper.argLoop] at h ⊢
    by_cases hskip : v.skip = true
    · rw [if_pos hskip] at h ⊢
      exact ih _ h
    · rw [if_neg hskip] at h ⊢
      cases hc : piper.argCase w v a p.head? with
      | done r => rw [hc] at h; simp at h
      | ok v2 =>
        rw [hc] at h
        simp only at h
        obtain ⟨hs2, hnext, -⟩ := piper_argCase_ok w v v2 a _ hc
        cases p with
        | nil => exact absurd rfl hnext
        | cons b q =>
          simp only [List.head?_cons] at hc
          show (match piper.argCase w v a (some b) with
            | .ok v1 => piper.argLoop w v1 (b :: q ++ rest)
            | .done r => .done r) = _
          rw [hc]
          exact ih _ h

/-- What the argument loop of piper has done when it hands over: it has created
the log files of the `-l` flags, and nothing else; with none created, the log
is still the initial one. -/
theorem piper_argLoop_inv (w : World) (args : List Str) (v v1 : piper.Vars)
    (h : piper.argLoop w v args = .ok v1)
    (ht : ∀ e ∈ v.trace, ∃ name, e = Event.Create name none)
    (hl : v.trace = [] → v.log = .Discard) :
    (∀ e ∈ v1.trace, ∃ name, e = Event.Create name none) ∧ (v1.trace = [] → v1.log = .Discard) := by
  induction args generalizing v with
  | nil =>
    simp only [piper.argLoop, Res.ok.injEq] at h
    subst h
    exact ⟨ht, hl⟩
  | cons a p ih =>
    simp only [piper.argLoop] at h
    by_cases hskip : v.skip = true
    · rw [if_pos hskip] at h
      exact ih _ h ht hl
    · rw [if_neg hskip] at h
      cases hc : piper.argCase w v a p.head? with
      | done r => rw [hc] at h; simp at h
      | ok v2 =>
        rw [hc] at h
        simp only at h
        obtain ⟨-, -, hstep⟩ := piper_argCase_ok w v v2 a _ hc
        rcases hstep with ⟨e1, e2⟩ | ⟨name, e1⟩
        · exact ih _ h (by rw [e1]; exact ht) (by rw [e1, e2]; exact hl)
        · refine ih _ h ?_ ?_
          · intro e he
            rw [e1, List.mem_append] at he
            rcases he with he | he
            · exact ht e he
            · exact ⟨name, by simpa using he⟩
          · intro hnil
            rw [e1] at hnil
            simp at hnil

/-- A syntax failure of the argument loop of piper with no `os.Create` call
before it: the run is one message, with the usage hint, printed to the initial
log. -/
theorem piper_argLoop_done (w : World) (args : List Str) (v : piper.Vars) (r : Run)
    (h : piper.argLoop w v args = .done r)
    (ht : ∀ e ∈ v.trace, ∃ name, e = Event.Create name none)
    (hl : v.trace = [] → v.log = .Discard)
    (h3 : r.exit = .Code 3) (hc : ∀ name err, Event.Create name err ∉ r.trace) :
    ∃ msg, r.trace = [.Fprintf .Discard (msg ++ "\nDo 'writer -h' for usage\n".toList)] := by
  induction args generalizing v with
  | nil => simp [piper.argLoop] at h
  | cons a p ih =>
    simp only [piper.argLoop] at h
    by_cases hskip : v.skip = true
    · rw [if_pos hskip] at h
      exact ih _ h ht hl
    · rw [if_neg hskip] at h
      cases hcase : piper.argCase w v a p.head? with
      | ok v2 =>
        rw [hcase] at h
        simp only at h
        obtain ⟨-, -, hstep⟩ := piper_argCase_ok w v v2 a _ hcase
        rcases hstep with ⟨e1, e2⟩ | ⟨name, e1⟩
        · exact ih _ h (by rw [e1]; exact ht) (by rw [e1, e2]; exact hl)
        · refine ih _ h ?_ ?_
          · intro e he
            rw [e1, List.mem_append] at he
            rcases he with he | he
            · exact ht e he
            · exact ⟨name, by simpa using he⟩
          · intro hnil
            rw [e1] at hnil
            simp at hnil
      | done r2 =>
        rw [hcase] at h
        simp only [Res.done.injEq] at h
        subst h
        have hnil : v.trace = [] := by
          cases hv : v.trace with
          | nil => rfl
          | cons e es =>
            exfalso
            obtain ⟨name, he⟩ := ht e (by rw [hv]; simp)
            rcases piper_argCase_done w v a _ r2 hcase h3 with ⟨msg, hr⟩ | ⟨n2, err, msg, hr⟩
            · exact hc name none (by rw [hr, hv, he]; simp)
            · exact hc name none (by rw [hr, hv, he]; simp)
        rcases piper_argCase_done w v a _ r2 hcase h3 with ⟨msg, hr⟩ | ⟨n2, err, msg, hr⟩
        · exact ⟨msg, by rw [hr, hnil, hl hnil]; rfl⟩
        · exact absurd (by rw [hr]; simp) (hc n2 (some err))

/-! ## C4: a flag without its value -/

theorem writer_missing_value (w : World) (v : writer.Vars) (f : Str)
    (hf : f ∈ writer.valueFlags) :
    writer.argCase w v f none = .done ⟨v.trace, .Panic indexOutOfRange⟩ := by
  simp only [writer.valueFlags, List.mem_cons, List.mem_singleton, List.not_mem_nil, or_false] at hf
  rcases hf with rfl | rfl | rfl | rfl | rfl | rfl | rfl | rfl | rfl <;> rfl

theorem reader_missing_value (w : World) (v : reader.Vars) (f : Str)
    (hf : f ∈ reader.valueFlags) :
    reader.argCase w v f none = .done ⟨v.trace, .Panic indexOutOfRange⟩ := by
  simp only [reader.valueFlags, List.mem_cons, List.mem_singleton, List.not_mem_nil, or_false] at hf
  rcases hf with rfl | rfl | rfl | rfl | rfl | rfl | rfl | rfl | rfl | rfl <;> rfl

theorem piper_missing_value (w : World) (v : piper.Vars) (f : Str)
    (hf : f ∈ piper.valueFlags) :
    piper.argCase w v f none = .done ⟨v.trace, .Panic indexOutOfRange⟩ := by
  simp only [piper.valueFlags, List.mem_cons, List.mem_singleton, List.not_mem_nil, or_false] at hf
  rcases hf with rfl | rfl | rfl | rfl | rfl | rfl | rfl | rfl | rfl <;> rfl

/-- C4 fails on the code: when a flag that takes a value is the last argument,
the index expression `os.Args[arg]` of its `case` is out of range and the
program ends in a run-time panic (exit status 2, nothing printed to the log),
not in `handleError` with the exit code 3. This holds in writer, reader and
piper, for every such flag and after any arguments that were accepted; for
instance for `writer -s`, `reader -t` and `piper -i`. -/
theorem C4_missing_value_panics (w : World) (fuel : Nat) :
    (∀ (pre : List Str) (v : writer.Vars) (f : Str), f ∈ writer.valueFlags →
      writer.argLoop w {} pre = .ok v → v.skip = false →
      writer.main w fuel (pre ++ [f]) = some ⟨v.trace, .Panic indexOutOfRange⟩) ∧
    (∀ (pre : List Str) (v : reader.Vars) (f : Str), f ∈ reader.valueFlags →
      reader.argLoop w {} pre = .ok v → v.skip = false →
      reader.main w fuel (pre ++ [f]) = some ⟨v.trace, .Panic indexOutOfRange⟩) ∧
    (∀ (pre : List Str) (v : piper.Vars) (f : Str), f ∈ piper.valueFlags →
      piper.argLoop w {} pre = .ok v → v.skip = false →
      piper.main w fuel (pre ++ [f]) = some ⟨v.trace, .Panic indexOutOfRange⟩) ∧
    writer.main w fuel ["writer".toList, "-s".toList] = some ⟨[], .Panic indexOutOfRange⟩ ∧
    reader.main w fuel ["reader".toList, "-t".toList] = some ⟨[], .Panic indexOutOfRange⟩ ∧
    piper.main w fuel ["piper".toList, "-i".toList] = some ⟨[], .Panic indexOutOfRange⟩ := by
  refine ⟨?_, ?_, ?_, rfl, rfl, rfl⟩
  · intro pre v f hf h hs
    unfold writer.main
    rw [writer_argLoop_append w pre [f] {} v h hs]
    simp only [writer.argLoop, hs, List.head?_nil, writer_missing_value w v f hf]
    simp
  · intro pre v f hf h hs
    unfold reader.main
    rw [reader_argLoop_append w pre [f] {} v h hs]
    simp only [reader.argLoop, hs, List.head?_nil, reader_missing_value w v f hf]
    simp
  · intro pre v f hf h hs
    unfold piper.main
    rw [piper_argLoop_append w pre [f] {} v h hs]
    simp only [piper.argLoop, hs, List.head?_nil, piper_missing_value w v f hf]
    simp

/-! ## Malformed numbers -/

theorem TrimSuffix_eq_take (x suf : Str) (h : strings.HasSuffix x suf = true) :
    strings.TrimSuffix x suf = x.take (x.length - suf.length) := by
  unfold strings.TrimSuffix
  rw [if_pos h]

theorem size_pair_snd (x : Str) :
    (if strings.HasSuffix x ['k'] = true then ((1024 : Int), strings.TrimSuffix x ['k'])
      else if strings.HasSuffix x ['m'] = true then (1024 * 1024, strings.TrimSuffix x ['m'])
      else (1, x)).2 = sizeNumeral x := by
  unfold sizeNumeral
  by_cases hk : strings.HasSuffix x ['k'] = true
  · rw [if_pos hk, if_pos (Or.inl hk), TrimSuffix_eq_take x _ hk]; rfl
  · rw [if_neg hk]
    by_cases hm : strings.HasSuffix x ['m'] = true
    · rw [if_pos hm, if_pos (Or.inr hm), TrimSuffix_eq_take x _ hm]; rfl
    · rw [if_neg hm, if_neg (by simp [hk, hm])]

theorem duration_pair_snd (x : Str) :
    (if strings.HasSuffix x ['m', 's'] = true then
        (time.Millisecond, strings.TrimSuffix x ['m', 's'])
      else if strings.HasSuffix x ['m'] = true then (time.Minute, strings.TrimSuffix x ['m'])
      else if strings.HasSuffix x ['h'] = true then (time.Hour, strings.TrimSuffix x ['h'])
      else (time.Second, x)).2 = durationNumeral x := by
  unfold durationNumeral
  by_cases hms : strings.HasSuffix x ['m', 's'] = true
  · rw [if_pos hms, if_pos hms, TrimSuffix_eq_take x _ hms]; rfl
  · rw [if_neg hms, if_neg hms]
    by_cases hm : strings.HasSuffix x ['m'] = true
    · rw [if_pos hm, if_pos (Or.inl hm), TrimSuffix_eq_take x _ hm]; rfl
    · rw [if_neg hm]
      by_cases hh : strings.HasSuffix x ['h'] = true
      · rw [if_pos hh, if_pos (Or.inr hh), TrimSuffix_eq_take x _ hh]; rfl
      · rw [if_neg hh, if_neg (by simp [hm, hh])]

theorem size_pair_snd' (x : Str) :
    (if strings.HasSuffix x "k".toList = true then
        ((1024 : Int), strings.TrimSuffix x "k".toList)
      else if strings.HasSuffix x "m".toList = true then
        (1024 * 1024, strings.TrimSuffix x "m".toList)
      else (1, x)).2 = sizeNumeral x :=
  size_pair_snd x

theorem duration_pair_snd' (x : Str) :
    (if strings.HasSuffix x "ms".toList = true then
        (time.Millisecond, strings.TrimSuffix x "ms".toList)
      else if strings.HasSuffix x "m".toList = true then
        (time.Minute, strings.TrimSuffix x "m".toList)
      else if strings.HasSuffix x "h".toList = true then
        (time.Hour, strings.TrimSuffix x "h".toList)
      else (time.Second, x)).2 = durationNumeral x :=
  duration_pair_snd x


theorem writer_flag_s_bad (w : World) (v : writer.Vars) (x : Str)
    (h : decimalInteger (sizeNumeral x) = none) :
    ∃ msg, writer.flag_s w v (some x) =
      .done (writer.handleError v.trace msg v.log writer.syntaxError) := by
  have hp := ParseInt_not_decimal _ h
  unfold writer.flag_s
  simp only
  rw [size_pair_snd' x]
  split
  · exact ⟨_, rfl⟩
  · next sz hnone => rw [hnone] at hp; exact absurd rfl hp

theorem writer_flag_d_bad (w : World) (v : writer.Vars) (x : Str)
    (h : decimalInteger (durationNumeral x) = none) :
    ∃ msg, writer.flag_d w v (some x) =
      .done (writer.handleError v.trace msg v.log writer.syntaxError) := by
  have hp := ParseInt_not_decimal _ h
  unfold writer.flag_d
  simp only
  rw [duration_pair_snd' x]
  split
  · exact ⟨_, rfl⟩
  · next sz hnone => rw [hnone] at hp; exact absurd rfl hp

theorem writer_flag_od_bad (w : World) (v : writer.Vars) (x : Str)
    (h : decimalInteger (durationNumeral x) = none) :
    ∃ msg, writer.flag_od w v (some x) =
      .done (writer.handleError v.trace msg v.log writer.syntaxError) := by
  have hp := ParseInt_not_decimal _ h
  unfold writer.flag_od
  simp only
  rw [duration_pair_snd' x]
  split
  · exact ⟨_, rfl⟩
  · next sz hnone => rw [hnone] at hp; exact absurd rfl hp

theorem writer_flag_t_bad (w : World) (v : writer.Vars) (x : Str)
    (h : decimalInteger (durationNumeral x) = none) :
    ∃ msg, writer.flag_t w v (some x) =
      .done (writer.handleError v.trace msg v.log writer.syntaxError) := by
  have hp := ParseInt_not_decimal _ h
  unfold writer.flag_t
  simp only
  rw [duration_pair_snd' x]
  split
  · exact ⟨_, rfl⟩
  · next sz hnone => rw [hnone] at hp; exact absurd rfl hp

theorem writer_flag_sd_bad (w : World) (v : writer.Vars) (x : Str)
    (h : decimalInteger (durationNumeral x) = none) :
    ∃ msg, writer.flag_sd w v (some x) =
      .done (writer.handleError v.trace msg v.log writer.syntaxError) := by
  have hp := ParseInt_not_decimal _ h
  unfold writer.flag_sd
  simp only
  rw [duration_pair_snd' x]
  split
  · exact ⟨_, rfl⟩
  · next sz hnone => rw [hnone] at hp; exact absurd rfl hp

theorem writer_bad_size (w : World) (v : writer.Vars) (x : Str)
    (h : decimalInteger (sizeNumeral x) = none) :
    ∃ msg, writer.argCase w v "-s".toList (some x) =
      .done (writer.handleError v.trace msg v.log writer.syntaxError) :=
  writer_flag_s_bad w v x h

theorem writer_bad_duration (w : World) (v : writer.Vars) (f x : Str) (hf : f ∈ writer.durationFlags)
    (h : decimalInteger (durationNumeral x) = none) :
    ∃ msg, writer.argCase w v f (some x) =
      .done (writer.handleError v.trace msg v.log writer.syntaxError) := by
  simp only [writer.durationFlags, List.mem_cons, List.mem_singleton, List.not_mem_nil, or_false] at hf
  rcases hf with rfl | rfl | rfl | rfl
  · exact writer_flag_d_bad w v x h
  · exact writer_flag_od_bad w v x h
  · exact writer_flag_t_bad w v x h
  · exact writer_flag_sd_bad w v x h

theorem writer_unrecognized (w : World) (v : writer.Vars) (a : Str) (next : Option Str)
    (ha : a ∉ writer.valueFlags ++ ["-h".toList]) :
    writer.argCase w v a next = .done (writer.handleError v.trace
      ("Invalid argument '".toList ++ a ++ "'\n".toList) v.log writer.syntaxError) := by
  refine writer_argCase_elim w v a next (fun r => r = _) ?_ ?_ ?_ ?_ ?_ ?_ ?_ ?_ ?_ ?_ (fun _ => rfl)
  all_goals
    intro heq
    exact absurd (by rw [heq]; decide) ha

/-- The run of writer when its argument loop ends the process at the argument
after an accepted part of the argument list. -/
theorem writer_main_of_argCase (w : World) (fuel : Nat) (pre rest : List Str) (v : writer.Vars)
    (a : Str) (r : Run) (h : writer.argLoop w {} pre = .ok v) (hs : v.skip = false)
    (hc : writer.argCase w v a rest.head? = .done r) :
    writer.main w fuel (pre ++ a :: rest) = some r := by
  unfold writer.main
  rw [writer_argLoop_append w pre (a :: rest) {} v h hs]
  simp only [writer.argLoop, hs, hc]
  simp

theorem reader_flag_s_bad (w : World) (v : reader.Vars) (x : Str)
    (h : decimalInteger (sizeNumeral x) = none) :
    ∃ msg, reader.flag_s w v (some x) =
      .done (reader.handleError v.trace msg v.log reader.syntaxError) := by
  have hp := ParseInt_not_decimal _ h
  unfold reader.flag_s
  simp only
  rw [size_pair_snd' x]
  split
  · exact ⟨_, rfl⟩
  · next sz hnone => rw [hnone] at hp; exact absurd rfl hp

theorem reader_flag_d_bad (w : World) (v : reader.Vars) (x : Str)
    (h : decimalInteger (durationNumeral x) = none) :
    ∃ msg, reader.flag_d w v (some x) =
      .done (reader.handleError v.trace msg v.log reader.syntaxError) := by
  have hp := ParseInt_not_decimal _ h
  unfold reader.flag_d
  simp only
  rw [duration_pair_snd' x]
  split
  · exact ⟨_, rfl⟩
  · next sz hnone => rw [hnone] at hp; exact absurd rfl hp

theorem reader_flag_od_bad (w : World) (v : reader.Vars) (x : Str)
    (h : decimalInteger (durationNumeral x) = none) :
    ∃ msg, reader.flag_od w v (some x) =
      .done (reader.handleError v.trace msg v.log reader.syntaxError) := by
  have hp := ParseInt_not_decimal _ h
  unfold reader.flag_od
  simp only
  rw [duration_pair_snd' x]
  split
  · exact ⟨_, rfl⟩
  · next sz hnone => rw [hnone] at hp; exact absurd rfl hp

theorem reader_flag_ed_bad (w : World) (v : reader.Vars) (x : Str)
    (h : decimalInteger (durationNumeral x) = none) :
    ∃ msg, reader.flag_ed w v (some x) =
      .done (reader.handleError v.trace msg v.log reader.syntaxError) := by
  have hp := ParseInt_not_decimal _ h
  unfold reader.flag_ed
  simp only
  rw [duration_pair_snd' x]
  split
  · exact ⟨_, rfl⟩
  · next sz hnone => rw [hnone] at hp; exact absurd rfl hp

theorem reader_flag_t_bad (w : World) (v : reader.Vars) (x : Str)
    (h : decimalInteger (durationNumeral x) = none) :
    ∃ msg, reader.flag_t w v (some x) =
      .done (reader.handleError v.trace msg v.log reader.syntaxError) := by
  have hp := ParseInt_not_decimal _ h
  unfold reader.flag_t
  simp only
  rw [duration_pair_snd' x]
  split
  · exact ⟨_, rfl⟩
  · next sz hnone => rw [hnone] at hp; exact absurd rfl hp

theorem reader_flag_sd_bad (w : World) (v : reader.Vars) (x : Str)
    (h : decimalInteger (durationNumeral x) = none) :
    ∃ msg, reader.flag_sd w v (some x) =
      .done (reader.handleError v.trace msg v.log reader.syntaxError) := by
  have hp := ParseInt_not_decimal _ h
  unfold reader.flag_sd
  simp only
  rw [duration_pair_snd' x]
  split
  · exact ⟨_, rfl⟩
  · next sz hnone => rw [hnone] at hp; exact absurd rfl hp

theorem reader_bad_size (w : World) (v : reader.Vars) (x : Str)
    (h : decimalInteger (sizeNumeral x) = none) :
    ∃ msg, reader.argCase w v "-s".toList (some x) =
      .done (reader.handleError v.trace msg v.log reader.syntaxError) :=
  reader_flag_s_bad w v x h

theorem reader_bad_duration (w : World) (v : reader.Vars) (f x : Str) (hf : f ∈ reader.durationFlags)
    (h : decimalInteger (durationNumeral x) = none) :
    ∃ msg, reader.argCase w v f (some x) =
      .done (reader.handleError v.trace msg v.log reader.syntaxError) := by
  simp only [reader.durationFlags, List.mem_cons, List.mem_singleton, List.not_mem_nil, or_false] at hf
  rcases hf with rfl | rfl | rfl | rfl | rfl
  · exact reader_flag_d_bad w v x h
  · exact reader_flag_od_bad w v x h
  · exact reader_flag_ed_bad w v x h
  · exact reader_flag_t_bad w v x h
  · exact reader_flag_sd_bad w v x h

theorem reader_unrecognized (w : World) (v : reader.Vars) (a : Str) (next : Option Str)
    (ha : a ∉ reader.valueFlags ++ ["-h".toList]) :
    reader.argCase w v a next = .done (reader.handleError v.trace
      ("Invalid argument '".toList ++ a ++ "'\n".toList) v.log reader.syntaxError) := by
  refine reader_argCase_elim w v a next (fun r => r = _) ?_ ?_ ?_ ?_ ?_ ?_ ?_ ?_ ?_ ?_ ?_ (fun _ => rfl)
  all_goals
    intro heq
    exact absurd (by rw [heq]; decide) ha

/-- The run of reader when its argument loop ends the process at the argument
after an accepted part of the argument list. -/
theorem reader_main_of_argCase (w : World) (fuel : Nat) (pre rest : List Str) (v : reader.Vars)
    (a : Str) (r : Run) (h : reader.argLoop w {} pre = .ok v) (hs : v.skip = false)
    (hc : reader.argCase w v a rest.head? = .done r) :
    reader.main w fuel (pre ++ a :: rest) = some r := by
  unfold reader.main
  rw [reader_argLoop_append w pre (a :: rest) {} v h hs]
  simp only [reader.argLoop, hs, hc]
  simp

theorem piper_flag_s_bad (w : World) (v : piper.Vars) (x : Str)
    (h : decimalInteger (sizeNumeral x) = none) :
    ∃ msg, piper.flag_s w v (some x) =
      .done (piper.handleError v.trace msg v.log piper.syntaxError) := by
  have hp := ParseInt_not_decimal _ h
  unfold piper.flag_s
  simp only
  rw [size_pair_snd' x]
  split
  · exact ⟨_, rfl⟩
  · next sz hnone => rw [hnone] at hp; exact absurd rfl hp

theorem piper_flag_d_bad (w : World) (v : piper.Vars) (x : Str)
    (h : decimalInteger (durationNumeral x) = none) :
    ∃ msg, piper.flag_d w v (some x) =
      .done (piper.handleError v.trace msg v.log piper.syntaxError) := by
  have hp := ParseInt_not_decimal _ h
  unfold piper.flag_d
  simp only
  rw [duration_pair_snd' x]
  split
  · exact ⟨_, rfl⟩
  · next sz hnone => rw [hnone] at hp; exact absurd rfl hp

theorem piper_flag_od_bad (w : World) (v : piper.Vars) (x : Str)
    (h : decimalInteger (durationNumeral x) = none) :
    ∃ msg, piper.flag_od w v (some x) =
      .done (piper.handleError v.trace msg v.log piper.syntaxError) := by
  have hp := ParseInt_not_decimal _ h
  unfold piper.flag_od
  simp only
  rw [duration_pair_snd' x]
  split
  · exact ⟨_, rfl⟩
  · next sz hnone => rw [hnone] at hp; exact absurd rfl hp

theorem piper_flag_t_bad (w : World) (v : piper.Vars) (x : Str)
    (h : decimalInteger (durationNumeral x) = none) :
    ∃ msg, piper.flag_t w v (some x) =
      .done (piper.handleError v.trace msg v.log piper.syntaxError) := by
  have hp := ParseInt_not_decimal _ h
  unfold piper.flag_t
  simp only
  rw [duration_pair_snd' x]
  split
  · exact ⟨_, rfl⟩
  · next sz hnone => rw [hnone] at hp; exact absurd rfl hp

theorem piper_flag_sd_bad (w : World) (v : piper.Vars) (x : Str)
    (h : decimalInteger (durationNumeral x) = none) :
    ∃ msg, piper.flag_sd w v (some x) =
      .done (piper.handleError v.trace msg v.log piper.syntaxError) := by
  have hp := ParseInt_not_decimal _ h
  unfold piper.flag_sd
  simp only
  rw [duration_pair_snd' x]
  split
  · exact ⟨_, rfl⟩
  · next sz hnone => rw [hnone] at hp; exact absurd rfl hp

theorem piper_bad_size (w : World) (v : piper.Vars) (x : Str)
    (h : decimalInteger (sizeNumeral x) = none) :
    ∃ msg, piper.argCase w v "-s".toList (some x) =
      .done (piper.handleError v.trace msg v.log piper.syntaxError) :=
  piper_flag_s_bad w v x h

theorem piper_bad_duration (w : World) (v : piper.Vars) (f x : Str) (hf : f ∈ piper.durationFlags)
    (h : decimalInteger (durationNumeral x) = none) :
    ∃ msg, piper.argCase w v f (some x) =
      .done (piper.handleError v.trace msg v.log piper.syntaxError) := by
  simp only [piper.durationFlags, List.mem_cons, List.mem_singleton, List.not_mem_nil, or_false] at hf
  rcases hf with rfl | rfl | rfl | rfl
  · exact piper_flag_d_bad w v x h
  · exact piper_flag_od_bad w v x h
  · exact piper_flag_t_bad w v x h
  · exact piper_flag_sd_bad w v x h

theorem piper_unrecognized (w : World) (v : piper.Vars) (a : Str) (next : Option Str)
    (ha : a ∉ piper.valueFlags ++ ["-h".toList]) :
    piper.argCase w v a next = .done (piper.handleError v.trace
      ("Invalid argument '".toList ++ a ++ "'\n".toList) v.log piper.syntaxError) := by
  refine piper_argCase_elim w v a next (fun r => r = _) ?_ ?_ ?_ ?_ ?_ ?_ ?_ ?_ ?_ ?_ (fun _ => rfl)
  all_goals
    intro heq
    exact absurd (by rw [heq]; decide) ha

/-- The run of piper when its argument loop ends the process at the argument
after an accepted part of the argument list. -/
theorem piper_main_of_argCase (w : World) (fuel : Nat) (pre rest : List Str) (v : piper.Vars)
    (a : Str) (r : Run) (h : piper.argLoop w {} pre = .ok v) (hs : v.skip = false)
    (hc : piper.argCase w v a rest.head? = .done r) :
    piper.main w fuel (pre ++ a :: rest) = some r := by
  unfold piper.main
  rw [piper_argLoop_append w pre (a :: rest) {} v h hs]
  simp only [piper.argLoop, hs, hc]
  simp

/-! ## C5: an unrecognized flag -/

/-- C5: in writer, reader and piper, when the argument in flag position (the
one `a` that follows an accepted part `pre` of the argument list) is none of
the flags of the `switch`, the program ends with the exit code 3 after
printing, to its log, the message `Invalid argument '<a>'` followed by the
usage hint: the message names the offending argument. -/
theorem C5_unrecognized_flag (w : World) (fuel : Nat) (pre rest : List Str) (a : Str) :
    (∀ v : writer.Vars, writer.argLoop w {} pre = .ok v → v.skip = false →
      a ∉ writer.valueFlags ++ ["-h".toList] →
      writer.main w fuel (pre ++ a :: rest) = some ⟨v.trace ++ [.Fprintf v.log
        ("Invalid argument '".toList ++ a ++ "'\n".toList ++
          "\nDo 'writer -h' for usage\n".toList)], .Code 3⟩) ∧
    (∀ v : reader.Vars, reader.argLoop w {} pre = .ok v → v.skip = false →
      a ∉ reader.valueFlags ++ ["-h".toList] →
      reader.main w fuel (pre ++ a :: rest) = some ⟨v.trace ++ [.Fprintf v.log
        ("Invalid argument '".toList ++ a ++ "'\n".toList ++
          "\nDo 'reader -h' for usage\n".toList)], .Code 3⟩) ∧
    (∀ v : piper.Vars, piper.argLoop w {} pre = .ok v → v.skip = false →
      a ∉ piper.valueFlags ++ ["-h".toList] →
      piper.main w fuel (pre ++ a :: rest) = some ⟨v.trace ++ [.Fprintf v.log
        ("Invalid argument '".toList ++ a ++ "'\n".toList ++
          "\nDo 'writer -h' for usage\n".toList)], .Code 3⟩) := by
  refine ⟨fun v h hs ha => ?_, fun v h hs ha => ?_, fun v h hs ha => ?_⟩
  · exact writer_main_of_argCase w fuel pre rest v a _ h hs (writer_unrecognized w v a _ ha)
  · exact reader_main_of_argCase w fuel pre rest v a _ h hs (reader_unrecognized w v a _ ha)
  · exact piper_main_of_argCase w fuel pre rest v a _ h hs (piper_unrecognized w v a _ ha)

/-- C5 at `reader -x` and at `writer -l log -x`: exit code 3, and the message
names `-x`. -/
theorem C5_unrecognized_flag_witness :
    reader.main stillWorld 0 ["reader".toList, "-x".toList] =
      some ⟨[.Fprintf .Std "Invalid argument '-x'\n\nDo 'reader -h' for usage\n".toList],
        .Code 3⟩ ∧
    writer.main stillWorld 0 ["writer".toList, "-l".toList, "log".toList, "-x".toList] =
      some ⟨[.Create "log".toList none, .Fprintf (.File "log".toList)
        "Invalid argument '-x'\n\nDo 'writer -h' for usage\n".toList], .Code 3⟩ :=
  ⟨(C5_unrecognized_flag stillWorld 0 ["reader".toList] [] "-x".toList).2.1
      { skip := false } rfl rfl (by decide),
    (C5_unrecognized_flag stillWorld 0 ["writer".toList, "-l".toList, "log".toList] []
      "-x".toList).1
      { skip := false, log := .File "log".toList, trace := [.Create "log".toList none] }
      rfl rfl (by decide)⟩

/-! ## C6: where a syntax failure is printed -/

/-- C6, as stated, fails for piper (and for writer): the log of these two
programs is `io.Discard` until a `-l` flag is handled, so the message of a
syntax failure before any `-l` is discarded, not written to standard output. -/
theorem C6_counterexample :
    piper.main stillWorld 0 ["piper".toList, "-x".toList] =
      some ⟨[.Fprintf .Discard "Invalid argument '-x'\n\nDo 'writer -h' for usage\n".toList],
        .Code 3⟩ ∧
    Stream.Discard ≠ Stream.Std :=
  ⟨rfl, by decide⟩

/-- C6, amended: when the argument loop ends in a syntax failure (exit code 3)
and no `-l` flag has been handled before (the run has no `os.Create` call),
the run is one message, ending in the usage hint, and it is written to
standard output in reader, and to `io.Discard` (so printed nowhere) in writer
and in piper. -/
theorem C6_syntax_failure_destination (w : World) (fuel : Nat) (args : List Str) (r : Run)
    (h3 : r.exit = .Code 3) (hc : ∀ name err, Event.Create name err ∉ r.trace) :
    (reader.argLoop w {} args = .done r →
      reader.main w fuel args = some r ∧
      ∃ msg, r.trace = [.Fprintf .Std (msg ++ "\nDo 'reader -h' for usage\n".toList)]) ∧
    (writer.argLoop w {} args = .done r →
      writer.main w fuel args = some r ∧
      ∃ msg, r.trace = [.Fprintf .Discard (msg ++ "\nDo 'writer -h' for usage\n".toList)]) ∧
    (piper.argLoop w {} args = .done r →
      piper.main w fuel args = some r ∧
      ∃ msg, r.trace = [.Fprintf .Discard (msg ++ "\nDo 'writer -h' for usage\n".toList)]) := by
  refine ⟨fun h => ⟨?_, ?_⟩, fun h => ⟨?_, ?_⟩, fun h => ⟨?_, ?_⟩⟩
  · unfold reader.main; rw [h]
  · exact reader_argLoop_done w args {} r h (by simp) (fun _ => rfl) h3 hc
  · unfold writer.main; rw [h]
  · exact writer_argLoop_done w args {} r h (by simp) (fun _ => rfl) h3 hc
  · unfold piper.main; rw [h]
  · exact piper_argLoop_done w args {} r h (by simp) (fun _ => rfl) h3 hc

/-- C6 (amended) at `reader -s 1.5` and at `writer -d abc`. -/
theorem C6_syntax_failure_destination_witness :
    (reader.argLoop stillWorld {} ["reader".toList, "-s".toList, "1.5".toList] =
        .done ⟨[.Fprintf .Std ("invalid argument for size '1.5': ".toList ++
          "strconv.ParseInt: parsing \"1.5\": invalid syntax".toList ++
          "\nDo 'reader -h' for usage\n".toList)], .Code 3⟩ ∧
      ∃ msg, [Event.Fprintf .Std ("invalid argument for size '1.5': ".toList ++
          "strconv.ParseInt: parsing \"1.5\": invalid syntax".toList ++
          "\nDo 'reader -h' for usage\n".toList)] =
        [.Fprintf .Std (msg ++ "\nDo 'reader -h' for usage\n".toList)]) ∧
    (writer.argLoop stillWorld {} ["writer".toList, "-d".toList, "abc".toList] =
        .done ⟨[.Fprintf .Discard ("invalid argument for delay 'abc': ".toList ++
          "strconv.ParseInt: parsing \"abc\": invalid syntax".toList ++
          "\nDo 'writer -h' for usage\n".toList)], .Code 3⟩ ∧
      ∃ msg, [Event.Fprintf .Discard ("invalid argument for delay 'abc': ".toList ++
          "strconv.ParseInt: parsing \"abc\": invalid syntax".toList ++
          "\nDo 'writer -h' for usage\n".toList)] =
        [.Fprintf .Discard (msg ++ "\nDo 'writer -h' for usage\n".toList)]) :=
  ⟨⟨rfl, ((C6_syntax_failure_destination stillWorld 0
      ["reader".toList, "-s".toList, "1.5".toList]
      ⟨[.Fprintf .Std ("invalid argument for size '1.5': ".toList ++
        "strconv.ParseInt: parsing \"1.5\": invalid syntax".toList ++
        "\nDo 'reader -h' for usage\n".toList)], .Code 3⟩ rfl (by simp)).1 rfl).2⟩,
    ⟨rfl, ((C6_syntax_failure_destination stillWorld 0
      ["writer".toList, "-d".toList, "abc".toList]
      ⟨[.Fprintf .Discard ("invalid argument for delay 'abc': ".toList ++
        "strconv.ParseInt: parsing \"abc\": invalid syntax".toList ++
        "\nDo 'writer -h' for usage\n".toList)], .Code 3⟩ rfl (by simp)).2.1 rfl).2⟩⟩

/-! ## C7: malformed numbers -/

/-- C7: when the text of a value of `-s`, or of one of the duration flags
(`-d`, `-od`, `-sd`, `-t`, and `-ed` in reader), without its recognized suffix
is not a decimal integer, the program (writer, reader or piper) ends in the
argument loop with the exit code 3, whatever arguments follow; the run is
the `os.Create` calls of the `-l` flags accepted before and the error
message: there is no sleep, no file opened, nothing read and nothing written,
so the transfer loop is never entered. -/
theorem C7_malformed_number (w : World) (fuel : Nat) (x : Str) (rest : List Str) :
    (decimalInteger (sizeNumeral x) = none →
      (∀ (pre : List Str) (v : writer.Vars), writer.argLoop w {} pre = .ok v → v.skip = false →
        (∃ msg, writer.main w fuel (pre ++ "-s".toList :: x :: rest) =
          some ⟨v.trace ++ [.Fprintf v.log msg], .Code 3⟩) ∧
        ∀ e ∈ v.trace, ∃ name, e = Event.Create name none) ∧
      (∀ (pre : List Str) (v : reader.Vars), reader.argLoop w {} pre = .ok v → v.skip = false →
        (∃ msg, reader.main w fuel (pre ++ "-s".toList :: x :: rest) =
          some ⟨v.trace ++ [.Fprintf v.log msg], .Code 3⟩) ∧
        ∀ e ∈ v.trace, ∃ name, e = Event.Create name none) ∧
      (∀ (pre : List Str) (v : piper.Vars), piper.argLoop w {} pre = .ok v → v.skip = false →
        (∃ msg, piper.main w fuel (pre ++ "-s".toList :: x :: rest) =
          some ⟨v.trace ++ [.Fprintf v.log msg], .Code 3⟩) ∧
        ∀ e ∈ v.trace, ∃ name, e = Event.Create name none)) ∧
    (decimalInteger (durationNumeral x) = none →
      (∀ (pre : List Str) (v : writer.Vars) (f : Str), f ∈ writer.durationFlags →
        writer.argLoop w {} pre = .ok v → v.skip = false →
        (∃ msg, writer.main w fuel (pre ++ f :: x :: rest) =
          some ⟨v.trace ++ [.Fprintf v.log msg], .Code 3⟩) ∧
        ∀ e ∈ v.trace, ∃ name, e = Event.Create name none) ∧
      (∀ (pre : List Str) (v : reader.Vars) (f : Str), f ∈ reader.durationFlags →
        reader.argLoop w {} pre = .ok v → v.skip = false →
        (∃ msg, reader.main w fuel (pre ++ f :: x :: rest) =
          some ⟨v.trace ++ [.Fprintf v.log msg], .Code 3⟩) ∧
        ∀ e ∈ v.trace, ∃ name, e = Event.Create name none) ∧
      (∀ (pre : List Str) (v : piper.Vars) (f : Str), f ∈ piper.durationFlags →
        piper.argLoop w {} pre = .ok v → v.skip = false →
        (∃ msg, piper.main w fuel (pre ++ f :: x :: rest) =
          some ⟨v.trace ++ [.Fprintf v.log msg], .Code 3⟩) ∧
        ∀ e ∈ v.trace, ∃ name, e = Event.Create name none)) := by
  refine ⟨fun hx => ⟨fun pre v h hs => ⟨?_, ?_⟩, fun pre v h hs => ⟨?_, ?_⟩,
      fun pre v h hs => ⟨?_, ?_⟩⟩,
    fun hx => ⟨fun pre v f hf h hs => ⟨?_, ?_⟩, fun pre v f hf h hs => ⟨?_, ?_⟩,
      fun pre v f hf h hs => ⟨?_, ?_⟩⟩⟩
  · obtain ⟨msg, hm⟩ := writer_bad_size w v x hx
    exact ⟨_, writer_main_of_argCase w fuel pre (x :: rest) v _ _ h hs hm⟩
  · exact (writer_argLoop_inv w pre {} v h (by simp) (fun _ => rfl)).1
  · obtain ⟨msg, hm⟩ := reader_bad_size w v x hx
    exact ⟨_, reader_main_of_argCase w fuel pre (x :: rest) v _ _ h hs hm⟩
  · exact (reader_argLoop_inv w pre {} v h (by simp) (fun _ => rfl)).1
  · obtain ⟨msg, hm⟩ := piper_bad_size w v x hx
    exact ⟨_, piper_main_of_argCase w fuel pre (x :: rest) v _ _ h hs hm⟩
  · exact (piper_argLoop_inv w pre {} v h (by simp) (fun _ => rfl)).1
  · obtain ⟨msg, hm⟩ := writer_bad_duration w v f x hf hx
    exact ⟨_, writer_main_of_argCase w fuel pre (x :: rest) v _ _ h hs hm⟩
  · exact (writer_argLoop_inv w pre {} v h (by simp) (fun _ => rfl)).1
  · obtain ⟨msg, hm⟩ := reader_bad_duration w v f x hf hx
    exact ⟨_, reader_main_of_argCase w fuel pre (x :: rest) v _ _ h hs hm⟩
  · exact (reader_argLoop_inv w pre {} v h (by simp) (fun _ => rfl)).1
  · obtain ⟨msg, hm⟩ := piper_bad_duration w v f x hf hx
    exact ⟨_, piper_main_of_argCase w fuel pre (x :: rest) v _ _ h hs hm⟩
  · exact (piper_argLoop_inv w pre {} v h (by simp) (fun _ => rfl)).1

/-- C7 at the texts the claim names: none of the empty text, `k`, `1.5`, `abc` and `5km` holds a
decimal integer, as a size or as a duration; and `writer -s 5km -c 3` and
`reader -f data -ed 1.5` end with the exit code 3 in the argument loop. -/
theorem C7_malformed_number_witness :
    (∀ x ∈ ["".toList, "k".toList, "1.5".toList, "abc".toList, "5km".toList],
      decimalInteger (sizeNumeral x) = none ∧ decimalInteger (durationNumeral x) = none) ∧
    (∃ msg, writer.main stillWorld 0
        ["writer".toList, "-s".toList, "5km".toList, "-c".toList, "3".toList] =
      some ⟨[.Fprintf .Discard msg], .Code 3⟩) ∧
    (∃ msg, reader.main stillWorld 0
        ["reader".toList, "-f".toList, "data".toList, "-ed".toList, "1.5".toList] =
      some ⟨[.Fprintf .Std msg], .Code 3⟩) :=
  ⟨by decide,
    (((C7_malformed_number stillWorld 0 "5km".toList ["-c".toList, "3".toList]).1
      (by decide)).1 ["writer".toList] { skip := false } rfl rfl).1,
    (((C7_malformed_number stillWorld 0 "1.5".toList []).2 (by decide)).2.1
      ["reader".toList, "-f".toList, "data".toList] { skip := false, fileName := "data".toList }
      "-ed".toList (by decide) rfl rfl).1⟩

/-! ## The transfer loops, one iteration at a time -/

theorem writer_loop_succ (w : World) (v : writer.Vars) (output : Stream) (buf : List Nat)
    (fuel : Nat) (s : writer.LoopVars) :
    writer.loop w v output buf (fuel + 1) s =
      if s.itr = v.count then (s, true)
      else if w.Since s.trace ≥ v.timeout ∧ v.timeout ≠ 0 then
        ({ s with runtime := w.Since s.trace }, true)
      else
        match (w.Write s.trace buf).2 with
        | some _ =>
          ({ itr := s.itr, bytes := wrapInt64 (s.bytes + (w.Write s.trace buf).1),
             rc := writer.runtimeError, runtime := w.Since s.trace,
             trace := s.trace ++ [.Write output buf (w.Write s.trace buf).1
                 (w.Write s.trace buf).2] ++
               [.Fprintf v.log "Error encountered while writing: %!v(MISSING)\n".toList] }, true)
        | none =>
          writer.loop w v output buf fuel
            { itr := wrapInt64 (s.itr + 1), bytes := wrapInt64 (s.bytes + (w.Write s.trace buf).1),
              rc := s.rc, runtime := w.Since s.trace,
              trace := s.trace ++ [.Write output buf (w.Write s.trace buf).1
                  (w.Write s.trace buf).2] ++ [.Sleep v.delay] } := by
  rw [writer.loop]

/-! ## C8: the exit code after the transfer loop -/

theorem any_isFailure_append (tr tr2 : List Event) (h : tr2.any Event.isFailure = false) :
    (tr ++ tr2).any Event.isFailure = tr.any Event.isFailure := by
  rw [List.any_append, h, Bool.or_false]

theorem writer_loop_rc (w : World) (v : writer.Vars) (output : Stream) (buf : List Nat)
    (fuel : Nat) (s s1 : writer.LoopVars)
    (h : writer.loop w v output buf fuel s = (s1, true))
    (hs : s.rc = if s.trace.any Event.isFailure then writer.runtimeError else v.rc) :
    s1.rc = if s1.trace.any Event.isFailure then writer.runtimeError else v.rc := by
  induction fuel generalizing s with
  | zero => simp [writer.loop] at h
  | succ n ih =>
    rw [writer_loop_succ] at h
    by_cases h1 : s.itr = v.count
    · rw [if_pos h1] at h
      simp only [Prod.mk.injEq, and_true] at h; subst h; exact hs
    · rw [if_neg h1] at h
      by_cases h2 : w.Since s.trace ≥ v.timeout ∧ v.timeout ≠ 0
      · rw [if_pos h2] at h
        simp only [Prod.mk.injEq, and_true] at h; subst h; exact hs
      · rw [if_neg h2] at h
        cases herr : (w.Write s.trace buf).2 with
        | some e =>
          rw [herr] at h
          simp only [Prod.mk.injEq, and_true] at h
          subst h
          simp [Event.isFailure]
        | none =>
          rw [herr] at h
          simp only at h
          refine ih _ h ?_
          simp only [List.append_assoc]
          rw [any_isFailure_append _ _ (by simp [Event.isFailure])]
          exact hs

theorem writer_run_rc (w : World) (fuel : Nat) (v : writer.Vars) (output : Stream)
    (tr : List Event) (r : Run) (htr : tr.any Event.isFailure = false)
    (h : writer.run w fuel v output tr = some r) :
    r.exit = .Code (if r.trace.any Event.isFailure then 1 else v.rc) := by
  unfold writer.run at h
  split at h
  next s1 hl =>
    simp only [Option.some.injEq] at h
    subst h
    have := writer_loop_rc w v output _ fuel _ s1 hl (by
      simp only [List.any_append, htr]
      simp [Event.isFailure])
    have e := any_isFailure_append s1.trace
      [.Fprintf v.log ("Wrote ".toList ++ writer.bytesWritten s1.bytes ++ " in ".toList ++
        w.DurationString s1.runtime ++ "\n".toList)] (by simp [Event.isFailure])
    simp only [writer.finish, e, this]
    rfl
  next => simp at h

theorem creates_no_failure (tr : List Event) (h : ∀ e ∈ tr, ∃ name, e = Event.Create name none) :
    tr.any Event.isFailure = false := by
  rw [List.any_eq_false]
  intro e he
  obtain ⟨name, rfl⟩ := h e he
  simp [Event.isFailure]

/-! ### The end of the process by SIGPIPE -/

theorem upToSIGPIPE_none (tr : List Event) (h : ∀ e ∈ tr, e.raisesSIGPIPE = false) :
    upToSIGPIPE tr = none := by
  induction tr with
  | nil => rfl
  | cons e es ih =>
    rw [upToSIGPIPE, if_neg (by simp [h e (List.mem_cons_self _ _)]),
      ih (fun x hx => h x (List.mem_cons_of_mem _ hx))]
    rfl

/-- The events up to SIGPIPE are a beginning of the events, end with the event
that raises the signal, and hold no other such event. -/
theorem upToSIGPIPE_some (tr cut : List Event) (h : upToSIGPIPE tr = some cut) :
    ∃ pre e post, tr = pre ++ e :: post ∧ cut = pre ++ [e] ∧ e.raisesSIGPIPE = true ∧
      ∀ x ∈ pre, x.raisesSIGPIPE = false := by
  induction tr generalizing cut with
  | nil => simp [upToSIGPIPE] at h
  | cons e es ih =>
    rw [upToSIGPIPE] at h
    by_cases he : e.raisesSIGPIPE = true
    · rw [if_pos he] at h
      simp only [Option.some.injEq] at h
      exact ⟨[], e, es, rfl, h.symm, he, by simp⟩
    · rw [if_neg he] at h
      cases hes : upToSIGPIPE es with
      | none => rw [hes] at h; simp at h
      | some c =>
        rw [hes] at h
        simp only [Option.map_some', Option.some.injEq] at h
        obtain ⟨pre, x, post, e1, e2, e3, e4⟩ := ih c hes
        refine ⟨e :: pre, x, post, by rw [e1]; rfl, by rw [← h, e2]; rfl, e3, ?_⟩
        intro y hy
        rcases List.mem_cons.mp hy with rfl | hy
        · simpa using he
        · exact e4 y hy

theorem withSignals_of_none (r : Run) (h : ∀ e ∈ r.trace, e.raisesSIGPIPE = false) :
    r.withSignals = r := by
  unfold Run.withSignals
  rw [upToSIGPIPE_none _ h]

/-- A process that was not ended by a signal did what the program text says. -/
theorem withSignals_of_exit (r : Run) (h : ∀ name, r.withSignals.exit ≠ .Signal name) :
    r.withSignals = r := by
  unfold Run.withSignals at h ⊢
  cases hc : upToSIGPIPE r.trace with
  | none => rfl
  | some c => rw [hc] at h; exact absurd rfl (h SIGPIPE)

theorem withSignals_mem (r : Run) (e : Event) (h : e ∈ r.withSignals.trace) : e ∈ r.trace := by
  unfold Run.withSignals at h
  cases hc : upToSIGPIPE r.trace with
  | none => rw [hc] at h; exact h
  | some c =>
    rw [hc] at h
    obtain ⟨pre, x, post, e1, e2, -, -⟩ := upToSIGPIPE_some _ _ hc
    rw [e1]
    simp only at h
    rw [e2] at h
    simp only [List.mem_append, List.mem_singleton, List.mem_cons] at h ⊢
    rcases h with h | h
    · exact Or.inl h
    · exact Or.inr (Or.inl (by simpa using h))

/-- The run of writer after an accepted argument list is the run of `transfer`,
ended by SIGPIPE where that is raised. -/
theorem writer_main_ok (w : World) (fuel : Nat) (args : List Str) (v : writer.Vars) (r : Run)
    (hv : writer.argLoop w {} args = .ok v) (h : writer.main w fuel args = some r) :
    ∃ r0, writer.transfer w fuel v = some r0 ∧ r = r0.withSignals := by
  unfold writer.main at h
  rw [hv] at h
  simp only at h
  cases ht : writer.transfer w fuel v with
  | none => rw [ht] at h; simp at h
  | some r0 =>
    rw [ht] at h
    simp only [Option.map_some', Option.some.injEq] at h
    exact ⟨r0, rfl, h.symm⟩

theorem writer_transfer_rc (w : World) (fuel : Nat) (v : writer.Vars) (r : Run)
    (hc : v.trace.any Event.isFailure = false) (h : writer.transfer w fuel v = some r)
    (hopen : ∀ name err, Event.OpenFile name (some err) ∉ r.trace)
    (hpanic : ∀ msg, r.exit ≠ .Panic msg) :
    r.exit = .Code (if r.trace.any Event.isFailure then 1 else v.rc) := by
  simp only [writer.transfer] at h
  split_ifs at h with h1 h0 h2
  · simp only [Option.some.injEq] at h
    subst h
    exact absurd rfl (hpanic _)
  · simp only [Option.some.injEq] at h
    subst h
    exact absurd rfl (hpanic _)
  · exact writer_run_rc w fuel v _ _ r hc h
  · split at h
    next err herr =>
      simp only [Option.some.injEq] at h
      subst h
      exact absurd (by simp [writer.handleError, writer.runtimeError, writer.syntaxError])
        (hopen v.fileName err)
    next herr =>
      refine writer_run_rc w fuel v _ _ r ?_ h
      rw [any_isFailure_append _ _ (by simp [Event.isFailure])]
      exact hc

theorem writer_main_rc (w : World) (fuel : Nat) (args : List Str) (v : writer.Vars) (r : Run)
    (hv : writer.argLoop w {} args = .ok v) (h : writer.main w fuel args = some r)
    (hopen : ∀ name err, Event.OpenFile name (some err) ∉ r.trace)
    (hpanic : ∀ msg, r.exit ≠ .Panic msg) (hsig : ∀ name, r.exit ≠ .Signal name) :
    r.exit = .Code (if r.trace.any Event.isFailure then 1 else v.rc) := by
  have hc := creates_no_failure _ (writer_argLoop_inv w args {} v hv (by simp) (fun _ => rfl)).1
  obtain ⟨r0, ht, rfl⟩ := writer_main_ok w fuel args v r hv h
  rw [withSignals_of_exit r0 hsig] at hopen hpanic ⊢
  exact writer_transfer_rc w fuel v r0 hc ht hopen hpanic

theorem reader_loop_succ (w : World) (v : reader.Vars) (input : Stream) (fuel : Nat)
    (s : reader.LoopVars) :
    reader.loop w v input (fuel + 1) s =
      if ¬ (s.itr ≠ v.count ∧ s.err ≠ some .EOF) then (s, true)
      else if w.Since s.trace ≥ v.timeout ∧ v.timeout ≠ 0 then
        ({ s with runtime := w.Since s.trace }, true)
      else if (w.Read s.trace s.buf.length).2 ≠ none ∧
          (w.Read s.trace s.buf.length).2 ≠ some .EOF then
        ({ itr := s.itr,
           bytes := wrapInt64 (s.bytes + ((w.Read s.trace s.buf.length).1.length : Int)),
           err := (w.Read s.trace s.buf.length).2, rc := reader.runtimeError,
           runtime := w.Since s.trace, buf := fill s.buf (w.Read s.trace s.buf.length).1,
           trace := s.trace ++ [.Read input s.buf.length (w.Read s.trace s.buf.length).1
               (w.Read s.trace s.buf.length).2] ++
             [.Fprintf v.log "Error encountered while reading: %!v(MISSING)\n".toList] }, true)
      else
        reader.loop w v input fuel
          { itr := wrapInt64 (s.itr + 1),
            bytes := wrapInt64 (s.bytes + ((w.Read s.trace s.buf.length).1.length : Int)),
            err := (w.Read s.trace s.buf.length).2, rc := s.rc, runtime := w.Since s.trace,
            buf := fill s.buf (w.Read s.trace s.buf.length).1,
            trace := s.trace ++ [.Read input s.buf.length (w.Read s.trace s.buf.length).1
                (w.Read s.trace s.buf.length).2] ++ [.Sleep v.delay] } := by
  rw [reader.loop]

theorem isFailure_read (input : Stream) (len : Nat) (data : List Nat) (err : Option ReadErr) :
    (Event.Read input len data err).isFailure = decide (err ≠ none ∧ err ≠ some .EOF) := by
  rcases err with _ | _ | t <;> simp [Event.isFailure]

theorem reader_loop_rc (w : World) (v : reader.Vars) (input : Stream)
    (fuel : Nat) (s s1 : reader.LoopVars)
    (h : reader.loop w v input fuel s = (s1, true))
    (hs : s.rc = if s.trace.any Event.isFailure then reader.runtimeError else v.rc) :
    s1.rc = if s1.trace.any Event.isFailure then reader.runtimeError else v.rc := by
  induction fuel generalizing s with
  | zero => simp [reader.loop] at h
  | succ n ih =>
    rw [reader_loop_succ] at h
    by_cases h1 : ¬ (s.itr ≠ v.count ∧ s.err ≠ some .EOF)
    · rw [if_pos h1] at h
      simp only [Prod.mk.injEq, and_true] at h; subst h; exact hs
    · rw [if_neg h1] at h
      by_cases h2 : w.Since s.trace ≥ v.timeout ∧ v.timeout ≠ 0
      · rw [if_pos h2] at h
        simp only [Prod.mk.injEq, and_true] at h; subst h; exact hs
      · rw [if_neg h2] at h
        by_cases h3 : (w.Read s.trace s.buf.length).2 ≠ none ∧
            (w.Read s.trace s.buf.length).2 ≠ some .EOF
        · rw [if_pos h3] at h
          simp only [Prod.mk.injEq, and_true] at h
          subst h
          simp [isFailure_read, h3]
        · rw [if_neg h3] at h
          refine ih _ h ?_
          simp only [List.append_assoc]
          rw [any_isFailure_append _ _ (by
            simp only [List.cons_append, List.nil_append, List.any_cons, List.any_nil,
              isFailure_read, Bool.or_false]
            simp [h3, Event.isFailure])]
          exact hs

theorem reader_run_rc (w : World) (fuel : Nat) (v : reader.Vars) (input : Stream)
    (tr : List Event) (r : Run) (htr : tr.any Event.isFailure = false)
    (h : reader.run w fuel v input tr = some r) :
    r.exit = .Code (if r.trace.any Event.isFailure then 1 else v.rc) := by
  unfold reader.run at h
  split at h
  next s1 hl =>
    simp only [Option.some.injEq] at h
    subst h
    have := reader_loop_rc w v input fuel _ s1 hl (by
      simp only [List.any_append, htr]
      simp [Event.isFailure])
    have e := any_isFailure_append s1.trace
      [.Fprintf v.log ("Read ".toList ++ reader.bytesRead s1.bytes ++ " in ".toList ++
        w.DurationString s1.runtime ++ "\n".toList), .Sleep v.exitDelay]
      (by simp [Event.isFailure])
    simp only [reader.finish, e, this]
    rfl
  next => simp at h

theorem reader_main_rc (w : World) (fuel : Nat) (args : List Str) (v : reader.Vars) (r : Run)
    (hv : reader.argLoop w {} args = .ok v) (h : reader.main w fuel args = some r)
    (hopen : ∀ name err, Event.OpenFile name (some err) ∉ r.trace)
    (hpanic : ∀ msg, r.exit ≠ .Panic msg) :
    r.exit = .Code (if r.trace.any Event.isFailure then 1 else v.rc) := by
  have hc := creates_no_failure _ (reader_argLoop_inv w args {} v hv (by simp) (fun _ => rfl)).1
  unfold reader.main at h
  rw [hv] at h
  simp only [reader.transfer] at h
  split_ifs at h with h1 h0 h2
  · simp only [Option.some.injEq] at h
    subst h
    exact absurd rfl (hpanic _)
  · simp only [Option.some.injEq] at h
    subst h
    exact absurd rfl (hpanic _)
  · exact reader_run_rc w fuel v _ _ r hc h
  · split at h
    next err herr =>
      simp only [Option.some.injEq] at h
      subst h
      exact absurd (by simp [reader.handleError, reader.runtimeError, reader.syntaxError])
        (hopen v.fileName err)
    next herr =>
      refine reader_run_rc w fuel v _ _ r ?_ h
      rw [any_isFailure_append _ _ (by simp [Event.isFailure])]
      exact hc

/-! ### piper has no `-rc` flag -/

theorem piper_flag_i_rc (v v1 : piper.Vars) (next : Option Str)
    (h : piper.flag_i v next = .ok v1) : v1.rc = v.rc := by
  unfold piper.flag_i at h
  cases next with
  | none => simp at h
  | some x =>
    simp only at h
    simp only [Res.ok.injEq] at h; subst h; rfl

theorem piper_flag_o_rc (v v1 : piper.Vars) (next : Option Str)
    (h : piper.flag_o v next = .ok v1) : v1.rc = v.rc := by
  unfold piper.flag_o at h
  cases next with
  | none => simp at h
  | some x =>
    simp only at h
    simp only [Res.ok.injEq] at h; subst h; rfl

theorem piper_flag_l_rc (w : World) (v v1 : piper.Vars) (next : Option Str)
    (h : piper.flag_l w v next = .ok v1) : v1.rc = v.rc := by
  unfold piper.flag_l at h
  cases next with
  | none => simp at h
  | some x =>
    simp only at h
    split at h
    · simp at h
    · simp only [Res.ok.injEq] at h; subst h; rfl

theorem piper_flag_s_rc (w : World) (v v1 : piper.Vars) (next : Option Str)
    (h : piper.flag_s w v next = .ok v1) : v1.rc = v.rc := by
  unfold piper.flag_s at h
  cases next with
  | none => simp at h
  | some x =>
    simp only at h
    split at h
    · simp at h
    · simp only [Res.ok.injEq] at h; subst h; rfl

theorem piper_flag_c_rc (w : World) (v v1 : piper.Vars) (next : Option Str)
    (h : piper.flag_c w v next = .ok v1) : v1.rc = v.rc := by
  unfold piper.flag_c at h
  cases next with
  | none => simp at h
  | some x =>
    simp only at h
    split at h
    · simp at h
    · simp only [Res.ok.injEq] at h; subst h; rfl

theorem piper_flag_d_rc (w : World) (v v1 : piper.Vars) (next : Option Str)
    (h : piper.flag_d w v next = .ok v1) : v1.rc = v.rc := by
  unfold piper.flag_d at h
  cases next with
  | none => simp at h
  | some x =>
    simp only at h
    split at h
    · simp at h
    · simp only [Res.ok.injEq] at h; subst h; rfl

theorem piper_flag_od_rc (w : World) (v v1 : piper.Vars) (next : Option Str)
    (h : piper.flag_od w v next = .ok v1) : v1.rc = v.rc := by
  unfold piper.flag_od at h
  cases next with
  | none => simp at h
  | some x =>
    simp only at h
    split at h
    · simp at h
    · simp only [Res.ok.injEq] at h; subst h; rfl

theorem piper_flag_t_rc (w : World) (v v1 : piper.Vars) (next : Option Str)
    (h : piper.flag_t w v next = .ok v1) : v1.rc = v.rc := by
  unfold piper.flag_t at h
  cases next with
  | none => simp at h
  | some x =>
    simp only at h
    split at h
    · simp at h
    · simp only [Res.ok.injEq] at h; subst h; rfl

theorem piper_flag_sd_rc (w : World) (v v1 : piper.Vars) (next : Option Str)
    (h : piper.flag_sd w v next = .ok v1) : v1.rc = v.rc := by
  unfold piper.flag_sd at h
  cases next with
  | none => simp at h
  | some x =>
    simp only at h
    split at h
    · simp at h
    · simp only [Res.ok.injEq] at h; subst h; rfl

theorem piper_argCase_rc (w : World) (v v1 : piper.Vars) (a : Str) (next : Option Str)
    (h : piper.argCase w v a next = .ok v1) : v1.rc = v.rc := by
  refine piper_argCase_elim w v a next (fun r => r = .ok v1 → _) ?_ ?_ ?_ ?_ ?_ ?_ ?_ ?_ ?_ ?_ ?_ h
  · exact fun _ => piper_flag_i_rc v v1 next
  · exact fun _ => piper_flag_o_rc v v1 next
  · exact fun _ => piper_flag_l_rc w v v1 next
  · exact fun _ => piper_flag_s_rc w v v1 next
  · exact fun _ => piper_flag_c_rc w v v1 next
  · exact fun _ => piper_flag_d_rc w v v1 next
  · exact fun _ => piper_flag_od_rc w v v1 next
  · exact fun _ => piper_flag_t_rc w v v1 next
  · exact fun _ => piper_flag_sd_rc w v v1 next
  · intro _ h; simp at h
  · intro _ h; simp at h

/-- The argument loop of piper leaves `rc` as it is. -/
theorem piper_argLoop_rc (w : World) (args : List Str) (v v1 : piper.Vars)
    (h : piper.argLoop w v args = .ok v1) : v1.rc = v.rc := by
  induction args generalizing v with
  | nil =>
    simp only [piper.argLoop, Res.ok.injEq] at h
    subst h
    rfl
  | cons a p ih =>
    simp only [piper.argLoop] at h
    by_cases hskip : v.skip = true
    · rw [if_pos hskip] at h
      have h2 := ih _ h
      exact h2
    · rw [if_neg hskip] at h
      cases hc : piper.argCase w v a p.head? with
      | done r => rw [hc] at h; simp at h
      | ok v2 =>
        rw [hc] at h
        simp only at h
        rw [ih _ h, piper_argCase_rc w v v2 a _ hc]


theorem piper_loop_succ (w : World) (v : piper.Vars) (input output : Stream) (fuel : Nat)
    (s : piper.LoopVars) :
    piper.loop w v input output (fuel + 1) s =
      if w.Since s.trace ≥ v.timeout ∧ v.timeout ≠ 0 then
        ({ s with runtime := w.Since s.trace }, true)
      else if (w.Read s.trace s.buf.length).2 ≠ none ∧
          (w.Read s.trace s.buf.length).2 ≠ some .EOF then
        ({ s with
            bytesIn := wrapInt64 (s.bytesIn + ((w.Read s.trace s.buf.length).1.length : Int)),
            rc := piper.runtimeError, runtime := w.Since s.trace,
            buf := fill s.buf (w.Read s.trace s.buf.length).1,
            trace := s.trace ++ [.Read input s.buf.length (w.Read s.trace s.buf.length).1
                (w.Read s.trace s.buf.length).2] ++
              [.Fprintf v.log "Error encountered while reading: %!v(MISSING)\n".toList] }, true)
      else
        match (w.Write (s.trace ++ [.Read input s.buf.length (w.Read s.trace s.buf.length).1
            (w.Read s.trace s.buf.length).2]) (fill s.buf (w.Read s.trace s.buf.length).1)).2 with
        | some _ =>
          ({ x := s.x,
             bytesIn := wrapInt64 (s.bytesIn + ((w.Read s.trace s.buf.length).1.length : Int)),
             bytesOut := wrapInt64 (s.bytesOut + (w.Write (s.trace ++ [.Read input s.buf.length
               (w.Read s.trace s.buf.length).1 (w.Read s.trace s.buf.length).2])
               (fill s.buf (w.Read s.trace s.buf.length).1)).1),
             eof := if (w.Read s.trace s.buf.length).2 = some .EOF then true else s.eof,
             rc := piper.runtimeError, runtime := w.Since s.trace,
             buf := fill s.buf (w.Read s.trace s.buf.length).1,
             trace := s.trace ++ [.Read input s.buf.length (w.Read s.trace s.buf.length).1
                 (w.Read s.trace s.buf.length).2] ++
               [.Write output (fill s.buf (w.Read s.trace s.buf.length).1)
                 (w.Write (s.trace ++ [.Read input s.buf.length
                   (w.Read s.trace s.buf.length).1 (w.Read s.trace s.buf.length).2])
                   (fill s.buf (w.Read s.trace s.buf.length).1)).1
                 (w.Write (s.trace ++ [.Read input s.buf.length
                   (w.Read s.trace s.buf.length).1 (w.Read s.trace s.buf.length).2])
                   (fill s.buf (w.Read s.trace s.buf.length).1)).2] ++
               [.Fprintf v.log "Error encountered while writing: %!v(MISSING)\n".toList] }, true)
        | none =>
          if (if (w.Read s.trace s.buf.length).2 = some .EOF then true else s.eof) = true then
            ({ x := s.x,
               bytesIn := wrapInt64 (s.bytesIn + ((w.Read s.trace s.buf.length).1.length : Int)),
               bytesOut := wrapInt64 (s.bytesOut + (w.Write (s.trace ++ [.Read input s.buf.length
                 (w.Read s.trace s.buf.length).1 (w.Read s.trace s.buf.length).2])
                 (fill s.buf (w.Read s.trace s.buf.length).1)).1),
               eof := if (w.Read s.trace s.buf.length).2 = some .EOF then true else s.eof,
               rc := s.rc, runtime := w.Since s.trace,
               buf := fill s.buf (w.Read s.trace s.buf.length).1,
               trace := s.trace ++ [.Read input s.buf.length (w.Read s.trace s.buf.length).1
                   (w.Read s.trace s.buf.length).2] ++
                 [.Write output (fill s.buf (w.Read s.trace s.buf.length).1)
                   (w.Write (s.trace ++ [.Read input s.buf.length
                     (w.Read s.trace s.buf.length).1 (w.Read s.trace s.buf.length).2])
                     (fill s.buf (w.Read s.trace s.buf.length).1)).1
                   (w.Write (s.trace ++ [.Read input s.buf.length
                     (w.Read s.trace s.buf.length).1 (w.Read s.trace s.buf.length).2])
                     (fill s.buf (w.Read s.trace s.buf.length).1)).2] }, true)
          else if v.count = 0 then
            piper.loop w v input output fuel
              { x := s.x,
                bytesIn := wrapInt64 (s.bytesIn + ((w.Read s.trace s.buf.length).1.length : Int)),
                bytesOut := wrapInt64 (s.bytesOut + (w.Write (s.trace ++ [.Read input s.buf.length
                  (w.Read s.trace s.buf.length).1 (w.Read s.trace s.buf.length).2])
                  (fill s.buf (w.Read s.trace s.buf.length).1)).1),
                eof := if (w.Read s.trace s.buf.length).2 = some .EOF then true else s.eof,
                rc := s.rc, runtime := w.Since s.trace,
                buf := fill s.buf (w.Read s.trace s.buf.length).1,
                trace := s.trace ++ [.Read input s.buf.length (w.Read s.trace s.buf.length).1
                    (w.Read s.trace s.buf.length).2] ++
                  [.Write output (fill s.buf (w.Read s.trace s.buf.length).1)
                    (w.Write (s.trace ++ [.Read input s.buf.length
                      (w.Read s.trace s.buf.length).1 (w.Read s.trace s.buf.length).2])
                      (fill s.buf (w.Read s.trace s.buf.length).1)).1
                    (w.Write (s.trace ++ [.Read input s.buf.length
                      (w.Read s.trace s.buf.length).1 (w.Read s.trace s.buf.length).2])
                      (fill s.buf (w.Read s.trace s.buf.length).1)).2] }
          else if wrapInt64 (s.x + 1) = v.count then
            ({ x := wrapInt64 (s.x + 1),
               bytesIn := wrapInt64 (s.bytesIn + ((w.Read s.trace s.buf.length).1.length : Int)),
               bytesOut := wrapInt64 (s.bytesOut + (w.Write (s.trace ++ [.Read input s.buf.length
                 (w.Read s.trace s.buf.length).1 (w.Read s.trace s.buf.length).2])
                 (fill s.buf (w.Read s.trace s.buf.length).1)).1),
               eof := if (w.Read s.trace s.buf.length).2 = some .EOF then true else s.eof,
               rc := s.rc, runtime := w.Since s.trace,
               buf := fill s.buf (w.Read s.trace s.buf.length).1,
               trace := s.trace ++ [.Read input s.buf.length (w.Read s.trace s.buf.length).1
                   (w.Read s.trace s.buf.length).2] ++
                 [.Write output (fill s.buf (w.Read s.trace s.buf.length).1)
                   (w.Write (s.trace ++ [.Read input s.buf.length
                     (w.Read s.trace s.buf.length).1 (w.Read s.trace s.buf.length).2])
                     (fill s.buf (w.Read s.trace s.buf.length).1)).1
                   (w.Write (s.trace ++ [.Read input s.buf.length
                     (w.Read s.trace s.buf.length).1 (w.Read s.trace s.buf.length).2])
                     (fill s.buf (w.Read s.trace s.buf.length).1)).2] }, true)
          else
            piper.loop w v input output fuel
              { x := wrapInt64 (s.x + 1),
                bytesIn := wrapInt64 (s.bytesIn + ((w.Read s.trace s.buf.length).1.length : Int)),
                bytesOut := wrapInt64 (s.bytesOut + (w.Write (s.trace ++ [.Read input s.buf.length
                  (w.Read s.trace s.buf.length).1 (w.Read s.trace s.buf.length).2])
                  (fill s.buf (w.Read s.trace s.buf.length).1)).1),
                eof := if (w.Read s.trace s.buf.length).2 = some .EOF then true else s.eof,
                rc := s.rc, runtime := w.Since s.trace,
                buf := fill s.buf (w.Read s.trace s.buf.length).1,
                trace := s.trace ++ [.Read input s.buf.length (w.Read s.trace s.buf.length).1
                    (w.Read s.trace s.buf.length).2] ++
                  [.Write output (fill s.buf (w.Read s.trace s.buf.length).1)
                    (w.Write (s.trace ++ [.Read input s.buf.length
                      (w.Read s.trace s.buf.length).1 (w.Read s.trace s.buf.length).2])
                      (fill s.buf (w.Read s.trace s.buf.length).1)).1
                    (w.Write (s.trace ++ [.Read input s.buf.length
                      (w.Read s.trace s.buf.length).1 (w.Read s.trace s.buf.length).2])
                      (fill s.buf (w.Read s.trace s.buf.length).1)).2] ++ [.Sleep v.delay] } := by
  rw [piper.loop]

theorem piper_loop_rc (w : World) (v : piper.Vars) (input output : Stream)
    (fuel : Nat) (s s1 : piper.LoopVars)
    (h : piper.loop w v input output fuel s = (s1, true))
    (hs : s.rc = if s.trace.any Event.isFailure then piper.runtimeError else v.rc) :
    s1.rc = if s1.trace.any Event.isFailure then piper.runtimeError else v.rc := by
  induction fuel generalizing s with
  | zero => simp [piper.loop] at h
  | succ n ih =>
    rw [piper_loop_succ] at h
    by_cases h2 : w.Since s.trace ≥ v.timeout ∧ v.timeout ≠ 0
    · rw [if_pos h2] at h
      simp only [Prod.mk.injEq, and_true] at h; subst h; exact hs
    · rw [if_neg h2] at h
      by_cases h3 : (w.Read s.trace s.buf.length).2 ≠ none ∧
          (w.Read s.trace s.buf.length).2 ≠ some .EOF
      · rw [if_pos h3] at h
        simp only [Prod.mk.injEq, and_true] at h
        subst h
        simp [isFailure_read, h3]
      · rw [if_neg h3] at h
        have hread : ([Event.Read input s.buf.length (w.Read s.trace s.buf.length).1
            (w.Read s.trace s.buf.length).2]).any Event.isFailure = false := by
          simp only [List.any_cons, List.any_nil, isFailure_read, Bool.or_false]
          simp [h3]
        cases herr : (w.Write (s.trace ++ [.Read input s.buf.length
            (w.Read s.trace s.buf.length).1 (w.Read s.trace s.buf.length).2])
            (fill s.buf (w.Read s.trace s.buf.length).1)).2 with
        | some e =>
          rw [herr] at h
          simp only [Prod.mk.injEq, and_true] at h
          subst h
          simp [Event.isFailure]
        | none =>
          rw [herr] at h
          simp only at h
          have hkeep : ∀ tail : List Event, tail.any Event.isFailure = false →
              (s.rc = if (s.trace ++ [Event.Read input s.buf.length
                  (w.Read s.trace s.buf.length).1 (w.Read s.trace s.buf.length).2] ++
                [Event.Write output (fill s.buf (w.Read s.trace s.buf.length).1)
                  (w.Write (s.trace ++ [.Read input s.buf.length
                    (w.Read s.trace s.buf.length).1 (w.Read s.trace s.buf.length).2])
                    (fill s.buf (w.Read s.trace s.buf.length).1)).1 none] ++ tail).any
                  Event.isFailure then piper.runtimeError else v.rc) := by
            intro tail ht
            rw [any_isFailure_append _ _ ht,
              any_isFailure_append _ _ (by simp [Event.isFailure]),
              any_isFailure_append _ _ hread]
            exact hs
          split_ifs at h
          all_goals first
            | (simp only [Prod.mk.injEq, and_true] at h
               subst h
               simpa using hkeep [] rfl)
            | (refine ih _ h ?_
               first
                 | simpa using hkeep [] rfl
                 | exact hkeep [.Sleep v.delay] (by simp [Event.isFailure]))

theorem piper_run_rc (w : World) (fuel : Nat) (v : piper.Vars) (input output : Stream)
    (tr : List Event) (r : Run) (htr : tr.any Event.isFailure = false)
    (h : piper.run w fuel v input output tr = some r) :
    r.exit = .Code (if r.trace.any Event.isFailure then 1 else v.rc) := by
  unfold piper.run at h
  split at h
  next s1 hl =>
    simp only [Option.some.injEq] at h
    subst h
    have := piper_loop_rc w v input output fuel _ s1 hl (by
      simp only [List.any_append, htr]
      simp [Event.isFailure])
    have e := any_isFailure_append s1.trace
      [.Fprintf v.log ("Read ".toList ++ piper.bytesRead s1.bytesIn ++ " and wrote ".toList ++
        piper.bytesWritten s1.bytesOut ++ " in ".toList ++ w.DurationString s1.runtime ++
        "\n".toList)]
      (by simp [Event.isFailure])
    simp only [piper.finish, e, this]
    rfl
  next => simp at h

/-- The run of piper after an accepted argument list is the run of `transfer`,
ended by SIGPIPE where that is raised. -/
theorem piper_main_ok (w : World) (fuel : Nat) (args : List Str) (v : piper.Vars) (r : Run)
    (hv : piper.argLoop w {} args = .ok v) (h : piper.main w fuel args = some r) :
    ∃ r0, piper.transfer w fuel v = some r0 ∧ r = r0.withSignals := by
  unfold piper.main at h
  rw [hv] at h
  simp only at h
  cases ht : piper.transfer w fuel v with
  | none => rw [ht] at h; simp at h
  | some r0 =>
    rw [ht] at h
    simp only [Option.map_some', Option.some.injEq] at h
    exact ⟨r0, rfl, h.symm⟩

theorem piper_transfer_rc (w : World) (fuel : Nat) (v : piper.Vars) (r : Run)
    (hc : v.trace.any Event.isFailure = false) (h : piper.transfer w fuel v = some r)
    (hopen : ∀ name err, Event.OpenFile name (some err) ∉ r.trace)
    (hpanic : ∀ msg, r.exit ≠ .Panic msg) :
    r.exit = .Code (if r.trace.any Event.isFailure then 1 else v.rc) := by
  unfold piper.transfer at h
  by_cases hsz : v.size < 0 ∨ v.size > maxAlloc
  · rw [if_pos hsz] at h
    simp only [Option.some.injEq] at h
    subst h
    exact absurd rfl (hpanic _)
  rw [if_neg hsz] at h
  by_cases hal : w.Alloc v.trace v.size = false
  · rw [if_pos hal] at h
    simp only [Option.some.injEq] at h
    subst h
    exact absurd rfl (hpanic _)
  rw [if_neg hal] at h
  by_cases hio : v.inFile ≠ [] ∨ v.outFile ≠ []
  swap
  · rw [if_neg hio] at h
    exact piper_run_rc w fuel v _ _ _ r hc h
  rw [if_pos hio] at h
  simp only at h
  have hfail : ∀ (tr : List Event) (name : Str) (err : Str),
      some (piper.handleError (tr ++ [.OpenFile name (some err)]) err v.log piper.runtimeError) =
        some r → False := by
    intro tr name err hr
    simp only [Option.some.injEq] at hr
    subst hr
    exact hopen name err (by simp [piper.handleError, piper.runtimeError, piper.syntaxError])
  have hsleep : (v.trace ++ [Event.Sleep v.openDelay]).any Event.isFailure = false := by
    rw [any_isFailure_append _ _ (by simp [Event.isFailure])]; exact hc
  by_cases ho : v.outFile ≠ []
  · simp only [if_pos ho] at h
    cases herr : w.OpenFile (v.trace ++ [.Sleep v.openDelay]) v.outFile with
    | some err =>
      rw [herr] at h
      exact absurd h (fun h => hfail _ _ _ h)
    | none =>
      rw [herr] at h
      simp only at h
      have hout : (v.trace ++ [Event.Sleep v.openDelay] ++
          [Event.OpenFile v.outFile none]).any Event.isFailure = false := by
        rw [any_isFailure_append _ _ (by simp [Event.isFailure])]; exact hsleep
      by_cases hi : v.inFile ≠ []
      · simp only [if_pos hi] at h
        cases herr2 : w.OpenFile (v.trace ++ [.Sleep v.openDelay] ++
            [.OpenFile v.outFile none]) v.inFile with
        | some err =>
          rw [herr2] at h
          exact absurd h (fun h => hfail _ _ _ h)
        | none =>
          rw [herr2] at h
          simp only at h
          refine piper_run_rc w fuel v _ _ _ r ?_ h
          rw [any_isFailure_append _ _ (by simp [Event.isFailure])]; exact hout
      · simp only [if_neg hi] at h
        exact piper_run_rc w fuel v _ _ _ r hout h
  · simp only [if_neg ho] at h
    by_cases hi : v.inFile ≠ []
    · simp only [if_pos hi] at h
      cases herr2 : w.OpenFile (v.trace ++ [.Sleep v.openDelay]) v.inFile with
      | some err =>
        rw [herr2] at h
        exact absurd h (fun h => hfail _ _ _ h)
      | none =>
        rw [herr2] at h
        simp only at h
        refine piper_run_rc w fuel v _ _ _ r ?_ h
        rw [any_isFailure_append _ _ (by simp [Event.isFailure])]; exact hsleep
    · simp only [if_neg hi] at h
      exact piper_run_rc w fuel v _ _ _ r hsleep h

theorem piper_main_rc (w : World) (fuel : Nat) (args : List Str) (v : piper.Vars) (r : Run)
    (hv : piper.argLoop w {} args = .ok v) (h : piper.main w fuel args = some r)
    (hopen : ∀ name err, Event.OpenFile name (some err) ∉ r.trace)
    (hpanic : ∀ msg, r.exit ≠ .Panic msg) (hsig : ∀ name, r.exit ≠ .Signal name) :
    r.exit = .Code (if r.trace.any Event.isFailure then 1 else 0) := by
  have hc := creates_no_failure _ (piper_argLoop_inv w args {} v hv (by simp) (fun _ => rfl)).1
  have hrc : v.rc = 0 := piper_argLoop_rc w args {} v hv
  rw [← hrc]
  obtain ⟨r0, ht, rfl⟩ := piper_main_ok w fuel args v r hv h
  rw [withSignals_of_exit r0 hsig] at hopen hpanic ⊢
  exact piper_transfer_rc w fuel v r0 hc ht hopen hpanic

/-- C8, as stated, fails: `writer -rc 7 -s 4` whose standard output is a pipe
closed at the other end. The first `Write` fails with `EPIPE`, a write failure,
and the process is ended by SIGPIPE inside that call: it prints no message and
no summary, and it ends with no exit code 1. -/
theorem C8_counterexample :
    writer.main closedPipeWorld 2
        ["writer".toList, "-rc".toList, "7".toList, "-s".toList, "4".toList] =
      some ⟨[.Sleep 0, .Write .Std [0, 0, 0, 0] 0 (some .EPIPE)], .Signal SIGPIPE⟩ ∧
    ([Event.Sleep 0, .Write .Std [0, 0, 0, 0] 0 (some .EPIPE)]).any Event.isFailure = true ∧
    Exit.Signal SIGPIPE ≠ .Code 1 :=
  ⟨rfl, rfl, by decide⟩

/-- C8, amended: in a run of reader, writer or piper that gets past the
argument loop and ends by `os.Exit` after the loop (no panic or fatal error of
the run time, no failed open, and the process is not ended by a signal), the
exit code is 1 when a `Read` returned an error other than `io.EOF` or a `Write`
returned an error, and otherwise the code set by `-rc` (0 by default) in reader
and writer, and 0 in piper. -/
theorem C8_exit_code (w : World) (fuel : Nat) (args : List Str) (r : Run)
    (hopen : ∀ name err, Event.OpenFile name (some err) ∉ r.trace)
    (hpanic : ∀ msg, r.exit ≠ .Panic msg) (hsig : ∀ name, r.exit ≠ .Signal name) :
    (∀ v : reader.Vars, reader.argLoop w {} args = .ok v → reader.main w fuel args = some r →
      r.exit = .Code (if r.trace.any Event.isFailure then 1 else v.rc)) ∧
    (∀ v : writer.Vars, writer.argLoop w {} args = .ok v → writer.main w fuel args = some r →
      r.exit = .Code (if r.trace.any Event.isFailure then 1 else v.rc)) ∧
    (∀ v : piper.Vars, piper.argLoop w {} args = .ok v → piper.main w fuel args = some r →
      r.exit = .Code (if r.trace.any Event.isFailure then 1 else 0)) :=
  ⟨fun v hv h => reader_main_rc w fuel args v r hv h hopen hpanic,
    fun v hv h => writer_main_rc w fuel args v r hv h hopen hpanic hsig,
    fun v hv h => piper_main_rc w fuel args v r hv h hopen hpanic hsig⟩

/-- C8 (amended) at `writer -rc 7 -s 4` when the write returns an error (exit
code 1, not 7), and at `reader -rc 7 -s 4` on an empty input (the loop ends by
end-of-input, exit code 7). -/
theorem C8_exit_code_witness :
    (writer.main brokenWorld 2
        ["writer".toList, "-rc".toList, "7".toList, "-s".toList, "4".toList] =
      some ⟨[.Sleep 0, .Write .Std [0, 0, 0, 0] 0 (some (.other "input/output error".toList)),
          .Fprintf .Discard "Error encountered while writing: %!v(MISSING)\n".toList,
          .Fprintf .Discard "Wrote 0 bytes in 0s\n".toList], .Code 1⟩ ∧
      reader.main stillWorld 2
        ["reader".toList, "-rc".toList, "7".toList, "-s".toList, "4".toList] =
      some ⟨[.Sleep 0, .Read .Std 4 [] (some .EOF), .Sleep 0,
          .Fprintf .Std "Read 0 bytes in 0s\n".toList, .Sleep 0], .Code 7⟩) ∧
    Exit.Code 1 = .Code (if ([Event.Sleep 0,
          .Write .Std [0, 0, 0, 0] 0 (some (.other "input/output error".toList)),
          .Fprintf .Discard "Error encountered while writing: %!v(MISSING)\n".toList,
          .Fprintf .Discard "Wrote 0 bytes in 0s\n".toList]).any Event.isFailure then 1
        else 7) ∧
    Exit.Code 7 = .Code (if ([Event.Sleep 0, .Read .Std 4 [] (some .EOF), .Sleep 0,
          .Fprintf .Std "Read 0 bytes in 0s\n".toList, .Sleep 0]).any Event.isFailure then 1
        else 7) :=
  ⟨⟨rfl, rfl⟩,
    (C8_exit_code brokenWorld 2
      ["writer".toList, "-rc".toList, "7".toList, "-s".toList, "4".toList]
      ⟨[.Sleep 0, .Write .Std [0, 0, 0, 0] 0 (some (.other "input/output error".toList)),
          .Fprintf .Discard "Error encountered while writing: %!v(MISSING)\n".toList,
          .Fprintf .Discard "Wrote 0 bytes in 0s\n".toList], .Code 1⟩
      (by simp) (by simp) (by simp)).2.1 { rc := 7, size := 4, skip := false } rfl rfl,
    (C8_exit_code stillWorld 2
      ["reader".toList, "-rc".toList, "7".toList, "-s".toList, "4".toList]
      ⟨[.Sleep 0, .Read .Std 4 [] (some .EOF), .Sleep 0,
          .Fprintf .Std "Read 0 bytes in 0s\n".toList, .Sleep 0], .Code 7⟩
      (by simp) (by simp) (by simp)).1 { rc := 7, size := 4, skip := false } rfl rfl⟩

/-! ## The write loop of writer -/

theorem wrapInt64_add_wrap (a b : Int) : wrapInt64 (wrapInt64 a + b) = wrapInt64 (a + b) := by
  unfold wrapInt64
  norm_num
  omega

theorem wrapInt64_idem (a : Int) : wrapInt64 (wrapInt64 a) = wrapInt64 a := by
  have := wrapInt64_add_wrap a 0
  simpa using this

/-- With no timeout and a target that takes every block in full, `k`
iterations of the write loop in which `itr` does not meet `count`. -/
theorem writer_loop_full (w : World) (v : writer.Vars) (output : Stream) (buf : List Nat)
    (hto : v.timeout = 0) (hw : ∀ h p, w.Write h p = ((p.length : Int), none))
    (k fuel : Nat) (s : writer.LoopVars) (h0 : 0 ≤ s.itr) (hk : s.itr + k < 2 ^ 63)
    (hb : wrapInt64 s.bytes = s.bytes)
    (hcount : ∀ j : Nat, j < k → s.itr + j ≠ v.count) :
    ∃ rt, writer.loop w v output buf (k + fuel) s =
      writer.loop w v output buf fuel
        { itr := s.itr + k, bytes := wrapInt64 (s.bytes + k * buf.length), rc := s.rc,
          runtime := rt, trace := s.trace ++ fullWrites output buf v.delay k } := by
  induction k generalizing s with
  | zero =>
    refine ⟨s.runtime, ?_⟩
    simp only [Nat.zero_add, fullWrites, List.append_nil, Nat.cast_zero, zero_mul, add_zero, hb]
  | succ k ih =>
    have hne : s.itr ≠ v.count := by simpa using hcount 0 (Nat.succ_pos k)
    have hitr : wrapInt64 (s.itr + 1) = s.itr + 1 :=
      wrapInt64_of_range _ (by norm_num; omega) (by push_cast at hk; omega)
    rw [show k + 1 + fuel = (k + fuel) + 1 by omega, writer_loop_succ, if_neg hne,
      if_neg (by simp [hto]), hw]
    simp only
    obtain ⟨rt, hrt⟩ := ih
      { itr := wrapInt64 (s.itr + 1), bytes := wrapInt64 (s.bytes + (buf.length : Int)),
        rc := s.rc, runtime := w.Since s.trace,
        trace := s.trace ++ [.Write output buf (buf.length : Int) none] ++ [.Sleep v.delay] }
      (by simp only [hitr]; omega) (by simp only [hitr]; push_cast at hk; omega)
      (wrapInt64_idem _)
      (by
        intro j hj
        simp only [hitr]
        have := hcount (j + 1) (by omega)
        push_cast at this
        rw [add_assoc, add_comm (1 : Int) j]
        exact this)
    refine ⟨rt, ?_⟩
    rw [hrt]
    congr 1
    simp only [hitr, wrapInt64_add_wrap, fullWrites, List.append_assoc, List.cons_append,
      List.nil_append]
    congr 1
    · push_cast; ring
    · congr 1; push_cast; ring

/-- The run of writer from the start delay on, with a count `c > 0`, a block
size `s ≥ 0`, no timeout and a target that takes every block in full: `c`
full writes, and a summary of the total as the 64-bit counter holds it. -/
theorem writer_run_full (w : World) (v : writer.Vars) (output : Stream) (tr : List Event)
    (fuel : Nat) (hc : 0 < v.count) (hc63 : v.count < 2 ^ 63) (hs : 0 ≤ v.size)
    (hto : v.timeout = 0) (hw : ∀ h p, w.Write h p = ((p.length : Int), none))
    (hfuel : v.count < fuel) :
    ∃ rt, writer.run w fuel v output tr =
      some ⟨tr ++ [.Sleep v.startDelay] ++
          fullWrites output (List.replicate v.size.toNat 0) v.delay v.count.toNat ++
          [.Fprintf v.log ("Wrote ".toList ++
            writer.bytesWritten (wrapInt64 (v.count * v.size)) ++ " in ".toList ++
            w.DurationString rt ++ "\n".toList)], .Code v.rc⟩ := by
  obtain ⟨c, hcc⟩ : ∃ c : Nat, v.count = c := ⟨v.count.toNat, by omega⟩
  obtain ⟨f, hf⟩ : ∃ f : Nat, fuel = c + (f + 1) := ⟨fuel - c - 1, by omega⟩
  obtain ⟨rt, hrt⟩ := writer_loop_full w v output (makeBytes v.size) hto hw c (f + 1)
    { itr := 0, bytes := 0, rc := v.rc, runtime := 0, trace := tr ++ [.Sleep v.startDelay] }
    (le_refl _) (by simp only [zero_add]; omega) (by show wrapInt64 0 = 0; decide)
    (by intro j hj; simp only [zero_add]; omega)
  refine ⟨rt, ?_⟩
  unfold writer.run
  rw [hf, hrt, writer_loop_succ, if_pos (by simp [hcc])]
  simp only [writer.finish, makeBytes, List.length_replicate, zero_add, hcc, Int.toNat_ofNat]
  have e : ((c : Int) * ((v.size.toNat : Nat) : Int)) = (c : Int) * v.size := by
    rw [Int.toNat_of_nonneg hs]
  rw [e]

theorem fullWrites_no_sigpipe (output : Stream) (buf : List Nat) (delay : Int) (k : Nat) :
    ∀ e ∈ fullWrites output buf delay k, e.raisesSIGPIPE = false := by
  induction k with
  | zero => simp [fullWrites]
  | succ k ih =>
    intro e he
    simp only [fullWrites, List.mem_cons] at he
    rcases he with rfl | rfl | he
    · cases output <;> rfl
    · rfl
    · exact ih e he

theorem creates_no_sigpipe (tr : List Event) (h : ∀ e ∈ tr, ∃ name, e = Event.Create name none) :
    ∀ e ∈ tr, e.raisesSIGPIPE = false := by
  intro e he
  obtain ⟨name, rfl⟩ := h e he
  rfl

/-- A whole run of writer with a positive count, no timeout, a buffer that is
allocated, a file that opens and a target that takes every block in full: the
events before the loop, then `count` full writes, each followed by the sleep
of the delay, then the summary with the total as the 64-bit `int` holds it. -/
theorem writer_main_full (w : World) (fuel : Nat) (args : List Str) (v : writer.Vars)
    (hv : writer.argLoop w {} args = .ok v) (hc : 0 < v.count) (hc63 : v.count < 2 ^ 63)
    (hs : 0 ≤ v.size) (hmax : v.size ≤ maxAlloc) (halloc : w.Alloc v.trace v.size = true)
    (hto : v.timeout = 0) (hw : ∀ h p, w.Write h p = ((p.length : Int), none))
    (hopen : v.fileName ≠ [] → w.OpenFile (v.trace ++ [.Sleep v.openDelay]) v.fileName = none)
    (hfuel : v.count < fuel) :
    ∃ rt, writer.main w fuel args =
      some ⟨(if v.fileName = [] then v.trace
            else v.trace ++ [.Sleep v.openDelay, .OpenFile v.fileName none]) ++
          [.Sleep v.startDelay] ++
          fullWrites (if v.fileName = [] then .Std else .File v.fileName)
            (List.replicate v.size.toNat 0) v.delay v.count.toNat ++
          [.Fprintf v.log ("Wrote ".toList ++
            writer.bytesWritten (wrapInt64 (v.count * v.size)) ++ " in ".toList ++
            w.DurationString rt ++ "\n".toList)], .Code v.rc⟩ := by
  have hcr := creates_no_sigpipe _
    (writer_argLoop_inv w args {} v hv (by simp) (fun _ => rfl)).1
  have hnone : ∀ (output : Stream) (tr : List Event) (text : Str),
      (∀ e ∈ tr, e.raisesSIGPIPE = false) →
      ∀ e ∈ tr ++ [.Sleep v.startDelay] ++
        fullWrites output (List.replicate v.size.toNat 0) v.delay v.count.toNat ++
        [.Fprintf v.log text], e.raisesSIGPIPE = false := by
    intro output tr text htr e he
    simp only [List.mem_append, List.mem_singleton] at he
    rcases he with ((he | he) | he) | he
    · exact htr e he
    · rw [he]; rfl
    · exact fullWrites_no_sigpipe _ _ _ _ e he
    · rw [he]; rfl
  unfold writer.main
  rw [hv]
  simp only [writer.transfer]
  rw [if_neg (by omega), if_neg (by simp [halloc])]
  by_cases hf : v.fileName = []
  · obtain ⟨rt, hrt⟩ := writer_run_full w v .Std v.trace fuel hc hc63 hs hto hw hfuel
    refine ⟨rt, ?_⟩
    rw [if_pos hf, if_pos hf, if_pos hf, hrt, Option.map_some',
      withSignals_of_none _ (hnone _ _ _ hcr)]
  · obtain ⟨rt, hrt⟩ := writer_run_full w v (.File v.fileName)
      (v.trace ++ [.Sleep v.openDelay, .OpenFile v.fileName none]) fuel hc hc63 hs hto hw hfuel
    have hpre : ∀ e ∈ v.trace ++ [Event.Sleep v.openDelay, Event.OpenFile v.fileName none],
        e.raisesSIGPIPE = false := by
      intro e he
      simp only [List.mem_append, List.mem_cons, List.mem_singleton, List.not_mem_nil,
        or_false] at he
      rcases he with he | he | he
      · exact hcr e he
      · rw [he]; rfl
      · rw [he]; rfl
    refine ⟨rt, ?_⟩
    rw [if_neg hf, if_neg hf, if_neg hf, hopen hf]
    simp only
    rw [hrt, Option.map_some', withSignals_of_none _ (hnone _ _ _ hpre)]

/-! ## C9: writer with `-c 0` -/

/-- C9, as stated, fails: with `-c 0` (no timeout, a target that takes every
write) the loop of writer ends at the first evaluation of its condition
`itr != count`; the run performs zero writes and reports 0 bytes. -/
theorem C9_counterexample :
    writer.main stillWorld 1 ["writer".toList, "-c".toList, "0".toList] =
      some ⟨[.Sleep 0, .Fprintf .Discard "Wrote 0 bytes in 0s\n".toList], .Code 0⟩ ∧
    ([Event.Sleep 0, .Fprintf .Discard "Wrote 0 bytes in 0s\n".toList].filter
      Event.isWrite).length = 0 :=
  ⟨rfl, rfl⟩

/-- With a negative count, no timeout and no write error, the write loop is
still running after `k` iterations, having called `Write` `k` times. -/
theorem writer_loop_running (w : World) (v : writer.Vars) (output : Stream) (buf : List Nat)
    (hneg : v.count < 0) (hto : v.timeout = 0) (hw : ∀ h p, (w.Write h p).2 = none)
    (k : Nat) (s : writer.LoopVars) (h0 : 0 ≤ s.itr) (hk : s.itr + k < 2 ^ 63) :
    (writer.loop w v output buf k s).2 = false ∧
      ((writer.loop w v output buf k s).1.trace.filter Event.isWrite).length =
        (s.trace.filter Event.isWrite).length + k := by
  induction k generalizing s with
  | zero => simp [writer.loop]
  | succ k ih =>
    have hitr : wrapInt64 (s.itr + 1) = s.itr + 1 :=
      wrapInt64_of_range _ (by norm_num; omega) (by push_cast at hk; omega)
    rw [writer_loop_succ, if_neg (by omega), if_neg (by simp [hto]), hw]
    simp only
    have := ih
      { itr := wrapInt64 (s.itr + 1), bytes := wrapInt64 (s.bytes + (w.Write s.trace buf).1),
        rc := s.rc, runtime := w.Since s.trace,
        trace := s.trace ++ [.Write output buf (w.Write s.trace buf).1 none] ++
          [.Sleep v.delay] }
      (by simp only [hitr]; omega) (by simp only [hitr]; push_cast at hk; omega)
    refine ⟨this.1, ?_⟩
    rw [this.2]
    simp [Event.isWrite, List.filter_cons]
    omega

/-- C9, amended: with `-c 0` the write loop of writer performs no iteration:
whatever the timeout and the target, the run from the start delay on is the
start delay and the summary `Wrote 0 bytes`, with no write at all, and it ends
with the configured exit code. The count that the loop never reaches is a
negative one (such as `-c -1`): with it, no timeout and no write error, the
loop is still running after `k` iterations, having performed `k` writes, for
every `k` below 2^63. -/
theorem C9_writer_count_zero (w : World) (v : writer.Vars) (output : Stream)
    (tr : List Event) :
    (v.count = 0 → ∀ fuel : Nat, 0 < fuel →
      writer.run w fuel v output tr = some ⟨tr ++ [.Sleep v.startDelay, .Fprintf v.log
        ("Wrote 0 bytes in ".toList ++ w.DurationString 0 ++ "\n".toList)], .Code v.rc⟩) ∧
    (v.count < 0 → v.timeout = 0 → (∀ h p, (w.Write h p).2 = none) →
      ∀ k : Nat, (k : Int) < 2 ^ 63 →
        (writer.loop w v output (makeBytes v.size) k
          { itr := 0, bytes := 0, rc := v.rc, runtime := 0,
            trace := tr ++ [.Sleep v.startDelay] }).2 = false ∧
        ((writer.loop w v output (makeBytes v.size) k
          { itr := 0, bytes := 0, rc := v.rc, runtime := 0,
            trace := tr ++ [.Sleep v.startDelay] }).1.trace.filter Event.isWrite).length =
          (tr.filter Event.isWrite).length + k) := by
  constructor
  · intro h0 fuel hfuel
    obtain ⟨f, rfl⟩ : ∃ f, fuel = f + 1 := ⟨fuel - 1, by omega⟩
    unfold writer.run
    rw [writer_loop_succ, if_pos (by simp [h0])]
    simp only [writer.finish, List.append_assoc, List.cons_append, List.nil_append]
    rfl
  · intro hneg hto hw k hk
    have := writer_loop_running w v output (makeBytes v.size) hneg hto hw k
      { itr := 0, bytes := 0, rc := v.rc, runtime := 0, trace := tr ++ [.Sleep v.startDelay] }
      (le_refl _) (by simpa using hk)
    refine ⟨this.1, ?_⟩
    rw [this.2]
    simp [Event.isWrite, List.filter_append]

/-- C9 (amended) at `writer -c 0` (no write, 0 bytes) and at `writer -c -1`
with blocks of 2 bytes (still running after 5 iterations, 5 writes done). -/
theorem C9_writer_count_zero_witness :
    writer.run stillWorld 1 { count := 0, skip := false } .Std [] =
      some ⟨[.Sleep 0, .Fprintf .Discard "Wrote 0 bytes in 0s\n".toList], .Code 0⟩ ∧
    ((writer.loop stillWorld { count := -1, size := 2, skip := false } .Std (makeBytes 2) 5
        { itr := 0, bytes := 0, rc := 0, runtime := 0, trace := [] ++ [.Sleep 0] }).2 = false ∧
      ((writer.loop stillWorld { count := -1, size := 2, skip := false } .Std (makeBytes 2) 5
        { itr := 0, bytes := 0, rc := 0, runtime := 0,
          trace := [] ++ [.Sleep 0] }).1.trace.filter Event.isWrite).length = 0 + 5) :=
  ⟨(C9_writer_count_zero stillWorld { count := 0, skip := false } .Std []).1 rfl 1 (by decide),
    (C9_writer_count_zero stillWorld { count := -1, size := 2, skip := false } .Std []).2
      (by decide) rfl (fun _ _ => rfl) 5 (by decide)⟩

/-! ## C10: the blocks and the total of writer -/

/-- C10, as stated, fails when `c*s` does not fit the 64-bit byte counter:
`writer -c 2147483647 -s 4097m` (blocks of 4296015872 bytes) on a target that
takes every block in full issues its 2147483647 full writes, and the total in
the summary is the wrapped, negative `-9221120241337106432 bytes`, not `c*s`
(which is 9225623832372445184 bytes, that is 8798240501759 megabytes). -/
theorem C10_counterexample :
    (∃ rt, writer.main stillWorld 2147483648
        ["writer".toList, "-c".toList, "2147483647".toList, "-s".toList, "4097m".toList] =
      some ⟨[] ++ [.Sleep 0] ++
          fullWrites .Std (List.replicate 4296015872 0) 0 2147483647 ++
          [.Fprintf .Discard ("Wrote ".toList ++ "-9221120241337106432 bytes".toList ++
            " in ".toList ++ stillWorld.DurationString rt ++ "\n".toList)], .Code 0⟩) ∧
    writer.bytesWritten (2147483647 * 4296015872) = "8798240501759 megabytes".toList ∧
    "8798240501759 megabytes".toList ≠ "-9221120241337106432 bytes".toList := by
  refine ⟨?_, by decide, by decide⟩
  have hv : writer.argLoop stillWorld {}
      ["writer".toList, "-c".toList, "2147483647".toList, "-s".toList, "4097m".toList] =
      .ok { count := 2147483647, size := 4296015872, skip := false } := rfl
  exact writer_main_full stillWorld 2147483648
    ["writer".toList, "-c".toList, "2147483647".toList, "-s".toList, "4097m".toList]
    { count := 2147483647, size := 4296015872, skip := false } hv
    (by decide) (by decide) (by decide) (by decide) rfl rfl (fun _ _ => rfl)
    (fun h => absurd rfl h) (by decide)

/-- C10, amended: for writer with count `c > 0`, a block size `s > 0` that
`make` accepts (at most `maxAlloc`) and for which the run time gets the memory,
no timeout, a file (if one is named) that opens, and a target on which every
write succeeds in full, and with `c*s` within the signed 64-bit range of the
byte counter: after the events before the loop and the start delay, the run is
exactly `c` times a write of a block of `s` zero bytes that returns `s`
followed by the sleep of the delay, then the summary, whose total is `c*s`
bytes; it ends with the configured exit code. The loop needs `c + 1`
evaluations of its condition. -/
theorem C10_writer_blocks (w : World) (fuel : Nat) (args : List Str) (v : writer.Vars)
    (hv : writer.argLoop w {} args = .ok v) (hc : 0 < v.count) (hs : 0 < v.size)
    (hmax : v.size ≤ maxAlloc) (halloc : w.Alloc v.trace v.size = true)
    (hto : v.timeout = 0) (hw : ∀ h p, w.Write h p = ((p.length : Int), none))
    (hopen : v.fileName ≠ [] → w.OpenFile (v.trace ++ [.Sleep v.openDelay]) v.fileName = none)
    (hfit : v.count * v.size < 2 ^ 63) (hfuel : v.count < fuel) :
    ∃ rt, writer.main w fuel args =
      some ⟨(if v.fileName = [] then v.trace
            else v.trace ++ [.Sleep v.openDelay, .OpenFile v.fileName none]) ++
          [.Sleep v.startDelay] ++
          fullWrites (if v.fileName = [] then .Std else .File v.fileName)
            (List.replicate v.size.toNat 0) v.delay v.count.toNat ++
          [.Fprintf v.log ("Wrote ".toList ++ writer.bytesWritten (v.count * v.size) ++
            " in ".toList ++ w.DurationString rt ++ "\n".toList)], .Code v.rc⟩ := by
  have hc63 : v.count < 2 ^ 63 := by nlinarith
  obtain ⟨rt, hrt⟩ := writer_main_full w fuel args v hv hc hc63 (le_of_lt hs) hmax halloc hto
    hw hopen hfuel
  refine ⟨rt, ?_⟩
  rw [hrt, wrapInt64_of_range _ (by nlinarith) hfit]

/-- C10 (amended) at `writer -c 3 -s 10`: three writes of 10 zero bytes and a
total of 30 bytes. -/
theorem C10_writer_blocks_witness :
    writer.main stillWorld 4
        ["writer".toList, "-c".toList, "3".toList, "-s".toList, "10".toList] =
      some ⟨[.Sleep 0,
          .Write .Std [0, 0, 0, 0, 0, 0, 0, 0, 0, 0] 10 none, .Sleep 0,
          .Write .Std [0, 0, 0, 0, 0, 0, 0, 0, 0, 0] 10 none, .Sleep 0,
          .Write .Std [0, 0, 0, 0, 0, 0, 0, 0, 0, 0] 10 none, .Sleep 0,
          .Fprintf .Discard "Wrote 30 bytes in 0s\n".toList], .Code 0⟩ ∧
    ∃ rt, writer.main stillWorld 4
        ["writer".toList, "-c".toList, "3".toList, "-s".toList, "10".toList] =
      some ⟨[] ++ [.Sleep 0] ++ fullWrites .Std (List.replicate 10 0) 0 3 ++
          [.Fprintf .Discard ("Wrote ".toList ++ writer.bytesWritten (3 * 10) ++
            " in ".toList ++ stillWorld.DurationString rt ++ "\n".toList)], .Code 0⟩ :=
  ⟨rfl, C10_writer_blocks stillWorld 4
    ["writer".toList, "-c".toList, "3".toList, "-s".toList, "10".toList]
    { count := 3, size := 10, skip := false } rfl (by decide) (by decide) (by decide) rfl rfl
    (fun _ _ => rfl) (fun h => absurd rfl h) (by decide) (by decide)⟩

/-! ## C17: the help flag -/

/-- C17: in writer, reader and piper, when `-h` is the argument in flag
position (it follows an accepted part `pre` of the argument list), the
program prints the usage text to its log and ends with the exit code 0,
whatever arguments `rest` follow: unrecognized flags, malformed values or a
flag without its value among them are never looked at. -/
theorem C17_help_flag (w : World) (fuel : Nat) (pre rest : List Str) :
    (∀ v : writer.Vars, writer.argLoop w {} pre = .ok v → v.skip = false →
      writer.main w fuel (pre ++ "-h".toList :: rest) =
        some ⟨v.trace ++ [.Fprintf v.log writer.usageText], .Code 0⟩) ∧
    (∀ v : reader.Vars, reader.argLoop w {} pre = .ok v → v.skip = false →
      reader.main w fuel (pre ++ "-h".toList :: rest) =
        some ⟨v.trace ++ [.Fprintf v.log reader.usageText], .Code 0⟩) ∧
    (∀ v : piper.Vars, piper.argLoop w {} pre = .ok v → v.skip = false →
      piper.main w fuel (pre ++ "-h".toList :: rest) =
        some ⟨v.trace ++ [.Fprintf v.log piper.usageText], .Code 0⟩) :=
  ⟨fun v h hs => writer_main_of_argCase w fuel pre rest v _ _ h hs rfl,
    fun v h hs => reader_main_of_argCase w fuel pre rest v _ _ h hs rfl,
    fun v h hs => piper_main_of_argCase w fuel pre rest v _ _ h hs rfl⟩

/-- C17 at `piper -h -x -s` and at `reader -s 4k -h -d abc`: exit code 0. -/
theorem C17_help_flag_witness :
    piper.main stillWorld 0 ["piper".toList, "-h".toList, "-x".toList, "-s".toList] =
      some ⟨[.Fprintf .Discard piper.usageText], .Code 0⟩ ∧
    reader.main stillWorld 0
        ["reader".toList, "-s".toList, "4k".toList, "-h".toList, "-d".toList, "abc".toList] =
      some ⟨[.Fprintf .Std reader.usageText], .Code 0⟩ :=
  ⟨(C17_help_flag stillWorld 0 ["piper".toList] ["-x".toList, "-s".toList]).2.2
      { skip := false } rfl rfl,
    (C17_help_flag stillWorld 0 ["reader".toList, "-s".toList, "4k".toList]
      ["-d".toList, "abc".toList]).2.1 { skip := false, size := 4096 } rfl rfl⟩

/-! ## The events of the transfer loops -/

theorem fill_nil (data : List Nat) : fill [] data = [] := by
  simp [fill]

theorem fill_length (buf data : List Nat) : (fill buf data).length = buf.length := by
  unfold fill
  rw [List.length_take, List.length_append, List.length_drop]
  omega

/-- The events the write loop of writer adds: iterations of a `Write` of the
buffer without error and the sleep of the delay, ended or not by a `Write` with
an error and its message. -/
theorem writer_loop_shape (w : World) (v : writer.Vars) (output : Stream) (buf : List Nat)
    (P : List Event → Prop) (h0 : P [])
    (hE : ∀ n err text, P [.Write output buf n (some err), .Fprintf v.log text])
    (hS : ∀ n rest, P rest → P (.Write output buf n none :: .Sleep v.delay :: rest))
    (fuel : Nat) (s : writer.LoopVars) :
    ∃ rest, (writer.loop w v output buf fuel s).1.trace = s.trace ++ rest ∧ P rest := by
  induction fuel generalizing s with
  | zero => exact ⟨[], by simp [writer.loop], h0⟩
  | succ n ih =>
    rw [writer_loop_succ]
    by_cases h1 : s.itr = v.count
    · rw [if_pos h1]; exact ⟨[], by simp, h0⟩
    · rw [if_neg h1]
      by_cases h2 : w.Since s.trace ≥ v.timeout ∧ v.timeout ≠ 0
      · rw [if_pos h2]; exact ⟨[], by simp, h0⟩
      · rw [if_neg h2]
        cases herr : (w.Write s.trace buf).2 with
        | some x => exact ⟨_, by simp only [List.append_assoc]; rfl, hE _ x _⟩
        | none =>
          simp only
          obtain ⟨rest, e, hP⟩ := ih
            { itr := wrapInt64 (s.itr + 1), bytes := wrapInt64 (s.bytes + (w.Write s.trace buf).1),
              rc := s.rc, runtime := w.Since s.trace,
              trace := s.trace ++ [.Write output buf (w.Write s.trace buf).1 none] ++
                [.Sleep v.delay] }
          exact ⟨_, by rw [e]; simp only [List.append_assoc]; rfl, hS _ rest hP⟩

/-- The events of a run of writer from the start delay on: the start delay,
the events of the write loop, and the summary. -/
theorem writer_run_shape (w : World) (fuel : Nat) (v : writer.Vars) (output : Stream)
    (tr : List Event) (r : Run) (h : writer.run w fuel v output tr = some r)
    (P : List Event → Prop) (h0 : P [])
    (hE : ∀ n err text, P [.Write output (makeBytes v.size) n (some err), .Fprintf v.log text])
    (hS : ∀ n rest, P rest →
      P (.Write output (makeBytes v.size) n none :: .Sleep v.delay :: rest)) :
    ∃ rest text, r.trace = tr ++ [.Sleep v.startDelay] ++ rest ++ [.Fprintf v.log text] ∧
      P rest := by
  obtain ⟨rest, e, hP⟩ := writer_loop_shape w v output (makeBytes v.size) P h0 hE hS fuel
    { itr := 0, bytes := 0, rc := v.rc, runtime := 0, trace := tr ++ [.Sleep v.startDelay] }
  unfold writer.run at h
  split at h
  next s hs =>
    rw [hs] at e
    simp only [Option.some.injEq] at h
    subst h
    exact ⟨rest, _, by simp only [writer.finish]; rw [e], hP⟩
  next => simp at h

/-- A run of `transfer` of writer ends by the panic or the fatal error of the
allocation or by the failure to open the file, without a `Write`, or goes
through the write loop after events none of which is a `Write`. -/
theorem writer_transfer_cases (w : World) (fuel : Nat) (v : writer.Vars) (r : Run)
    (hc : ∀ e ∈ v.trace, ∃ name, e = Event.Create name none)
    (h : writer.transfer w fuel v = some r) :
    (∀ e ∈ r.trace, e.isWrite = false ∧ e.isRead = false) ∨
    ∃ output tr, (∀ e ∈ tr, e.isWrite = false ∧ e.isRead = false) ∧
      0 ≤ v.size ∧ writer.run w fuel v output (tr) = some r := by
  have hc2 : ∀ e ∈ v.trace, e.isWrite = false ∧ e.isRead = false := by
    intro e he
    obtain ⟨name, rfl⟩ := hc e he
    exact ⟨rfl, rfl⟩
  simp only [writer.transfer] at h
  split_ifs at h with h1 h0 h2
  · simp only [Option.some.injEq] at h
    subst h
    exact Or.inl hc2
  · simp only [Option.some.injEq] at h
    subst h
    exact Or.inl hc2
  · exact Or.inr ⟨_, _, hc2, by omega, h⟩
  · split at h
    next err herr =>
      simp only [Option.some.injEq] at h
      subst h
      refine Or.inl ?_
      intro e he
      simp only [writer.handleError, writer.runtimeError, writer.syntaxError] at he
      rw [if_neg (by decide)] at he
      simp only [List.mem_append, List.mem_cons, List.mem_singleton, List.not_mem_nil,
        or_false] at he
      rcases he with (he | he | he) | he
      · exact hc2 e he
      · rw [he]; exact ⟨rfl, rfl⟩
      · rw [he]; exact ⟨rfl, rfl⟩
      · rw [he]; exact ⟨rfl, rfl⟩
    next herr =>
      refine Or.inr ⟨_, _, ?_, by omega, h⟩
      intro e he
      simp only [List.mem_append, List.mem_cons, List.mem_singleton, List.not_mem_nil,
        or_false] at he
      rcases he with he | he | he
      · exact hc2 e he
      · rw [he]; exact ⟨rfl, rfl⟩
      · rw [he]; exact ⟨rfl, rfl⟩

/-! ## C14: the blocks writer writes -/

/-- C14 (the code differs): every block that writer writes is the buffer as
`make([]byte, size)` allocated it, `size` zero bytes; no iteration number is
put at its front. `writer -c 2 -s 4` writes the block `0 0 0 0` twice, where
the claim has the second block begin with the digit `1` (the byte 49). -/
theorem C14_writer_blocks_all_zero (w : World) (fuel : Nat) :
    (∀ (args : List Str) (v : writer.Vars) (r : Run),
      writer.argLoop w {} args = .ok v → writer.main w fuel args = some r →
      ∀ output p n err, Event.Write output p n err ∈ r.trace →
        p = List.replicate v.size.toNat 0) ∧
    writer.main stillWorld 3
        ["writer".toList, "-c".toList, "2".toList, "-s".toList, "4".toList] =
      some ⟨[.Sleep 0, .Write .Std [0, 0, 0, 0] 4 none, .Sleep 0,
          .Write .Std [0, 0, 0, 0] 4 none, .Sleep 0,
          .Fprintf .Discard "Wrote 8 bytes in 0s\n".toList], .Code 0⟩ := by
  refine ⟨?_, rfl⟩
  intro args v r hv h output p n err hmem
  obtain ⟨r0, ht, rfl⟩ := writer_main_ok w fuel args v r hv h
  have hmem := withSignals_mem r0 _ hmem
  rcases writer_transfer_cases w fuel v r0
    (writer_argLoop_inv w args {} v hv (by simp) (fun _ => rfl)).1 ht with
    hno | ⟨out, tr, htr, -, hrun⟩
  · exact absurd (hno _ hmem).1 (by simp [Event.isWrite])
  · obtain ⟨rest, text, e, hP⟩ := writer_run_shape w fuel v out tr r0 hrun
      (fun rest => ∀ e ∈ rest, ∀ output p n err, e = Event.Write output p n err →
        p = makeBytes v.size)
      (by simp)
      (by
        intro n err text e he output p n2 err2 heq
        simp only [List.mem_cons, List.mem_singleton, List.not_mem_nil, or_false] at he
        rcases he with he | he
        · rw [he] at heq; injection heq with _ h2; exact h2.symm
        · rw [he] at heq; cases heq)
      (by
        intro n rest hrest e he output p n2 err2 heq
        simp only [List.mem_cons] at he
        rcases he with he | he | he
        · rw [he] at heq; injection heq with _ h2; exact h2.symm
        · rw [he] at heq; cases heq
        · exact hrest e he output p n2 err2 heq)
    rw [e] at hmem
    simp only [List.mem_append, List.mem_singleton] at hmem
    rcases hmem with ((hm | hm) | hm) | hm
    · exact absurd (htr _ hm).1 (by simp [Event.isWrite])
    · cases hm
    · exact hP _ hm output p n err rfl
    · cases hm

/-- The events the transfer loop of piper adds, its buffer being empty: in
each iteration a `Read` into a buffer of length 0 and a `Write` of the empty
block; the sleep of the delay follows only when `count` is not 0; a failed
call is followed by its message and ends the loop, and so does a `Read` that
returned `io.EOF`, after its `Write`. -/
theorem piper_loop_shape (w : World) (v : piper.Vars) (input output : Stream)
    (P : List Event → Prop) (h0 : P [])
    (hRE : ∀ data t text, P [.Read input 0 data (some (.other t)), .Fprintf v.log text])
    (hWE : ∀ data err n e text, (∀ t, err ≠ some (.other t)) →
      P [.Read input 0 data err, .Write output [] n (some e), .Fprintf v.log text])
    (hEOF : ∀ data n, P [.Read input 0 data (some .EOF), .Write output [] n none])
    (hLim : v.count ≠ 0 → ∀ data n, P [.Read input 0 data none, .Write output [] n none])
    (hC0 : v.count = 0 → ∀ data n rest, P rest →
      P (.Read input 0 data none :: .Write output [] n none :: rest))
    (hC : v.count ≠ 0 → ∀ data n rest, P rest →
      P (.Read input 0 data none :: .Write output [] n none :: .Sleep v.delay :: rest))
    (fuel : Nat) (s : piper.LoopVars) (hb : s.buf = []) (he : s.eof = false) :
    ∃ rest, (piper.loop w v input output fuel s).1.trace = s.trace ++ rest ∧ P rest := by
  induction fuel generalizing s with
  | zero => exact ⟨[], by simp [piper.loop], h0⟩
  | succ k ih =>
    rw [piper_loop_succ]
    simp only [hb, he, fill_nil, List.length_nil]
    by_cases h2 : w.Since s.trace ≥ v.timeout ∧ v.timeout ≠ 0
    · rw [if_pos h2]; exact ⟨[], by simp, h0⟩
    · rw [if_neg h2]
      generalize (w.Read s.trace 0).1 = data
      generalize (w.Read s.trace 0).2 = err
      generalize (w.Write (s.trace ++ [Event.Read input 0 data err]) []).1 = n
      generalize (w.Write (s.trace ++ [Event.Read input 0 data err]) []).2 = werr
      rcases err with _ | _ | t
      · rw [if_neg (by simp)]
        cases werr with
        | some e => exact ⟨_, by simp only [List.append_assoc]; rfl, hWE _ none _ e _ (by simp)⟩
        | none =>
          simp only
          rw [if_neg (by simp)]
          by_cases hc : v.count = 0
          · rw [if_pos hc]
            obtain ⟨rest, e, hP⟩ := ih
              { x := s.x, bytesIn := wrapInt64 (s.bytesIn + (data.length : Int)),
                bytesOut := wrapInt64 (s.bytesOut + n), eof := false, rc := s.rc,
                runtime := w.Since s.trace, buf := [],
                trace := s.trace ++ [.Read input 0 data none] ++ [.Write output [] n none] }
              rfl rfl
            refine ⟨_, ?_, hC0 hc data n rest hP⟩
            simp only [reduceCtorEq, if_false] at e ⊢
            rw [e]; simp only [List.append_assoc]; rfl
          · rw [if_neg hc]
            by_cases hx : wrapInt64 (s.x + 1) = v.count
            · rw [if_pos hx]
              exact ⟨_, by simp only [List.append_assoc]; rfl, hLim hc data n⟩
            · rw [if_neg hx]
              obtain ⟨rest, e, hP⟩ := ih
                { x := wrapInt64 (s.x + 1), bytesIn := wrapInt64 (s.bytesIn + (data.length : Int)),
                  bytesOut := wrapInt64 (s.bytesOut + n), eof := false, rc := s.rc,
                  runtime := w.Since s.trace, buf := [],
                  trace := s.trace ++ [.Read input 0 data none] ++ [.Write output [] n none] ++
                    [.Sleep v.delay] }
                rfl rfl
              refine ⟨_, ?_, hC hc data n rest hP⟩
              simp only [reduceCtorEq, if_false] at e ⊢
              rw [e]; simp only [List.append_assoc]; rfl
      · rw [if_neg (by simp)]
        cases werr with
        | some e =>
          exact ⟨_, by simp only [List.append_assoc]; rfl, hWE _ (some .EOF) _ e _ (by simp)⟩
        | none =>
          simp only
          rw [if_pos (by simp)]
          exact ⟨_, by simp only [List.append_assoc]; rfl, hEOF data n⟩
      · rw [if_pos (by simp)]
        exact ⟨_, by simp only [List.append_assoc]; rfl, hRE data t _⟩

theorem noIO_append (a b : List Event) (ha : ∀ e ∈ a, e.isWrite = false ∧ e.isRead = false)
    (hb : ∀ e ∈ b, e.isWrite = false ∧ e.isRead = false) :
    ∀ e ∈ a ++ b, e.isWrite = false ∧ e.isRead = false := by
  intro e he
  rw [List.mem_append] at he
  exact he.elim (ha e) (hb e)

/-- The events of a run of piper from the start delay on: the start delay,
the events of the transfer loop, and the summary. -/
theorem piper_run_shape (w : World) (fuel : Nat) (v : piper.Vars) (input output : Stream)
    (tr : List Event) (r : Run) (h : piper.run w fuel v input output tr = some r)
    (P : List Event → Prop) (h0 : P [])
    (hRE : ∀ data t text, P [.Read input 0 data (some (.other t)), .Fprintf v.log text])
    (hWE : ∀ data err n e text, (∀ t, err ≠ some (.other t)) →
      P [.Read input 0 data err, .Write output [] n (some e), .Fprintf v.log text])
    (hEOF : ∀ data n, P [.Read input 0 data (some .EOF), .Write output [] n none])
    (hLim : v.count ≠ 0 → ∀ data n, P [.Read input 0 data none, .Write output [] n none])
    (hC0 : v.count = 0 → ∀ data n rest, P rest →
      P (.Read input 0 data none :: .Write output [] n none :: rest))
    (hC : v.count ≠ 0 → ∀ data n rest, P rest →
      P (.Read input 0 data none :: .Write output [] n none :: .Sleep v.delay :: rest)) :
    ∃ rest text, r.trace = tr ++ [.Sleep v.startDelay] ++ rest ++ [.Fprintf v.log text] ∧
      P rest := by
  obtain ⟨rest, e, hP⟩ := piper_loop_shape w v input output P h0 hRE hWE hEOF hLim hC0 hC fuel
    { x := 0, bytesIn := 0, bytesOut := 0, eof := false, rc := v.rc, runtime := 0, buf := [],
      trace := tr ++ [.Sleep v.startDelay] } rfl rfl
  unfold piper.run at h
  split at h
  next s hs =>
    rw [hs] at e
    simp only [Option.some.injEq] at h
    subst h
    exact ⟨rest, _, by simp only [piper.finish]; rw [e], hP⟩
  next => simp at h

/-- A run of `transfer` of piper either calls neither `Read` nor `Write` (the
panic or the fatal error of the allocation, the failure to open a file), or
goes through the transfer loop after events none of which is a `Read` or a
`Write`. -/
theorem piper_transfer_cases (w : World) (fuel : Nat) (v : piper.Vars) (r : Run)
    (hc : ∀ e ∈ v.trace, ∃ name, e = Event.Create name none)
    (h : piper.transfer w fuel v = some r) :
    (∀ e ∈ r.trace, e.isWrite = false ∧ e.isRead = false) ∨
    ∃ input output tr, (∀ e ∈ tr, e.isWrite = false ∧ e.isRead = false) ∧
      0 ≤ v.size ∧ piper.run w fuel v input output tr = some r := by
  have hc2 : ∀ e ∈ v.trace, e.isWrite = false ∧ e.isRead = false := by
    intro e he
    obtain ⟨name, rfl⟩ := hc e he
    exact ⟨rfl, rfl⟩
  unfold piper.transfer at h
  by_cases hsz : v.size < 0 ∨ v.size > maxAlloc
  · rw [if_pos hsz] at h
    simp only [Option.some.injEq] at h
    subst h
    exact Or.inl hc2
  rw [if_neg hsz] at h
  by_cases hal : w.Alloc v.trace v.size = false
  · rw [if_pos hal] at h
    simp only [Option.some.injEq] at h
    subst h
    exact Or.inl hc2
  rw [if_neg hal] at h
  by_cases hio : v.inFile ≠ [] ∨ v.outFile ≠ []
  swap
  · rw [if_neg hio] at h
    exact Or.inr ⟨_, _, _, hc2, by omega, h⟩
  rw [if_pos hio] at h
  simp only at h
  have hfail : ∀ (tr : List Event) (err : Str),
      (∀ e ∈ tr, e.isWrite = false ∧ e.isRead = false) →
      some (piper.handleError tr err v.log piper.runtimeError) = some r →
      ∀ e ∈ r.trace, e.isWrite = false ∧ e.isRead = false := by
    intro tr err htr hr
    simp only [Option.some.injEq] at hr
    subst hr
    simp only [piper.handleError, piper.runtimeError, piper.syntaxError]
    rw [if_neg (by decide)]
    exact noIO_append _ _ htr (by simp [Event.isWrite, Event.isRead])
  have hsleep := noIO_append _ [Event.Sleep v.openDelay] hc2
    (by simp [Event.isWrite, Event.isRead])
  by_cases ho : v.outFile ≠ []
  · simp only [if_pos ho] at h
    cases herr : w.OpenFile (v.trace ++ [.Sleep v.openDelay]) v.outFile with
    | some err =>
      rw [herr] at h
      exact Or.inl (hfail _ _
        (noIO_append _ _ hsleep (by simp [Event.isWrite, Event.isRead])) h)
    | none =>
      rw [herr] at h
      simp only at h
      have hout := noIO_append _ [Event.OpenFile v.outFile none] hsleep
        (by simp [Event.isWrite, Event.isRead])
      by_cases hi : v.inFile ≠ []
      · simp only [if_pos hi] at h
        cases herr2 : w.OpenFile (v.trace ++ [.Sleep v.openDelay] ++
            [.OpenFile v.outFile none]) v.inFile with
        | some err =>
          rw [herr2] at h
          exact Or.inl (hfail _ _
            (noIO_append _ _ hout (by simp [Event.isWrite, Event.isRead])) h)
        | none =>
          rw [herr2] at h
          simp only at h
          exact Or.inr ⟨_, _, _, noIO_append _ _ hout
            (by simp [Event.isWrite, Event.isRead]), by omega, h⟩
      · simp only [if_neg hi] at h
        exact Or.inr ⟨_, _, _, hout, by omega, h⟩
  · simp only [if_neg ho] at h
    by_cases hi : v.inFile ≠ []
    · simp only [if_pos hi] at h
      cases herr2 : w.OpenFile (v.trace ++ [.Sleep v.openDelay]) v.inFile with
      | some err =>
        rw [herr2] at h
        exact Or.inl (hfail _ _
          (noIO_append _ _ hsleep (by simp [Event.isWrite, Event.isRead])) h)
      | none =>
        rw [herr2] at h
        simp only at h
        exact Or.inr ⟨_, _, _, noIO_append _ _ hsleep
          (by simp [Event.isWrite, Event.isRead]), by omega, h⟩
    · simp only [if_neg hi] at h
      exact Or.inr ⟨_, _, _, hsleep, by omega, h⟩

/-- Every event of the transfer loop of piper is a `Read` into a buffer of
length 0, a `Write` of the empty block, the message of a failure or, when
`count` is not 0, the sleep of the delay. -/
theorem piper_run_events (w : World) (fuel : Nat) (v : piper.Vars) (input output : Stream)
    (tr : List Event) (r : Run) (h : piper.run w fuel v input output tr = some r)
    (Q : Event → Prop) (hR : ∀ data err, Q (.Read input 0 data err))
    (hW : ∀ n err, Q (.Write output [] n err)) (hF : ∀ text, Q (.Fprintf v.log text))
    (hS : v.count ≠ 0 → Q (.Sleep v.delay)) :
    ∃ rest text, r.trace = tr ++ [.Sleep v.startDelay] ++ rest ++ [.Fprintf v.log text] ∧
      ∀ e ∈ rest, Q e := by
  refine piper_run_shape w fuel v input output tr r h (fun rest => ∀ e ∈ rest, Q e)
    (by simp) ?_ ?_ ?_ ?_ ?_ ?_
  · intro data t text e he
    simp only [List.mem_cons, List.mem_singleton, List.not_mem_nil, or_false] at he
    rcases he with rfl | rfl
    · exact hR _ _
    · exact hF _
  · intro data err n e text _ e he
    simp only [List.mem_cons, List.mem_singleton, List.not_mem_nil, or_false] at he
    rcases he with rfl | rfl | rfl
    · exact hR _ _
    · exact hW _ _
    · exact hF _
  · intro data n e he
    simp only [List.mem_cons, List.mem_singleton, List.not_mem_nil, or_false] at he
    rcases he with rfl | rfl
    · exact hR _ _
    · exact hW _ _
  · intro _ data n e he
    simp only [List.mem_cons, List.mem_singleton, List.not_mem_nil, or_false] at he
    rcases he with rfl | rfl
    · exact hR _ _
    · exact hW _ _
  · intro _ data n rest hrest e he
    simp only [List.mem_cons] at he
    rcases he with rfl | rfl | he
    · exact hR _ _
    · exact hW _ _
    · exact hrest e he
  · intro hc data n rest hrest e he
    simp only [List.mem_cons] at he
    rcases he with rfl | rfl | rfl | he
    · exact hR _ _
    · exact hW _ _
    · exact hS hc
    · exact hrest e he

/-! ## C12: the buffer piper reads into -/

/-- C12 (the code differs): the buffer piper hands to `Read` is
`make([]byte, 0, size)`, of length 0 whatever `size` is, so every `Read` of
every run is a read into a buffer of length 0. `piper -s 100 -c 2` on a source
of 300 bytes reads nothing in either iteration and reports `Read 0 bytes`,
where the claim has each iteration read 100 bytes. -/
theorem C12_piper_reads_into_empty_buffer (w : World) (fuel : Nat) :
    (∀ (args : List Str) (v : piper.Vars) (r : Run),
      piper.argLoop w {} args = .ok v → piper.main w fuel args = some r →
      ∀ input len data err, Event.Read input len data err ∈ r.trace → len = 0) ∧
    piper.main (sourceWorld 300) 3
        ["piper".toList, "-s".toList, "100".toList, "-c".toList, "2".toList] =
      some ⟨[.Sleep 0, .Read .Std 0 [] none, .Write .Std [] 0 none, .Sleep 0,
          .Read .Std 0 [] none, .Write .Std [] 0 none,
          .Fprintf .Discard "Read 0 bytes and wrote 0 bytes in 0s\n".toList], .Code 0⟩ := by
  refine ⟨?_, rfl⟩
  intro args v r hv h input len data err hmem
  obtain ⟨r0, ht, rfl⟩ := piper_main_ok w fuel args v r hv h
  have hmem := withSignals_mem r0 _ hmem
  rcases piper_transfer_cases w fuel v r0
    (piper_argLoop_inv w args {} v hv (by simp) (fun _ => rfl)).1 ht with
    hno | ⟨i, o, tr, htr, -, hrun⟩
  · exact absurd (hno _ hmem).2 (by simp [Event.isRead])
  · obtain ⟨rest, text, e, hP⟩ := piper_run_events w fuel v i o tr r0 hrun
      (fun e => ∀ input len data err, e = Event.Read input len data err → len = 0)
      (by intro data err input len d2 e2 heq; injection heq with _ h2; exact h2.symm)
      (by intro n err input len d2 e2 heq; cases heq)
      (by intro text input len d2 e2 heq; cases heq)
      (by intro _ input len d2 e2 heq; cases heq)
    rw [e] at hmem
    simp only [List.mem_append, List.mem_singleton] at hmem
    rcases hmem with ((hm | hm) | hm) | hm
    · exact absurd (htr _ hm).2 (by simp [Event.isRead])
    · cases hm
    · exact hP _ hm input len data err rfl
    · cases hm

/-! ## C20: the delay of piper -/

/-- C20 (the code differs): with `count` 0, the default, the transfer loop of
piper never sleeps the delay: `if count == 0 { continue }` goes to the next
iteration before `time.Sleep(delay)`. No event of the loop is a sleep, whatever
the world does. `piper -d 1 -t 5ms` runs three iterations back to back and
never sleeps its delay of one second. -/
theorem C20_piper_unlimited_never_sleeps (w : World) (fuel : Nat) :
    (∀ (v : piper.Vars) (input output : Stream) (tr : List Event) (r : Run),
      v.count = 0 → piper.run w fuel v input output tr = some r →
      ∃ rest text, r.trace = tr ++ [.Sleep v.startDelay] ++ rest ++ [.Fprintf v.log text] ∧
        ∀ e ∈ rest, e.isSleep = false) ∧
    piper.main tickingWorld 4
        ["piper".toList, "-d".toList, "1".toList, "-t".toList, "5ms".toList] =
      some ⟨[.Sleep 0, .Read .Std 0 [] none, .Write .Std [] 0 none,
          .Read .Std 0 [] none, .Write .Std [] 0 none,
          .Read .Std 0 [] none, .Write .Std [] 0 none,
          .Fprintf .Discard "Read 0 bytes and wrote 0 bytes in 6ms\n".toList], .Code 0⟩ := by
  refine ⟨?_, rfl⟩
  intro v input output tr r hc h
  exact piper_run_events w fuel v input output tr r h (fun e => e.isSleep = false)
    (fun _ _ => rfl) (fun _ _ => rfl) (fun _ => rfl) (fun hne => absurd hc hne)

/-- Once `err` is `io.EOF` the read loop of reader does nothing more. -/
theorem reader_loop_eof (w : World) (v : reader.Vars) (input : Stream) (fuel : Nat)
    (s : reader.LoopVars) (h : s.err = some .EOF) : (reader.loop w v input fuel s).1 = s := by
  cases fuel with
  | zero => simp [reader.loop]
  | succ k => rw [reader_loop_succ, if_pos (by simp [h])]

/-- The events the read loop of reader adds: iterations of a `Read` into the
buffer without error and the sleep of the delay; a `Read` that returned
`io.EOF` and the sleep after it are the last events, and so are a `Read` that
failed and its message. -/
theorem reader_loop_shape (w : World) (v : reader.Vars) (input : Stream) (len : Nat)
    (P : List Event → Prop) (h0 : P [])
    (hE : ∀ data t text, P [.Read input len data (some (.other t)), .Fprintf v.log text])
    (hEOF : ∀ data, P [.Read input len data (some .EOF), .Sleep v.delay])
    (hS : ∀ data rest, P rest → P (.Read input len data none :: .Sleep v.delay :: rest))
    (fuel : Nat) (s : reader.LoopVars) (hlen : s.buf.length = len) :
    ∃ rest, (reader.loop w v input fuel s).1.trace = s.trace ++ rest ∧ P rest := by
  induction fuel generalizing s with
  | zero => exact ⟨[], by simp [reader.loop], h0⟩
  | succ k ih =>
    rw [reader_loop_succ]
    by_cases h1 : ¬ (s.itr ≠ v.count ∧ s.err ≠ some .EOF)
    · rw [if_pos h1]; exact ⟨[], by simp, h0⟩
    · rw [if_neg h1]
      by_cases h2 : w.Since s.trace ≥ v.timeout ∧ v.timeout ≠ 0
      · rw [if_pos h2]; exact ⟨[], by simp, h0⟩
      · rw [if_neg h2, hlen]
        generalize (w.Read s.trace len).1 = data
        generalize (w.Read s.trace len).2 = err
        rcases err with _ | _ | t
        · rw [if_neg (by simp)]
          obtain ⟨rest, e, hP⟩ := ih
            { itr := wrapInt64 (s.itr + 1), bytes := wrapInt64 (s.bytes + (data.length : Int)),
              err := none, rc := s.rc, runtime := w.Since s.trace, buf := fill s.buf data,
              trace := s.trace ++ [.Read input len data none] ++ [.Sleep v.delay] }
            (by rw [← hlen]; exact fill_length _ _)
          exact ⟨_, by rw [e]; simp only [List.append_assoc]; rfl, hS data rest hP⟩
        · rw [if_neg (by simp), reader_loop_eof _ _ _ _ _ rfl]
          exact ⟨_, by simp only [List.append_assoc]; rfl, hEOF data⟩
        · rw [if_pos (by simp)]
          exact ⟨_, by simp only [List.append_assoc]; rfl, hE data t _⟩

/-- The events of a run of reader from the start delay on: the start delay,
the events of the read loop, the summary and the exit delay. -/
theorem reader_run_shape (w : World) (fuel : Nat) (v : reader.Vars) (input : Stream)
    (tr : List Event) (r : Run) (h : reader.run w fuel v input tr = some r)
    (P : List Event → Prop) (h0 : P [])
    (hE : ∀ data t text,
      P [.Read input v.size.toNat data (some (.other t)), .Fprintf v.log text])
    (hEOF : ∀ data, P [.Read input v.size.toNat data (some .EOF), .Sleep v.delay])
    (hS : ∀ data rest, P rest →
      P (.Read input v.size.toNat data none :: .Sleep v.delay :: rest)) :
    ∃ rest text, r.trace = tr ++ [.Sleep v.startDelay] ++ rest ++
        [.Fprintf v.log text, .Sleep v.exitDelay] ∧ P rest := by
  obtain ⟨rest, e, hP⟩ := reader_loop_shape w v input v.size.toNat P h0 hE hEOF hS fuel
    { itr := 0, bytes := 0, err := none, rc := v.rc, runtime := 0, buf := makeBytes v.size,
      trace := tr ++ [.Sleep v.startDelay] } (by simp [makeBytes])
  unfold reader.run at h
  split at h
  next s hs =>
    rw [hs] at e
    simp only [Option.some.injEq] at h
    subst h
    exact ⟨rest, _, by simp only [reader.finish]; rw [e], hP⟩
  next => simp at h

/-! ## C19: the delay after the last iteration -/

/-- C19 (the code differs): in writer and in reader `time.Sleep(delay)` is the
last statement of the loop body, so the delay is slept after every completed
iteration, the last one included: the events of the loop hold as many sleeps,
all of the delay, as completed iterations. `writer -c 3 -s 2 -d 5` sleeps the
five seconds three times, and so does `reader -s 2 -d 5` on a source of four
bytes, the third time after the read that returned `io.EOF`. -/
theorem C19_sleep_after_every_iteration (w : World) (fuel : Nat) :
    (∀ (v : writer.Vars) (output : Stream) (tr : List Event) (r : Run),
      writer.run w fuel v output tr = some r →
      ∃ rest text, r.trace = tr ++ [.Sleep v.startDelay] ++ rest ++ [.Fprintf v.log text] ∧
        rest.countP Event.isSleep = rest.countP Event.isCompleted ∧
        ∀ e ∈ rest, e.isSleep = true → e = .Sleep v.delay) ∧
    (∀ (v : reader.Vars) (input : Stream) (tr : List Event) (r : Run),
      reader.run w fuel v input tr = some r →
      ∃ rest text, r.trace = tr ++ [.Sleep v.startDelay] ++ rest ++
          [.Fprintf v.log text, .Sleep v.exitDelay] ∧
        rest.countP Event.isSleep = rest.countP Event.isCompleted ∧
        ∀ e ∈ rest, e.isSleep = true → e = .Sleep v.delay) ∧
    writer.main stillWorld 4 ["writer".toList, "-c".toList, "3".toList, "-s".toList,
        "2".toList, "-d".toList, "5".toList] =
      some ⟨[.Sleep 0, .Write .Std [0, 0] 2 none, .Sleep 5000000000,
          .Write .Std [0, 0] 2 none, .Sleep 5000000000,
          .Write .Std [0, 0] 2 none, .Sleep 5000000000,
          .Fprintf .Discard "Wrote 6 bytes in 0s\n".toList], .Code 0⟩ ∧
    reader.main (sourceWorld 4) 4 ["reader".toList, "-s".toList, "2".toList, "-d".toList,
        "5".toList] =
      some ⟨[.Sleep 0, .Read .Std 2 [0, 0] none, .Sleep 5000000000,
          .Read .Std 2 [0, 0] none, .Sleep 5000000000,
          .Read .Std 2 [] (some .EOF), .Sleep 5000000000,
          .Fprintf .Std "Read 4 bytes in 0s\n".toList, .Sleep 0], .Code 0⟩ := by
  refine ⟨?_, ?_, rfl, rfl⟩
  · intro v output tr r h
    refine writer_run_shape w fuel v output tr r h
      (fun rest => rest.countP Event.isSleep = rest.countP Event.isCompleted ∧
        ∀ e ∈ rest, e.isSleep = true → e = .Sleep v.delay) (by simp) ?_ ?_
    · intro n err text
      simp [List.countP_cons, Event.isSleep, Event.isCompleted]
    · intro n rest hrest
      refine ⟨?_, ?_⟩
      · simp [List.countP_cons, Event.isSleep, Event.isCompleted, hrest.1]
      · intro e he hs
        simp only [List.mem_cons] at he
        rcases he with rfl | rfl | he
        · simp [Event.isSleep] at hs
        · rfl
        · exact hrest.2 e he hs
  · intro v input tr r h
    refine reader_run_shape w fuel v input tr r h
      (fun rest => rest.countP Event.isSleep = rest.countP Event.isCompleted ∧
        ∀ e ∈ rest, e.isSleep = true → e = .Sleep v.delay) (by simp) ?_ ?_ ?_
    · intro data t text
      simp [List.countP_cons, Event.isSleep, Event.isCompleted]
    · intro data
      simp [List.countP_cons, Event.isSleep, Event.isCompleted]
    · intro data rest hrest
      refine ⟨?_, ?_⟩
      · simp [List.countP_cons, Event.isSleep, Event.isCompleted, hrest.1]
      · intro e he hs
        simp only [List.mem_cons] at he
        rcases he with rfl | rfl | he
        · simp [Event.isSleep] at hs
        · rfl
        · exact hrest.2 e he hs

/-! ## C15: the timeout check -/

/-- The transfer loop of piper only adds events. -/
theorem piper_loop_extends (w : World) (v : piper.Vars) (input output : Stream) (fuel : Nat)
    (s : piper.LoopVars) :
    ∃ rest, (piper.loop w v input output fuel s).1.trace = s.trace ++ rest := by
  induction fuel generalizing s with
  | zero => exact ⟨[], by simp [piper.loop]⟩
  | succ k ih =>
    rw [piper_loop_succ]
    by_cases h2 : w.Since s.trace ≥ v.timeout ∧ v.timeout ≠ 0
    · rw [if_pos h2]; exact ⟨[], by simp⟩
    · rw [if_neg h2]
      by_cases h3 : (w.Read s.trace s.buf.length).2 ≠ none ∧
          (w.Read s.trace s.buf.length).2 ≠ some .EOF
      · rw [if_pos h3]; exact ⟨_, by simp only [List.append_assoc]; rfl⟩
      · rw [if_neg h3]
        generalize (w.Write (s.trace ++ [Event.Read input s.buf.length
          (w.Read s.trace s.buf.length).1 (w.Read s.trace s.buf.length).2])
          (fill s.buf (w.Read s.trace s.buf.length).1)).1 = n
        generalize (w.Write (s.trace ++ [Event.Read input s.buf.length
          (w.Read s.trace s.buf.length).1 (w.Read s.trace s.buf.length).2])
          (fill s.buf (w.Read s.trace s.buf.length).1)).2 = werr
        cases werr with
        | some x => exact ⟨_, by simp only [List.append_assoc]; rfl⟩
        | none =>
          simp only
          by_cases c1 : (if (w.Read s.trace s.buf.length).2 = some ReadErr.EOF then true
              else s.eof) = true
          · rw [if_pos c1]; exact ⟨_, by simp only [List.append_assoc]; rfl⟩
          · rw [if_neg c1]
            by_cases c2 : v.count = 0
            · rw [if_pos c2]
              obtain ⟨rest, e⟩ := ih
                { x := s.x,
                  bytesIn := wrapInt64 (s.bytesIn +
                    ((w.Read s.trace s.buf.length).1.length : Int)),
                  bytesOut := wrapInt64 (s.bytesOut + n),
                  eof := if (w.Read s.trace s.buf.length).2 = some .EOF then true else s.eof,
                  rc := s.rc, runtime := w.Since s.trace,
                  buf := fill s.buf (w.Read s.trace s.buf.length).1,
                  trace := s.trace ++ [.Read input s.buf.length (w.Read s.trace s.buf.length).1
                      (w.Read s.trace s.buf.length).2] ++
                    [.Write output (fill s.buf (w.Read s.trace s.buf.length).1) n none] }
              exact ⟨_, by rw [e]; simp only [List.append_assoc]; rfl⟩
            · rw [if_neg c2]
              by_cases c3 : wrapInt64 (s.x + 1) = v.count
              · rw [if_pos c3]; exact ⟨_, by simp only [List.append_assoc]; rfl⟩
              · rw [if_neg c3]
                obtain ⟨rest, e⟩ := ih
                  { x := wrapInt64 (s.x + 1),
                    bytesIn := wrapInt64 (s.bytesIn +
                      ((w.Read s.trace s.buf.length).1.length : Int)),
                    bytesOut := wrapInt64 (s.bytesOut + n),
                    eof := if (w.Read s.trace s.buf.length).2 = some .EOF then true else s.eof,
                    rc := s.rc, runtime := w.Since s.trace,
                    buf := fill s.buf (w.Read s.trace s.buf.length).1,
                    trace := s.trace ++ [.Read input s.buf.length
                        (w.Read s.trace s.buf.length).1 (w.Read s.trace s.buf.length).2] ++
                      [.Write output (fill s.buf (w.Read s.trace s.buf.length).1) n none] ++
                      [.Sleep v.delay] }
                exact ⟨_, by rw [e]; simp only [List.append_assoc]; rfl⟩

/-- C15: the timeout check at the top of an iteration, in the three programs.
When the timeout is not 0 and the time since the start is at least the
timeout, the loop ends there, with no further event and the exit code as it
was. When the timeout is 0, whatever the time, or the time is below the
timeout, the loop goes on to the `Write` (writer) or the `Read` (reader, piper)
of the iteration. `writer -c -1 -s 2 -t 3ms` with a clock that advances by one
millisecond per `Write` is stopped before its fourth write and exits with 0. -/
theorem C15_timeout_check (w : World) (fuel : Nat) :
    (∀ (v : writer.Vars) (output : Stream) (buf : List Nat) (s : writer.LoopVars),
      s.itr ≠ v.count →
      ((v.timeout ≠ 0 ∧ w.Since s.trace ≥ v.timeout) →
        writer.loop w v output buf (fuel + 1) s =
          ({ s with runtime := w.Since s.trace }, true)) ∧
      ((v.timeout = 0 ∨ w.Since s.trace < v.timeout) →
        ∃ rest, (writer.loop w v output buf (fuel + 1) s).1.trace =
          s.trace ++ .Write output buf (w.Write s.trace buf).1 (w.Write s.trace buf).2 ::
            rest)) ∧
    (∀ (v : reader.Vars) (input : Stream) (s : reader.LoopVars),
      s.itr ≠ v.count → s.err ≠ some .EOF →
      ((v.timeout ≠ 0 ∧ w.Since s.trace ≥ v.timeout) →
        reader.loop w v input (fuel + 1) s =
          ({ s with runtime := w.Since s.trace }, true)) ∧
      ((v.timeout = 0 ∨ w.Since s.trace < v.timeout) →
        ∃ rest, (reader.loop w v input (fuel + 1) s).1.trace =
          s.trace ++ .Read input s.buf.length (w.Read s.trace s.buf.length).1
            (w.Read s.trace s.buf.length).2 :: rest)) ∧
    (∀ (v : piper.Vars) (input output : Stream) (s : piper.LoopVars),
      ((v.timeout ≠ 0 ∧ w.Since s.trace ≥ v.timeout) →
        piper.loop w v input output (fuel + 1) s =
          ({ s with runtime := w.Since s.trace }, true)) ∧
      ((v.timeout = 0 ∨ w.Since s.trace < v.timeout) →
        ∃ rest, (piper.loop w v input output (fuel + 1) s).1.trace =
          s.trace ++ .Read input s.buf.length (w.Read s.trace s.buf.length).1
            (w.Read s.trace s.buf.length).2 :: rest)) ∧
    writer.main tickingWorld 5 ["writer".toList, "-c".toList, "-1".toList, "-s".toList,
        "2".toList, "-t".toList, "3ms".toList] =
      some ⟨[.Sleep 0, .Write .Std [0, 0] 2 none, .Sleep 0, .Write .Std [0, 0] 2 none, .Sleep 0,
          .Write .Std [0, 0] 2 none, .Sleep 0,
          .Fprintf .Discard "Wrote 6 bytes in 3ms\n".toList], .Code 0⟩ := by
  refine ⟨?_, ?_, ?_, rfl⟩
  · intro v output buf s hc
    refine ⟨fun ht => ?_, fun ht => ?_⟩
    · rw [writer_loop_succ, if_neg hc, if_pos ⟨ht.2, ht.1⟩]
    · rw [writer_loop_succ, if_neg hc, if_neg (by intro h; rcases ht with ht | ht <;> omega)]
      cases herr : (w.Write s.trace buf).2 with
      | some x => exact ⟨_, by simp only [List.append_assoc]; rfl⟩
      | none =>
        simp only
        obtain ⟨rest, e, -⟩ := writer_loop_shape w v output buf (fun _ => True) trivial
          (fun _ _ _ => trivial) (fun _ _ _ => trivial) fuel
          { itr := wrapInt64 (s.itr + 1), bytes := wrapInt64 (s.bytes + (w.Write s.trace buf).1),
            rc := s.rc, runtime := w.Since s.trace,
            trace := s.trace ++ [.Write output buf (w.Write s.trace buf).1 none] ++
              [.Sleep v.delay] }
        exact ⟨_, by rw [e]; simp only [List.append_assoc]; rfl⟩
  · intro v input s hc he
    refine ⟨fun ht => ?_, fun ht => ?_⟩
    · rw [reader_loop_succ, if_neg (by simp [hc, he]), if_pos ⟨ht.2, ht.1⟩]
    · rw [reader_loop_succ, if_neg (by simp [hc, he]),
        if_neg (by intro h; rcases ht with ht | ht <;> omega)]
      split_ifs
      · exact ⟨_, by simp only [List.append_assoc]; rfl⟩
      · obtain ⟨rest, e, -⟩ := reader_loop_shape w v input s.buf.length (fun _ => True) trivial
          (fun _ _ _ => trivial) (fun _ => trivial) (fun _ _ _ => trivial) fuel
          { itr := wrapInt64 (s.itr + 1),
            bytes := wrapInt64 (s.bytes + ((w.Read s.trace s.buf.length).1.length : Int)),
            err := (w.Read s.trace s.buf.length).2, rc := s.rc, runtime := w.Since s.trace,
            buf := fill s.buf (w.Read s.trace s.buf.length).1,
            trace := s.trace ++ [.Read input s.buf.length (w.Read s.trace s.buf.length).1
                (w.Read s.trace s.buf.length).2] ++ [.Sleep v.delay] }
          (fill_length _ _)
        exact ⟨_, by rw [e]; simp only [List.append_assoc]; rfl⟩
  · intro v input output s
    refine ⟨fun ht => ?_, fun ht => ?_⟩
    · rw [piper_loop_succ, if_pos ⟨ht.2, ht.1⟩]
    · rw [piper_loop_succ, if_neg (by intro h; rcases ht with ht | ht <;> omega)]
      by_cases h3 : (w.Read s.trace s.buf.length).2 ≠ none ∧
          (w.Read s.trace s.buf.length).2 ≠ some .EOF
      · rw [if_pos h3]; exact ⟨_, by simp only [List.append_assoc]; rfl⟩
      · rw [if_neg h3]
        generalize (w.Write (s.trace ++ [Event.Read input s.buf.length
          (w.Read s.trace s.buf.length).1 (w.Read s.trace s.buf.length).2])
          (fill s.buf (w.Read s.trace s.buf.length).1)).1 = n
        generalize (w.Write (s.trace ++ [Event.Read input s.buf.length
          (w.Read s.trace s.buf.length).1 (w.Read s.trace s.buf.length).2])
          (fill s.buf (w.Read s.trace s.buf.length).1)).2 = werr
        cases werr with
        | some x => exact ⟨_, by simp only [List.append_assoc]; rfl⟩
        | none =>
          simp only
          by_cases c1 : (if (w.Read s.trace s.buf.length).2 = some ReadErr.EOF then true
              else s.eof) = true
          · rw [if_pos c1]; exact ⟨_, by simp only [List.append_assoc]; rfl⟩
          · rw [if_neg c1]
            by_cases c2 : v.count = 0
            · rw [if_pos c2]
              obtain ⟨rest, e⟩ := piper_loop_extends w v input output fuel
                { x := s.x,
                  bytesIn := wrapInt64 (s.bytesIn +
                    ((w.Read s.trace s.buf.length).1.length : Int)),
                  bytesOut := wrapInt64 (s.bytesOut + n),
                  eof := if (w.Read s.trace s.buf.length).2 = some .EOF then true else s.eof,
                  rc := s.rc, runtime := w.Since s.trace,
                  buf := fill s.buf (w.Read s.trace s.buf.length).1,
                  trace := s.trace ++ [.Read input s.buf.length (w.Read s.trace s.buf.length).1
                      (w.Read s.trace s.buf.length).2] ++
                    [.Write output (fill s.buf (w.Read s.trace s.buf.length).1) n none] }
              exact ⟨_, by rw [e]; simp only [List.append_assoc]; rfl⟩
            · rw [if_neg c2]
              by_cases c3 : wrapInt64 (s.x + 1) = v.count
              · rw [if_pos c3]; exact ⟨_, by simp only [List.append_assoc]; rfl⟩
              · rw [if_neg c3]
                obtain ⟨rest, e⟩ := piper_loop_extends w v input output fuel
                  { x := wrapInt64 (s.x + 1),
                    bytesIn := wrapInt64 (s.bytesIn +
                      ((w.Read s.trace s.buf.length).1.length : Int)),
                    bytesOut := wrapInt64 (s.bytesOut + n),
                    eof := if (w.Read s.trace s.buf.length).2 = some .EOF then true else s.eof,
                    rc := s.rc, runtime := w.Since s.trace,
                    buf := fill s.buf (w.Read s.trace s.buf.length).1,
                    trace := s.trace ++ [.Read input s.buf.length
                        (w.Read s.trace s.buf.length).1 (w.Read s.trace s.buf.length).2] ++
                      [.Write output (fill s.buf (w.Read s.trace s.buf.length).1) n none] ++
                      [.Sleep v.delay] }
                exact ⟨_, by rw [e]; simp only [List.append_assoc]; rfl⟩

/-! ## C16: the iteration limit of piper -/

/-- With `count` 0 the transfer loop of piper, when it ends, ends by the
timeout check, after the `Write` that follows a `Read` that returned `io.EOF`,
or after the message of a failure. -/
theorem piper_loop_unlimited (w : World) (v : piper.Vars) (input output : Stream)
    (hc : v.count = 0) (fuel : Nat) (s s1 : piper.LoopVars) (he : s.eof = false)
    (h : piper.loop w v input output fuel s = (s1, true)) :
    (v.timeout ≠ 0 ∧ w.Since s1.trace ≥ v.timeout ∧ s1.runtime = w.Since s1.trace ∧
        s1.rc = s.rc) ∨
    (∃ pre len data p n, s1.trace =
        pre ++ [.Read input len data (some .EOF), .Write output p n none] ∧ s1.rc = s.rc) ∨
    (∃ pre e text, s1.trace = pre ++ [e, .Fprintf v.log text] ∧ e.isFailure = true ∧
        s1.rc = piper.runtimeError) := by
  induction fuel generalizing s with
  | zero => simp [piper.loop] at h
  | succ k ih =>
    rw [piper_loop_succ] at h
    by_cases h2 : w.Since s.trace ≥ v.timeout ∧ v.timeout ≠ 0
    · rw [if_pos h2] at h
      simp only [Prod.mk.injEq, and_true] at h
      subst h
      exact Or.inl ⟨h2.2, h2.1, rfl, rfl⟩
    · rw [if_neg h2] at h
      generalize (w.Read s.trace s.buf.length).1 = data at h
      generalize (w.Read s.trace s.buf.length).2 = err at h
      generalize (w.Write (s.trace ++ [Event.Read input s.buf.length data err])
        (fill s.buf data)).1 = n at h
      generalize (w.Write (s.trace ++ [Event.Read input s.buf.length data err])
        (fill s.buf data)).2 = werr at h
      rcases err with _ | _ | t
      · rw [if_neg (by simp)] at h
        cases werr with
        | some x =>
          simp only [Prod.mk.injEq, and_true] at h
          subst h
          exact Or.inr (Or.inr ⟨s.trace ++ [.Read input s.buf.length data none],
            .Write output (fill s.buf data) n (some x), _,
            by simp only [List.append_assoc]; rfl, rfl, rfl⟩)
        | none =>
          simp only at h
          rw [if_neg (by simp [he]), if_pos hc] at h
          rcases ih _ (by simp [he]) h with h1 | h1 | h1
          · exact Or.inl h1
          · exact Or.inr (Or.inl h1)
          · exact Or.inr (Or.inr h1)
      · rw [if_neg (by simp)] at h
        cases werr with
        | some x =>
          simp only [Prod.mk.injEq, and_true] at h
          subst h
          exact Or.inr (Or.inr ⟨s.trace ++ [.Read input s.buf.length data (some .EOF)],
            .Write output (fill s.buf data) n (some x), _,
            by simp only [List.append_assoc]; rfl, rfl, rfl⟩)
        | none =>
          simp only at h
          rw [if_pos (by simp)] at h
          simp only [Prod.mk.injEq, and_true] at h
          subst h
          exact Or.inr (Or.inl ⟨s.trace, s.buf.length, data, fill s.buf data, n,
            by simp only [List.append_assoc]; rfl, rfl⟩)
      · rw [if_pos (by simp)] at h
        simp only [Prod.mk.injEq, and_true] at h
        subst h
        exact Or.inr (Or.inr ⟨s.trace, .Read input s.buf.length data (some (.other t)), _,
          by simp only [List.append_assoc]; rfl, rfl, rfl⟩)

/-- With `count` positive the transfer loop of piper, started with `x` below
`count`, calls `Read` at most `count - x` times, and it ends within `count - x`
iterations. -/
theorem piper_loop_limit (w : World) (v : piper.Vars) (input output : Stream)
    (hc : 0 < v.count) (hc63 : v.count < 2 ^ 63) (fuel : Nat) (s : piper.LoopVars)
    (h0 : 0 ≤ s.x) (hx : s.x < v.count) :
    (piper.loop w v input output fuel s).1.trace.countP Event.isRead ≤
        s.trace.countP Event.isRead + (v.count - s.x).toNat ∧
      ((v.count - s.x).toNat ≤ fuel → (piper.loop w v input output fuel s).2 = true) := by
  induction fuel generalizing s with
  | zero =>
    refine ⟨by simp [piper.loop], fun hf => ?_⟩
    omega
  | succ k ih =>
    rw [piper_loop_succ]
    by_cases h2 : w.Since s.trace ≥ v.timeout ∧ v.timeout ≠ 0
    · rw [if_pos h2]; exact ⟨by simp, fun _ => rfl⟩
    · rw [if_neg h2]
      generalize (w.Read s.trace s.buf.length).1 = data
      generalize (w.Read s.trace s.buf.length).2 = err
      generalize (w.Write (s.trace ++ [Event.Read input s.buf.length data err])
        (fill s.buf data)).1 = n
      generalize (w.Write (s.trace ++ [Event.Read input s.buf.length data err])
        (fill s.buf data)).2 = werr
      have h1 : 1 ≤ (v.count - s.x).toNat := by omega
      by_cases h3 : err ≠ none ∧ err ≠ some .EOF
      · rw [if_pos h3]
        refine ⟨?_, fun _ => rfl⟩
        simp only [List.countP_append, List.countP_cons, List.countP_nil, Event.isRead]
        simp only [if_true, Bool.false_eq_true, if_false]
        omega
      · rw [if_neg h3]
        cases werr with
        | some e =>
          refine ⟨?_, fun _ => rfl⟩
          simp only [List.countP_append, List.countP_cons, List.countP_nil, Event.isRead]
          simp only [if_true, Bool.false_eq_true, if_false]
          omega
        | none =>
          simp only
          by_cases c1 : (if err = some ReadErr.EOF then true else s.eof) = true
          · rw [if_pos c1]
            refine ⟨?_, fun _ => rfl⟩
            simp only [List.countP_append, List.countP_cons, List.countP_nil, Event.isRead]
            simp only [if_true, Bool.false_eq_true, if_false]
            omega
          · rw [if_neg c1, if_neg (by omega)]
            have hw : wrapInt64 (s.x + 1) = s.x + 1 :=
              wrapInt64_of_range _ (by omega) (by omega)
            rw [hw]
            by_cases c3 : s.x + 1 = v.count
            · rw [if_pos c3]
              refine ⟨?_, fun _ => rfl⟩
              simp only [List.countP_append, List.countP_cons, List.countP_nil, Event.isRead]
              simp only [if_true, Bool.false_eq_true, if_false]
              omega
            · rw [if_neg c3]
              obtain ⟨ih1, ih2⟩ := ih
                { x := s.x + 1,
                  bytesIn := wrapInt64 (s.bytesIn + (data.length : Int)),
                  bytesOut := wrapInt64 (s.bytesOut + n),
                  eof := if err = some .EOF then true else s.eof,
                  rc := s.rc, runtime := w.Since s.trace, buf := fill s.buf data,
                  trace := s.trace ++ [.Read input s.buf.length data err] ++
                    [.Write output (fill s.buf data) n none] ++ [.Sleep v.delay] }
                (by show 0 ≤ s.x + 1; omega)
                (by show s.x + 1 < v.count; omega)
              simp only [List.countP_append, List.countP_cons, List.countP_nil, Event.isRead,
                if_true, Bool.false_eq_true, if_false] at ih1 ih2 ⊢
              refine ⟨by omega, fun hf => ih2 (by omega)⟩

/-- C16: the iteration limit of piper. With `count` 0 (the default, or `-c 0`)
the transfer loop, when it ends, has ended by the timeout check (timeout not 0
and reached, exit code unchanged), after a `Read` that returned `io.EOF` and
its `Write`, or after a failed `Read` or `Write` and its message; never by the
count. With `count` positive the run calls `Read` at most `count` times, and
`count` iterations of fuel are enough for it to end. `piper -c 2` on an endless
input does two iterations; `piper` on an empty input ends by end-of-input. -/
theorem C16_piper_iteration_limit (w : World) (fuel : Nat) :
    (∀ (v : piper.Vars) (input output : Stream) (s s1 : piper.LoopVars),
      v.count = 0 → s.eof = false → piper.loop w v input output fuel s = (s1, true) →
      (v.timeout ≠ 0 ∧ w.Since s1.trace ≥ v.timeout ∧ s1.runtime = w.Since s1.trace ∧
          s1.rc = s.rc) ∨
      (∃ pre len data p n, s1.trace =
          pre ++ [.Read input len data (some .EOF), .Write output p n none] ∧
          s1.rc = s.rc) ∨
      (∃ pre e text, s1.trace = pre ++ [e, .Fprintf v.log text] ∧ e.isFailure = true ∧
          s1.rc = piper.runtimeError)) ∧
    (∀ (v : piper.Vars) (input output : Stream) (tr : List Event),
      0 < v.count → v.count < 2 ^ 63 →
      (v.count.toNat ≤ fuel → ∃ r, piper.run w fuel v input output tr = some r) ∧
      ∀ r, piper.run w fuel v input output tr = some r →
        r.trace.countP Event.isRead ≤ tr.countP Event.isRead + v.count.toNat) ∧
    piper.main tickingWorld 2 ["piper".toList, "-c".toList, "2".toList] =
      some ⟨[.Sleep 0, .Read .Std 0 [] none, .Write .Std [] 0 none, .Sleep 0,
          .Read .Std 0 [] none, .Write .Std [] 0 none,
          .Fprintf .Discard "Read 0 bytes and wrote 0 bytes in 2ms\n".toList], .Code 0⟩ ∧
    piper.main stillWorld 1 ["piper".toList] =
      some ⟨[.Sleep 0, .Read .Std 0 [] (some .EOF), .Write .Std [] 0 none,
          .Fprintf .Discard "Read 0 bytes and wrote 0 bytes in 0s\n".toList], .Code 0⟩ := by
  refine ⟨?_, ?_, rfl, rfl⟩
  · intro v input output s s1 hc he h
    exact piper_loop_unlimited w v input output hc fuel s s1 he h
  · intro v input output tr hc hc63
    obtain ⟨hcount, hend⟩ := piper_loop_limit w v input output hc hc63 fuel
      { x := 0, bytesIn := 0, bytesOut := 0, eof := false, rc := v.rc, runtime := 0, buf := [],
        trace := tr ++ [.Sleep v.startDelay] } (le_refl _) hc
    simp only [sub_zero, List.countP_append, List.countP_cons, List.countP_nil, Event.isRead,
      Bool.false_eq_true, if_false] at hcount hend
    unfold piper.run
    cases hloop : piper.loop w v input output fuel
      { x := 0, bytesIn := 0, bytesOut := 0, eof := false, rc := v.rc, runtime := 0, buf := [],
        trace := tr ++ [.Sleep v.startDelay] } with
    | mk s b =>
      rw [hloop] at hcount hend
      cases b with
      | false =>
        refine ⟨fun hf => ?_, fun r hr => ?_⟩
        · exact absurd (hend hf) (by simp)
        · simp at hr
      | true =>
        refine ⟨fun _ => ⟨_, rfl⟩, fun r hr => ?_⟩
        simp only [Option.some.injEq] at hr
        subst hr
        simp only [piper.finish, List.countP_append, List.countP_cons, List.countP_nil,
          Event.isRead, Bool.false_eq_true, if_false]
        simp only at hcount
        omega

/-! ## C18: the size that reaches the buffer allocation -/

/-- C18, counterexample: `-s 0` and `-s -1` are accepted by the argument loop,
which checks no sign: `reader -s 0` reads into a buffer of length 0, and
`writer -s -1` reaches `make([]byte, size)` with the size -1. -/
theorem C18_counterexample :
    reader.argLoop stillWorld {} ["reader".toList, "-s".toList, "0".toList] =
      .ok { size := 0, skip := false } ∧
    ¬ (0 < ({ size := 0, skip := false } : reader.Vars).size) ∧
    reader.main stillWorld 2 ["reader".toList, "-s".toList, "0".toList] =
      some ⟨[.Sleep 0, .Read .Std 0 [] (some .EOF), .Sleep 0,
          .Fprintf .Std "Read 0 bytes in 0s\n".toList, .Sleep 0], .Code 0⟩ ∧
    writer.argLoop stillWorld {} ["writer".toList, "-s".toList, "-1".toList] =
      .ok { size := -1, skip := false } ∧
    writer.main stillWorld 2 ["writer".toList, "-s".toList, "-1".toList] =
      some ⟨[], .Panic makesliceLen⟩ :=
  ⟨rfl, by decide, rfl, rfl, rfl⟩

/-- C18, amended: in a run of any of the three programs that gets past the
argument loop and does not end by the panic of the buffer allocation, the size
the argument loop has set is not negative (0 is possible). -/
theorem C18_size_not_negative (w : World) (fuel : Nat) (args : List Str) (r : Run)
    (hpanic : ∀ msg, r.exit ≠ .Panic msg) :
    (∀ v : reader.Vars, reader.argLoop w {} args = .ok v → reader.main w fuel args = some r →
      0 ≤ v.size) ∧
    (∀ v : writer.Vars, writer.argLoop w {} args = .ok v → writer.main w fuel args = some r →
      0 ≤ v.size) ∧
    (∀ v : piper.Vars, piper.argLoop w {} args = .ok v → piper.main w fuel args = some r →
      0 ≤ v.size) := by
  refine ⟨fun v hv h => ?_, fun v hv h => ?_, fun v hv h => ?_⟩
  · unfold reader.main at h
    rw [hv] at h
    simp only [reader.transfer] at h
    by_contra hneg
    rw [if_pos (Or.inl (by omega))] at h
    simp only [Option.some.injEq] at h
    subst h
    exact hpanic _ rfl
  · obtain ⟨r0, ht, rfl⟩ := writer_main_ok w fuel args v r hv h
    by_contra hneg
    simp only [writer.transfer] at ht
    rw [if_pos (Or.inl (by omega))] at ht
    simp only [Option.some.injEq] at ht
    subst ht
    rw [withSignals_of_none _ (creates_no_sigpipe _
      (writer_argLoop_inv w args {} v hv (by simp) (fun _ => rfl)).1)] at hpanic
    exact hpanic _ rfl
  · obtain ⟨r0, ht, rfl⟩ := piper_main_ok w fuel args v r hv h
    by_contra hneg
    simp only [piper.transfer] at ht
    rw [if_pos (Or.inl (by omega))] at ht
    simp only [Option.some.injEq] at ht
    subst ht
    rw [withSignals_of_none _ (creates_no_sigpipe _
      (piper_argLoop_inv w args {} v hv (by simp) (fun _ => rfl)).1)] at hpanic
    exact hpanic _ rfl

/-- C18 at `reader -s 0` on an empty input: the run ends with exit code 0
after a `Read` into a buffer of length 0, and the size is 0. -/
theorem C18_size_not_negative_witness :
    (∀ msg, (⟨[.Sleep 0, .Read .Std 0 [] (some .EOF), .Sleep 0,
        .Fprintf .Std "Read 0 bytes in 0s\n".toList, .Sleep 0], .Code 0⟩ : Run).exit ≠
      .Panic msg) ∧
    reader.main stillWorld 2 ["reader".toList, "-s".toList, "0".toList] =
      some ⟨[.Sleep 0, .Read .Std 0 [] (some .EOF), .Sleep 0,
          .Fprintf .Std "Read 0 bytes in 0s\n".toList, .Sleep 0], .Code 0⟩ ∧
    (0 : Int) ≤ ({ size := 0, skip := false } : reader.Vars).size :=
  ⟨by simp, rfl,
    (C18_size_not_negative stillWorld 2 ["reader".toList, "-s".toList, "0".toList]
      ⟨[.Sleep 0, .Read .Std 0 [] (some .EOF), .Sleep 0,
          .Fprintf .Std "Read 0 bytes in 0s\n".toList, .Sleep 0], .Code 0⟩
      (by simp)).1 { size := 0, skip := false } rfl rfl⟩

/-! ## C13: what piper writes -/

theorem bytesDelivered_append (a b : List Event) :
    bytesDelivered (a ++ b) = bytesDelivered a + bytesDelivered b := by
  induction a with
  | nil => simp [bytesDelivered]
  | cons e es ih =>
    cases e <;> simp [bytesDelivered, ih]
    omega

/-- The read loop of reader at the end of a source: the `Read` returns
`io.EOF`, the delay is slept, and the loop ends. -/
theorem reader_loop_source_end (w : World) (v : reader.Vars) (input : Stream) (L : Nat)
    (hsrc : isSourceOf w L) (hcount : v.count < 0) (hto : v.timeout = 0) (fuel : Nat)
    (s : reader.LoopVars) (h0 : 0 ≤ s.itr) (herr : s.err = none)
    (hd : L ≤ bytesDelivered s.trace) (hfuel : 2 ≤ fuel) :
    ∃ s1, reader.loop w v input fuel s = (s1, true) ∧ s1.bytes = wrapInt64 (s.bytes + 0) ∧
      s1.rc = s.rc ∧
      s1.trace = s.trace ++ [.Read input s.buf.length [] (some .EOF), .Sleep v.delay] := by
  obtain ⟨f, rfl⟩ := Nat.exists_eq_add_of_le hfuel
  have hread : w.Read s.trace s.buf.length = ([], some .EOF) := by
    have := hsrc s.trace s.buf.length
    rwa [if_neg (by omega)] at this
  rw [show 2 + f = (f + 1) + 1 by omega, reader_loop_succ,
    if_neg (by simp only [herr]; intro h; apply h; exact ⟨by omega, by simp⟩),
    if_neg (by intro h; exact h.2 hto), hread]
  simp only
  rw [if_neg (by simp), reader_loop_succ, if_pos (by simp)]
  exact ⟨_, rfl, rfl, rfl, by simp⟩

/-- The read loop of reader on a source of exactly `L` bytes, with unlimited
count and no timeout: when `k` reads into the buffer of `b` bytes cover the
rest of the source and `k + 2` evaluations of the condition are allowed, the
loop reads the rest, then a `Read` returns `io.EOF`, and the loop ends with the
total `L` (as a 64-bit `int`) and the exit code unchanged. -/
theorem reader_loop_source (w : World) (v : reader.Vars) (input : Stream) (L : Nat)
    (hsrc : isSourceOf w L) (hcount : v.count < 0) (hto : v.timeout = 0) (b k : Nat) :
    ∀ (fuel : Nat) (s : reader.LoopVars), 0 ≤ s.itr → s.itr + k < 2 ^ 63 → s.err = none →
      s.buf.length = b → bytesDelivered s.trace ≤ L → L - bytesDelivered s.trace ≤ k * b →
      s.bytes = wrapInt64 (bytesDelivered s.trace) → k + 2 ≤ fuel →
      ∃ s1 rest, reader.loop w v input fuel s = (s1, true) ∧ s1.bytes = wrapInt64 L ∧
        s1.rc = s.rc ∧
        s1.trace = s.trace ++ rest ++ [.Read input b [] (some .EOF), .Sleep v.delay] ∧
        bytesDelivered rest = L - bytesDelivered s.trace ∧
        ∀ e ∈ rest, e.isEOF = false ∧ e.isFailure = false := by
  have hend : ∀ (fuel : Nat) (s : reader.LoopVars), 0 ≤ s.itr → s.err = none →
      s.buf.length = b → bytesDelivered s.trace ≤ L → L ≤ bytesDelivered s.trace →
      s.bytes = wrapInt64 (bytesDelivered s.trace) → 2 ≤ fuel →
      ∃ s1 rest, reader.loop w v input fuel s = (s1, true) ∧ s1.bytes = wrapInt64 L ∧
        s1.rc = s.rc ∧
        s1.trace = s.trace ++ rest ++ [.Read input b [] (some .EOF), .Sleep v.delay] ∧
        bytesDelivered rest = L - bytesDelivered s.trace ∧
        ∀ e ∈ rest, e.isEOF = false ∧ e.isFailure = false := by
    intro fuel s h0 herr hlen hle hge hbytes hfuel
    obtain ⟨s1, e1, e2, e3, e4⟩ :=
      reader_loop_source_end w v input L hsrc hcount hto fuel s h0 herr hge hfuel
    refine ⟨s1, [], e1, ?_, e3, by rw [e4, hlen]; simp, by simp [bytesDelivered]; omega,
      by simp⟩
    have hdl : bytesDelivered s.trace = L := by omega
    rw [e2, hbytes, wrapInt64_add_wrap, hdl, add_zero]
  induction k with
  | zero =>
    intro fuel s h0 _ herr hlen hle hk hbytes hfuel
    exact hend fuel s h0 herr hlen hle (by omega) hbytes hfuel
  | succ k ih =>
    intro fuel s h0 hitr herr hlen hle hk hbytes hfuel
    by_cases hd : L ≤ bytesDelivered s.trace
    · exact hend fuel s h0 herr hlen hle hd hbytes (by omega)
    · obtain ⟨f, rfl⟩ := Nat.exists_eq_add_of_le hfuel
      have hread := hsrc s.trace b
      rw [if_pos (by omega)] at hread
      obtain ⟨hdata, hnone⟩ := hread
      rw [show k + 1 + 2 + f = (k + 2 + f) + 1 by omega, reader_loop_succ,
        if_neg (by simp only [herr]; intro h; apply h; exact ⟨by omega, by simp⟩),
        if_neg (by intro h; exact h.2 hto), hlen, hnone]
      generalize (w.Read s.trace b).1 = data at hdata
      rw [if_neg (by simp)]
      have hw : wrapInt64 (s.itr + 1) = s.itr + 1 :=
        wrapInt64_of_range _ (by omega) (by omega)
      have hm : data.length ≤ L - bytesDelivered s.trace := by
        rw [hdata]; exact Nat.min_le_right _ _
      have hm2 : data.length = b ∨ data.length = L - bytesDelivered s.trace := by
        rw [hdata]; omega
      have hdel : bytesDelivered (s.trace ++ [Event.Read input b data none] ++
          [Event.Sleep v.delay]) = bytesDelivered s.trace + data.length := by
        simp [bytesDelivered_append, bytesDelivered]
      have hkb : (k + 1) * b = k * b + b := Nat.succ_mul k b
      obtain ⟨s1, rest, e1, e2, e3, e4, e5, e6⟩ := ih (k + 2 + f)
        { itr := wrapInt64 (s.itr + 1), bytes := wrapInt64 (s.bytes + (data.length : Int)),
          err := none, rc := s.rc, runtime := w.Since s.trace, buf := fill s.buf data,
          trace := s.trace ++ [.Read input b data none] ++ [.Sleep v.delay] }
        (by show 0 ≤ wrapInt64 (s.itr + 1); omega)
        (by show wrapInt64 (s.itr + 1) + (k : Int) < 2 ^ 63; omega)
        rfl
        (by show (fill s.buf data).length = b; rw [fill_length, hlen])
        (by rw [hdel]; omega)
        (by rw [hdel]; rcases hm2 with h | h <;> omega)
        (by
          show wrapInt64 (s.bytes + (data.length : Int)) = _
          rw [hdel, hbytes, wrapInt64_add_wrap]; push_cast; rfl)
        (by omega)
      refine ⟨s1, .Read input b data none :: .Sleep v.delay :: rest, e1, e2, e3, ?_, ?_, ?_⟩
      · rw [e4]; simp only [List.append_assoc]; rfl
      · rw [hdel] at e5
        simp only [bytesDelivered, e5]
        omega
      · intro e he
        simp only [List.mem_cons] at he
        rcases he with rfl | rfl | he
        · exact ⟨rfl, rfl⟩
        · exact ⟨rfl, rfl⟩
        · exact e6 e he

theorem sourceWorld_isSource (L : Nat) : isSourceOf (sourceWorld L) L := by
  intro h len
  by_cases hd : bytesDelivered h < L
  · rw [if_pos hd]
    simp [sourceWorld, hd]
  · rw [if_neg hd]
    simp [sourceWorld, hd]

/-- A run of reader from the start delay on, on a source of exactly `L` bytes
with unlimited count and no timeout: it reads the `L` bytes, then a `Read`
returns `io.EOF` and the loop ends; the summary shows the total as the 64-bit
`int` holds it. -/
theorem reader_run_source (w : World) (v : reader.Vars) (input : Stream) (tr : List Event)
    (L k fuel : Nat) (hsrc : isSourceOf w L) (htr : bytesDelivered tr = 0) (hcount : v.count < 0)
    (hto : v.timeout = 0) (hk : L ≤ k * v.size.toNat) (hk63 : (k : Int) < 2 ^ 63)
    (hfuel : k + 2 ≤ fuel) :
    ∃ rest rt, reader.run w fuel v input tr =
        some ⟨tr ++ [.Sleep v.startDelay] ++ rest ++
          [.Read input v.size.toNat [] (some .EOF), .Sleep v.delay] ++
          [.Fprintf v.log ("Read ".toList ++ reader.bytesRead (wrapInt64 L) ++ " in ".toList ++
            w.DurationString rt ++ "\n".toList), .Sleep v.exitDelay], .Code v.rc⟩ ∧
      bytesDelivered rest = L ∧ ∀ e ∈ rest, e.isEOF = false ∧ e.isFailure = false := by
  have hdel : bytesDelivered (tr ++ [Event.Sleep v.startDelay]) = 0 := by
    simp [bytesDelivered_append, bytesDelivered, htr]
  obtain ⟨s1, rest, e1, e2, e3, e4, e5, e6⟩ := reader_loop_source w v input L hsrc hcount hto
    v.size.toNat k fuel
    { itr := 0, bytes := 0, err := none, rc := v.rc, runtime := 0, buf := makeBytes v.size,
      trace := tr ++ [.Sleep v.startDelay] }
    (le_refl _) (by simpa using hk63) rfl (by simp [makeBytes]) (by rw [hdel]; omega)
    (by rw [hdel]; simpa using hk) (by rw [hdel]; show (0 : Int) = wrapInt64 ((0 : Nat) : Int); decide) hfuel
  rw [hdel] at e5
  refine ⟨rest, s1.runtime, ?_, by simpa using e5, e6⟩
  unfold reader.run
  rw [e1]
  simp only [reader.finish, e2, e3, e4]

theorem creates_bytesDelivered (tr : List Event)
    (h : ∀ e ∈ tr, ∃ name, e = Event.Create name none) : bytesDelivered tr = 0 := by
  induction tr with
  | nil => rfl
  | cons e es ih =>
    obtain ⟨name, rfl⟩ := h e (List.mem_cons_self _ _)
    simp only [bytesDelivered]
    exact ih (fun x hx => h x (List.mem_cons_of_mem _ hx))

/-- A whole run of reader on a source of exactly `L` bytes, with unlimited
count, no timeout, a buffer that is allocated and a file that opens: after the
events before the loop it reads the `L` bytes, then a `Read` returns `io.EOF`
and the loop ends; the summary shows the total as the 64-bit `int` holds it. -/
theorem reader_main_source (w : World) (fuel : Nat) (args : List Str) (v : reader.Vars)
    (L k : Nat) (hv : reader.argLoop w {} args = .ok v) (hsrc : isSourceOf w L)
    (hcount : v.count < 0) (hto : v.timeout = 0) (hs : 0 ≤ v.size) (hmax : v.size ≤ maxAlloc)
    (halloc : w.Alloc v.trace v.size = true)
    (hopen : v.fileName ≠ [] → w.OpenFile (v.trace ++ [.Sleep v.openDelay]) v.fileName = none)
    (hk : L ≤ k * v.size.toNat) (hk63 : (k : Int) < 2 ^ 63) (hfuel : k + 2 ≤ fuel) :
    ∃ rest rt, reader.main w fuel args =
        some ⟨(if v.fileName = [] then v.trace
              else v.trace ++ [.Sleep v.openDelay, .OpenFile v.fileName none]) ++
            [.Sleep v.startDelay] ++ rest ++
            [.Read (if v.fileName = [] then .Std else .File v.fileName) v.size.toNat []
              (some .EOF), .Sleep v.delay] ++
            [.Fprintf v.log ("Read ".toList ++ reader.bytesRead (wrapInt64 L) ++
              " in ".toList ++ w.DurationString rt ++ "\n".toList), .Sleep v.exitDelay],
          .Code v.rc⟩ ∧
      bytesDelivered rest = L ∧ ∀ e ∈ rest, e.isEOF = false ∧ e.isFailure = false := by
  have hcr := creates_bytesDelivered _
    (reader_argLoop_inv w args {} v hv (by simp) (fun _ => rfl)).1
  unfold reader.main
  rw [hv]
  simp only [reader.transfer]
  rw [if_neg (by omega), if_neg (by simp [halloc])]
  by_cases hf : v.fileName = []
  · obtain ⟨rest, rt, hrun, h1, h2⟩ := reader_run_source w v .Std v.trace L k fuel hsrc hcr
      hcount hto hk hk63 hfuel
    refine ⟨rest, rt, ?_, h1, h2⟩
    rw [if_pos hf, if_pos hf, if_pos hf, hrun]
  · obtain ⟨rest, rt, hrun, h1, h2⟩ := reader_run_source w v (.File v.fileName)
      (v.trace ++ [.Sleep v.openDelay, .OpenFile v.fileName none]) L k fuel hsrc
      (by simp [bytesDelivered_append, bytesDelivered, hcr]) hcount hto hk hk63 hfuel
    refine ⟨rest, rt, ?_, h1, h2⟩
    rw [if_neg hf, if_neg hf, if_neg hf, hopen hf]
    simp only
    rw [hrun]

/-- C11, counterexample: `reader -s 512m` (blocks of 2^29 bytes) on a source of
exactly 2^63 bytes reads all of them in full blocks and then meets `io.EOF`,
but the summary shows `-9223372036854775808 bytes`, the total wrapped around
in the 64-bit `int`, where the claim has the total of 2^63 bytes (shown as
`8796093022208 megabytes`). -/
theorem C11_counterexample :
    (∃ rest rt, reader.main (sourceWorld (2 ^ 63)) 17179869186
        ["reader".toList, "-s".toList, "512m".toList] =
      some ⟨[] ++ [.Sleep 0] ++ rest ++
          [.Read .Std (2 ^ 29) [] (some .EOF), .Sleep 0] ++
          [.Fprintf .Std ("Read ".toList ++ "-9223372036854775808 bytes".toList ++
            " in ".toList ++ (sourceWorld (2 ^ 63)).DurationString rt ++ "\n".toList),
            .Sleep 0], .Code 0⟩ ∧
      bytesDelivered rest = 2 ^ 63 ∧ ∀ e ∈ rest, e.isEOF = false ∧ e.isFailure = false) ∧
    reader.bytesRead (2 ^ 63) = "8796093022208 megabytes".toList ∧
    "8796093022208 megabytes".toList ≠ "-9223372036854775808 bytes".toList := by
  refine ⟨?_, by decide, by decide⟩
  have hv : reader.argLoop (sourceWorld (2 ^ 63)) {}
      ["reader".toList, "-s".toList, "512m".toList] =
      .ok { size := 536870912, skip := false } := rfl
  obtain ⟨rest, rt, hrun, h1, h2⟩ := reader_main_source (sourceWorld (2 ^ 63)) 17179869186
    ["reader".toList, "-s".toList, "512m".toList] { size := 536870912, skip := false }
    (2 ^ 63) 17179869184 hv (sourceWorld_isSource _) (by decide) rfl (by decide) (by decide)
    rfl (fun h => absurd rfl h) (by decide) (by decide) (by decide)
  refine ⟨rest, rt, ?_, h1, h2⟩
  rw [hrun]
  rfl

/-- C11, amended with the range of the total and the allocation of the
buffer: for reader with the default (unlimited) count, no timeout and a block
size `s > 0` that `make` accepts (at most `maxAlloc`) and for which the run
time gets the memory, on a source of exactly `L` bytes with `L` below 2^63
(a file, if one is named, that opens), when `k` blocks of the size cover `L`
and `k + 2` evaluations of the loop condition are allowed, the run reads the
`L` bytes without meeting `io.EOF` or a failure, then a `Read` returns 0 bytes
and `io.EOF`, the loop ends there, the summary reports the total `L` and the
exit code is the success code. -/
theorem C11_reader_reads_source (w : World) (fuel : Nat) (args : List Str) (v : reader.Vars)
    (L k : Nat) (hv : reader.argLoop w {} args = .ok v) (hsrc : isSourceOf w L)
    (hcount : v.count = -1) (hto : v.timeout = 0) (hs : 0 < v.size) (hmax : v.size ≤ maxAlloc)
    (halloc : w.Alloc v.trace v.size = true)
    (hopen : v.fileName ≠ [] → w.OpenFile (v.trace ++ [.Sleep v.openDelay]) v.fileName = none)
    (hL : (L : Int) < 2 ^ 63) (hk : L ≤ k * v.size.toNat) (hk63 : (k : Int) < 2 ^ 63)
    (hfuel : k + 2 ≤ fuel) :
    ∃ rest rt, reader.main w fuel args =
        some ⟨(if v.fileName = [] then v.trace
              else v.trace ++ [.Sleep v.openDelay, .OpenFile v.fileName none]) ++
            [.Sleep v.startDelay] ++ rest ++
            [.Read (if v.fileName = [] then .Std else .File v.fileName) v.size.toNat []
              (some .EOF), .Sleep v.delay] ++
            [.Fprintf v.log ("Read ".toList ++ reader.bytesRead L ++
              " in ".toList ++ w.DurationString rt ++ "\n".toList), .Sleep v.exitDelay],
          .Code v.rc⟩ ∧
      bytesDelivered rest = L ∧ ∀ e ∈ rest, e.isEOF = false ∧ e.isFailure = false := by
  have h := reader_main_source w fuel args v L k hv hsrc (by omega) hto (le_of_lt hs) hmax
    halloc hopen hk hk63 hfuel
  rw [wrapInt64_of_range _ (by omega) hL] at h
  exact h

/-- C11 (amended) at `L = 300` and `-s 100`: three reads of 100 bytes, a
fourth that returns `io.EOF`, and the summary `Read 300 bytes`. -/
theorem C11_reader_reads_source_witness :
    reader.main (sourceWorld 300) 5 ["reader".toList, "-s".toList, "100".toList] =
      some ⟨[.Sleep 0, .Read .Std 100 (List.replicate 100 0) none, .Sleep 0,
          .Read .Std 100 (List.replicate 100 0) none, .Sleep 0,
          .Read .Std 100 (List.replicate 100 0) none, .Sleep 0,
          .Read .Std 100 [] (some .EOF), .Sleep 0,
          .Fprintf .Std "Read 300 bytes in 0s\n".toList, .Sleep 0], .Code 0⟩ ∧
    ∃ rest rt, reader.main (sourceWorld 300) 5
        ["reader".toList, "-s".toList, "100".toList] =
        some ⟨[] ++ [.Sleep 0] ++ rest ++ [.Read .Std 100 [] (some .EOF), .Sleep 0] ++
          [.Fprintf .Std ("Read ".toList ++ reader.bytesRead 300 ++ " in ".toList ++
            (sourceWorld 300).DurationString rt ++ "\n".toList), .Sleep 0], .Code 0⟩ ∧
      bytesDelivered rest = 300 ∧ ∀ e ∈ rest, e.isEOF = false ∧ e.isFailure = false :=
  ⟨rfl, C11_reader_reads_source (sourceWorld 300) 5
    ["reader".toList, "-s".toList, "100".toList] { size := 100, skip := false } 300 3 rfl
    (sourceWorld_isSource 300) rfl rfl (by decide) (by decide) rfl (fun h => absurd rfl h)
    (by decide) (by decide) (by decide) (by decide)⟩

/-! ## The size and duration cases, by the result of `ParseInt` -/

theorem size_pair_fst0 (x : Str) :
    (if strings.HasSuffix x ['k'] = true then ((1024 : Int), strings.TrimSuffix x ['k'])
      else if strings.HasSuffix x ['m'] = true then (1024 * 1024, strings.TrimSuffix x ['m'])
      else (1, x)).1 = sizeMultiplier x := by
  unfold sizeMultiplier
  by_cases hk : strings.HasSuffix x ['k'] = true
  · rw [if_pos hk, if_pos hk]
  · rw [if_neg hk, if_neg hk]
    by_cases hm : strings.HasSuffix x ['m'] = true
    · rw [if_pos hm, if_pos hm]
    · rw [if_neg hm, if_neg hm]

theorem duration_pair_fst0 (x : Str) :
    (if strings.HasSuffix x ['m', 's'] = true then
        (time.Millisecond, strings.TrimSuffix x ['m', 's'])
      else if strings.HasSuffix x ['m'] = true then (time.Minute, strings.TrimSuffix x ['m'])
      else if strings.HasSuffix x ['h'] = true then (time.Hour, strings.TrimSuffix x ['h'])
      else (time.Second, x)).1 = durationMultiplier x := by
  unfold durationMultiplier
  by_cases hms : strings.HasSuffix x ['m', 's'] = true
  · rw [if_pos hms, if_pos hms]
  · rw [if_neg hms, if_neg hms]
    by_cases hm : strings.HasSuffix x ['m'] = true
    · rw [if_pos hm, if_pos hm]
    · rw [if_neg hm, if_neg hm]
      by_cases hh : strings.HasSuffix x ['h'] = true
      · rw [if_pos hh, if_pos hh]
      · rw [if_neg hh, if_neg hh]

theorem size_pair_fst (x : Str) :
    (if strings.HasSuffix x "k".toList = true then
        ((1024 : Int), strings.TrimSuffix x "k".toList)
      else if strings.HasSuffix x "m".toList = true then
        (1024 * 1024, strings.TrimSuffix x "m".toList)
      else (1, x)).1 = sizeMultiplier x :=
  size_pair_fst0 x

theorem duration_pair_fst (x : Str) :
    (if strings.HasSuffix x "ms".toList = true then
        (time.Millisecond, strings.TrimSuffix x "ms".toList)
      else if strings.HasSuffix x "m".toList = true then
        (time.Minute, strings.TrimSuffix x "m".toList)
      else if strings.HasSuffix x "h".toList = true then
        (time.Hour, strings.TrimSuffix x "h".toList)
      else (time.Second, x)).1 = durationMultiplier x :=
  duration_pair_fst0 x

/-- The case `-s` of writer, by what `ParseInt` returns on the numeral. -/
theorem writer_flag_s_parse (w : World) (v : writer.Vars) (x : Str) :
    (∀ t, strconv.ParseInt (sizeNumeral x) 10 32 = (t, none) →
      writer.argCase w v "-s".toList (some x) =
        .ok { v with skip := true, size := wrapInt64 (t * sizeMultiplier x) }) ∧
    (∀ t err, strconv.ParseInt (sizeNumeral x) 10 32 = (t, some err) →
      ∃ msg, writer.argCase w v "-s".toList (some x) =
        .done (writer.handleError v.trace msg v.log writer.syntaxError)) := by
  have e : writer.argCase w v "-s".toList (some x) = writer.flag_s w v (some x) := by
    simp [writer.argCase]
  rw [e]
  unfold writer.flag_s
  simp only
  rw [size_pair_snd' x, size_pair_fst x]
  refine ⟨fun t ht => ?_, fun t err ht => ?_⟩
  · rw [ht]
  · rw [ht]; exact ⟨_, rfl⟩

/-- The case `-d` of writer, by what `ParseInt` returns on the numeral. -/
theorem writer_flag_d_parse (w : World) (v : writer.Vars) (x : Str) :
    (∀ t, strconv.ParseInt (durationNumeral x) 10 32 = (t, none) →
      writer.argCase w v "-d".toList (some x) =
        .ok { v with skip := true, delay := wrapInt64 (t * durationMultiplier x) }) ∧
    (∀ t err, strconv.ParseInt (durationNumeral x) 10 32 = (t, some err) →
      ∃ msg, writer.argCase w v "-d".toList (some x) =
        .done (writer.handleError v.trace msg v.log writer.syntaxError)) := by
  have e : writer.argCase w v "-d".toList (some x) = writer.flag_d w v (some x) := by
    simp [writer.argCase]
  rw [e]
  unfold writer.flag_d
  simp only
  rw [duration_pair_snd' x, duration_pair_fst x]
  refine ⟨fun t ht => ?_, fun t err ht => ?_⟩
  · rw [ht]
  · rw [ht]; exact ⟨_, rfl⟩

/-- The case `-od` of writer, by what `ParseInt` returns on the numeral. -/
theorem writer_flag_od_parse (w : World) (v : writer.Vars) (x : Str) :
    (∀ t, strconv.ParseInt (durationNumeral x) 10 32 = (t, none) →
      writer.argCase w v "-od".toList (some x) =
        .ok { v with skip := true, openDelay := wrapInt64 (t * durationMultiplier x) }) ∧
    (∀ t err, strconv.ParseInt (durationNumeral x) 10 32 = (t, some err) →
      ∃ msg, writer.argCase w v "-od".toList (some x) =
        .done (writer.handleError v.trace msg v.log writer.syntaxError)) := by
  have e : writer.argCase w v "-od".toList (some x) = writer.flag_od w v (some x) := by
    simp [writer.argCase]
  rw [e]
  unfold writer.flag_od
  simp only
  rw [duration_pair_snd' x, duration_pair_fst x]
  refine ⟨fun t ht => ?_, fun t err ht => ?_⟩
  · rw [ht]
  · rw [ht]; exact ⟨_, rfl⟩

/-- The case `-t` of writer, by what `ParseInt` returns on the numeral. -/
theorem writer_flag_t_parse (w : World) (v : writer.Vars) (x : Str) :
    (∀ t, strconv.ParseInt (durationNumeral x) 10 32 = (t, none) →
      writer.argCase w v "-t".toList (some x) =
        .ok { v with skip := true, timeout := wrapInt64 (t * durationMultiplier x) }) ∧
    (∀ t err, strconv.ParseInt (durationNumeral x) 10 32 = (t, some err) →
      ∃ msg, writer.argCase w v "-t".toList (some x) =
        .done (writer.handleError v.trace msg v.log writer.syntaxError)) := by
  have e : writer.argCase w v "-t".toList (some x) = writer.flag_t w v (some x) := by
    simp [writer.argCase]
  rw [e]
  unfold writer.flag_t
  simp only
  rw [duration_pair_snd' x, duration_pair_fst x]
  refine ⟨fun t ht => ?_, fun t err ht => ?_⟩
  · rw [ht]
  · rw [ht]; exact ⟨_, rfl⟩

/-- The case `-sd` of writer, by what `ParseInt` returns on the numeral. -/
theorem writer_flag_sd_parse (w : World) (v : writer.Vars) (x : Str) :
    (∀ t, strconv.ParseInt (durationNumeral x) 10 32 = (t, none) →
      writer.argCase w v "-sd".toList (some x) =
        .ok { v with skip := true, startDelay := wrapInt64 (t * durationMultiplier x) }) ∧
    (∀ t err, strconv.ParseInt (durationNumeral x) 10 32 = (t, some err) →
      ∃ msg, writer.argCase w v "-sd".toList (some x) =
        .done (writer.handleError v.trace msg v.log writer.syntaxError)) := by
  have e : writer.argCase w v "-sd".toList (some x) = writer.flag_sd w v (some x) := by
    simp [writer.argCase]
  rw [e]
  unfold writer.flag_sd
  simp only
  rw [duration_pair_snd' x, duration_pair_fst x]
  refine ⟨fun t ht => ?_, fun t err ht => ?_⟩
  · rw [ht]
  · rw [ht]; exact ⟨_, rfl⟩

/-- The case `-s` of reader, by what `ParseInt` returns on the numeral. -/
theorem reader_flag_s_parse (w : World) (v : reader.Vars) (x : Str) :
    (∀ t, strconv.ParseInt (sizeNumeral x) 10 32 = (t, none) →
      reader.argCase w v "-s".toList (some x) =
        .ok { v with skip := true, size := wrapInt64 (t * sizeMultiplier x) }) ∧
    (∀ t err, strconv.ParseInt (sizeNumeral x) 10 32 = (t, some err) →
      ∃ msg, reader.argCase w v "-s".toList (some x) =
        .done (reader.handleError v.trace msg v.log reader.syntaxError)) := by
  have e : reader.argCase w v "-s".toList (some x) = reader.flag_s w v (some x) := by
    simp [reader.argCase]
  rw [e]
  unfold reader.flag_s
  simp only
  rw [size_pair_snd' x, size_pair_fst x]
  refine ⟨fun t ht => ?_, fun t err ht => ?_⟩
  · rw [ht]
  · rw [ht]; exact ⟨_, rfl⟩

/-- The case `-d` of reader, by what `ParseInt` returns on the numeral. -/
theorem reader_flag_d_parse (w : World) (v : reader.Vars) (x : Str) :
    (∀ t, strconv.ParseInt (durationNumeral x) 10 32 = (t, none) →
      reader.argCase w v "-d".toList (some x) =
        .ok { v with skip := true, delay := wrapInt64 (t * durationMultiplier x) }) ∧
    (∀ t err, strconv.ParseInt (durationNumeral x) 10 32 = (t, some err) →
      ∃ msg, reader.argCase w v "-d".toList (some x) =
        .done (reader.handleError v.trace msg v.log reader.syntaxError)) := by
  have e : reader.argCase w v "-d".toList (some x) = reader.flag_d w v (some x) := by
    simp [reader.argCase]
  rw [e]
  unfold reader.flag_d
  simp only
  rw [duration_pair_snd' x, duration_pair_fst x]
  refine ⟨fun t ht => ?_, fun t err ht => ?_⟩
  · rw [ht]
  · rw [ht]; exact ⟨_, rfl⟩

/-- The case `-od` of reader, by what `ParseInt` returns on the numeral. -/
theorem reader_flag_od_parse (w : World) (v : reader.Vars) (x : Str) :
    (∀ t, strconv.ParseInt (durationNumeral x) 10 32 = (t, none) →
      reader.argCase w v "-od".toList (some x) =
        .ok { v with skip := true, openDelay := wrapInt64 (t * durationMultiplier x) }) ∧
    (∀ t err, strconv.ParseInt (durationNumeral x) 10 32 = (t, some err) →
      ∃ msg, reader.argCase w v "-od".toList (some x) =
        .done (reader.handleError v.trace msg v.log reader.syntaxError)) := by
  have e : reader.argCase w v "-od".toList (some x) = reader.flag_od w v (some x) := by
    simp [reader.argCase]
  rw [e]
  unfold reader.flag_od
  simp only
  rw [duration_pair_snd' x, duration_pair_fst x]
  refine ⟨fun t ht => ?_, fun t err ht => ?_⟩
  · rw [ht]
  · rw [ht]; exact ⟨_, rfl⟩

/-- The case `-ed` of reader, by what `ParseInt` returns on the numeral. -/
theorem reader_flag_ed_parse (w : World) (v : reader.Vars) (x : Str) :
    (∀ t, strconv.ParseInt (durationNumeral x) 10 32 = (t, none) →
      reader.argCase w v "-ed".toList (some x) =
        .ok { v with skip := true, exitDelay := wrapInt64 (t * durationMultiplier x) }) ∧
    (∀ t err, strconv.ParseInt (durationNumeral x) 10 32 = (t, some err) →
      ∃ msg, reader.argCase w v "-ed".toList (some x) =
        .done (reader.handleError v.trace msg v.log reader.syntaxError)) := by
  have e : reader.argCase w v "-ed".toList (some x) = reader.flag_ed w v (some x) := by
    simp [reader.argCase]
  rw [e]
  unfold reader.flag_ed
  simp only
  rw [duration_pair_snd' x, duration_pair_fst x]
  refine ⟨fun t ht => ?_, fun t err ht => ?_⟩
  · rw [ht]
  · rw [ht]; exact ⟨_, rfl⟩

/-- The case `-t` of reader, by what `ParseInt` returns on the numeral. -/
theorem reader_flag_t_parse (w : World) (v : reader.Vars) (x : Str) :
    (∀ t, strconv.ParseInt (durationNumeral x) 10 32 = (t, none) →
      reader.argCase w v "-t".toList (some x) =
        .ok { v with skip := true, timeout := wrapInt64 (t * durationMultiplier x) }) ∧
    (∀ t err, strconv.ParseInt (durationNumeral x) 10 32 = (t, some err) →
      ∃ msg, reader.argCase w v "-t".toList (some x) =
        .done (reader.handleError v.trace msg v.log reader.syntaxError)) := by
  have e : reader.argCase w v "-t".toList (some x) = reader.flag_t w v (some x) := by
    simp [reader.argCase]
  rw [e]
  unfold reader.flag_t
  simp only
  rw [duration_pair_snd' x, duration_pair_fst x]
  refine ⟨fun t ht => ?_, fun t err ht => ?_⟩
  · rw [ht]
  · rw [ht]; exact ⟨_, rfl⟩

/-- The case `-sd` of reader, by what `ParseInt` returns on the numeral. -/
theorem reader_flag_sd_parse (w : World) (v : reader.Vars) (x : Str) :
    (∀ t, strconv.ParseInt (durationNumeral x) 10 32 = (t, none) →
      reader.argCase w v "-sd".toList (some x) =
        .ok { v with skip := true, startDelay := wrapInt64 (t * durationMultiplier x) }) ∧
    (∀ t err, strconv.ParseInt (durationNumeral x) 10 32 = (t, some err) →
      ∃ msg, reader.argCase w v "-sd".toList (some x) =
        .done (reader.handleError v.trace msg v.log reader.syntaxError)) := by
  have e : reader.argCase w v "-sd".toList (some x) = reader.flag_sd w v (some x) := by
    simp [reader.argCase]
  rw [e]
  unfold reader.flag_sd
  simp only
  rw [duration_pair_snd' x, duration_pair_fst x]
  refine ⟨fun t ht => ?_, fun t err ht => ?_⟩
  · rw [ht]
  · rw [ht]; exact ⟨_, rfl⟩

/-- The case `-s` of piper, by what `ParseInt` returns on the numeral. -/
theorem piper_flag_s_parse (w : World) (v : piper.Vars) (x : Str) :
    (∀ t, strconv.ParseInt (sizeNumeral x) 10 32 = (t, none) →
      piper.argCase w v "-s".toList (some x) =
        .ok { v with skip := true, size := wrapInt64 (t * sizeMultiplier x) }) ∧
    (∀ t err, strconv.ParseInt (sizeNumeral x) 10 32 = (t, some err) →
      ∃ msg, piper.argCase w v "-s".toList (some x) =
        .done (piper.handleError v.trace msg v.log piper.syntaxError)) := by
  have e : piper.argCase w v "-s".toList (some x) = piper.flag_s w v (some x) := by
    simp [piper.argCase]
  rw [e]
  unfold piper.flag_s
  simp only
  rw [size_pair_snd' x, size_pair_fst x]
  refine ⟨fun t ht => ?_, fun t err ht => ?_⟩
  · rw [ht]
  · rw [ht]; exact ⟨_, rfl⟩

/-- The case `-d` of piper, by what `ParseInt` returns on the numeral. -/
theorem piper_flag_d_parse (w : World) (v : piper.Vars) (x : Str) :
    (∀ t, strconv.ParseInt (durationNumeral x) 10 32 = (t, none) →
      piper.argCase w v "-d".toList (some x) =
        .ok { v with skip := true, delay := wrapInt64 (t * durationMultiplier x) }) ∧
    (∀ t err, strconv.ParseInt (durationNumeral x) 10 32 = (t, some err) →
      ∃ msg, piper.argCase w v "-d".toList (some x) =
        .done (piper.handleError v.trace msg v.log piper.syntaxError)) := by
  have e : piper.argCase w v "-d".toList (some x) = piper.flag_d w v (some x) := by
    simp [piper.argCase]
  rw [e]
  unfold piper.flag_d
  simp only
  rw [duration_pair_snd' x, duration_pair_fst x]
  refine ⟨fun t ht => ?_, fun t err ht => ?_⟩
  · rw [ht]
  · rw [ht]; exact ⟨_, rfl⟩

/-- The case `-od` of piper, by what `ParseInt` returns on the numeral. -/
theorem piper_flag_od_parse (w : World) (v : piper.Vars) (x : Str) :
    (∀ t, strconv.ParseInt (durationNumeral x) 10 32 = (t, none) →
      piper.argCase w v "-od".toList (some x) =
        .ok { v with skip := true, openDelay := wrapInt64 (t * durationMultiplier x) }) ∧
    (∀ t err, strconv.ParseInt (durationNumeral x) 10 32 = (t, some err) →
      ∃ msg, piper.argCase w v "-od".toList (some x) =
        .done (piper.handleError v.trace msg v.log piper.syntaxError)) := by
  have e : piper.argCase w v "-od".toList (some x) = piper.flag_od w v (some x) := by
    simp [piper.argCase]
  rw [e]
  unfold piper.flag_od
  simp only
  rw [duration_pair_snd' x, duration_pair_fst x]
  refine ⟨fun t ht => ?_, fun t err ht => ?_⟩
  · rw [ht]
  · rw [ht]; exact ⟨_, rfl⟩

/-- The case `-t` of piper, by what `ParseInt` returns on the numeral. -/
theorem piper_flag_t_parse (w : World) (v : piper.Vars) (x : Str) :
    (∀ t, strconv.ParseInt (durationNumeral x) 10 32 = (t, none) →
      piper.argCase w v "-t".toList (some x) =
        .ok { v with skip := true, timeout := wrapInt64 (t * durationMultiplier x) }) ∧
    (∀ t err, strconv.ParseInt (durationNumeral x) 10 32 = (t, some err) →
      ∃ msg, piper.argCase w v "-t".toList (some x) =
        .done (piper.handleError v.trace msg v.log piper.syntaxError)) := by
  have e : piper.argCase w v "-t".toList (some x) = piper.flag_t w v (some x) := by
    simp [piper.argCase]
  rw [e]
  unfold piper.flag_t
  simp only
  rw [duration_pair_snd' x, duration_pair_fst x]
  refine ⟨fun t ht => ?_, fun t err ht => ?_⟩
  · rw [ht]
  · rw [ht]; exact ⟨_, rfl⟩

/-- The case `-sd` of piper, by what `ParseInt` returns on the numeral. -/
theorem piper_flag_sd_parse (w : World) (v : piper.Vars) (x : Str) :
    (∀ t, strconv.ParseInt (durationNumeral x) 10 32 = (t, none) →
      piper.argCase w v "-sd".toList (some x) =
        .ok { v with skip := true, startDelay := wrapInt64 (t * durationMultiplier x) }) ∧
    (∀ t err, strconv.ParseInt (durationNumeral x) 10 32 = (t, some err) →
      ∃ msg, piper.argCase w v "-sd".toList (some x) =
        .done (piper.handleError v.trace msg v.log piper.syntaxError)) := by
  have e : piper.argCase w v "-sd".toList (some x) = piper.flag_sd w v (some x) := by
    simp [piper.argCase]
  rw [e]
  unfold piper.flag_sd
  simp only
  rw [duration_pair_snd' x, duration_pair_fst x]
  refine ⟨fun t ht => ?_, fun t err ht => ?_⟩
  · rw [ht]
  · rw [ht]; exact ⟨_, rfl⟩

/-! ## C22: the duplicated parsers agree -/

/-- C22: for every text `x` given as the value, the three copies of the size
case `-s` (writer, reader, piper) either all set `size` to one and the same
number or all end in `handleError` with the syntax-error code; and the
thirteen copies of the duration case (`-d`, `-od`, `-t`, `-sd` in the three
programs and `-ed` in reader) either all set their variable to one and the
same duration or all end in `handleError` with the syntax-error code. -/
theorem C22_parsers_agree (w : World) (x : Str) :
    ((∃ n : Int,
      (∀ v : writer.Vars, writer.argCase w v "-s".toList (some x) =
        .ok { v with skip := true, size := n }) ∧
      (∀ v : reader.Vars, reader.argCase w v "-s".toList (some x) =
        .ok { v with skip := true, size := n }) ∧
      (∀ v : piper.Vars, piper.argCase w v "-s".toList (some x) =
        .ok { v with skip := true, size := n })) ∨
     ((∀ v : writer.Vars, ∃ msg, writer.argCase w v "-s".toList (some x) =
        .done (writer.handleError v.trace msg v.log writer.syntaxError)) ∧
      (∀ v : reader.Vars, ∃ msg, reader.argCase w v "-s".toList (some x) =
        .done (reader.handleError v.trace msg v.log reader.syntaxError)) ∧
      (∀ v : piper.Vars, ∃ msg, piper.argCase w v "-s".toList (some x) =
        .done (piper.handleError v.trace msg v.log piper.syntaxError)))) ∧
    ((∃ d : Int,
      (∀ v : writer.Vars, writer.argCase w v "-d".toList (some x) =
        .ok { v with skip := true, delay := d }) ∧
      (∀ v : writer.Vars, writer.argCase w v "-od".toList (some x) =
        .ok { v with skip := true, openDelay := d }) ∧
      (∀ v : writer.Vars, writer.argCase w v "-t".toList (some x) =
        .ok { v with skip := true, timeout := d }) ∧
      (∀ v : writer.Vars, writer.argCase w v "-sd".toList (some x) =
        .ok { v with skip := true, startDelay := d }) ∧
      (∀ v : reader.Vars, reader.argCase w v "-d".toList (some x) =
        .ok { v with skip := true, delay := d }) ∧
      (∀ v : reader.Vars, reader.argCase w v "-od".toList (some x) =
        .ok { v with skip := true, openDelay := d }) ∧
      (∀ v : reader.Vars, reader.argCase w v "-ed".toList (some x) =
        .ok { v with skip := true, exitDelay := d }) ∧
      (∀ v : reader.Vars, reader.argCase w v "-t".toList (some x) =
        .ok { v with skip := true, timeout := d }) ∧
      (∀ v : reader.Vars, reader.argCase w v "-sd".toList (some x) =
        .ok { v with skip := true, startDelay := d }) ∧
      (∀ v : piper.Vars, piper.argCase w v "-d".toList (some x) =
        .ok { v with skip := true, delay := d }) ∧
      (∀ v : piper.Vars, piper.argCase w v "-od".toList (some x) =
        .ok { v with skip := true, openDelay := d }) ∧
      (∀ v : piper.Vars, piper.argCase w v "-t".toList (some x) =
        .ok { v with skip := true, timeout := d }) ∧
      (∀ v : piper.Vars, piper.argCase w v "-sd".toList (some x) =
        .ok { v with skip := true, startDelay := d })) ∨
     ((∀ v : writer.Vars, ∃ msg, writer.argCase w v "-d".toList (some x) =
        .done (writer.handleError v.trace msg v.log writer.syntaxError)) ∧
      (∀ v : writer.Vars, ∃ msg, writer.argCase w v "-od".toList (some x) =
        .done (writer.handleError v.trace msg v.log writer.syntaxError)) ∧
      (∀ v : writer.Vars, ∃ msg, writer.argCase w v "-t".toList (some x) =
        .done (writer.handleError v.trace msg v.log writer.syntaxError)) ∧
      (∀ v : writer.Vars, ∃ msg, writer.argCase w v "-sd".toList (some x) =
        .done (writer.handleError v.trace msg v.log writer.syntaxError)) ∧
      (∀ v : reader.Vars, ∃ msg, reader.argCase w v "-d".toList (some x) =
        .done (reader.handleError v.trace msg v.log reader.syntaxError)) ∧
      (∀ v : reader.Vars, ∃ msg, reader.argCase w v "-od".toList (some x) =
        .done (reader.handleError v.trace msg v.log reader.syntaxError)) ∧
      (∀ v : reader.Vars, ∃ msg, reader.argCase w v "-ed".toList (some x) =
        .done (reader.handleError v.trace msg v.log reader.syntaxError)) ∧
      (∀ v : reader.Vars, ∃ msg, reader.argCase w v "-t".toList (some x) =
        .done (reader.handleError v.trace msg v.log reader.syntaxError)) ∧
      (∀ v : reader.Vars, ∃ msg, reader.argCase w v "-sd".toList (some x) =
        .done (reader.handleError v.trace msg v.log reader.syntaxError)) ∧
      (∀ v : piper.Vars, ∃ msg, piper.argCase w v "-d".toList (some x) =
        .done (piper.handleError v.trace msg v.log piper.syntaxError)) ∧
      (∀ v : piper.Vars, ∃ msg, piper.argCase w v "-od".toList (some x) =
        .done (piper.handleError v.trace msg v.log piper.syntaxError)) ∧
      (∀ v : piper.Vars, ∃ msg, piper.argCase w v "-t".toList (some x) =
        .done (piper.handleError v.trace msg v.log piper.syntaxError)) ∧
      (∀ v : piper.Vars, ∃ msg, piper.argCase w v "-sd".toList (some x) =
        .done (piper.handleError v.trace msg v.log piper.syntaxError)))) := by
  constructor
  · cases hp : strconv.ParseInt (sizeNumeral x) 10 32 with
    | mk t err =>
      cases err with
      | none =>
        exact Or.inl ⟨wrapInt64 (t * sizeMultiplier x),
        fun v => (writer_flag_s_parse w v x).1 t hp,
        fun v => (reader_flag_s_parse w v x).1 t hp,
        fun v => (piper_flag_s_parse w v x).1 t hp⟩
      | some e =>
        exact Or.inr ⟨
        fun v => (writer_flag_s_parse w v x).2 t e hp,
        fun v => (reader_flag_s_parse w v x).2 t e hp,
        fun v => (piper_flag_s_parse w v x).2 t e hp⟩
  · cases hp : strconv.ParseInt (durationNumeral x) 10 32 with
    | mk t err =>
      cases err with
      | none =>
        exact Or.inl ⟨wrapInt64 (t * durationMultiplier x),
        fun v => (writer_flag_d_parse w v x).1 t hp,
        fun v => (writer_flag_od_parse w v x).1 t hp,
        fun v => (writer_flag_t_parse w v x).1 t hp,
        fun v => (writer_flag_sd_parse w v x).1 t hp,
        fun v => (reader_flag_d_parse w v x).1 t hp,
        fun v => (reader_flag_od_parse w v x).1 t hp,
        fun v => (reader_flag_ed_parse w v x).1 t hp,
        fun v => (reader_flag_t_parse w v x).1 t hp,
        fun v => (reader_flag_sd_parse w v x).1 t hp,
        fun v => (piper_flag_d_parse w v x).1 t hp,
        fun v => (piper_flag_od_parse w v x).1 t hp,
        fun v => (piper_flag_t_parse w v x).1 t hp,
        fun v => (piper_flag_sd_parse w v x).1 t hp⟩
      | some e =>
        exact Or.inr ⟨
        fun v => (writer_flag_d_parse w v x).2 t e hp,
        fun v => (writer_flag_od_parse w v x).2 t e hp,
        fun v => (writer_flag_t_parse w v x).2 t e hp,
        fun v => (writer_flag_sd_parse w v x).2 t e hp,
        fun v => (reader_flag_d_parse w v x).2 t e hp,
        fun v => (reader_flag_od_parse w v x).2 t e hp,
        fun v => (reader_flag_ed_parse w v x).2 t e hp,
        fun v => (reader_flag_t_parse w v x).2 t e hp,
        fun v => (reader_flag_sd_parse w v x).2 t e hp,
        fun v => (piper_flag_d_parse w v x).2 t e hp,
        fun v => (piper_flag_od_parse w v x).2 t e hp,
        fun v => (piper_flag_t_parse w v x).2 t e hp,
        fun v => (piper_flag_sd_parse w v x).2 t e hp⟩

/-! ## C21: the products of the parsers -/

theorem wrapInt64_range (x : Int) : fitsInt64 (wrapInt64 x) := by
  unfold fitsInt64 wrapInt64
  norm_num
  constructor <;> omega

theorem wrapInt64_eq_iff (x : Int) : wrapInt64 x = x ↔ fitsInt64 x :=
  ⟨fun h => h ▸ wrapInt64_range x, wrapInt64_of_fits x⟩

/-- The numeral and the multiplier of a size value made of a decimal numeral
and a suffix the specification names. -/
theorem size_suffix_numeral (text : Str) (n : Int) (h : decimalInteger text = some n)
    (suffix : Str) (mult : Int) (hu : sizeUnit suffix = some mult) :
    sizeNumeral (text ++ suffix) = text ∧ sizeMultiplier (text ++ suffix) = mult := by
  have hk : strings.HasSuffix text ['k'] = false := (decimalInteger_no_suffix text n h).1
  have hm : strings.HasSuffix text ['m'] = false := (decimalInteger_no_suffix text n h).2.1
  have key : (if strings.HasSuffix (text ++ suffix) ['k'] = true then
        ((1024 : Int), strings.TrimSuffix (text ++ suffix) ['k'])
      else if strings.HasSuffix (text ++ suffix) ['m'] = true then
        (1024 * 1024, strings.TrimSuffix (text ++ suffix) ['m'])
      else (1, text ++ suffix)) = (mult, text) := by
    unfold sizeUnit at hu
    split_ifs at hu with h1 h2 h3
    · subst h1
      have e : mult = 1024 := (Option.some.inj hu).symm
      subst e
      have hkk : strings.HasSuffix (text ++ ['k']) ['k'] = true := HasSuffix_append _ _
      have tk : strings.TrimSuffix (text ++ ['k']) ['k'] = text := TrimSuffix_append _ _
      rw [if_pos hkk, tk]
    · subst h2
      have e : mult = 1024 * 1024 := (Option.some.inj hu).symm
      subst e
      have hmk : strings.HasSuffix (text ++ ['m']) ['k'] = false :=
        HasSuffix_append_ne text 'm' _ 'k' rfl (by decide)
      have hmm : strings.HasSuffix (text ++ ['m']) ['m'] = true := HasSuffix_append _ _
      have tm : strings.TrimSuffix (text ++ ['m']) ['m'] = text := TrimSuffix_append _ _
      rw [if_neg (by simp [hmk]), if_pos hmm, tm]
    · subst h3
      have e : mult = 1 := (Option.some.inj hu).symm
      subst e
      rw [List.append_nil, if_neg (by simp [hk]), if_neg (by simp [hm])]
  have h1 := size_pair_snd (text ++ suffix)
  have h2 := size_pair_fst0 (text ++ suffix)
  rw [key] at h1 h2
  exact ⟨h1.symm, h2.symm⟩

/-- The numeral and the unit of a duration value made of a decimal numeral and
a suffix the specification names. -/
theorem duration_suffix_numeral (text : Str) (n : Int) (h : decimalInteger text = some n)
    (suffix : Str) (unit : Int) (hu : durationUnit suffix = some unit) :
    durationNumeral (text ++ suffix) = text ∧ durationMultiplier (text ++ suffix) = unit := by
  have key := duration_suffix_tests text n h suffix unit hu
  have h1 := duration_pair_snd (text ++ suffix)
  have h2 := duration_pair_fst0 (text ++ suffix)
  rw [key] at h1 h2
  exact ⟨h1.symm, h2.symm⟩

/-- C21, counterexample: `200000000` and `3000000` are numerals of the signed
32-bit range, but 200000000 minutes and 3000000 hours do not lie in the signed
64-bit range of a duration: `piper -d 200000000m` and `reader -ed 3000000h`
store the negative durations the products wrap to. -/
theorem C21_counterexample :
    (decimalInteger "200000000".toList = some 200000000 ∧ (-2 ^ 31 : Int) ≤ 200000000 ∧
      (200000000 : Int) < 2 ^ 31 ∧ ¬ fitsInt64 (200000000 * time.Minute)) ∧
    piper.argCase stillWorld {} "-d".toList (some "200000000m".toList) =
      .ok { skip := true, delay := -6446744073709551616 } ∧
    (-6446744073709551616 : Int) ≠ 200000000 * time.Minute ∧
    (decimalInteger "3000000".toList = some 3000000 ∧ (-2 ^ 31 : Int) ≤ 3000000 ∧
      (3000000 : Int) < 2 ^ 31 ∧ ¬ fitsInt64 (3000000 * time.Hour)) ∧
    reader.argCase stillWorld {} "-ed".toList (some "3000000h".toList) =
      .ok { skip := true, exitDelay := -7646744073709551616 } ∧
    (-7646744073709551616 : Int) ≠ 3000000 * time.Hour :=
  ⟨⟨by decide, by decide, by decide, fun h => absurd h.2 (by decide)⟩, rfl, by decide,
    ⟨by decide, by decide, by decide, fun h => absurd h.2 (by decide)⟩, rfl, by decide⟩

/-- C21, amended: for every decimal numeral `<n>` the parsers accept (a signed
32-bit integer `n`). Sizes: with each of the suffixes (none, `k`, `m`) the
product of `n` and the multiplier lies in the 64-bit range, and the three
`-s` cases store exactly that product. Durations: with each suffix (`ms`, `m`,
`h`, none) the thirteen duration cases store the product of `n` and the unit
as the 64-bit multiplication gives it, which is the exact product if and only
if that lies in the signed 64-bit range; it always does for milliseconds and
seconds, for minutes exactly when `n` is between -153722867 and 153722867, and
for hours exactly when `n` is between -2562047 and 2562047. -/
theorem C21_products (w : World) (text : Str) (n : Int)
    (h : decimalInteger text = some n) (hlo : -2 ^ 31 ≤ n) (hhi : n < 2 ^ 31) :
    (∀ (suffix : Str) (mult : Int), sizeUnit suffix = some mult →
      fitsInt64 (n * mult) ∧
      (∀ v : writer.Vars, writer.argCase w v "-s".toList (some (text ++ suffix)) =
        .ok { v with skip := true, size := n * mult }) ∧
      (∀ v : reader.Vars, reader.argCase w v "-s".toList (some (text ++ suffix)) =
        .ok { v with skip := true, size := n * mult }) ∧
      (∀ v : piper.Vars, piper.argCase w v "-s".toList (some (text ++ suffix)) =
        .ok { v with skip := true, size := n * mult })) ∧
    (∀ (suffix : Str) (unit : Int), durationUnit suffix = some unit →
      (wrapInt64 (n * unit) = n * unit ↔ fitsInt64 (n * unit)) ∧
      (∀ v : writer.Vars, writer.argCase w v "-d".toList (some (text ++ suffix)) =
        .ok { v with skip := true, delay := wrapInt64 (n * unit) }) ∧
      (∀ v : writer.Vars, writer.argCase w v "-od".toList (some (text ++ suffix)) =
        .ok { v with skip := true, openDelay := wrapInt64 (n * unit) }) ∧
      (∀ v : writer.Vars, writer.argCase w v "-t".toList (some (text ++ suffix)) =
        .ok { v with skip := true, timeout := wrapInt64 (n * unit) }) ∧
      (∀ v : writer.Vars, writer.argCase w v "-sd".toList (some (text ++ suffix)) =
        .ok { v with skip := true, startDelay := wrapInt64 (n * unit) }) ∧
      (∀ v : reader.Vars, reader.argCase w v "-d".toList (some (text ++ suffix)) =
        .ok { v with skip := true, delay := wrapInt64 (n * unit) }) ∧
      (∀ v : reader.Vars, reader.argCase w v "-od".toList (some (text ++ suffix)) =
        .ok { v with skip := true, openDelay := wrapInt64 (n * unit) }) ∧
      (∀ v : reader.Vars, reader.argCase w v "-ed".toList (some (text ++ suffix)) =
        .ok { v with skip := true, exitDelay := wrapInt64 (n * unit) }) ∧
      (∀ v : reader.Vars, reader.argCase w v "-t".toList (some (text ++ suffix)) =
        .ok { v with skip := true, timeout := wrapInt64 (n * unit) }) ∧
      (∀ v : reader.Vars, reader.argCase w v "-sd".toList (some (text ++ suffix)) =
        .ok { v with skip := true, startDelay := wrapInt64 (n * unit) }) ∧
      (∀ v : piper.Vars, piper.argCase w v "-d".toList (some (text ++ suffix)) =
        .ok { v with skip := true, delay := wrapInt64 (n * unit) }) ∧
      (∀ v : piper.Vars, piper.argCase w v "-od".toList (some (text ++ suffix)) =
        .ok { v with skip := true, openDelay := wrapInt64 (n * unit) }) ∧
      (∀ v : piper.Vars, piper.argCase w v "-t".toList (some (text ++ suffix)) =
        .ok { v with skip := true, timeout := wrapInt64 (n * unit) }) ∧
      (∀ v : piper.Vars, piper.argCase w v "-sd".toList (some (text ++ suffix)) =
        .ok { v with skip := true, startDelay := wrapInt64 (n * unit) })) ∧
    fitsInt64 (n * time.Millisecond) ∧ fitsInt64 (n * time.Second) ∧
    (fitsInt64 (n * time.Minute) ↔ -153722867 ≤ n ∧ n ≤ 153722867) ∧
    (fitsInt64 (n * time.Hour) ↔ -2562047 ≤ n ∧ n ≤ 2562047) := by
  have hp := ParseInt_decimal text n h hlo hhi
  refine ⟨?_, ?_, ?_, ?_, ?_, ?_⟩
  · intro suffix mult hu
    have hs := size_suffix_numeral text n h suffix mult hu
    have hfit : fitsInt64 (n * mult) := by
      unfold sizeUnit at hu
      unfold fitsInt64
      split_ifs at hu
      all_goals
        have e := (Option.some.inj hu).symm
        subst e
        norm_num at hlo hhi ⊢
        constructor <;> omega
    have hw := wrapInt64_of_fits _ hfit
    exact ⟨hfit,
      fun v => by
        have e := (writer_flag_s_parse w v (text ++ suffix)).1 n (by rw [hs.1]; exact hp)
        rw [hs.2, hw] at e
        exact e,
      fun v => by
        have e := (reader_flag_s_parse w v (text ++ suffix)).1 n (by rw [hs.1]; exact hp)
        rw [hs.2, hw] at e
        exact e,
      fun v => by
        have e := (piper_flag_s_parse w v (text ++ suffix)).1 n (by rw [hs.1]; exact hp)
        rw [hs.2, hw] at e
        exact e⟩
  · intro suffix unit hu
    have hs := duration_suffix_numeral text n h suffix unit hu
    exact ⟨wrapInt64_eq_iff _,
      fun v => by
        have e := (writer_flag_d_parse w v (text ++ suffix)).1 n (by rw [hs.1]; exact hp)
        rw [hs.2] at e
        exact e,
      fun v => by
        have e := (writer_flag_od_parse w v (text ++ suffix)).1 n (by rw [hs.1]; exact hp)
        rw [hs.2] at e
        exact e,
      fun v => by
        have e := (writer_flag_t_parse w v (text ++ suffix)).1 n (by rw [hs.1]; exact hp)
        rw [hs.2] at e
        exact e,
      fun v => by
        have e := (writer_flag_sd_parse w v (text ++ suffix)).1 n (by rw [hs.1]; exact hp)
        rw [hs.2] at e
        exact e,
      fun v => by
        have e := (reader_flag_d_parse w v (text ++ suffix)).1 n (by rw [hs.1]; exact hp)
        rw [hs.2] at e
        exact e,
      fun v => by
        have e := (reader_flag_od_parse w v (text ++ suffix)).1 n (by rw [hs.1]; exact hp)
        rw [hs.2] at e
        exact e,
      fun v => by
        have e := (reader_flag_ed_parse w v (text ++ suffix)).1 n (by rw [hs.1]; exact hp)
        rw [hs.2] at e
        exact e,
      fun v => by
        have e := (reader_flag_t_parse w v (text ++ suffix)).1 n (by rw [hs.1]; exact hp)
        rw [hs.2] at e
        exact e,
      fun v => by
        have e := (reader_flag_sd_parse w v (text ++ suffix)).1 n (by rw [hs.1]; exact hp)
        rw [hs.2] at e
        exact e,
      fun v => by
        have e := (piper_flag_d_parse w v (text ++ suffix)).1 n (by rw [hs.1]; exact hp)
        rw [hs.2] at e
        exact e,
      fun v => by
        have e := (piper_flag_od_parse w v (text ++ suffix)).1 n (by rw [hs.1]; exact hp)
        rw [hs.2] at e
        exact e,
      fun v => by
        have e := (piper_flag_t_parse w v (text ++ suffix)).1 n (by rw [hs.1]; exact hp)
        rw [hs.2] at e
        exact e,
      fun v => by
        have e := (piper_flag_sd_parse w v (text ++ suffix)).1 n (by rw [hs.1]; exact hp)
        rw [hs.2] at e
        exact e⟩
  · unfold fitsInt64 time.Millisecond
    norm_num at hlo hhi ⊢
    omega
  · unfold fitsInt64 time.Second time.Millisecond
    norm_num at hlo hhi ⊢
    omega
  · unfold fitsInt64 time.Minute time.Second time.Millisecond
    norm_num at hlo hhi ⊢
    constructor
    · intro hf; omega
    · intro hf; omega
  · unfold fitsInt64 time.Hour time.Minute time.Second time.Millisecond
    norm_num at hlo hhi ⊢
    constructor
    · intro hf; omega
    · intro hf; omega

/-- C21 (amended) at the numeral `90`: `writer -s 90k` stores 92160 bytes,
`piper -t 90m` stores 90 minutes, and 90 minutes lie in the 64-bit range. -/
theorem C21_products_witness :
    (decimalInteger "90".toList = some 90 ∧ (-2 ^ 31 : Int) ≤ 90 ∧ (90 : Int) < 2 ^ 31 ∧
      sizeUnit "k".toList = some 1024 ∧ durationUnit "m".toList = some time.Minute) ∧
    writer.argCase stillWorld {} "-s".toList (some ("90".toList ++ "k".toList)) =
      .ok { skip := true, size := 90 * 1024 } ∧
    piper.argCase stillWorld {} "-t".toList (some ("90".toList ++ "m".toList)) =
      .ok { skip := true, timeout := wrapInt64 (90 * time.Minute) } ∧
    (fitsInt64 (90 * time.Minute) ↔ (-153722867 : Int) ≤ 90 ∧ (90 : Int) ≤ 153722867) :=
  ⟨⟨by decide, by decide, by decide, rfl, rfl⟩,
    (((C21_products stillWorld "90".toList 90 (by decide) (by decide) (by decide)).1
      "k".toList 1024 rfl).2.1 {}),
    (((C21_products stillWorld "90".toList 90 (by decide) (by decide) (by decide)).2.1
      "m".toList time.Minute rfl).2.2.2.2.2.2.2.2.2.2.2.2.1 {}),
    (C21_products stillWorld "90".toList 90 (by decide) (by decide) (by decide)).2.2.2.2.1⟩

end IoTools
